import Mathlib

/-!
# TFWidgets: list box data engine, layout engine, input routing and widgets

A shallow embedding of the parts of `TFW.cpp`, `TFW.h`, `TFWGraphics.h` and
`TFWGraphics.cpp` that the list box (rows, sorting, upsert, scroll position,
cursor keys), the main window (layout, focus traversal, mouse clicks, keys,
drawing), the rectangles, the cropped texts, the button arrays and the edit
field rely on.

Conventions of the embedding

* `unsigned` values are natural numbers; every arithmetic result that the
  source stores in an `unsigned` is reduced modulo `2 ^ 32`.
* `int` values are integers. Signed overflow is undefined behaviour in the
  source, so the embedding describes the runs in which it does not occur.
  Integer division is the truncating division of the source (`Int.tdiv`).
* `void*` identity tokens (`refCon`) are natural numbers, `nullptr` is `0`.
* `std::string` is the list of its character codes; `<` on it is the
  lexicographic comparison of `std::string::operator<`.
* `double` cell values are rationals: every finite double is one, and the
  order of finite doubles is the order of the rationals. NaN and the
  infinities are outside the embedding.
* `std::vector` and `std::deque` are lists; an iterator is a position, and
  so is a pointer to a widget of the window (`pFocusWidget`).
* The handlers that the main window calls in its widgets are recorded as a
  list of calls in the order in which they are made.
* `size_t` values are natural numbers reduced modulo `2 ^ 64` where the source
  can wrap around; `float` widths are rationals.
* A function that can throw, or index a vector beyond its end, returns an
  `Option`, `none` standing for that run. The virtual `SetGeometry` of the
  widgets is such a function, and with it `MainWnd::Layout`, which calls it
  for every widget, and `MainWnd::DoDraw`, which calls `Layout`.
* `std::sort` is embedded as an insertion sort. The library defines the
  effect of `std::sort` where the comparison is a strict weak ordering; the
  section on the sort routine says what the embedding stands for elsewhere.
-/

namespace TFW

/-! ## Helper types (`TFW.h`) -/

/-- Modulus of the `unsigned` type. -/
def UINT_MOD : Nat := 4294967296

/-- Type `std::string`: the character codes of the text. -/
abbrev StdString := List Nat

/-- Enum `DataTypeTy`: data type of a list box column. -/
inductive DataTypeTy where
  | DTY_NULL
  | DTY_STRING
  | DTY_CHECKBOX
  | DTY_INT
  | DTY_DOUBLE
  deriving DecidableEq, Repr

/-- Enum `SortingTy`: is a list sorted, and in which direction. -/
inductive SortingTy where
  | SORT_UNSUPPORTED
  | SORT_UNSORTED
  | SORT_ASCENDING
  | SORT_DESCENDING
  deriving DecidableEq, Repr

/-- Numeric value of a `SortingTy` enumerator
(`SORT_UNSUPPORTED = -1`, `SORT_UNSORTED = 0`, then counting up). -/
def SortingTy.toInt : SortingTy → Int
  | .SORT_UNSUPPORTED => -1
  | .SORT_UNSORTED => 0
  | .SORT_ASCENDING => 1
  | .SORT_DESCENDING => 2

/-! ## Geometry (`TFWGraphics.h`, `TFWGraphics.cpp`) -/

/-- Class `Point`: x and y coordinate. -/
structure Point where
  x : Int
  y : Int
  deriving DecidableEq, Repr

/-- Class `Rect`: bottom-left and top-right corner. -/
structure Rect where
  bl : Point
  tr : Point
  deriving DecidableEq, Repr

namespace Rect

def Left (r : Rect) : Int := r.bl.x
def Bottom (r : Rect) : Int := r.bl.y
def Right (r : Rect) : Int := r.tr.x
def Top (r : Rect) : Int := r.tr.y
def Width (r : Rect) : Int := r.Right - r.Left
def Height (r : Rect) : Int := r.Top - r.Bottom

/-- Method `Rect::isNormalized`. -/
def isNormalized (r : Rect) : Bool :=
  decide (r.Left ≤ r.Right) && decide (r.Bottom ≤ r.Top)

/-- Method `Rect::Normalize`: swap the x values, then the y values,
where the bottom-left one is the larger. -/
def Normalize (r : Rect) : Rect :=
  let r1 : Rect :=
    if r.bl.x > r.tr.x then { bl := { r.bl with x := r.tr.x }, tr := { r.tr with x := r.bl.x } }
    else r
  if r1.bl.y > r1.tr.y then { bl := { r1.bl with y := r1.tr.y }, tr := { r1.tr with y := r1.bl.y } }
  else r1

/-- Constructor `Rect (_left, _top, _right, _bottom)`. -/
def ctor (_left _top _right _bottom : Int) : Rect :=
  Normalize { bl := { x := _left, y := _bottom }, tr := { x := _right, y := _top } }

/-- Method `Rect::SetGeometry`: take over both corners, then normalize. -/
def SetGeometry (_self _r : Rect) : Rect :=
  Normalize { bl := _r.bl, tr := _r.tr }

end Rect

/-! ## Croppable text (`TFW.h`) -/

/-- Class `CroppedString`: a full string, its cropped version, the cropping
width and the start position. Comparisons look at the full string only. -/
structure CroppedString where
  sFull : StdString
  sCropped : StdString
  width : Nat
  startPos : Nat
  deriving DecidableEq, Repr

/-! ## List box (`TFW.h`, `TFW.cpp`) -/

/-- Class `ListItem`: one cell. The text colour `col` takes part in drawing
only and is left out. -/
structure ListItem where
  sVal : CroppedString
  iVal : Int
  dVal : ℚ
  bEnabled : Bool
  deriving DecidableEq

/-- Method `ListItem::less`: compare two cells as values of `_dataType`;
`_thisBeforeOnEqual` decides between equal strings and equal integers. -/
def ListItem.less (self o : ListItem) (_dataType : DataTypeTy)
    (_thisBeforeOnEqual : Bool) : Bool :=
  match _dataType with
  | .DTY_STRING =>
      if self.sVal.sFull < o.sVal.sFull then true
      else if self.sVal.sFull = o.sVal.sFull then _thisBeforeOnEqual else false
  | .DTY_CHECKBOX =>
      if self.iVal < o.iVal then true
      else if self.iVal = o.iVal then _thisBeforeOnEqual else false
  | .DTY_INT =>
      if self.iVal < o.iVal then true
      else if self.iVal = o.iVal then _thisBeforeOnEqual else false
  | .DTY_DOUBLE => decide (self.dVal < o.dVal)
  | .DTY_NULL => _thisBeforeOnEqual

/-- Class `ListRow`: the cells (the `std::vector<ListItem>` base), the
sequence number and the application's identity token. -/
structure ListRow where
  cells : List ListItem
  sequNr : Nat
  refCon : Nat
  deriving DecidableEq

/-- Method `ListRow::SetSequNr`. -/
def ListRow.SetSequNr (self : ListRow) (_s : Nat) : ListRow :=
  { self with sequNr := _s }

/-- Method `ListRow::elemLess`: the comparison handed to the sort. -/
def ListRow.elemLess (self o : ListRow) (_col : Nat) (_sorted : SortingTy)
    (_dataType : DataTypeTy) : Bool :=
  if h1 : _col ≥ self.cells.length then true
  else if h2 : _col ≥ o.cells.length then false
  else
    match _sorted with
    | .SORT_ASCENDING =>
        (self.cells[_col]).less (o.cells[_col]) _dataType (decide (self.sequNr < o.sequNr))
    | .SORT_DESCENDING =>
        !(self.cells[_col]).less (o.cells[_col]) _dataType (decide (self.sequNr < o.sequNr))
    | _ => decide (self.sequNr < o.sequNr)

/-- Class `ListColumnDef`: a column definition. -/
structure ListColumnDef where
  name : CroppedString
  width : Int
  dataType : DataTypeTy
  bVisible : Bool
  deriving DecidableEq

/-- Class `ListBox`: the members the class declares, and `geo` for the
rectangle it inherits from `Widget`. -/
structure ListBox where
  geo : Rect
  cols : List ListColumnDef
  sortedBy : Nat
  sorted : SortingTy
  rows : List ListRow
  sequRow : Nat
  lnHeightFactor : Nat
  lnHeight : Nat
  selRefCon : Nat
  rowFirst : Nat
  rowMax : Nat
  rowFirstMaxDown : Nat
  deriving DecidableEq

/-! ## The sort routine

`ListBox::DoSort` hands the rows to `std::sort`. The library routine is
embedded as an insertion sort driven by the same comparison.

`std::sort` requires of its comparison that it is a strict weak ordering, so
that no element is less than itself. Where the comparison of `DoSort` is one
(the ascending and the unsorted comparison on rows that all hold a cell for
the column) the result of `stdSort` is an arrangement that meets the
postcondition of `std::sort`, and `stdSort_unique` below shows that nothing
depends on the choice of the algorithm: where the comparison orders the rows
by distinct keys, the rows have exactly one such arrangement.

Where the comparison of `DoSort` is not a strict weak ordering (the
descending comparison, under which every row is less than itself, and every
comparison with a row that holds no cell for the column) the call is outside
the contract of the library and the language leaves its effect undefined.
There `stdSort` stands for what the insertion sort of the library routines
does on a short list, which is to compare a row with the rows before it and
to move it in front of those it is less than; the statements below that run
`stdSort` there are about the scenario lists of two and three rows, and the
statements about sorts of other lists outside the contract say how the
comparison turns out, not how the rows are arranged afterwards. The general
lemmas on the rows after a sort (they are the rows before, in some order)
are facts of the code for the calls within the contract. -/

/-- Place `x` in front of the first element that is not less than `x`. -/
def sortInsert {α : Type} (comp : α → α → Bool) (x : α) : List α → List α
  | [] => [x]
  | y :: ys => if comp y x then y :: sortInsert comp x ys else x :: y :: ys

/-- Embedding of `std::sort (first, last, comp)`: an insertion sort, from the
last element on. It stands for the library routine where `comp` is a strict
weak ordering on the elements, as the library requires. -/
def stdSort {α : Type} (comp : α → α → Bool) : List α → List α
  | [] => []
  | x :: xs => sortInsert comp x (stdSort comp xs)

namespace ListBox

/-- Constructor `ListBox::ListBox`: the member initialisers of the class. -/
def init : ListBox :=
  { geo := Rect.ctor 0 0 0 0
    cols := []
    sortedBy := 0
    sorted := .SORT_UNSORTED
    rows := []
    sequRow := 0
    lnHeightFactor := 200
    lnHeight := 15
    selRefCon := 0
    rowFirst := 0
    rowMax := 0
    rowFirstMaxDown := 0 }

/-- Default constructor `ListColumnDef ()`: a column that does not exist.
The name is a default `CroppedString` (empty, width `UINT64_MAX`). -/
def nullCol : ListColumnDef :=
  { name := { sFull := [], sCropped := [], width := 18446744073709551615, startPos := 0 }
    width := 0
    dataType := .DTY_NULL
    bVisible := false }

/-- Method `std::vector::resize` for column definitions. -/
def resizeCols (cols : List ListColumnDef) (n : Nat) : List ListColumnDef :=
  if n ≤ cols.length then cols.take n
  else cols ++ List.replicate (n - cols.length) nullCol

/-- Method `ListBox::AddCol`. The result is `none` where `cols.at (colId)`
throws, which takes `colId + 1` to wrap around to `0`. -/
def AddCol (lb : ListBox) (colId : Nat) (d : ListColumnDef) : Option ListBox :=
  let cols1 :=
    if colId ≥ lb.cols.length then resizeCols lb.cols ((colId + 1) % UINT_MOD) else lb.cols
  if colId < cols1.length then some { lb with cols := cols1.set colId d } else none

/-- Method `ListBox::FindRowIdx (void*, iterator&)`: the position of the first
row with the given `refCon`; the number of rows (`rows.end ()`) if there is none. -/
def FindRowIdx (lb : ListBox) (_refCon : Nat) : Nat :=
  lb.rows.findIdx (fun r => decide (r.refCon = _refCon))

/-- Method `ListBox::MakeSelVisible`. -/
def MakeSelVisible (lb : ListBox) : ListBox :=
  if lb.selRefCon ≠ 0 then
    let iter := lb.FindRowIdx lb.selRefCon
    if iter ≠ lb.rows.length then
      let rowSel := iter % UINT_MOD
      if rowSel < lb.rowFirst then { lb with rowFirst := rowSel }
      else if rowSel ≥ (lb.rowFirst + lb.rowMax) % UINT_MOD then
        { lb with rowFirst := (rowSel + (UINT_MOD - lb.rowMax % UINT_MOD) + 1) % UINT_MOD }
      else lb
    else lb
  else lb

/-- Method `ListBox::DoSort`. -/
def DoSort (lb : ListBox) : ListBox :=
  if h : lb.sortedBy ≥ lb.cols.length then lb
  else
    let _dataType := (lb.cols[lb.sortedBy]).dataType
    MakeSelVisible
      { lb with
        rows := stdSort (fun r1 r2 => r1.elemLess r2 lb.sortedBy lb.sorted _dataType) lb.rows }

/-- Method `ListBox::SetSorting`. -/
def SetSorting (lb : ListBox) (_col : Nat) (_sorted : SortingTy) : ListBox :=
  let _col := if _sorted = .SORT_UNSUPPORTED then 0 else _col
  if lb.sortedBy = _col ∧ lb.sorted = _sorted then lb
  else if h : _col ≥ lb.cols.length then lb
  else if (lb.cols[_col]).dataType = .DTY_NULL then lb
  else DoSort { lb with sortedBy := _col, sorted := _sorted }

/-- What `ListBox::AddRow` leaves behind: the list box, and the position
that the returned reference `*iter` refers to. -/
structure AddRowResult where
  lb : ListBox
  iter : Nat

/-- Method `ListBox::AddRow`. -/
def AddRow (lb : ListBox) (row : ListRow) : AddRowResult :=
  let iter := lb.FindRowIdx row.refCon
  let r1 : AddRowResult :=
    if h : iter < lb.rows.length then
      { lb := { lb with rows := lb.rows.set iter (row.SetSequNr (lb.rows[iter]).sequNr) }
        iter := iter }
    else
      let s := (lb.sequRow + 1) % UINT_MOD
      { lb := { lb with sequRow := s, rows := lb.rows ++ [row.SetSequNr s] }
        iter := lb.rows.length }
  if r1.lb.sorted.toInt > SortingTy.SORT_UNSORTED.toInt then
    { lb := DoSort r1.lb, iter := r1.iter }
  else r1

/-- The row that the reference returned by `AddRow` refers to. -/
def AddRowResult.ret (r : AddRowResult) : Option ListRow :=
  r.lb.rows[r.iter]?

/-- Method `ListBox::RemoveRow`: the list box afterwards and the return value. -/
def RemoveRow (lb : ListBox) (_refCon : Nat) : ListBox × Bool :=
  let iter := lb.FindRowIdx _refCon
  if h : iter < lb.rows.length then
    let lb1 := if lb.selRefCon = (lb.rows[iter]).refCon then { lb with selRefCon := 0 } else lb
    ({ lb1 with rows := lb1.rows.eraseIdx iter }, true)
  else (lb, false)

/-- Method `ListBox::Clear`. -/
def Clear (lb : ListBox) : ListBox :=
  { lb with selRefCon := 0, rows := [] }

/-- Method `ListBox::SelectRow`: the list box afterwards and the return value. -/
def SelectRow (lb : ListBox) (_refCon : Nat) : ListBox × Bool :=
  if lb.FindRowIdx _refCon ≠ lb.rows.length then ({ lb with selRefCon := _refCon }, true)
  else ({ lb with selRefCon := 0 }, false)

end ListBox

/-! ## Vocabulary of the statements about the list box -/

/-- Default constructor `ListItem ()`. -/
def ListItem.dflt : ListItem :=
  { sVal := { sFull := [], sCropped := [], width := 18446744073709551615, startPos := 0 }
    iVal := 0
    dVal := 0
    bEnabled := true }

/-- The cell of column `c` of a row that holds one (`operator[]`). -/
def ListRow.cellAt (r : ListRow) (c : Nat) : ListItem :=
  r.cells.getD c ListItem.dflt

/-- The value of cell `a` is below the value of cell `b`, both read as
values of the data type `dt`: strings by their text, check boxes and
integers by their integer value, doubles by their double value. -/
def valLt (dt : DataTypeTy) (a b : ListItem) : Prop :=
  match dt with
  | .DTY_NULL => False
  | .DTY_STRING => a.sVal.sFull < b.sVal.sFull
  | .DTY_CHECKBOX => a.iVal < b.iVal
  | .DTY_INT => a.iVal < b.iVal
  | .DTY_DOUBLE => a.dVal < b.dVal

/-- The cells `a` and `b` hold the same value of the data type `dt`. -/
def valEq (dt : DataTypeTy) (a b : ListItem) : Prop :=
  match dt with
  | .DTY_NULL => True
  | .DTY_STRING => a.sVal.sFull = b.sVal.sFull
  | .DTY_CHECKBOX => a.iVal = b.iVal
  | .DTY_INT => a.iVal = b.iVal
  | .DTY_DOUBLE => a.dVal = b.dVal

/-- Row `a` may stand before row `b` in a list sorted ascending by column `c`:
both hold a cell for `c`, and the value of `a` is smaller, or the values are
equal and the sequence number of `a` is not the larger one. -/
def ascOrdered (dt : DataTypeTy) (c : Nat) (a b : ListRow) : Prop :=
  ∃ x y, a.cells[c]? = some x ∧ b.cells[c]? = some y ∧
    (valLt dt x y ∨ (valEq dt x y ∧ a.sequNr ≤ b.sequNr))

/-- As `ascOrdered`, with the sequence number of `a` the smaller one. -/
def ascOrderedStrict (dt : DataTypeTy) (c : Nat) (a b : ListRow) : Prop :=
  ∃ x y, a.cells[c]? = some x ∧ b.cells[c]? = some y ∧
    (valLt dt x y ∨ (valEq dt x y ∧ a.sequNr < b.sequNr))

/-- A column data type for which `ListItem::less` breaks value ties. -/
def DataTypeTy.isTieBroken (dt : DataTypeTy) : Prop :=
  dt = .DTY_STRING ∨ dt = .DTY_CHECKBOX ∨ dt = .DTY_INT

/-! ## Example data: the rows of the insert-and-sort scenario -/

/-- A `CroppedString` holding the uncropped text `s`. -/
def exText (s : StdString) : CroppedString :=
  { sFull := s, sCropped := s, width := 18446744073709551615, startPos := 0 }

/-- Constructor `ListItem (const char*)` for the text `s`. -/
def exStr (s : StdString) : ListItem :=
  { sVal := exText s, iVal := 0, dVal := 0, bEnabled := true }

/-- Constructor `ListItem (int)`: the integer `i` with its decimal text `s`. -/
def exInt (i : Int) (s : StdString) : ListItem :=
  { sVal := exText s, iVal := i, dVal := 0, bEnabled := true }

/-- Constructor `ListItem (double)`: the value `d` with its text `s`. -/
def exDbl (d : ℚ) (s : StdString) : ListItem :=
  { sVal := exText s, iVal := 0, dVal := d, bEnabled := true }

/-- Constructor `ListRow (_refCon, _fields)`. -/
def ListRow.ctor (_refCon : Nat) (_fields : List ListItem) : ListRow :=
  { cells := _fields, sequNr := 0, refCon := _refCon }

/-- Constructor `ListColumnDef (_name, _w, _dt)`. -/
def exCol (name : StdString) (w : Int) (dt : DataTypeTy) : ListColumnDef :=
  { name := exText name, width := w, dataType := dt, bVisible := true }

/-- A list box with the columns 0 "Name" (string) and 1 "Pax" (integer). -/
def exCols : ListBox :=
  { ListBox.init with
    cols := [exCol [78, 97, 109, 101] 100 .DTY_STRING, exCol [80, 97, 120] 30 .DTY_INT] }

/-- Row A: "Cessna", 2 passengers, identity token 1. -/
def exRowA : ListRow := ListRow.ctor 1 [exStr [67, 101, 115, 115, 110, 97], exInt 2 [50]]

/-- Row B: "Airbus", 186 passengers, identity token 2. -/
def exRowB : ListRow := ListRow.ctor 2 [exStr [65, 105, 114, 98, 117, 115], exInt 186 [49, 56, 54]]

/-- Row C: "ATR", 70 passengers, identity token 3. -/
def exRowC : ListRow := ListRow.ctor 3 [exStr [65, 84, 82], exInt 70 [55, 48]]

/-- The scenario list: A, B and C inserted in this order, not sorted. -/
def exABC : ListBox :=
  (((exCols.AddRow exRowA).lb.AddRow exRowB).lb.AddRow exRowC).lb

/-- The key by which an ascending sort arranges the rows: the value `v` of
the cell in column `c`, then the sequence number. -/
def rowKey {β : Type} (v : ListItem → β) (c : Nat) (r : ListRow) : β ×ₗ ℕ :=
  toLex (v (r.cellAt c), r.sequNr)

/-- For the data type `dt`, `ListItem::less` compares the values `v` and
falls back on `_thisBeforeOnEqual` between equal ones. -/
def TieBrokenBy {β : Type} [LinearOrder β] (dt : DataTypeTy) (v : ListItem → β) : Prop :=
  ∀ (a b : ListItem) (tb : Bool),
    a.less b dt tb = (decide (v a < v b) || (decide (v a = v b) && tb))

/-- Two rows with the same number of passengers: T1 (identity token 1) and
T2 (identity token 2), both with 5 passengers. -/
def exRowT1 : ListRow := ListRow.ctor 1 [exStr [84, 49], exInt 5 [53]]

/-- See `exRowT1`. -/
def exRowT2 : ListRow := ListRow.ctor 2 [exStr [84, 50], exInt 5 [53]]

/-- The list with a value tie: T1 inserted before T2, not sorted. -/
def exTie : ListBox :=
  ((exCols.AddRow exRowT1).lb.AddRow exRowT2).lb

/-- A list box with the columns 0 "Name" (string) and 1 "Fuel" (double). -/
def exColsFuel : ListBox :=
  { ListBox.init with
    cols := [exCol [78, 97, 109, 101] 100 .DTY_STRING, exCol [70, 117, 101, 108] 60 .DTY_DOUBLE] }

/-- Two rows with the same amount of fuel, 412.00: F1 (identity token 3) and
F2 (identity token 10). -/
def exRowF1 : ListRow :=
  ListRow.ctor 3 [exStr [65, 84, 82], exDbl 412 [52, 49, 50, 46, 48, 48]]

/-- See `exRowF1`. -/
def exRowF2 : ListRow :=
  ListRow.ctor 10 [exStr [84, 101, 110], exDbl 412 [52, 49, 50, 46, 48, 48]]

/-- The list with a tie of double values: F1 inserted before F2, not sorted. -/
def exFuel : ListBox :=
  ((exColsFuel.AddRow exRowF1).lb.AddRow exRowF2).lb

/-! ## Sequences of upserts -/

/-- A call that inserts or overwrites a row, or changes the sort setting:
`AddRow (row)` or `SetSorting (_col, _sorted)`. -/
inductive UpsertOp where
  | addRow (row : ListRow)
  | setSorting (_col : Nat) (_sorted : SortingTy)

/-- The list box after one such call. -/
def ListBox.applyUpsert (lb : ListBox) : UpsertOp → ListBox
  | .addRow row => (lb.AddRow row).lb
  | .setSorting _col _sorted => lb.SetSorting _col _sorted

/-- The list box after a sequence of such calls, first call first. -/
def ListBox.applyUpserts (lb : ListBox) (ops : List UpsertOp) : ListBox :=
  ops.foldl ListBox.applyUpsert lb

/-- Row A again, with new data: "Cessna 172", 4 passengers, identity token 1. -/
def exRowA2 : ListRow :=
  ListRow.ctor 1 [exStr [67, 101, 115, 115, 110, 97, 32, 49, 55, 50], exInt 4 [52]]

/-- Row D: "DHC", 19 passengers, identity token 4. -/
def exRowD : ListRow := ListRow.ctor 4 [exStr [68, 72, 67], exInt 19 [49, 57]]

/-- Row E: "Extra", 1 passenger, identity token 5. -/
def exRowE : ListRow := ListRow.ctor 5 [exStr [69, 120, 116, 114, 97], exInt 1 [49]]

/-- Rows of different lengths: S1 (identity token 1) holds a name and a number
of passengers, S2 (identity token 2) holds a name only. -/
def exRowS1 : ListRow := ListRow.ctor 1 [exStr [65], exInt 5 [53]]

/-- See `exRowS1`. -/
def exRowS2 : ListRow := ListRow.ctor 2 [exStr [66]]

/-- The list with a short row: S1 inserted before S2, not sorted. -/
def exShort : ListBox :=
  ((exCols.AddRow exRowS1).lb.AddRow exRowS2).lb

namespace ListBox

/-- The list box that `AddRow` hands to the sort, for a row whose identity
token is stored already. -/
def overwritten (lb : ListBox) (row : ListRow) (x0 : ListRow) : ListBox :=
  { lb with
    rows := lb.rows.map (fun y => if y.refCon = row.refCon then row.SetSequNr x0.sequNr else y) }

/-- The list box that `AddRow` hands to the sort, for a row whose identity
token is new. -/
def appended (lb : ListBox) (row : ListRow) : ListBox :=
  { lb with
    sequRow := (lb.sequRow + 1) % UINT_MOD
    rows := lb.rows ++ [row.SetSequNr ((lb.sequRow + 1) % UINT_MOD)] }

end ListBox

/-- A row with identity token `x` is stored, and the rows stored with `x`
have the sequence number `s`. -/
def StoredWithSequNr (lb : ListBox) (x s : Nat) : Prop :=
  (∃ r ∈ lb.rows, r.refCon = x ∧ r.sequNr = s) ∧
  (∀ r ∈ lb.rows, r.refCon = x → r.sequNr = s)

/-! ## Button arrays: the classes (`TFW.h`) -/

/-- Type `ButtonStateTy`. -/
inductive ButtonStateTy where
  | BTN_NORMAL
  | BTN_DOWN
  | BTN_SELECTED
  | BTN_DOWN_SELECTED
  deriving DecidableEq, Repr

/-- Class `ButtonElem`: the rectangle it inherits from `Rect`, the identity
token, the text and the state. -/
structure ButtonElem where
  geo : Rect
  refCon : Nat
  Caption : CroppedString
  btnState : ButtonStateTy
  deriving DecidableEq

/-- Constructor `ButtonElem (_refCon, _caption, _btnState)` with the default
rectangle; the text is held uncropped. -/
def ButtonElem.ctor (_refCon : Nat) (_caption : StdString) (_btnState : ButtonStateTy) :
    ButtonElem :=
  { geo := Rect.ctor 0 0 0 0, refCon := _refCon, Caption := exText _caption,
    btnState := _btnState }

/-- The global `BUTTON_ELEM_NULL`: `ButtonElem (nullptr, "NULL")`. -/
def BUTTON_ELEM_NULL : ButtonElem :=
  ButtonElem.ctor 0 [78, 85, 76, 76] .BTN_NORMAL

/-- Operator `ButtonElem::operator==`: equality rests on `refCon` alone. -/
def ButtonElem.eq (self o : ButtonElem) : Bool := decide (self.refCon = o.refCon)

/-- Enum `ButtonArrayTy`: radio buttons or check boxes. -/
inductive ButtonArrayTy where
  | BTN_RADIO_BUTTONS
  | BTN_CHECK_BOXES
  deriving DecidableEq, Repr

/-- Class `ButtonArray`: the vector of its elements, which is all that
`AddButton` and `FindElem` read and write, the type of the array, the
position `iterFocus` of the element with the focus, `none` standing for
`aBtns.end ()`, and the members `bVertical` and `lnHeight` (initialised with
15), which `SetGeometry` reads. -/
structure ButtonArray where
  aBtns : List ButtonElem
  type : ButtonArrayTy := .BTN_CHECK_BOXES
  iterFocus : Option Nat := none
  bVertical : Bool := true
  lnHeight : Nat := 15
  deriving DecidableEq

/-! ## Main window layout (`TFW.h`, `TFW.cpp`) -/

/-- Enum `WidgetPosE`: how an edge of a widget is placed. -/
inductive WidgetPosE where
  | POS_ABSOLUTE
  | POS_BOTTOM_RIGHT
  | POS_AFTER_PRV
  | POS_SAME_PRV
  | POS_FIXED_LEN
  | POS_PERCENT
  deriving DecidableEq, Repr

/-- Enum `FocusChangeTy`: the ways in which the focus changes. -/
inductive FocusChangeTy where
  | FCS_LOOSE
  | FCS_FIRST
  | FCS_NEXT
  | FCS_LAST
  | FCS_PREV
  deriving DecidableEq, Repr

/-- The classes derived from `Widget` that a window holds. -/
inductive WidgetKind where
  | label
  | line
  | buttonPush
  | buttonArray
  | editField
  | listBox
  deriving DecidableEq, Repr

/-- The members of a widget other than its rectangle. What the main window
reads when it draws and when it routes input: the class of the widget, the
flags `bVisible` and `bEnabled` of `Widget`, and for a `ButtonArray` the number
of its elements (`aBtns.size ()`) and the position `iterFocus` of the element
with the focus, the number of elements standing for `aBtns.end ()`. What the
method `SetGeometry` of the widget reads and writes: the member `caption` of
`Widget` (empty, of width `UINT64_MAX`, in a widget constructed without a
text), for a `ButtonArray` the members of that class in `array`, and for a
`ListBox` the members of that class in `list`. -/
structure WidgetSt where
  kind : WidgetKind := .label
  bVisible : Bool := true
  bEnabled : Bool := true
  nBtns : Nat := 0
  iterFocus : Nat := 0
  caption : CroppedString :=
    { sFull := [], sCropped := [], width := 18446744073709551615, startPos := 0 }
  array : ButtonArray := { aBtns := [] }
  list : ListBox := ListBox.init
  deriving DecidableEq

/-- Struct `WidgetAddTy`: the positioning rules of a widget and the widget
itself. Of the widget, `w` is the rectangle (the `Rect` base of `Widget`) and
`st` holds the other members. -/
structure WidgetAddTy where
  lR : WidgetPosE
  lO : Int
  tR : WidgetPosE
  tO : Int
  rR : WidgetPosE
  rO : Int
  bR : WidgetPosE
  bO : Int
  w : Rect
  st : WidgetSt := {}
  deriving DecidableEq

/-- Class `MainWnd`: its own rectangle (in global coordinates), the frame
thickness, the widgets in the order in which they were added, the flag that
asks for a new layout, and the widget with the input focus. A pointer to an
element of `widgets` is the position of the element. `pMouseFocusWidget` is
the static local variable of `MainWnd::DoMouseClick`; `pDefBtn` is the
default push button. -/
structure MainWnd where
  geo : Rect
  frameThick : Int
  widgets : List WidgetAddTy
  bLayoutDirty : Bool
  pFocusWidget : Option Nat := none
  pMouseFocusWidget : Option Nat := none
  pDefBtn : Option Nat := none
  deriving DecidableEq

/-- The local variables `_left`, `_top`, `_right`, `_bottom` of `MainWnd::Layout`. -/
structure LayoutEdges where
  _left : Int
  _top : Int
  _right : Int
  _bottom : Int
  deriving DecidableEq, Repr

/-- The invalid rectangle `{-1,-1,-1,-1}`. -/
def Rect.invalid : Rect := Rect.ctor (-1) (-1) (-1) (-1)

/-- The check `_left > _right || _bottom > _top` of `MainWnd::Layout`. -/
def LayoutEdges.degenerate (e : LayoutEdges) : Bool :=
  decide (e._left > e._right) || decide (e._bottom > e._top)

namespace MainWnd

/-- Method `MainWnd::Add`, for a widget with rules and current rectangle `_wa`. -/
def Add (mw : MainWnd) (_wa : WidgetAddTy) : MainWnd :=
  { mw with widgets := mw.widgets ++ [_wa], bLayoutDirty := true }

/-- Body of the loop of `MainWnd::Layout`, up to the validity check: the
edges computed from the rules of `wa`, the size of the window and the
widget laid out before, if there is one. -/
def layoutEdges (mw : MainWnd) (prevWa : Option WidgetAddTy) (wa : WidgetAddTy) : LayoutEdges :=
  let w := mw.geo.Width - 2 * mw.frameThick
  let h := mw.geo.Height - 2 * mw.frameThick
  let _left := wa.lO
  let _left :=
    match wa.lR with
    | .POS_ABSOLUTE => _left
    | .POS_BOTTOM_RIGHT => _left + w
    | .POS_AFTER_PRV => _left + (match prevWa with | some p => p.w.Right | none => 0)
    | .POS_SAME_PRV => _left + (match prevWa with | some p => p.w.Left | none => 0)
    | .POS_FIXED_LEN => _left
    | .POS_PERCENT => Int.tdiv (w * wa.lO) 100
  let _top := wa.tO
  let _top :=
    match wa.tR with
    | .POS_ABSOLUTE => _top
    | .POS_BOTTOM_RIGHT => _top - h
    | .POS_AFTER_PRV => _top + (match prevWa with | some p => p.w.Bottom | none => 0)
    | .POS_SAME_PRV => _top + (match prevWa with | some p => p.w.Top | none => 0)
    | .POS_FIXED_LEN => _top
    | .POS_PERCENT => Int.tdiv (-h * wa.tO) 100
  let _right := wa.rO
  let _right :=
    match wa.rR with
    | .POS_ABSOLUTE => _right
    | .POS_BOTTOM_RIGHT => _right + w
    | .POS_AFTER_PRV => _right + (match prevWa with | some p => p.w.Right | none => 0)
    | .POS_SAME_PRV => _right + (match prevWa with | some p => p.w.Right | none => 0)
    | .POS_FIXED_LEN => _right + _left
    | .POS_PERCENT => Int.tdiv (w * wa.rO) 100
  let _bottom := wa.bO
  let _bottom :=
    match wa.bR with
    | .POS_ABSOLUTE => _bottom
    | .POS_BOTTOM_RIGHT => _bottom - h
    | .POS_AFTER_PRV => _bottom + (match prevWa with | some p => p.w.Bottom | none => 0)
    | .POS_SAME_PRV => _bottom + (match prevWa with | some p => p.w.Bottom | none => 0)
    | .POS_FIXED_LEN => _top - wa.bO
    | .POS_PERCENT => Int.tdiv (-h * wa.bO) 100
  let _left := if wa.lR = .POS_FIXED_LEN then _right - wa.lO else _left
  let _top := if wa.tR = .POS_FIXED_LEN then _bottom + wa.tO else _top
  { _left := _left, _top := _top, _right := _right, _bottom := _bottom }

end MainWnd

/-- A widget with the rules (absolute 0, after-previous 0, fixed-length 100,
fixed-length 15), as the first label of the example window, and rectangle `r`. -/
def exLabel (r : Rect) : WidgetAddTy :=
  { lR := .POS_ABSOLUTE, lO := 0, tR := .POS_AFTER_PRV, tO := 0,
    rR := .POS_FIXED_LEN, rO := 100, bR := .POS_FIXED_LEN, bO := 15, w := r }

/-- A list box holding the scenario list, with the rules (after-previous 20,
absolute 0, percent 80, bottom-right 90), as the list box of the example
window, and rectangle `r`. -/
def exListWidget (r : Rect) : WidgetAddTy :=
  { lR := .POS_AFTER_PRV, lO := 20, tR := .POS_ABSOLUTE, tO := 0,
    rR := .POS_PERCENT, rO := 80, bR := .POS_BOTTOM_RIGHT, bO := 90,
    w := r, st := { kind := .listBox, list := exABC } }

/-- A window as the example creates it (left 0, top 300, right 550, bottom 0,
frame thickness 5) with three labels and a list box, none laid out yet. -/
def exWnd : MainWnd :=
  { geo := Rect.ctor 0 300 550 0
    frameThick := 5
    widgets :=
      [exLabel (Rect.ctor 0 0 0 0), exLabel (Rect.ctor 0 0 0 0), exLabel (Rect.ctor 0 0 0 0),
        exListWidget (Rect.ctor 0 0 0 0)]
    bLayoutDirty := true }

/-- The eight positioning rules and offsets of a widget. -/
def WidgetAddTy.rules (wa : WidgetAddTy) :
    (WidgetPosE × Int) × (WidgetPosE × Int) × (WidgetPosE × Int) × (WidgetPosE × Int) :=
  ((wa.lR, wa.lO), (wa.tR, wa.tO), (wa.rR, wa.rO), (wa.bR, wa.bO))

/-- The edges of a rectangle: left, top, right, bottom. -/
def Rect.edges (r : Rect) : Int × Int × Int × Int :=
  (r.Left, r.Top, r.Right, r.Bottom)

/-! ## List boxes built through the interface -/

/-- A list box as the calls `AddCol`, `AddRow`, `RemoveRow`, `Clear`,
`SetSorting` and `SelectRow` build it from a newly constructed one. -/
inductive ListBox.Built : ListBox → Prop where
  | init : ListBox.Built ListBox.init
  | addCol (lb lb1 : ListBox) (colId : Nat) (d : ListColumnDef) :
      ListBox.Built lb → lb.AddCol colId d = some lb1 → ListBox.Built lb1
  | addRow (lb : ListBox) (row : ListRow) :
      ListBox.Built lb → ListBox.Built (lb.AddRow row).lb
  | removeRow (lb : ListBox) (_refCon : Nat) :
      ListBox.Built lb → ListBox.Built (lb.RemoveRow _refCon).1
  | clear (lb : ListBox) : ListBox.Built lb → ListBox.Built lb.Clear
  | setSorting (lb : ListBox) (_col : Nat) (_sorted : SortingTy) :
      ListBox.Built lb → ListBox.Built (lb.SetSorting _col _sorted)
  | selectRow (lb : ListBox) (_refCon : Nat) :
      ListBox.Built lb → ListBox.Built (lb.SelectRow _refCon).1


/-- The example window at another place on the screen, with the same size,
and with widgets that hold other rectangles before the layout pass. -/
def exWndMoved : MainWnd :=
  { geo := Rect.ctor 100 400 650 100
    frameThick := 5
    widgets :=
      [exLabel (Rect.ctor 1 2 3 4), exLabel (Rect.ctor 7 7 7 7), exLabel (Rect.ctor 0 9 9 0),
        exListWidget (Rect.ctor 5 50 50 5)]
    bLayoutDirty := true }

/-- A push button with the rules (fixed-length 100, fixed-length 15,
bottom-right 0, bottom-right 0), as the button "OK" of the example window. -/
def exButton : WidgetAddTy :=
  { lR := .POS_FIXED_LEN, lO := 100, tR := .POS_FIXED_LEN, tO := 15,
    rR := .POS_BOTTOM_RIGHT, rO := 0, bR := .POS_BOTTOM_RIGHT, bO := 0,
    w := Rect.ctor 0 0 0 0, st := { kind := .buttonPush } }


/-! ## Input routing and drawing of the main window (`TFW.h`, `TFW.cpp`) -/

/-- Enum `MouseBtnTy`: the mouse buttons. -/
inductive MouseBtnTy where
  | MOUSE_LEFT
  | MOUSE_RIGHT
  deriving DecidableEq, Repr

/-- Type `XPLMMouseStatus` of the host: the states in which a mouse click is
reported to a window. -/
inductive XPLMMouseStatus where
  | xplm_MouseDown
  | xplm_MouseDrag
  | xplm_MouseUp
  deriving DecidableEq, Repr

/-- A call of a handler of the widget at position `idx` by the main window:
`DoFocusChange (_fcs)` with its return value, `DoMouseClick (p, mouseBtn,
inMouse)`, `DoDraw (r)` or `DoHandleKey (inKey, inFlags, inVirtualKey)`; or
the call `MsgButtonClicked` of the main window for the push button at
position `idx`. The functions of the main window are embedded with the list
of the calls they make, in the order in which they make them. -/
inductive WidgetCall where
  | focusChange (idx : Nat) (_fcs : FocusChangeTy) (ret : Bool)
  | mouseClick (idx : Nat) (p : Point) (mouseBtn : MouseBtnTy) (inMouse : XPLMMouseStatus)
  | draw (idx : Nat) (r : Rect)
  | handleKey (idx : Nat) (inKey : Int) (inFlags inVirtualKey : Nat)
  | msgButtonClicked (idx : Nat)
  deriving DecidableEq, Repr

/-- The position of the widget that a call goes to. -/
def WidgetCall.idx : WidgetCall → Nat
  | .focusChange idx _ _ => idx
  | .mouseClick idx _ _ _ => idx
  | .draw idx _ => idx
  | .handleKey idx _ _ _ => idx
  | .msgButtonClicked idx => idx

/-- Operator `Point::operator-`. -/
def Point.sub (p o : Point) : Point := { x := p.x - o.x, y := p.y - o.y }

/-- Operator `Point::operator+`. -/
def Point.add (p o : Point) : Point := { x := p.x + o.x, y := p.y + o.y }

/-- Method `Rect::Tl`: the top-left point. -/
def Rect.Tl (r : Rect) : Point := { x := r.Left, y := r.Top }

/-- Method `Rect::Contains (const Point&)`; the assertion that the rectangle
is normalized is left out. -/
def Rect.Contains (r : Rect) (p : Point) : Bool :=
  decide (r.Left ≤ p.x) && decide (p.x ≤ r.Right) &&
    decide (r.Bottom ≤ p.y) && decide (p.y ≤ r.Top)

/-- Method `Rect::Contains (const Rect&)`. -/
def Rect.ContainsRect (r o : Rect) : Bool :=
  r.Contains o.bl && r.Contains o.tr

/-- Constructor `Rect (const Point& _bl, const Point& _tr)`. -/
def Rect.ctorPts (_bl _tr : Point) : Rect :=
  Rect.Normalize { bl := _bl, tr := _tr }

/-- Operator `Rect::operator+ (const Point&)`: the rectangle moved by `ofs`. -/
def Rect.addPt (r : Rect) (ofs : Point) : Rect :=
  Rect.ctorPts (r.bl.add ofs) (r.tr.add ofs)

/-- Method `DoFocusChange` of the widget classes. `Widget` (labels and lines)
refuses; `ButtonPush`, `EditField` and `ListBox` accept `FCS_FIRST` and
`FCS_LAST` (the message of an edit field about a changed text is left out);
`ButtonArray` moves `iterFocus`. The result is the return value and the
widget afterwards. -/
def WidgetSt.DoFocusChange (st : WidgetSt) (_fcs : FocusChangeTy) : Bool × WidgetSt :=
  match st.kind with
  | .label => (false, st)
  | .line => (false, st)
  | .buttonPush => (decide (_fcs = .FCS_FIRST ∨ _fcs = .FCS_LAST), st)
  | .editField => (decide (_fcs = .FCS_FIRST ∨ _fcs = .FCS_LAST), st)
  | .listBox => (decide (_fcs = .FCS_FIRST ∨ _fcs = .FCS_LAST), st)
  | .buttonArray =>
    if st.nBtns = 0 then (false, st)
    else
      match _fcs with
      | .FCS_FIRST => (decide (0 ≠ st.nBtns), { st with iterFocus := 0 })
      | .FCS_NEXT =>
        let it := if st.iterFocus ≠ st.nBtns then st.iterFocus + 1 else st.iterFocus
        (decide (it ≠ st.nBtns), { st with iterFocus := it })
      | .FCS_LAST =>
        if st.nBtns ≠ 0 then (true, { st with iterFocus := st.nBtns - 1 })
        else (false, { st with iterFocus := st.nBtns })
      | .FCS_PREV =>
        if st.iterFocus ≠ 0 then (true, { st with iterFocus := st.iterFocus - 1 })
        else (false, { st with iterFocus := st.nBtns })
      | .FCS_LOOSE => (false, { st with iterFocus := st.nBtns })

namespace MainWnd

/-- The widget at position `idx` with its members other than the rectangle
replaced by `st`. -/
def setSt (mw : MainWnd) (idx : Nat) (st : WidgetSt) : MainWnd :=
  match mw.widgets[idx]? with
  | some wa => { mw with widgets := mw.widgets.set idx { wa with st := st } }
  | none => mw

/-- Method `Widget::HasFocus` for the widget at position `idx`. -/
def HasFocus (mw : MainWnd) (idx : Nat) : Bool :=
  decide (mw.pFocusWidget = some idx)

/-- The loops of `MainWnd::DoFocusNextWidget` over the positions `visit`:
the first widget that is visible and enabled and accepts `gain` gets the
focus; no other widget is asked after it. -/
def focusScan (gain : FocusChangeTy) : MainWnd → List Nat → MainWnd × List WidgetCall
  | mw, [] => (mw, [])
  | mw, i :: rest =>
    match mw.widgets[i]? with
    | none => focusScan gain mw rest
    | some wa =>
      if wa.st.bVisible && wa.st.bEnabled then
        let r := wa.st.DoFocusChange gain
        let mw1 := mw.setSt i r.2
        if r.1 then ({ mw1 with pFocusWidget := some i }, [.focusChange i gain true])
        else
          let res := focusScan gain mw1 rest
          (res.1, .focusChange i gain false :: res.2)
      else focusScan gain mw rest

/-- Method `MainWnd::DoFocusNextWidget (_first, _last, _fcs)`. The range of
iterators is the list `order` of the positions it runs over: ascending for
`widgets.begin ()`, `widgets.end ()`, descending for `widgets.rbegin ()`,
`widgets.rend ()`. The two passes of the final loop, from `iter` to `_last`
and from `_first` to `_last`, visit `order.drop iter ++ order`. A
`pFocusWidget` that is not the position of a widget does not occur; the
window is left as it is then. -/
def DoFocusNextWidget (mw : MainWnd) (order : List Nat) (_fcs : FocusChangeTy) :
    MainWnd × List WidgetCall :=
  let gain := if _fcs = .FCS_NEXT then FocusChangeTy.FCS_FIRST else FocusChangeTy.FCS_LAST
  match mw.pFocusWidget with
  | none => focusScan gain mw (order.drop order.length ++ order)
  | some f =>
    match mw.widgets[f]? with
    | none => (mw, [])
    | some wa =>
      if !wa.st.bVisible || !wa.st.bEnabled then
        let r := wa.st.DoFocusChange .FCS_LOOSE
        let mw1 := mw.setSt f r.2
        let pos := order.findIdx (fun i => decide (i = f))
        let iter := if pos ≠ order.length then pos + 1 else pos
        let res := focusScan gain { mw1 with pFocusWidget := none } (order.drop iter ++ order)
        (res.1, .focusChange f .FCS_LOOSE r.1 :: res.2)
      else
        let r := wa.st.DoFocusChange _fcs
        let mw1 := mw.setSt f r.2
        if r.1 then (mw1, [.focusChange f _fcs true])
        else
          let pos := order.findIdx (fun i => decide (i = f))
          let iter := if pos ≠ order.length then pos + 1 else pos
          let res := focusScan gain { mw1 with pFocusWidget := none } (order.drop iter ++ order)
          (res.1, .focusChange f _fcs false :: res.2)

/-- What `MainWnd::DoHandleKey` does for the key [Tab] pressed down without
a modifier key: `DoFocusNextWidget (widgets.begin (), widgets.end (), FCS_NEXT)`. -/
def FocusNext (mw : MainWnd) : MainWnd × List WidgetCall :=
  mw.DoFocusNextWidget (List.range mw.widgets.length) .FCS_NEXT

/-- What `MainWnd::DoHandleKey` does for the key [Tab] pressed down with the
shift key: `DoFocusNextWidget (widgets.rbegin (), widgets.rend (), FCS_PREV)`. -/
def FocusPrev (mw : MainWnd) : MainWnd × List WidgetCall :=
  mw.DoFocusNextWidget (List.range mw.widgets.length).reverse .FCS_PREV

end MainWnd


namespace MainWnd

/-- The first steps of `FindWidgetByPos` and `LocalizePoint`: the global point
`_p` relative to the top-left corner of the window, the frame taken out. -/
def toInner (mw : MainWnd) (_p : Point) : Point :=
  let p1 := _p.sub mw.geo.Tl
  { x := p1.x - mw.frameThick, y := p1.y + mw.frameThick }

/-- What `FindWidgetByPos` leaves behind: the point `_p`, the position
`_iter` (the number of widgets for `widgets.end ()`) and the return value. -/
structure FindResult where
  _p : Point
  _iter : Nat
  found : Bool
  deriving DecidableEq, Repr

/-- Method `MainWnd::FindWidgetByPos (_p, _iter, _bVisibleActiveOnly)`. -/
def FindWidgetByPos (mw : MainWnd) (_p : Point) (_bVisibleActiveOnly : Bool) : FindResult :=
  let p1 := mw.toInner _p
  let _iter := mw.widgets.findIdx (fun wa =>
    (!_bVisibleActiveOnly || (wa.st.bVisible && wa.st.bEnabled)) && wa.w.Contains p1)
  match mw.widgets[_iter]? with
  | some wa => { _p := p1.sub wa.w.Tl, _iter := _iter, found := true }
  | none => { _p := p1, _iter := _iter, found := false }

/-- Method `MainWnd::LocalizePoint (_p, _wa)`. -/
def LocalizePoint (mw : MainWnd) (_p : Point) (_wa : WidgetAddTy) : Point :=
  (mw.toInner _p).sub _wa.w.Tl

/-- The widget at position `idx` is asked `DoFocusChange (_fcs)`: the return
value, the window with the widget as the call leaves it, and the call. -/
def askFocus (mw : MainWnd) (idx : Nat) (_fcs : FocusChangeTy) :
    Bool × MainWnd × List WidgetCall :=
  match mw.widgets[idx]? with
  | some wa =>
    let r := wa.st.DoFocusChange _fcs
    (r.1, mw.setSt idx r.2, [.focusChange idx _fcs r.1])
  | none => (false, mw, [])

/-- Method `MainWnd::DoMouseClick (p, mouseBtn, inMouse)`. The calls of the
host (`TakeKeyboardFocus`) are left out; what the handler `DoMouseClick` of a
widget does inside the widget is not part of the embedding. -/
def DoMouseClick (mw : MainWnd) (p : Point) (mouseBtn : MouseBtnTy)
    (inMouse : XPLMMouseStatus) : MainWnd × List WidgetCall :=
  let s : MainWnd × Point × List WidgetCall :=
    if inMouse = .xplm_MouseDown ∨ mw.pMouseFocusWidget = none then
      let fr := mw.FindWidgetByPos p true
      if fr.found then
        let mw1 := { mw with pMouseFocusWidget := some fr._iter }
        if !mw1.HasFocus fr._iter then
          let a := mw1.askFocus fr._iter .FCS_FIRST
          if a.1 then
            let b : MainWnd × List WidgetCall :=
              match a.2.1.pFocusWidget with
              | some f =>
                if f ≠ fr._iter then
                  let l := a.2.1.askFocus f .FCS_LOOSE
                  (l.2.1, l.2.2)
                else (a.2.1, [])
              | none => (a.2.1, [])
            ({ b.1 with pFocusWidget := some fr._iter }, fr._p, a.2.2 ++ b.2)
          else (a.2.1, fr._p, a.2.2)
        else (mw1, fr._p, [])
      else (mw, fr._p, [])
    else
      match mw.pMouseFocusWidget with
      | some m =>
        match mw.widgets[m]? with
        | some wa => (mw, mw.LocalizePoint p wa, [])
        | none => (mw, p, [])
      | none => (mw, p, [])
  let click : List WidgetCall :=
    match s.1.pMouseFocusWidget with
    | some m => [.mouseClick m s.2.1 mouseBtn inMouse]
    | none => []
  let mw2 := if inMouse = .xplm_MouseUp then { s.1 with pMouseFocusWidget := none } else s.1
  (mw2, s.2.2 ++ click)

/-- The loop of `MainWnd::DoDraw` over the widgets, `idx` being the position
of the first widget of `ws`: a widget is drawn if it is visible and the
window contains its rectangle moved by `Ofs`. -/
def drawLoop (mw : MainWnd) (Ofs : Point) : Nat → List WidgetAddTy → List WidgetCall
  | _, [] => []
  | idx, wa :: rest =>
    let here : List WidgetCall :=
      if wa.st.bVisible then
        let drawRect := wa.w.addPt Ofs
        if mw.geo.ContainsRect drawRect then [.draw idx drawRect] else []
      else []
    here ++ drawLoop mw Ofs (idx + 1) rest

end MainWnd

/-- A widget of the class `k` with the rectangle `r` (rules as a label). -/
def exWidget (k : WidgetKind) (r : Rect) : WidgetAddTy :=
  { exLabel r with st := { kind := k } }

/-- A window (left 0, top 100, right 300, bottom 0, frame thickness 5) with a
label, the push buttons A, B and C at the positions 1, 2 and 4, and a line;
none of them has the focus. -/
def exFocusWnd : MainWnd :=
  { geo := Rect.ctor 0 100 300 0
    frameThick := 5
    widgets :=
      [exWidget .label (Rect.ctor 0 0 100 (-15)),
        exWidget .buttonPush (Rect.ctor 0 (-15) 100 (-30)),
        exWidget .buttonPush (Rect.ctor 0 (-30) 100 (-45)),
        exWidget .line (Rect.ctor 0 (-45) 100 (-46)),
        exWidget .buttonPush (Rect.ctor 0 (-50) 100 (-65))]
    bLayoutDirty := false }


/-- A run of drag events: `DoMouseClick (q, mouseBtn, xplm_MouseDrag)` for
the points `q` of the list, one after the other. -/
def MainWnd.DoMouseDrags (mw : MainWnd) (mouseBtn : MouseBtnTy) :
    List Point → MainWnd × List WidgetCall
  | [] => (mw, [])
  | q :: rest =>
    let r := mw.DoMouseClick q mouseBtn .xplm_MouseDrag
    let rs := MainWnd.DoMouseDrags r.1 mouseBtn rest
    (rs.1, r.2 ++ rs.2)


/-! ## Focus traversal: the widgets in attachment order -/

/-- The members `bVisible` and `bEnabled` of the widget at position `j`. -/
def MainWnd.flagsAt (mw : MainWnd) (j : Nat) : Option (Bool × Bool) :=
  mw.widgets[j]?.map (fun wa => (wa.st.bVisible, wa.st.bEnabled))

/-- The widget at position `i` is a visible, enabled push button, edit field
or list box. -/
def MainWnd.takesFocus (mw : MainWnd) (i : Nat) : Bool :=
  match mw.widgets[i]? with
  | some wa =>
    wa.st.bVisible && wa.st.bEnabled &&
      (decide (wa.st.kind = .buttonPush) || decide (wa.st.kind = .editField) ||
        decide (wa.st.kind = .listBox))
  | none => false

/-- The positions of the visible, enabled push buttons, edit fields and list
boxes of the window in attachment order. -/
def MainWnd.focusOrder (mw : MainWnd) : List Nat :=
  (List.range mw.widgets.length).filter mw.takesFocus

/-- The window after `n` consecutive requests for the next widget. -/
def MainWnd.FocusNextTimes (mw : MainWnd) : Nat → MainWnd
  | 0 => mw
  | n + 1 => (MainWnd.FocusNextTimes mw n).FocusNext.1


/-- The example window after button B (position 2), which holds the focus,
has been hidden. -/
def exFocusWndHidden : MainWnd :=
  { exFocusWnd.setSt 2 { kind := .buttonPush, bVisible := false } with pFocusWidget := some 2 }


/-! ## Geometry and scrolling of the list box (`TFW.cpp`) -/

/-- The modulus of `size_t` arithmetic (64 bit). -/
def SIZE_MOD : Nat := 18446744073709551616

/-- Conversion of an `int` to `unsigned`. -/
def toUnsigned (i : Int) : Nat := (i % UINT_MOD).toNat

/-- Conversion of an `int` to `size_t`. -/
def toSizeT (i : Int) : Nat := (i % SIZE_MOD).toNat

/-- Conversion of an `unsigned` or a `size_t` to `int` (two's complement). -/
def toInt32 (n : Nat) : Int :=
  if n % UINT_MOD < 2147483648 then (n % UINT_MOD : Nat) else (n % UINT_MOD : Nat) - 4294967296

/-- What the list box takes from outside when it is given a rectangle: the
font height that `XPLMGetFontDimensions` reports, the value of the global
`gCHAR_AVG_WIDTH`, and `crop s w start` for the text that
`CropTextToWidth (s, w, start)` returns, which rests on the text measurement
of the host. -/
structure FontEnv where
  fontHeight : Int
  gCHAR_AVG_WIDTH : Int
  crop : StdString → Nat → Nat → StdString

/-- Method `CroppedString::SetWidth`. -/
def CroppedString.SetWidth (env : FontEnv) (s : CroppedString) (_w : Nat) : CroppedString :=
  { s with width := _w, sCropped := env.crop s.sFull _w s.startPos }

/-- Method `ListItem::SetWidth`. -/
def ListItem.SetWidth (env : FontEnv) (li : ListItem) (_w : Nat) : ListItem :=
  { li with sVal := li.sVal.SetWidth env _w }

/-- The statement `row[colId].SetWidth (w)` for every row; `none` where a row
has no cell `colId`. -/
def cropRows (env : FontEnv) (colId w : Nat) : List ListRow → Option (List ListRow)
  | [] => some []
  | row :: rest =>
    match row.cells[colId]? with
    | none => none
    | some li =>
      match cropRows env colId w rest with
      | none => none
      | some rest1 =>
        some ({ row with cells := row.cells.set colId (li.SetWidth env w) } :: rest1)

namespace ListBox

/-- The loop of `ListBox::DoCropTexts` over the columns from `colId` on, `n`
of them, `x` being the starting position of the column. -/
def cropLoop (env : FontEnv) (width : Int) : Nat → Nat → Nat → ListBox → Option ListBox
  | 0, _, _, lb => some lb
  | n + 1, colId, x, lb =>
    match lb.cols[colId]? with
    | none => some lb
    | some d =>
      let w : Nat :=
        if !d.bVisible then 0
        else if toInt32 x ≥ width then 0
        else min ((toSizeT width + SIZE_MOD - x % SIZE_MOD) % SIZE_MOD) (toSizeT d.width)
      let d1 := { d with name := d.name.SetWidth env w }
      match cropRows env colId w lb.rows with
      | none => none
      | some rows1 =>
        cropLoop env width n (colId + 1) ((x + w) % SIZE_MOD)
          { lb with cols := lb.cols.set colId d1, rows := rows1 }

/-- Method `ListBox::DoCropTexts`; `none` where it indexes a row beyond its
cells. -/
def DoCropTexts (env : FontEnv) (lb : ListBox) : Option ListBox :=
  let width : Int :=
    if lb.rows.length > lb.rowMax then lb.geo.Width - (env.gCHAR_AVG_WIDTH + 1)
    else lb.geo.Width
  cropLoop env width lb.cols.length 0 0 lb

/-- Method `ListBox::SetGeometry`; `none` where it divides by a line height
of zero or `DoCropTexts` fails. The caption of the widget is not part of the
embedding. -/
def SetGeometry (env : FontEnv) (lb : ListBox) (_r : Rect) : Option ListBox :=
  let geo := Rect.SetGeometry lb.geo _r
  let lnHeight := (toUnsigned env.fontHeight * lb.lnHeightFactor) % UINT_MOD / 100
  if lnHeight = 0 then none
  else
    let rowMax0 := toUnsigned _r.Height / lnHeight
    let rowMax := if rowMax0 > 0 then rowMax0 - 1 else rowMax0
    let lb1 : ListBox :=
      if lb.rows.length ≤ rowMax then
        { lb with geo := geo, lnHeight := lnHeight, rowMax := rowMax, rowFirst := 0,
                  rowFirstMaxDown := 0 }
      else
        let down := (lb.rows.length % UINT_MOD + UINT_MOD - rowMax) % UINT_MOD
        { lb with geo := geo, lnHeight := lnHeight, rowMax := rowMax,
                  rowFirstMaxDown := down,
                  rowFirst := if lb.rowFirst > down then down else lb.rowFirst }
    (DoCropTexts env lb1).map MakeSelVisible

/-- Method `ListBox::DoMouseWheel (p, wheel, clicks)`; the point is not used. -/
def DoMouseWheel (lb : ListBox) (wheel clicks : Int) : ListBox :=
  if wheel ≠ 0 then lb
  else
    let fr : Int := toInt32 lb.rowFirst + clicks
    if fr < 0 then { lb with rowFirst := 0 }
    else if fr > toInt32 lb.rowFirstMaxDown then { lb with rowFirst := lb.rowFirstMaxDown }
    else { lb with rowFirst := toUnsigned fr }

end ListBox

/-- A font of height 10 with characters 8 wide, every character measured as
8 wide: the text cropped to the characters that fit. -/
def exFontEnv : FontEnv :=
  { fontHeight := 10
    gCHAR_AVG_WIDTH := 8
    crop := fun s w start => (s.drop start).take (w / 8) }

/-- The scenario list in a rectangle 200 wide and 50 high: the header and
one row fit. -/
def exABCGeo : Option ListBox :=
  exABC.SetGeometry exFontEnv (Rect.ctor 0 0 200 (-50))


/-! ## Widgets with two fixed-length rules on one axis -/

/-- A widget whose left and right rules are both fixed-length (offsets 100
and 50), with top absolute 0 and bottom fixed-length 15. -/
def exBothFixedH : WidgetAddTy :=
  { lR := .POS_FIXED_LEN, lO := 100, tR := .POS_ABSOLUTE, tO := 0,
    rR := .POS_FIXED_LEN, rO := 50, bR := .POS_FIXED_LEN, bO := 15,
    w := Rect.ctor 0 0 0 0 }

/-- A widget whose top and bottom rules are both fixed-length (offsets 20
and 5), with left absolute 0 and right fixed-length 100. -/
def exBothFixedV : WidgetAddTy :=
  { lR := .POS_ABSOLUTE, lO := 0, tR := .POS_FIXED_LEN, tO := 20,
    rR := .POS_FIXED_LEN, rO := 100, bR := .POS_FIXED_LEN, bO := 5,
    w := Rect.ctor 0 0 0 0 }


/-! ## Looking up a column (`TFW.h`) -/

/-- Method `ListBox::GetCol`: `cols.at (colId)`. The result is `none` where
`at` throws `std::out_of_range`, that is for `colId` at or beyond the size of
the vector of columns. -/
def ListBox.GetCol (lb : ListBox) (colId : Nat) : Option ListColumnDef :=
  if colId < lb.cols.length then lb.cols[colId]? else none

/-- A list box in which only column 2 has been defined, by `AddCol`. -/
def exSparseCols : Option ListBox :=
  ListBox.init.AddCol 2 (exCol [80, 97, 120] 30 .DTY_INT)


/-! ## Button arrays: finding and adding elements (`TFW.cpp`) -/

namespace ButtonArray

/-- Method `ButtonArray::FindElem`: the first element with the given
`refCon`, `BUTTON_ELEM_NULL` if there is none. -/
def FindElem (ba : ButtonArray) (_refCon : Nat) : ButtonElem :=
  match ba.aBtns.find? (fun be => decide (be.refCon = _refCon)) with
  | some be => be
  | none => BUTTON_ELEM_NULL

/-- Method `ButtonArray::AddButton`: the array afterwards and the return
value. -/
def AddButton (ba : ButtonArray) (_elem : ButtonElem) : ButtonArray × Bool :=
  if _elem.eq BUTTON_ELEM_NULL then (ba, false)
  else if (ba.FindElem _elem.refCon).eq BUTTON_ELEM_NULL then
    ({ ba with aBtns := ba.aBtns ++ [_elem] }, true)
  else (ba, false)

/-- The array after `AddButton` for the elements of `es`, one after the
other, whatever the return values. -/
def AddButtons (ba : ButtonArray) : List ButtonElem → ButtonArray
  | [] => ba
  | e :: rest => AddButtons (ba.AddButton e).1 rest

end ButtonArray

/-- The check boxes of the example window: "First", "Second" (selected) and
"Third" (selected) with the identity tokens 1, 2 and 3. -/
def exCheckElems : List ButtonElem :=
  [ButtonElem.ctor 1 [70, 105, 114, 115, 116] .BTN_NORMAL,
    ButtonElem.ctor 2 [83, 101, 99, 111, 110, 100] .BTN_SELECTED,
    ButtonElem.ctor 3 [84, 104, 105, 114, 100] .BTN_SELECTED]


/-! ## The mutating operations of `Rect` (`TFWGraphics.h`) -/

/-- Method `Rect::SetBl`. -/
def Rect.SetBl (r : Rect) (_bl : Point) : Rect := Rect.Normalize { r with bl := _bl }

/-- Method `Rect::SetTr`. -/
def Rect.SetTr (r : Rect) (_tr : Point) : Rect := Rect.Normalize { r with tr := _tr }

/-- Method `Rect::SetTop`. -/
def Rect.SetTop (r : Rect) (_top : Int) : Rect :=
  Rect.Normalize { r with tr := { r.tr with y := _top } }

/-- Method `Rect::SetBottom`. -/
def Rect.SetBottom (r : Rect) (_bottom : Int) : Rect :=
  Rect.Normalize { r with bl := { r.bl with y := _bottom } }

/-- Method `Rect::SetLeft`. -/
def Rect.SetLeft (r : Rect) (_left : Int) : Rect :=
  Rect.Normalize { r with bl := { r.bl with x := _left } }

/-- Method `Rect::SetRight`. -/
def Rect.SetRight (r : Rect) (_right : Int) : Rect :=
  Rect.Normalize { r with tr := { r.tr with x := _right } }

/-- Method `Rect::SetWidth`. -/
def Rect.SetWidth (r : Rect) (_w : Int) : Rect := r.SetRight (r.Left + _w)

/-- Method `Rect::SetHeight`. -/
def Rect.SetHeight (r : Rect) (_h : Int) : Rect := r.SetBottom (r.Top - _h)

/-- Operator `Rect::operator+=`: both corners moved by `ofs`. -/
def Rect.addAssign (r : Rect) (ofs : Point) : Rect :=
  { bl := r.bl.add ofs, tr := r.tr.add ofs }

/-- Operator `Rect::operator-=`: both corners moved back by `ofs`. -/
def Rect.subAssign (r : Rect) (ofs : Point) : Rect :=
  { bl := r.bl.sub ofs, tr := r.tr.sub ofs }

/-- Method `Rect::Expand`: `bl -= Point (by, by); tr += Point (by, by)`. -/
def Rect.Expand (r : Rect) (_by : Int) : Rect :=
  { bl := r.bl.sub { x := _by, y := _by }, tr := r.tr.add { x := _by, y := _by } }

/-- Operator `Rect::operator=`: `SetGeometry (_r)`. -/
def Rect.assign (_self _r : Rect) : Rect := _self.SetGeometry _r


/-! ## Keys handled by the main window (`TFW.cpp`) -/

/-- Constant `xplm_ShiftFlag` of the host (`XPLMKeyFlags`). -/
def xplm_ShiftFlag : Nat := 1

/-- Constant `xplm_OptionAltFlag` of the host. -/
def xplm_OptionAltFlag : Nat := 2

/-- Constant `xplm_ControlFlag` of the host. -/
def xplm_ControlFlag : Nat := 4

/-- Constant `xplm_DownFlag` of the host: the key is going down. -/
def xplm_DownFlag : Nat := 8

/-- Constant `xplm_UpFlag` of the host: the key is going up. -/
def xplm_UpFlag : Nat := 16

/-- Constant `XPLM_VK_TAB` of the host. -/
def XPLM_VK_TAB : Nat := 9

/-- Constant `XPLM_VK_RETURN` of the host. -/
def XPLM_VK_RETURN : Nat := 13

/-- Constant `XPLM_VK_ESCAPE` of the host. -/
def XPLM_VK_ESCAPE : Nat := 27

/-- Constant `XPLM_VK_ENTER` of the host. -/
def XPLM_VK_ENTER : Nat := 189

/-- Method `MainWnd::DoHandleKey (inKey, inFlags, inVirtualKey)`. What the
handler `DoHandleKey` of the focus widget and `MsgButtonClicked` do is not
part of the embedding. -/
def MainWnd.DoHandleKey (mw : MainWnd) (inKey : Int) (inFlags inVirtualKey : Nat) :
    MainWnd × List WidgetCall :=
  if inVirtualKey = XPLM_VK_TAB then
    if inFlags = xplm_DownFlag then mw.FocusNext
    else if inFlags = (xplm_DownFlag ||| xplm_ShiftFlag) then mw.FocusPrev
    else (mw, [])
  else if inVirtualKey = XPLM_VK_ESCAPE then
    let r : MainWnd × List WidgetCall :=
      match mw.pFocusWidget with
      | some f =>
        if inFlags = xplm_DownFlag then
          let a := mw.askFocus f .FCS_LOOSE
          (a.2.1, a.2.2)
        else (mw, [])
      | none => (mw, [])
    ({ r.1 with pFocusWidget := none }, r.2)
  else if inVirtualKey = XPLM_VK_RETURN ∨ inVirtualKey = XPLM_VK_ENTER then
    match mw.pDefBtn with
    | some b =>
      match mw.widgets[b]? with
      | some wa =>
        if inFlags = xplm_DownFlag ∧ wa.st.bEnabled = true then (mw, [.msgButtonClicked b])
        else (mw, [])
      | none => (mw, [])
    | none => (mw, [])
  else
    match mw.pFocusWidget with
    | some f => (mw, [.handleKey f inKey inFlags inVirtualKey])
    | none => (mw, [])


/-! ## Sequences of row operations -/

/-- A call that changes the rows or their order: `AddRow (row)`,
`RemoveRow (_refCon)`, `Clear ()` or `SetSorting (_col, _sorted)`. -/
inductive RowOp where
  | addRow (row : ListRow)
  | removeRow (_refCon : Nat)
  | clear
  | setSorting (_col : Nat) (_sorted : SortingTy)

/-- The list box after one such call. -/
def ListBox.applyRowOp (lb : ListBox) : RowOp → ListBox
  | .addRow row => (lb.AddRow row).lb
  | .removeRow _refCon => (lb.RemoveRow _refCon).1
  | .clear => lb.Clear
  | .setSorting _col _sorted => lb.SetSorting _col _sorted

/-- The list box after a sequence of such calls, first call first. -/
def ListBox.applyRowOps (lb : ListBox) : List RowOp → ListBox
  | [] => lb
  | op :: rest => ListBox.applyRowOps (lb.applyRowOp op) rest

/-- The sequence number that a call gives to a row inserted for the first
time: for `AddRow (row)` with an identity token that is not stored, the
sequence number of the row stored with that token afterwards. -/
def ListBox.assignedBy (lb : ListBox) : RowOp → List Nat
  | .addRow row =>
    if lb.FindRowIdx row.refCon = lb.rows.length then
      match (lb.AddRow row).lb.rows.find? (fun r => decide (r.refCon = row.refCon)) with
      | some r => [r.sequNr]
      | none => []
    else []
  | _ => []

/-- The sequence numbers given to first-time insertions by a sequence of
calls, in the order of the calls. -/
def ListBox.assigned (lb : ListBox) : List RowOp → List Nat
  | [] => []
  | op :: rest => lb.assignedBy op ++ ListBox.assigned (lb.applyRowOp op) rest


/-! ## Clicks into the header of the list box (`TFW.cpp`) -/

namespace ListBox

/-- The loop of `ListBox::FindColIdx` from column `col` on, `right` being the
right edge of the visible columns before and `lastVisibleCol` the last of
them. -/
def findColLoop (_x : Int) : Nat → Int → Nat → List ListColumnDef → Nat
  | _, _, lastVisibleCol, [] => lastVisibleCol % UINT_MOD
  | col, right, lastVisibleCol, d :: rest =>
    if d.bVisible then
      if _x ≤ right + d.width then col % UINT_MOD
      else findColLoop _x (col + 1) (right + d.width) col rest
    else findColLoop _x (col + 1) right lastVisibleCol rest

/-- Method `ListBox::FindColIdx`: the column at the x coordinate `_x`. -/
def FindColIdx (lb : ListBox) (_x : Int) : Nat :=
  if lb.cols.isEmpty then 0 else findColLoop _x 0 0 0 lb.cols

/-- The direction that a click into the header of the sorted column turns
the direction `s` into: the `switch` of `ListBox::DoMouseClick`. -/
def cycleDirection (s : SortingTy) : SortingTy :=
  match s with
  | .SORT_UNSUPPORTED => .SORT_UNSUPPORTED
  | .SORT_UNSORTED => .SORT_ASCENDING
  | .SORT_ASCENDING => .SORT_DESCENDING
  | .SORT_DESCENDING => .SORT_UNSORTED

/-- The branch of `ListBox::DoMouseClick (p, mouseBtn, inMouse)` for the left
button going down on a point in the header, `p.y >= -int (lnHeight)`. -/
def headerClick (lb : ListBox) (p : Point) : ListBox :=
  let col := lb.FindColIdx p.x
  if lb.sorted ≠ .SORT_UNSUPPORTED then
    let direction := if col = lb.sortedBy then cycleDirection lb.sorted else .SORT_ASCENDING
    lb.SetSorting col direction
  else lb

end ListBox

/-- The list box with the columns Name (0) and Pax (1) set to sort by column
1, unsorted, into which S1 and then the short row S2 are inserted. -/
def exShortByPax : ListBox :=
  (((exCols.SetSorting 1 .SORT_UNSORTED).AddRow exRowS1).lb.AddRow exRowS2).lb


/-! ## Cropping a text to a width (`TFW.cpp`, `TFW.h`) -/

/-- What `CropTextToWidth` takes from outside: the value of the global
`gCHAR_AVG_WIDTH`, and `measure t n` for the value of `XPLMMeasureString
(_fontId, t, n)`, the width that the host measures for the first `n`
characters of the text `t`. A `float` is a rational. -/
structure MeasureEnv where
  gCHAR_AVG_WIDTH : Int
  measure : StdString → Int → ℚ

namespace MeasureEnv

/-- The value of `gCHAR_AVG_WIDTH` after the statement
`if (gCHAR_AVG_WIDTH <= 0) gCHAR_AVG_WIDTH = 8`. -/
def avgWidth (env : MeasureEnv) : Int :=
  if env.gCHAR_AVG_WIDTH ≤ 0 then 8 else env.gCHAR_AVG_WIDTH

/-- The first value of `numChars`: `size_t (_width / gCHAR_AVG_WIDTH)`, the
division taken as exact. -/
def cropEstimate (env : MeasureEnv) (_width : ℚ) : Nat :=
  (Int.floor (_width / env.avgWidth)).toNat % SIZE_MOD

end MeasureEnv

/-- The loop `while (numChars > 0 && XPLMMeasureString (.., int (--numChars))
> _width);` started with the value `numChars`; `M n` is the measured width of
`n` characters. -/
def cropDown (M : Int → ℚ) (_width : ℚ) : Nat → Nat
  | 0 => 0
  | n + 1 => if M (toInt32 n) > _width then cropDown M _width n else n

/-- The loop `while (numChars < maxChars && XPLMMeasureString (..,
int (numChars + 1)) <= _width) numChars++;` with `fuel` passes at most;
`maxChars - numChars` passes are enough. -/
def cropUp (M : Int → ℚ) (_width : ℚ) (maxChars : Nat) : Nat → Nat → Nat
  | 0, numChars => numChars
  | fuel + 1, numChars =>
    if numChars < maxChars ∧ M (toInt32 (numChars + 1)) ≤ _width then
      cropUp M _width maxChars fuel (numChars + 1)
    else numChars

namespace MeasureEnv

/-- The value of `numChars` at the end of `CropTextToWidth`, for the text `t`
that starts at `_startChar` and the first value `numChars0`. -/
def cropCount (env : MeasureEnv) (t : StdString) (_width : ℚ) (maxChars numChars0 : Nat) : Nat :=
  if env.measure t (toInt32 numChars0) > _width then cropDown (env.measure t) _width numChars0
  else cropUp (env.measure t) _width maxChars (maxChars - numChars0) numChars0

/-- Function `CropTextToWidth (_s, _width, _startChar)`. The result is `none`
where `_s.substr (_startChar, numChars)` throws `std::out_of_range`, that is
for `_startChar` beyond the end of `_s`. -/
def CropTextToWidth (env : MeasureEnv) (_s : StdString) (_width : ℚ) (_startChar : Nat) :
    Option StdString :=
  let maxChars := (_s.length + SIZE_MOD - _startChar % SIZE_MOD) % SIZE_MOD
  if maxChars = 0 ∨ _width < 1 then some []
  else
    let numChars :=
      env.cropCount (_s.drop _startChar) _width maxChars (env.cropEstimate _width)
    if _startChar > _s.length then none
    else some ((_s.drop _startChar).take numChars)

/-- Method `CroppedString::UpdateCroppedString`; the conversion of the width
to `float` is taken as exact. The result is `none` where `CropTextToWidth`
throws. -/
def UpdateCroppedString (env : MeasureEnv) (cs : CroppedString) : Option CroppedString :=
  (env.CropTextToWidth cs.sFull (cs.width : ℚ) cs.startPos).map
    (fun c => { cs with sCropped := c })

end MeasureEnv

/-- The value `std::string::npos`. -/
def npos : Nat := SIZE_MOD - 1

/-- Constructor `CroppedString ()`: both strings empty, width `UINT64_MAX`,
start 0; the cropped string is not computed. -/
def CroppedString.ctorDefault : CroppedString :=
  { sFull := [], sCropped := [], width := 18446744073709551615, startPos := 0 }

/-- Method `CroppedString::clear`: both strings are emptied, the width and
the start position stay. -/
def CroppedString.clear (cs : CroppedString) : CroppedString :=
  { cs with sFull := [], sCropped := [] }

namespace MeasureEnv

/-- Constructors `CroppedString (_s, _width, _start)`. -/
def ctor (env : MeasureEnv) (_s : StdString) (_width _start : Nat) : Option CroppedString :=
  env.UpdateCroppedString { sFull := _s, sCropped := [], width := _width, startPos := _start }

/-- Operators `CroppedString::operator = (std::string)`. -/
def assign (env : MeasureEnv) (cs : CroppedString) (_o : StdString) : Option CroppedString :=
  env.UpdateCroppedString { cs with sFull := _o }

/-- Method `CroppedString::insert (index, str)`; `std::string::insert` throws
for an `index` beyond the end. -/
def insert (env : MeasureEnv) (cs : CroppedString) (index : Nat) (str : StdString) :
    Option CroppedString :=
  if index > cs.sFull.length then none
  else env.UpdateCroppedString { cs with sFull := cs.sFull.take index ++ str ++ cs.sFull.drop index }

/-- Method `CroppedString::insert (index, str, index_str, count)`: inserts
`str.substr (index_str, count)`, which throws for an `index_str` beyond the
end of `str`. -/
def insertSub (env : MeasureEnv) (cs : CroppedString) (index : Nat) (str : StdString)
    (index_str count : Nat) : Option CroppedString :=
  if index > cs.sFull.length ∨ index_str > str.length then none
  else env.UpdateCroppedString
    { cs with sFull := cs.sFull.take index ++ (str.drop index_str).take count ++ cs.sFull.drop index }

/-- Operators `CroppedString::operator += (const char*)` and
`operator += (const std::string&)`. -/
def append (env : MeasureEnv) (cs : CroppedString) (str : StdString) : Option CroppedString :=
  env.UpdateCroppedString { cs with sFull := cs.sFull ++ str }

/-- Operator `CroppedString::operator += (char)`. -/
def appendChar (env : MeasureEnv) (cs : CroppedString) (ch : Nat) : Option CroppedString :=
  env.UpdateCroppedString { cs with sFull := cs.sFull ++ [ch] }

/-- Method `CroppedString::erase (index, count)`; `std::string::erase` throws
for an `index` beyond the end and removes up to the end at most. -/
def erase (env : MeasureEnv) (cs : CroppedString) (index count : Nat) : Option CroppedString :=
  if index > cs.sFull.length then none
  else env.UpdateCroppedString { cs with sFull := cs.sFull.take index ++ cs.sFull.drop (index + count) }

/-- Method `CroppedString::SetWidth`. -/
def SetWidth (env : MeasureEnv) (cs : CroppedString) (_w : Nat) : Option CroppedString :=
  env.UpdateCroppedString { cs with width := _w }

/-- Method `CroppedString::SetStartPos`: `startPos = std::min (_sp, size () -
1)`, the subtraction in `size_t`. -/
def SetStartPos (env : MeasureEnv) (cs : CroppedString) (_sp : Nat) : Option CroppedString :=
  env.UpdateCroppedString
    { cs with startPos := min _sp ((cs.sFull.length + SIZE_MOD - 1) % SIZE_MOD) }

/-- The cached cropped string of `cs` is what cropping the full string to the
width from the start position gives. -/
def Consistent (env : MeasureEnv) (cs : CroppedString) : Prop :=
  env.CropTextToWidth cs.sFull (cs.width : ℚ) cs.startPos = some cs.sCropped

instance (env : MeasureEnv) (cs : CroppedString) : Decidable (env.Consistent cs) := by
  unfold Consistent
  infer_instance

end MeasureEnv

/-- A host in which every character is 8 wide: `n` characters measure
`8 * n`, and no characters or fewer measure 0. -/
def exMeasureEnv : MeasureEnv :=
  { gCHAR_AVG_WIDTH := 8
    measure := fun _ n => if n ≤ 0 then 0 else ((8 * n : Int) : ℚ) }

/-- A host that measures every text as 0 wide. -/
def exZeroMeasureEnv : MeasureEnv :=
  { gCHAR_AVG_WIDTH := 8
    measure := fun _ _ => 0 }

/-- A host in which every character is 68719476736 wide. -/
def exWideMeasureEnv : MeasureEnv :=
  { gCHAR_AVG_WIDTH := 8
    measure := fun _ n => if n ≤ 0 then 0 else ((68719476736 * n : Int) : ℚ) }

/-- The text `abcdef`. -/
def exAbcdef : StdString := [97, 98, 99, 100, 101, 102]


/-- The text `t` is the longest run of characters of `_s` from `_startChar`
on whose measured width is at most `_width`: it is such a run, it fits, and
no run of more characters of `_s` from there fits. -/
def MeasureEnv.IsLongestFit (env : MeasureEnv) (_s : StdString) (_startChar : Nat) (_width : ℚ)
    (t : StdString) : Prop :=
  t = (_s.drop _startChar).take t.length ∧
  env.measure (_s.drop _startChar) (t.length : Int) ≤ _width ∧
  ∀ m : Nat, m ≤ _s.length - _startChar →
    env.measure (_s.drop _startChar) (m : Int) ≤ _width → m ≤ t.length


/-- The cropped string `abcdef` of width 100 after `SetStartPos (3)`. -/
def exScrolled : CroppedString :=
  { sFull := exAbcdef, sCropped := [100, 101, 102], width := 100, startPos := 3 }


/-! ## The comparison of the sort as a relation -/

/-- The comparison that `DoSort` hands to `std::sort` for the list box `lb`:
the lambda `r1.elemLess (r2, sortedBy, sorted, _dataType)`, where the column
to sort by exists. -/
def ListBox.sortComp (lb : ListBox) (r1 r2 : ListRow) : Option Bool :=
  (lb.cols[lb.sortedBy]?).map (fun d => r1.elemLess r2 lb.sortedBy lb.sorted d.dataType)

/-- The table of the comparison of `DoSort` on the stored rows: line `i` holds
the results of comparing row `i` with each row. -/
def ListBox.sortCompTable (lb : ListBox) : List (List (Option Bool)) :=
  lb.rows.map (fun r1 => lb.rows.map (fun r2 => lb.sortComp r1 r2))

/-- Two short rows: S2 and S3 hold a name only. -/
def exRowS3 : ListRow := ListRow.ctor 3 [exStr [67]]

/-- The list with two short rows: S2 inserted before S3, not sorted. -/
def exShort2 : ListBox :=
  ((exCols.AddRow exRowS2).lb.AddRow exRowS3).lb


/-! ## Overlap of rectangles (`TFWGraphics.cpp`) -/

/-- Method `Rect::Overlap`: one of the corners `bl` and `tr` of one rectangle
lies in the other one. -/
def Rect.Overlap (self r : Rect) : Bool :=
  self.Contains r.bl || self.Contains r.tr || r.Contains self.bl || r.Contains self.tr

/-- A flat rectangle: left 0, top 6, right 10, bottom 4. -/
def exFlat : Rect := Rect.ctor 0 6 10 4

/-- An upright rectangle: left 4, top 10, right 6, bottom 0. -/
def exUpright : Rect := Rect.ctor 4 10 6 0

/-- A square: left 0, top 10, right 10, bottom 0. -/
def exSquare : Rect := Rect.ctor 0 10 10 0

/-- The square moved right by 5 and down by 5: left 5, top 5, right 15,
bottom -5. -/
def exSquareMoved : Rect := Rect.ctor 5 5 15 (-5)


/-- The cropped string `abcdef` of width 0, as a cell in a column without
visible width has it, after `SetStartPos (3)`. -/
def exScrolledNarrow : Option CroppedString :=
  (exMeasureEnv.ctor exAbcdef 0 0).bind (fun c => exMeasureEnv.SetStartPos c 3)


/-! ## Focus requests to a button array -/

/-- A sequence of calls of `DoFocusChange` on one widget, first call first:
the return values and the widget afterwards. -/
def WidgetSt.focusRequests (st : WidgetSt) : List FocusChangeTy → List Bool × WidgetSt
  | [] => ([], st)
  | f :: rest =>
    ((st.DoFocusChange f).1 :: ((st.DoFocusChange f).2.focusRequests rest).1,
      ((st.DoFocusChange f).2.focusRequests rest).2)

/-- A button array of three elements, none with the focus. -/
def exArray3 : WidgetSt := { kind := .buttonArray, nBtns := 3, iterFocus := 3 }

/-- A button array without elements. -/
def exArray0 : WidgetSt := { kind := .buttonArray, nBtns := 0, iterFocus := 0 }


/-! ## Cursor keys in a list box (`TFW.cpp`) -/

/-- Constant `XPLM_VK_UP` of the host. -/
def XPLM_VK_UP : Nat := 38

/-- Constant `XPLM_VK_DOWN` of the host. -/
def XPLM_VK_DOWN : Nat := 40

namespace ListBox

/-- Method `ListBox::DoSelectRow`; the message to the main window is left
out. -/
def DoSelectRow (lb : ListBox) (_selRow : ListRow) : ListBox :=
  { lb with selRefCon := _selRow.refCon }

/-- The iterator `iter` of `ListBox::DoHandleKey` after the key has been
looked at, as a position; the number of rows stands for `rows.end ()`. -/
def keyIter (lb : ListBox) (inFlags inVirtualKey : Nat) : Nat :=
  let iter := if lb.selRefCon ≠ 0 then lb.FindRowIdx lb.selRefCon else lb.rows.length
  if inVirtualKey = XPLM_VK_DOWN ∧ inFlags = xplm_DownFlag then
    if iter = lb.rows.length then 0
    else if iter + 1 ≠ lb.rows.length then iter + 1
    else iter
  else if inVirtualKey = XPLM_VK_UP ∧ inFlags = xplm_DownFlag then
    if iter = lb.rows.length then 0
    else if iter ≠ 0 then iter - 1
    else iter
  else iter

/-- Method `ListBox::DoHandleKey`. -/
def DoHandleKey (lb : ListBox) (inFlags inVirtualKey : Nat) : ListBox :=
  if lb.rows.length = 0 then lb
  else
    MakeSelVisible
      (match lb.rows[lb.keyIter inFlags inVirtualKey]? with
       | some r => lb.DoSelectRow r
       | none => { lb with selRefCon := 0 })

/-- The position of the selected row: of the first row with the identity
token `selRefCon`, if that is not null and such a row is stored. -/
def selIdx (lb : ListBox) : Option Nat :=
  if lb.selRefCon ≠ 0 ∧ lb.FindRowIdx lb.selRefCon < lb.rows.length then
    some (lb.FindRowIdx lb.selRefCon)
  else none

/-- The row to select on the key Down: the first row if none is selected,
otherwise the row after the selected one, or the selected one if it is the
last. -/
def downTarget (lb : ListBox) : Nat :=
  match lb.selIdx with
  | none => 0
  | some i => if i + 1 < lb.rows.length then i + 1 else i

/-- The row to select on the key Up: the first row if none is selected,
otherwise the row before the selected one, or the selected one if it is the
first. -/
def upTarget (lb : ListBox) : Nat :=
  match lb.selIdx with
  | none => 0
  | some i => i - 1

end ListBox

/-- The scenario list in a rectangle in which the header and one row fit. -/
def exABCShown : ListBox := exABCGeo.getD exABC

/-- Row N: "N", 7 passengers, with the null pointer as identity token. -/
def exRowN : ListRow := ListRow.ctor 0 [exStr [78], exInt 7 [55]]

/-- A list with the rows N and B, added in this order, in a rectangle in
which the header and one row fit; no row is selected. -/
def exNullFirst : ListBox :=
  (((exCols.AddRow exRowN).lb.AddRow exRowB).lb.SetGeometry exFontEnv
    (Rect.ctor 0 0 200 (-50))).getD exCols


/-! ## Clicks on the elements of a button array (`TFW.h`, `TFW.cpp`) -/

/-- Constant `XPLM_VK_SPACE` of the host. -/
def XPLM_VK_SPACE : Nat := 32

namespace ButtonElem

/-- Method `ButtonElem::IsSelected`. -/
def IsSelected (be : ButtonElem) : Bool :=
  decide (be.btnState = .BTN_SELECTED) || decide (be.btnState = .BTN_DOWN_SELECTED)

/-- Method `ButtonElem::IsDown`. -/
def IsDown (be : ButtonElem) : Bool :=
  decide (be.btnState = .BTN_DOWN) || decide (be.btnState = .BTN_DOWN_SELECTED)

/-- Method `ButtonElem::SetSelected`. -/
def SetSelected (be : ButtonElem) (_bSel : Bool) : ButtonElem :=
  if _bSel then
    { be with btnState := if be.IsDown then .BTN_DOWN_SELECTED else .BTN_SELECTED }
  else
    { be with btnState := if be.IsDown then .BTN_DOWN else .BTN_NORMAL }

/-- Method `ButtonElem::SetDown`. -/
def SetDown (be : ButtonElem) (_bDown : Bool) : ButtonElem :=
  if _bDown then
    { be with btnState := if be.IsSelected then .BTN_DOWN_SELECTED else .BTN_DOWN }
  else
    { be with btnState := if be.IsSelected then .BTN_SELECTED else .BTN_NORMAL }

end ButtonElem

namespace ButtonArray

/-- Method `ButtonArray::ButtonClicked (_selBe)` for the element `_selBe` at
position `i` of the array; the message to the main window is left out. -/
def ButtonClicked (ba : ButtonArray) (i : Nat) : ButtonArray :=
  match ba.aBtns[i]? with
  | none => ba
  | some _selBe =>
    match ba.type with
    | .BTN_CHECK_BOXES =>
      { ba with aBtns := ba.aBtns.set i (_selBe.SetSelected (!_selBe.IsSelected)) }
    | .BTN_RADIO_BUTTONS =>
      { ba with aBtns := ba.aBtns.map (fun be => be.SetSelected (be.eq _selBe)) }

/-- Method `ButtonArray::SetSelected`. -/
def SetSelected (ba : ButtonArray) (_refCon : Nat) : ButtonArray :=
  if (ba.FindElem _refCon).eq BUTTON_ELEM_NULL then ba
  else ba.ButtonClicked (ba.aBtns.findIdx (fun be => decide (be.refCon = _refCon)))

/-- Method `ButtonArray::FindButtonByPos`: the position of the first element
that contains the point, the number of elements (`aBtns.end ()`) if there is
none. -/
def FindButtonByPos (ba : ButtonArray) (_p : Point) : Nat :=
  ba.aBtns.findIdx (fun be => be.geo.Contains _p)

/-- Method `ButtonArray::DoMouseClick`. The static variable `pMouseFocusElem`
is passed in and returned, as a position in the array. -/
def DoMouseClick (ba : ButtonArray) (pMouseFocusElem : Option Nat) (p : Point)
    (mouseBtn : MouseBtnTy) (inMouse : XPLMMouseStatus) : ButtonArray × Option Nat :=
  if mouseBtn ≠ .MOUSE_LEFT then (ba, pMouseFocusElem)
  else
    let found : Bool :=
      decide (inMouse = .xplm_MouseDown) && decide (ba.FindButtonByPos p ≠ ba.aBtns.length)
    let ba1 : ButtonArray :=
      if found then { ba with iterFocus := some (ba.FindButtonByPos p) } else ba
    let pm1 : Option Nat := if found then some (ba.FindButtonByPos p) else pMouseFocusElem
    match pm1 with
    | none => (ba1, pm1)
    | some i =>
      match ba1.aBtns[i]? with
      | none => (ba1, pm1)
      | some e =>
        match inMouse with
        | .xplm_MouseDown => ({ ba1 with aBtns := ba1.aBtns.set i (e.SetDown true) }, pm1)
        | .xplm_MouseDrag =>
          ({ ba1 with aBtns := ba1.aBtns.set i (e.SetDown (e.geo.Contains p)) }, pm1)
        | .xplm_MouseUp =>
          if e.geo.Contains p then
            (ButtonClicked { ba1 with aBtns := ba1.aBtns.set i (e.SetDown false) } i, pm1)
          else ({ ba1 with aBtns := ba1.aBtns.set i (e.SetDown false) }, pm1)

/-- The case `XPLM_VK_SPACE` of `ButtonArray::DoHandleKey`. -/
def DoHandleKeySpace (ba : ButtonArray) (inFlags : Nat) : ButtonArray :=
  match ba.iterFocus with
  | none => ba
  | some i =>
    match ba.aBtns[i]? with
    | none => ba
    | some e =>
      if inFlags = xplm_DownFlag then { ba with aBtns := ba.aBtns.set i (e.SetDown true) }
      else if inFlags = xplm_UpFlag then
        ButtonClicked { ba with aBtns := ba.aBtns.set i (e.SetDown false) } i
      else ba

end ButtonArray

/-- The radio buttons of the example window: "Left", "Center" and "Right"
with the identity tokens 1, 2 and 3, in rectangles 50 wide and 15 high side by
side. -/
def exRadio : ButtonArray :=
  { aBtns :=
      [{ ButtonElem.ctor 1 [76, 101, 102, 116] .BTN_NORMAL with geo := Rect.ctor 0 0 50 (-15) },
       { ButtonElem.ctor 2 [67, 101, 110, 116, 101, 114] .BTN_NORMAL with
          geo := Rect.ctor 50 0 100 (-15) },
       { ButtonElem.ctor 3 [82, 105, 103, 104, 116] .BTN_NORMAL with
          geo := Rect.ctor 100 0 150 (-15) }]
    type := .BTN_RADIO_BUTTONS }


namespace ButtonArray

/-- Which elements are selected, in the order of the array. -/
def selection (ba : ButtonArray) : List Bool := ba.aBtns.map (fun be => be.IsSelected)

/-- Which elements are pushed down, in the order of the array. -/
def downs (ba : ButtonArray) : List Bool := ba.aBtns.map (fun be => be.IsDown)

/-- The identity tokens, rectangles and texts of the elements. -/
def fixedParts (ba : ButtonArray) : List (Nat × Rect × CroppedString) :=
  ba.aBtns.map (fun be => (be.refCon, be.geo, be.Caption))

/-- The selection in which the element at position `i` of `n` elements is
selected and no other. -/
def onlySelected (n i : Nat) : List Bool := (List.range n).map (fun j => decide (j = i))

end ButtonArray


/-! ## Edit field (`TFW.h`, `TFW.cpp`) -/

/-- Constant `XPLM_VK_BACK` of the host. -/
def XPLM_VK_BACK : Nat := 8

/-- Constant `XPLM_VK_CLEAR` of the host. -/
def XPLM_VK_CLEAR : Nat := 12

/-- Constant `XPLM_VK_END` of the host. -/
def XPLM_VK_END : Nat := 35

/-- Constant `XPLM_VK_HOME` of the host. -/
def XPLM_VK_HOME : Nat := 36

/-- Constant `XPLM_VK_LEFT` of the host. -/
def XPLM_VK_LEFT : Nat := 37

/-- Constant `XPLM_VK_RIGHT` of the host. -/
def XPLM_VK_RIGHT : Nat := 39

/-- Constant `XPLM_VK_INSERT` of the host. -/
def XPLM_VK_INSERT : Nat := 45

/-- Constant `XPLM_VK_DELETE` of the host. -/
def XPLM_VK_DELETE : Nat := 46

/-- Constant `XPLM_VK_C` of the host. -/
def XPLM_VK_C : Nat := 67

/-- Constant `XPLM_VK_V` of the host. -/
def XPLM_VK_V : Nat := 86

/-- Constant `XPLM_VK_X` of the host. -/
def XPLM_VK_X : Nat := 88

/-- Class `EditField`: the caption it inherits from `Widget`, and the members
`allowedChars`, `maxLen`, `bPwdMode` and `caretPos`. The colours, the rectangle
and `prevTxt`, which only `DoFocusChange` uses, are left out. -/
structure EditField where
  caption : CroppedString
  allowedChars : StdString
  maxLen : Nat
  bPwdMode : Bool
  caretPos : Nat
  deriving DecidableEq

/-- The character code of a `char` as it is stored in a string. -/
def charCode (inKey : Int) : Nat := (inKey % 256).toNat

/-- The loop of `EditField::DoMouseClick` over `pos`, with `fuel` passes at
most: the first count of characters of the drawn text, up to its length `len`,
that measures more than `x`, or `len + 1`. -/
def clickPos (M : Int → ℚ) (x : Int) (len : Nat) : Nat → Nat → Nat
  | 0, pos => pos
  | fuel + 1, pos =>
    if pos ≤ len then
      if M (toInt32 pos) > (x : ℚ) then pos else clickPos M x len fuel (pos + 1)
    else pos

namespace EditField

/-- Method `Widget::SetCaption`, which `EditField` inherits: `caption = _c`.
The result is `none` where the assignment throws. -/
def SetCaption (env : MeasureEnv) (ef : EditField) (_c : StdString) : Option EditField :=
  (env.assign ef.caption _c).map (fun c => { ef with caption := c })

/-- Method `Widget::Clear`: `SetCaption ("")`. -/
def Clear (env : MeasureEnv) (ef : EditField) : Option EditField :=
  ef.SetCaption env []

/-- Constructor `EditField (_caption, _allowed, _maxLen, ..)`: the constructor
of `Widget` calls `SetCaption (_caption)` on the default caption, `maxLen`
takes the `unsigned` value `_maxLen`, and the caret is at the end. -/
def ctor (env : MeasureEnv) (_caption _allowed : StdString) (_maxLen : Nat) :
    Option EditField :=
  (env.assign CroppedString.ctorDefault _caption).map
    (fun c => { caption := c, allowedChars := _allowed, maxLen := _maxLen % UINT_MOD,
                bPwdMode := false, caretPos := _caption.length })

/-- Method `EditField::ClipCut`: the caption is cleared and the caret set to
0; the copy of the text to the clipboard is left out. -/
def ClipCut (ef : EditField) : EditField :=
  { ef with caption := ef.caption.clear, caretPos := 0 }

/-- Method `EditField::ClipPaste`; `clip` is the text that `clip::get_text`
yields, `none` if it returns false. The result is `none` where `insert`
throws. -/
def ClipPaste (env : MeasureEnv) (ef : EditField) (clip : Option StdString) :
    Option EditField :=
  match clip with
  | none => some ef
  | some s =>
    let cpyCnt :=
      min ((ef.maxLen + SIZE_MOD - ef.caption.sFull.length % SIZE_MOD) % SIZE_MOD) s.length
    if cpyCnt > 0 then
      let caretPos :=
        if ef.caretPos > ef.caption.sFull.length then ef.caption.sFull.length else ef.caretPos
      (env.insertSub ef.caption caretPos s 0 cpyCnt).map
        (fun c => { ef with caption := c, caretPos := (caretPos + cpyCnt) % SIZE_MOD })
    else some ef

/-- The first `switch` of `EditField::DoHandleKey`, entered for an event
without the flag `xplm_UpFlag`: the keys that erase and that move the caret.
The result is `none` where no case returns, `some none` where `erase`
throws, and `some (some ..)` with the field afterwards. -/
def editKeys (env : MeasureEnv) (ef : EditField) (inFlags inVirtualKey : Nat) :
    Option (Option EditField) :=
  if inFlags &&& xplm_UpFlag ≠ 0 then none
  else if inVirtualKey = XPLM_VK_BACK then
    some (if ef.caretPos > 0 then
      (env.erase ef.caption (ef.caretPos - 1) 1).map
        (fun c => { ef with caption := c, caretPos := ef.caretPos - 1 })
    else some ef)
  else if inVirtualKey = XPLM_VK_DELETE then
    some (if ef.caretPos < ef.caption.sFull.length then
      (env.erase ef.caption ef.caretPos 1).map (fun c => { ef with caption := c })
    else some ef)
  else if inVirtualKey = XPLM_VK_CLEAR then
    some (some { ef with caption := ef.caption.clear, caretPos := 0 })
  else if inVirtualKey = XPLM_VK_LEFT then
    some (some (if ef.caretPos > 0 then { ef with caretPos := ef.caretPos - 1 } else ef))
  else if inVirtualKey = XPLM_VK_RIGHT then
    some (some (if ef.caretPos < ef.caption.sFull.length then
      { ef with caretPos := ef.caretPos + 1 } else ef))
  else if inVirtualKey = XPLM_VK_HOME then some (some { ef with caretPos := 0 })
  else if inVirtualKey = XPLM_VK_END then
    some (some { ef with caretPos := ef.caption.sFull.length })
  else none

/-- The copy and paste key combinations of `EditField::DoHandleKey`; `clip` is
the text that the clipboard holds. The result is `none` where no case
returns. -/
def clipKeys (env : MeasureEnv) (ef : EditField) (clip : Option StdString)
    (inFlags inVirtualKey : Nat) : Option (Option EditField) :=
  if inFlags = (xplm_DownFlag ||| xplm_ControlFlag) then
    if inVirtualKey = XPLM_VK_INSERT ∨ inVirtualKey = XPLM_VK_C then some (some ef)
    else if inVirtualKey = XPLM_VK_X then some (some ef.ClipCut)
    else if inVirtualKey = XPLM_VK_V then some (ef.ClipPaste env clip)
    else none
  else if inFlags = (xplm_DownFlag ||| xplm_ShiftFlag) then
    if inVirtualKey = XPLM_VK_INSERT then some (ef.ClipPaste env clip) else none
  else none

/-- The last statement of `EditField::DoHandleKey`: a printable character that
is allowed is inserted at the caret while the caption is shorter than
`maxLen`. -/
def charKey (env : MeasureEnv) (ef : EditField) (inKey : Int) (inFlags : Nat) :
    Option EditField :=
  if inFlags &&& xplm_UpFlag = 0 ∧ inKey ≥ 32 ∧
      (ef.allowedChars = [] ∨ charCode inKey ∈ ef.allowedChars) ∧
      ef.caption.sFull.length < ef.maxLen then
    (env.insert ef.caption
        (if ef.caretPos > ef.caption.sFull.length then ef.caption.sFull.length else ef.caretPos)
        [charCode inKey]).map
      (fun c => { ef with
        caption := c
        caretPos :=
          (if ef.caretPos > ef.caption.sFull.length then ef.caption.sFull.length
            else ef.caretPos) + 1 })
  else some ef

/-- Method `EditField::DoHandleKey (inKey, inFlags, inVirtualKey)`; `clip` is
the text that the clipboard holds. The result is `none` where `erase` or
`insert` throws. -/
def DoHandleKey (env : MeasureEnv) (ef : EditField) (clip : Option StdString) (inKey : Int)
    (inFlags inVirtualKey : Nat) : Option EditField :=
  match ef.editKeys env inFlags inVirtualKey with
  | some r => r
  | none =>
    match ef.clipKeys env clip inFlags inVirtualKey with
    | some r => r
    | none => ef.charKey env inKey inFlags

/-- Method `EditField::GetDrawString`. -/
def GetDrawString (ef : EditField) : StdString :=
  if ef.bPwdMode then List.replicate ef.caption.sCropped.length 42 else ef.caption.sCropped

/-- Method `EditField::DoMouseClick`. -/
def DoMouseClick (env : MeasureEnv) (ef : EditField) (p : Point) (mouseBtn : MouseBtnTy)
    (inMouse : XPLMMouseStatus) : EditField :=
  if mouseBtn ≠ .MOUSE_LEFT ∨ inMouse ≠ .xplm_MouseDown then ef
  else
    let drawTxt := ef.GetDrawString
    let pos := clickPos (env.measure drawTxt) p.x drawTxt.length (drawTxt.length + 1) 0
    { ef with
      caretPos := (ef.caption.startPos + (if pos > 0 then pos - 1 else 0)) % SIZE_MOD }

end EditField

/-- The digits, the macro `CHR_NUM`. -/
def CHR_NUM : StdString := [49, 50, 51, 52, 53, 54, 55, 56, 57, 48]

/-- The text `hello`. -/
def exHello : StdString := [104, 101, 108, 108, 111]


/-- Constant `XPLM_VK_A` of the host. -/
def XPLM_VK_A : Nat := 65

/-- The edit field with the caption `hello`, any character allowed and at most
80 characters, after `SetCaption` with the text `hi`. -/
def exFieldHi : Option EditField :=
  (EditField.ctor exMeasureEnv exHello [] 80).bind (fun ef => ef.SetCaption exMeasureEnv [104, 105])

/-- The edit field with the caption `hello` after `Clear ()`. -/
def exFieldCleared : Option EditField :=
  (EditField.ctor exMeasureEnv exHello [] 80).bind (fun ef => ef.Clear exMeasureEnv)

/-- An edit field for digits with the caption `12` and at most 80 characters. -/
def exFieldDigits : Option EditField := EditField.ctor exMeasureEnv [49, 50] CHR_NUM 80

/-- An edit field constructed with the maximum length 0 and an empty
caption, any character allowed. -/
def exFieldUnlimited : Option EditField := EditField.ctor exMeasureEnv [] [] 0

/-- An edit field constructed with the maximum length 0 and the caption
`hello`. -/
def exFieldUnlimitedHello : Option EditField := EditField.ctor exMeasureEnv exHello [] 0

/-- What is looked at of an edit field: the full caption and the caret
position. -/
def EditField.view (ef : EditField) : StdString × Nat := (ef.caption.sFull, ef.caretPos)


/-! ## Sorts outside the contract of `std::sort`: example data -/

/-- Row A again, with a name only: "Cessna 172", identity token 1. -/
def exRowA3 : ListRow :=
  ListRow.ctor 1 [exStr [67, 101, 115, 115, 110, 97, 32, 49, 55, 50]]

/-- Seventeen rows that hold a name only, with the identity tokens 1 to 17. -/
def exShortRows : List ListRow :=
  (List.range 17).map (fun k => ListRow.ctor (k + 1) [exStr [65 + k]])

/-- The list box with the columns Name and Pax after `AddRow` for each of the
seventeen rows; it is not sorted, so no call sorts. -/
def exShort17 : ListBox :=
  exCols.applyRowOps (exShortRows.map RowOp.addRow)


/-! ## The geometry of the widgets and the layout pass (`TFW.h`, `TFW.cpp`) -/

/-- Operator `Rect::operator-`: the rectangle moved back by `ofs`. -/
def Rect.subPt (r : Rect) (ofs : Point) : Rect :=
  Rect.ctorPts (r.bl.sub ofs) (r.tr.sub ofs)

/-- Method `ButtonElem::SetGeometry`: `Rect::SetGeometry (_r)`, then
`Caption.SetWidth (size_t (std::max (_r.Width () - _r.Height () - 3, 0)))`;
`none` where `SetWidth` throws. -/
def ButtonElem.SetGeometry (env : MeasureEnv) (be : ButtonElem) (_r : Rect) :
    Option ButtonElem :=
  (env.SetWidth be.Caption (toSizeT (max (_r.Width - _r.Height - 3) 0))).map
    (fun c => { be with geo := Rect.SetGeometry be.geo _r, Caption := c })

namespace ButtonArray

/-- The loop of `ButtonArray::SetGeometry` over the elements, `btnRect` being
the rectangle of the first of them. -/
def geoLoop (env : MeasureEnv) (ba : ButtonArray) (horzSize : Int) :
    Rect → List ButtonElem → Option (List ButtonElem)
  | _, [] => some []
  | btnRect, elem :: rest =>
    match elem.SetGeometry env btnRect with
    | none => none
    | some elem1 =>
      let btnRect1 :=
        if ba.bVertical then btnRect.addAssign { x := 0, y := -(toInt32 ba.lnHeight) }
        else btnRect.addAssign { x := horzSize, y := 0 }
      (geoLoop env ba horzSize btnRect1 rest).map (fun rest1 => elem1 :: rest1)

/-- Method `ButtonArray::SetGeometry`, but for the first statement
`Rect::SetGeometry (_r)`, which writes the rectangle of the array: the
rectangles and texts of the elements. The result is `none` where the
`SetGeometry` of an element throws, or the division by `int (aBtns.size ())`
is one by zero. -/
def SetGeometry (env : MeasureEnv) (ba : ButtonArray) (_r : Rect) : Option ButtonArray :=
  let btnRect := _r.subPt _r.Tl
  let btnRect : Rect :=
    { btnRect with bl := { btnRect.bl with y := btnRect.Top - toInt32 ba.lnHeight } }
  let horzSize := btnRect.Width
  if !ba.bVertical ∧ ba.aBtns.length > 1 then
    if toInt32 ba.aBtns.length = 0 then none
    else
      let horzSize := Int.tdiv horzSize (toInt32 ba.aBtns.length)
      (geoLoop env ba horzSize (btnRect.SetRight (btnRect.Left + horzSize)) ba.aBtns).map
        (fun es => { ba with aBtns := es })
  else
    (geoLoop env ba horzSize btnRect ba.aBtns).map (fun es => { ba with aBtns := es })

end ButtonArray

/-- The virtual call `wa.w.SetGeometry (_r)` for the widget of `wa`; `none`
where the call does not return. `Label`, `Line`, `ButtonPush` and `EditField`
have `Widget::SetGeometry`: `Rect::SetGeometry (_r)`, then
`caption.SetWidth ((size_t) _r.Width ())`, which throws for a start position
beyond the text. `ButtonArray::SetGeometry` calls `Rect::SetGeometry (_r)`
and gives its elements their rectangles. `ListBox::SetGeometry` calls
`Widget::SetGeometry (_r)` and then computes the rows shown and crops the
texts of the list, where it can divide by a line height of zero and index a
row beyond its cells. `env` is the text measurement of the host, `fenv` what
the list box takes from the host. -/
def WidgetAddTy.SetGeometry (env : MeasureEnv) (fenv : FontEnv) (wa : WidgetAddTy) (_r : Rect) :
    Option WidgetAddTy :=
  match wa.st.kind with
  | .buttonArray =>
    (wa.st.array.SetGeometry env _r).map
      (fun ba => { wa with w := Rect.SetGeometry wa.w _r, st := { wa.st with array := ba } })
  | .listBox =>
    match env.SetWidth wa.st.caption (toSizeT _r.Width) with
    | none => none
    | some c =>
      (wa.st.list.SetGeometry fenv _r).map
        (fun lb =>
          { wa with w := Rect.SetGeometry wa.w _r, st := { wa.st with caption := c, list := lb } })
  | _ =>
    (env.SetWidth wa.st.caption (toSizeT _r.Width)).map
      (fun c => { wa with w := Rect.SetGeometry wa.w _r, st := { wa.st with caption := c } })

namespace MainWnd

/-- Body of the loop of `MainWnd::Layout`: the widget after the call of
`wa.w.SetGeometry`, with the invalid rectangle for degenerate edges and with
the computed edges otherwise; `none` where the call does not return. -/
def layoutWidget (env : MeasureEnv) (fenv : FontEnv) (mw : MainWnd)
    (prevWa : Option WidgetAddTy) (wa : WidgetAddTy) : Option WidgetAddTy :=
  let e := mw.layoutEdges prevWa wa
  if e.degenerate then wa.SetGeometry env fenv (Rect.ctor (-1) (-1) (-1) (-1))
  else wa.SetGeometry env fenv (Rect.ctor e._left e._top e._right e._bottom)

/-- The loop of `MainWnd::Layout` over the widgets in their order, `prevWa`
being the widget laid out before; `none` where a call of `SetGeometry` does
not return, which ends the loop. -/
def layoutLoop (env : MeasureEnv) (fenv : FontEnv) (mw : MainWnd) :
    Option WidgetAddTy → List WidgetAddTy → Option (List WidgetAddTy)
  | _, [] => some []
  | prevWa, wa :: rest =>
    match mw.layoutWidget env fenv prevWa wa with
    | none => none
    | some wa1 => (layoutLoop env fenv mw (some wa1) rest).map (fun rest1 => wa1 :: rest1)

/-- Method `MainWnd::Layout`. The result is `none` where the `SetGeometry` of
a widget does not return: the method is left there, before the widgets after
that one are laid out and before `bLayoutDirty` is reset. -/
def Layout (env : MeasureEnv) (fenv : FontEnv) (mw : MainWnd) : Option MainWnd :=
  (mw.layoutLoop env fenv none mw.widgets).map
    (fun ws => { mw with widgets := ws, bLayoutDirty := false })

/-- The widget laid out before the widget at position `i`: the start value
for the first widget, the result at position `i - 1` for the others. -/
def prevOf (prev0 : Option WidgetAddTy) (res : List WidgetAddTy) : Nat → Option WidgetAddTy
  | 0 => prev0
  | j + 1 => res[j]?

/-- Method `MainWnd::DoDraw`. `FetchGeometry` stores the coordinates
`hostGeo` that the host reports for the window. The calls of the host and
the drawing of the background are left out. The result is `none` where
`Layout` does not return; nothing is drawn then. -/
def DoDraw (env : MeasureEnv) (fenv : FontEnv) (mw : MainWnd) (hostGeo : Rect) :
    Option (MainWnd × List WidgetCall) :=
  let oldGeo := mw.geo
  let mw1 := { mw with geo := hostGeo }
  let mw2 := if oldGeo ≠ mw1.geo then { mw1 with bLayoutDirty := true } else mw1
  let mw3 : Option MainWnd := if mw2.bLayoutDirty then mw2.Layout env fenv else some mw2
  mw3.map (fun mw3 =>
    (mw3, mw3.drawLoop (mw3.geo.Tl.add { x := mw3.frameThick, y := -mw3.frameThick }) 0
      mw3.widgets))

end MainWnd

/-- The rectangles of the widgets of a window, as edges. -/
def MainWnd.rects (mw : MainWnd) : List (Int × Int × Int × Int) :=
  mw.widgets.map (fun wa => wa.w.edges)

/-- The cropped string `abcdef` of width 40 after `SetStartPos (3)`. At the
width 40 the five characters `abcde` fit, so that one character is cropped
and the mouse wheel of the edit field scrolls the text. -/
def exScrolled40 : CroppedString :=
  { sFull := exAbcdef, sCropped := [100, 101, 102], width := 40, startPos := 3 }

/-- An edit field with the caption `c`, the rules (absolute 0, after-previous
0, fixed-length 40, fixed-length 15) and the rectangle that these rules give
a first widget. -/
def exField (c : CroppedString) : WidgetAddTy :=
  { lR := .POS_ABSOLUTE, lO := 0, tR := .POS_AFTER_PRV, tO := 0,
    rR := .POS_FIXED_LEN, rO := 40, bR := .POS_FIXED_LEN, bO := 15,
    w := Rect.ctor 0 0 40 (-15), st := { kind := .editField, caption := c } }

/-- The edit field whose text was `abcdef`, cropped to the width 40 and
scrolled to the start position 3 with the mouse wheel, and has then been
emptied by `caption.clear ()`, as the key Clear and `ClipCut` do. -/
def exStaleField : WidgetAddTy := exField exScrolled40.clear

/-- The same edit field before its text is emptied. -/
def exScrolledField : WidgetAddTy := exField exScrolled40

/-- A label below the widget before it, 15 high, from the left edge to the
right edge of the window inside the frame (absolute 0, after-previous 0,
bottom-right 0, fixed-length 15), with the rectangle `r`. -/
def exWideLabel (r : Rect) : WidgetAddTy :=
  { lR := .POS_ABSOLUTE, lO := 0, tR := .POS_AFTER_PRV, tO := 0,
    rR := .POS_BOTTOM_RIGHT, rO := 0, bR := .POS_FIXED_LEN, bO := 15, w := r }

/-- A window (left 0, top 300, right 550, bottom 0, frame thickness 5) that
has just been made wider: it holds the emptied edit field and the wide label,
which has the rectangle that the pass gave it when the window was 400 wide. -/
def exStaleWnd : MainWnd :=
  { geo := Rect.ctor 0 300 550 0
    frameThick := 5
    widgets := [exStaleField, exWideLabel (Rect.ctor 0 (-15) 390 (-30))]
    bLayoutDirty := true }

/-- The same window with the text of the edit field not emptied. -/
def exScrolledWnd : MainWnd :=
  { exStaleWnd with widgets := [exScrolledField, exWideLabel (Rect.ctor 0 (-15) 390 (-30))] }

/-- A list box holding the list `lb`, 200 high, from the left edge to the
right edge of the window inside the frame (absolute 0, after-previous 0,
bottom-right 0, fixed-length 200), with the rectangle that the pass gave it
when the window was 400 wide. -/
def exWideList (lb : ListBox) : WidgetAddTy :=
  { lR := .POS_ABSOLUTE, lO := 0, tR := .POS_AFTER_PRV, tO := 0,
    rR := .POS_BOTTOM_RIGHT, rO := 0, bR := .POS_FIXED_LEN, bO := 200,
    w := Rect.ctor 0 0 390 (-200), st := { kind := .listBox, list := lb } }

/-- The window that has just been made wider, holding the wide list box with
the list `lb` and the wide label below it, both with the rectangles of the
window 400 wide. -/
def exListWnd (lb : ListBox) : MainWnd :=
  { geo := Rect.ctor 0 300 550 0
    frameThick := 5
    widgets := [exWideList lb, exWideLabel (Rect.ctor 0 (-200) 390 (-215))]
    bLayoutDirty := true }

/-- A list box with the rules of the list box of the example window that
holds the list with the short row S2. -/
def exShortListWidget : WidgetAddTy :=
  { exListWidget (Rect.ctor 0 0 0 0) with st := { kind := .listBox, list := exShort } }


/-- The fixed-length edges of the widget stand relative to its own opposite
edge: with a fixed-length right rule and another left rule, right is left +
`rO`; with a fixed-length bottom rule and another top rule, bottom is top -
`bO`; with a fixed-length left rule and another right rule, left is right -
`lO`; with a fixed-length top rule and another bottom rule, top is bottom +
`tO`. -/
def WidgetAddTy.fixedLenPlaced (wa : WidgetAddTy) : Prop :=
  (wa.rR = .POS_FIXED_LEN → wa.lR ≠ .POS_FIXED_LEN → wa.w.Right = wa.w.Left + wa.rO) ∧
  (wa.bR = .POS_FIXED_LEN → wa.tR ≠ .POS_FIXED_LEN → wa.w.Bottom = wa.w.Top - wa.bO) ∧
  (wa.lR = .POS_FIXED_LEN → wa.rR ≠ .POS_FIXED_LEN → wa.w.Left = wa.w.Right - wa.lO) ∧
  (wa.tR = .POS_FIXED_LEN → wa.bR ≠ .POS_FIXED_LEN → wa.w.Top = wa.w.Bottom + wa.tO)

/-- The rectangle that the loop body of `MainWnd::Layout` hands to
`SetGeometry` and that `Rect::SetGeometry` stores for the edges `e`: the
invalid rectangle for degenerate edges, the rectangle with the edges `e`
otherwise. -/
def LayoutEdges.rect (e : LayoutEdges) : Rect :=
  if e.degenerate then Rect.invalid
  else { bl := { x := e._left, y := e._bottom }, tr := { x := e._right, y := e._top } }


/-- What the loop body of `MainWnd::Layout` makes of a widget `wa` with two
fixed-length rules on one axis, `e` being the computed edges and `wa1` the
widget afterwards. With both horizontal rules fixed-length: left is `rO` and
right is `rO + lO`; the widget holds the invalid rectangle if `lO < 0` or the
computed bottom is above the computed top, and the rectangle with these edges
otherwise. With both vertical rules fixed-length: bottom is `tO - bO` and top
is `tO - bO + tO`; the widget holds the invalid rectangle if `tO < 0` or the
computed left is beyond the computed right, and the rectangle with these
edges otherwise. -/
def LayoutEdges.bothFixedResolved (e : LayoutEdges) (wa wa1 : WidgetAddTy) : Prop :=
  (wa.lR = .POS_FIXED_LEN → wa.rR = .POS_FIXED_LEN →
    e._left = wa.rO ∧ e._right = wa.rO + wa.lO ∧
    (wa.lO < 0 ∨ e._bottom > e._top → wa1.w = Rect.invalid) ∧
    (0 ≤ wa.lO → e._bottom ≤ e._top →
      wa1.w = { bl := { x := wa.rO, y := e._bottom },
                tr := { x := wa.rO + wa.lO, y := e._top } })) ∧
  (wa.tR = .POS_FIXED_LEN → wa.bR = .POS_FIXED_LEN →
    e._bottom = wa.tO - wa.bO ∧ e._top = wa.tO - wa.bO + wa.tO ∧
    (wa.tO < 0 ∨ e._left > e._right → wa1.w = Rect.invalid) ∧
    (0 ≤ wa.tO → e._left ≤ e._right →
      wa1.w = { bl := { x := e._left, y := wa.tO - wa.bO },
                tr := { x := e._right, y := wa.tO - wa.bO + wa.tO } }))

/-- The example window with the list box holding the list with the short
row S2 in place of the scenario list. -/
def exWndShort : MainWnd :=
  { exWnd with
    widgets :=
      [exLabel (Rect.ctor 0 0 0 0), exLabel (Rect.ctor 0 0 0 0), exLabel (Rect.ctor 0 0 0 0),
        exShortListWidget] }

end TFW

/-! ## Properties of the sort routine -/

namespace TFW

theorem sortInsert_perm {α : Type} (comp : α → α → Bool) (x : α) (l : List α) :
    (sortInsert comp x l).Perm (x :: l) := by
  induction l with
  | nil => exact List.Perm.refl _
  | cons y ys ih =>
    unfold sortInsert
    split
    · exact ((List.Perm.cons y ih).trans (List.Perm.swap x y ys))
    · exact List.Perm.refl _

theorem stdSort_perm {α : Type} (comp : α → α → Bool) (l : List α) :
    (stdSort comp l).Perm l := by
  induction l with
  | nil => exact List.Perm.refl _
  | cons x xs ih =>
    unfold stdSort
    exact (sortInsert_perm comp x _).trans (List.Perm.cons x ih)

theorem mem_stdSort {α : Type} (comp : α → α → Bool) (l : List α) (a : α) :
    a ∈ stdSort comp l ↔ a ∈ l :=
  (stdSort_perm comp l).mem_iff

theorem length_stdSort {α : Type} (comp : α → α → Bool) (l : List α) :
    (stdSort comp l).length = l.length :=
  (stdSort_perm comp l).length_eq

/-- The insertion looks at `comp y x` for the elements `y` of the list only. -/
theorem sortInsert_congr {α : Type} {comp comp2 : α → α → Bool} (x : α) (l : List α)
    (h : ∀ y ∈ l, comp y x = comp2 y x) : sortInsert comp x l = sortInsert comp2 x l := by
  induction l with
  | nil => rfl
  | cons y ys ih =>
    have hy : comp y x = comp2 y x := h y (List.mem_cons_self y ys)
    have ih2 := ih (fun z hz => h z (List.mem_cons_of_mem y hz))
    simp only [sortInsert, hy, ih2]

/-- The sort compares a later element with an earlier one only: two
comparisons that agree on these pairs sort alike. -/
theorem stdSort_congr {α : Type} {comp comp2 : α → α → Bool} (l : List α)
    (h : l.Pairwise (fun x y => comp y x = comp2 y x)) : stdSort comp l = stdSort comp2 l := by
  induction l with
  | nil => rfl
  | cons x xs ih =>
    rw [List.pairwise_cons] at h
    simp only [stdSort]
    rw [← ih h.2]
    exact sortInsert_congr x _ (fun y hy => h.1 y ((mem_stdSort comp xs y).mp hy))

theorem sortInsert_sorted_key {α β : Type} [LinearOrder β] (key : α → β) (x : α) (l : List α)
    (hl : l.Pairwise (fun a b => key a ≤ key b)) :
    (sortInsert (fun a b => decide (key a < key b)) x l).Pairwise (fun a b => key a ≤ key b) := by
  induction l with
  | nil => simp [sortInsert]
  | cons y ys ih =>
    rw [List.pairwise_cons] at hl
    unfold sortInsert
    split
    · rename_i hyx
      have hyx2 : key y < key x := by simpa using hyx
      rw [List.pairwise_cons]
      refine ⟨fun z hz => ?_, ih hl.2⟩
      rcases List.mem_cons.mp ((sortInsert_perm _ x ys).mem_iff.mp hz) with hzx | hzys
      · rw [hzx]; exact le_of_lt hyx2
      · exact hl.1 z hzys
    · rename_i hyx
      have hyx2 : key x ≤ key y := by simpa using hyx
      rw [List.pairwise_cons]
      refine ⟨fun z hz => ?_, List.pairwise_cons.mpr hl⟩
      rcases List.mem_cons.mp hz with h1 | h1
      · subst h1; exact hyx2
      · exact le_trans hyx2 (hl.1 z h1)

/-- A comparison that is `key a < key b` for a key into a linear order
sorts into non-decreasing order of the key. -/
theorem stdSort_sorted_key {α β : Type} [LinearOrder β] (key : α → β) (comp : α → α → Bool)
    (l : List α) (h : l.Pairwise (fun x y => comp y x = decide (key y < key x))) :
    (stdSort comp l).Pairwise (fun a b => key a ≤ key b) := by
  rw [stdSort_congr l h]
  clear h
  induction l with
  | nil => simp [stdSort]
  | cons x xs ih => exact sortInsert_sorted_key key x _ ih

/-- Distinct keys: the order is strict. -/
theorem stdSort_sorted_key_lt {α β : Type} [LinearOrder β] (key : α → β) (comp : α → α → Bool)
    (l : List α) (h : l.Pairwise (fun x y => comp y x = decide (key y < key x)))
    (hnd : (l.map key).Nodup) :
    (stdSort comp l).Pairwise (fun a b => key a < key b) := by
  have h1 := stdSort_sorted_key key comp l h
  have h2 : ((stdSort comp l).map key).Nodup :=
    ((stdSort_perm comp l).map key).nodup_iff.mpr hnd
  rw [List.Nodup, List.pairwise_map] at h2
  exact (h1.and h2).imp (fun hab => lt_of_le_of_ne hab.1 hab.2)

/-- The result of the sort does not depend on the algorithm: where the
comparison is `key a < key b` on different rows and the keys are distinct,
every arrangement of the rows in which no element is less than an earlier
one (the postcondition of `std::sort`) is the one that `stdSort` gives. -/
theorem stdSort_unique {α β : Type} [LinearOrder β] (key : α → β) (comp : α → α → Bool)
    (l l2 : List α) (hnd : (l.map key).Nodup)
    (hcomp : ∀ a ∈ l, ∀ b ∈ l, key a ≠ key b → comp a b = decide (key a < key b))
    (hperm : l2.Perm l) (hsorted : l2.Pairwise (fun a b => comp b a = false)) :
    l2 = stdSort comp l := by
  have hnd1 : l.Pairwise (fun a b => key a ≠ key b) := by
    rw [List.Nodup, List.pairwise_map] at hnd; exact hnd
  have hA : l.Pairwise (fun x y => comp y x = decide (key y < key x)) :=
    (List.Pairwise.and_mem.mp hnd1).imp (fun h => hcomp _ h.2.1 _ h.1 (Ne.symm h.2.2))
  have h1 := stdSort_sorted_key_lt key comp l hA hnd
  have hnd2 : l2.Pairwise (fun a b => key a ≠ key b) := by
    have : (l2.map key).Nodup := (hperm.map key).nodup_iff.mpr hnd
    rw [List.Nodup, List.pairwise_map] at this; exact this
  have h2 : l2.Pairwise (fun a b => key a < key b) := by
    refine (List.Pairwise.and_mem.mp (hsorted.and hnd2)).imp ?_
    intro a b hab
    obtain ⟨ha, hb, hba, hne⟩ := hab
    have := hcomp b (hperm.mem_iff.mp hb) a (hperm.mem_iff.mp ha) (Ne.symm hne)
    rw [hba] at this
    have hle : key a ≤ key b := by simpa using this.symm
    exact lt_of_le_of_ne hle hne
  haveI : IsAntisymm α (fun a b => key a < key b) :=
    ⟨fun a b hab hba => absurd hab (lt_asymm hba)⟩
  exact List.eq_of_perm_of_sorted (hperm.trans (stdSort_perm comp l).symm) h2 h1

/-! ## The comparison of rows -/

theorem ListRow.cells_getElem?_eq (r : ListRow) (c : Nat) (h : c < r.cells.length) :
    r.cells[c]? = some (r.cellAt c) := by
  simp [ListRow.cellAt, List.getD, List.getElem?_eq_getElem h]

theorem ListRow.cells_getElem_eq (r : ListRow) (c : Nat) (h : c < r.cells.length) :
    r.cells[c] = r.cellAt c := by
  simp [ListRow.cellAt, List.getD, List.getElem?_eq_getElem h]

theorem tieBrokenBy_string : TieBrokenBy .DTY_STRING (fun it => it.sVal.sFull) := by
  intro a b tb
  by_cases h1 : a.sVal.sFull < b.sVal.sFull
  · simp [ListItem.less, h1]
  · by_cases h2 : a.sVal.sFull = b.sVal.sFull <;> simp [ListItem.less, h1, h2]

theorem tieBrokenBy_checkbox : TieBrokenBy .DTY_CHECKBOX (fun it => it.iVal) := by
  intro a b tb
  by_cases h1 : a.iVal < b.iVal
  · simp [ListItem.less, h1]
  · by_cases h2 : a.iVal = b.iVal <;> simp [ListItem.less, h1, h2]

theorem tieBrokenBy_int : TieBrokenBy .DTY_INT (fun it => it.iVal) := by
  intro a b tb
  by_cases h1 : a.iVal < b.iVal
  · simp [ListItem.less, h1]
  · by_cases h2 : a.iVal = b.iVal <;> simp [ListItem.less, h1, h2]

theorem elemLess_ascending_key {β : Type} [LinearOrder β] (dt : DataTypeTy) (v : ListItem → β)
    (hv : TieBrokenBy dt v) (c : Nat) (r o : ListRow)
    (hr : c < r.cells.length) (ho : c < o.cells.length) :
    r.elemLess o c .SORT_ASCENDING dt = decide (rowKey v c r < rowKey v c o) := by
  have h1 : ¬ (c ≥ r.cells.length) := by omega
  have h2 : ¬ (c ≥ o.cells.length) := by omega
  simp only [ListRow.elemLess, h1, h2, dite_false, ↓reduceDIte]
  rw [ListRow.cells_getElem_eq r c hr, ListRow.cells_getElem_eq o c ho, hv]
  simp only [rowKey, Prod.Lex.lt_iff]
  by_cases h3 : v (r.cellAt c) < v (o.cellAt c)
  · simp [h3]
  · by_cases h4 : v (r.cellAt c) = v (o.cellAt c) <;> simp [h3, h4]

theorem elemLess_unsorted (dt : DataTypeTy) (c : Nat) (r o : ListRow) (s : SortingTy)
    (hs : s = .SORT_UNSORTED ∨ s = .SORT_UNSUPPORTED)
    (hr : c < r.cells.length) (ho : c < o.cells.length) :
    r.elemLess o c s dt = decide (r.sequNr < o.sequNr) := by
  have h1 : ¬ (c ≥ r.cells.length) := by omega
  have h2 : ¬ (c ≥ o.cells.length) := by omega
  rcases hs with hs | hs <;> subst hs <;>
    simp only [ListRow.elemLess, h1, h2, dite_false, ↓reduceDIte]

/-! ## What the operations leave untouched -/

namespace ListBox

theorem MakeSelVisible_rows (lb : ListBox) : lb.MakeSelVisible.rows = lb.rows := by
  simp only [MakeSelVisible]; split_ifs <;> rfl

theorem MakeSelVisible_cols (lb : ListBox) : lb.MakeSelVisible.cols = lb.cols := by
  simp only [MakeSelVisible]; split_ifs <;> rfl

theorem MakeSelVisible_sorted (lb : ListBox) : lb.MakeSelVisible.sorted = lb.sorted := by
  simp only [MakeSelVisible]; split_ifs <;> rfl

theorem MakeSelVisible_sortedBy (lb : ListBox) : lb.MakeSelVisible.sortedBy = lb.sortedBy := by
  simp only [MakeSelVisible]; split_ifs <;> rfl

theorem MakeSelVisible_sequRow (lb : ListBox) : lb.MakeSelVisible.sequRow = lb.sequRow := by
  simp only [MakeSelVisible]; split_ifs <;> rfl

theorem MakeSelVisible_selRefCon (lb : ListBox) :
    lb.MakeSelVisible.selRefCon = lb.selRefCon := by
  simp only [MakeSelVisible]; split_ifs <;> rfl

/-- The rows after `DoSort`, for a sort column that exists. -/
theorem DoSort_rows (lb : ListBox) (cd : ListColumnDef) (h : lb.cols[lb.sortedBy]? = some cd) :
    lb.DoSort.rows =
      stdSort (fun r1 r2 => r1.elemLess r2 lb.sortedBy lb.sorted cd.dataType) lb.rows := by
  have hlt : lb.sortedBy < lb.cols.length := by
    rcases List.getElem?_eq_some_iff.mp h with ⟨h1, _⟩; exact h1
  have hcd : lb.cols[lb.sortedBy] = cd := by
    rcases List.getElem?_eq_some_iff.mp h with ⟨_, h2⟩; exact h2
  have h1 : ¬ (lb.sortedBy ≥ lb.cols.length) := by omega
  simp only [DoSort, h1, ↓reduceDIte, MakeSelVisible_rows, hcd]

theorem DoSort_rows_perm (lb : ListBox) : lb.DoSort.rows.Perm lb.rows := by
  unfold DoSort
  split
  · exact List.Perm.refl _
  · rw [MakeSelVisible_rows]; exact stdSort_perm _ _

theorem DoSort_cols (lb : ListBox) : lb.DoSort.cols = lb.cols := by
  unfold DoSort; split
  · rfl
  · rw [MakeSelVisible_cols]

theorem DoSort_sorted (lb : ListBox) : lb.DoSort.sorted = lb.sorted := by
  unfold DoSort; split
  · rfl
  · rw [MakeSelVisible_sorted]

theorem DoSort_sortedBy (lb : ListBox) : lb.DoSort.sortedBy = lb.sortedBy := by
  unfold DoSort; split
  · rfl
  · rw [MakeSelVisible_sortedBy]

theorem DoSort_sequRow (lb : ListBox) : lb.DoSort.sequRow = lb.sequRow := by
  unfold DoSort; split
  · rfl
  · rw [MakeSelVisible_sequRow]

/-- The rows after `SetSorting` to a direction other than "unsupported", on
a column that exists and has a data type, where this changes the setting. -/
theorem SetSorting_rows (lb : ListBox) (c : Nat) (s : SortingTy) (cd : ListColumnDef)
    (hcd : lb.cols[c]? = some cd) (hdt : cd.dataType ≠ .DTY_NULL)
    (hs : s ≠ .SORT_UNSUPPORTED) (hchg : ¬ (lb.sortedBy = c ∧ lb.sorted = s)) :
    (lb.SetSorting c s).rows =
      stdSort (fun r1 r2 => r1.elemLess r2 c s cd.dataType) lb.rows := by
  have hlt : c < lb.cols.length := by
    rcases List.getElem?_eq_some_iff.mp hcd with ⟨h1, _⟩; exact h1
  have hcd2 : lb.cols[c] = cd := by
    rcases List.getElem?_eq_some_iff.mp hcd with ⟨_, h2⟩; exact h2
  have h1 : ¬ (c ≥ lb.cols.length) := by omega
  simp only [SetSorting, hs, if_false, hchg, h1, ↓reduceDIte, hcd2, hdt]
  rw [DoSort_rows _ cd (by simpa using hcd)]

theorem SetSorting_rows_perm (lb : ListBox) (c : Nat) (s : SortingTy) :
    (lb.SetSorting c s).rows.Perm lb.rows := by
  simp only [SetSorting]
  split_ifs
  all_goals first
    | exact List.Perm.refl _
    | exact DoSort_rows_perm _
    | (rename_i h3
       by_cases h4 : (lb.cols.get ⟨_, Nat.lt_of_not_le h3⟩).dataType = DataTypeTy.DTY_NULL
       · simp only [List.get_eq_getElem] at h4
         rw [if_pos h4]
       · simp only [List.get_eq_getElem] at h4
         rw [if_neg h4]; exact DoSort_rows_perm _)

end ListBox

/-! ## Sorting ascending -/

theorem rowKey_le_iff {β : Type} [LinearOrder β] (v : ListItem → β) (c : Nat) (a b : ListRow) :
    rowKey v c a ≤ rowKey v c b ↔
      v (a.cellAt c) < v (b.cellAt c) ∨ (v (a.cellAt c) = v (b.cellAt c) ∧ a.sequNr ≤ b.sequNr) := by
  simp only [rowKey, Prod.Lex.le_iff]

theorem rowKey_lt_iff {β : Type} [LinearOrder β] (v : ListItem → β) (c : Nat) (a b : ListRow) :
    rowKey v c a < rowKey v c b ↔
      v (a.cellAt c) < v (b.cellAt c) ∨ (v (a.cellAt c) = v (b.cellAt c) ∧ a.sequNr < b.sequNr) := by
  simp only [rowKey, Prod.Lex.lt_iff]

/-- Rows with distinct sequence numbers have distinct keys. -/
theorem rowKey_nodup {β : Type} (v : ListItem → β) (c : Nat) (rows : List ListRow)
    (h : (rows.map (fun r => r.sequNr)).Nodup) : (rows.map (rowKey v c)).Nodup := by
  have h2 : rows.map (fun r => r.sequNr) =
      (rows.map (rowKey v c)).map (fun k => (ofLex k).2) := by
    rw [List.map_map]; rfl
  rw [h2] at h
  exact List.Nodup.of_map _ h

/-- The ascending sort arranges rows that all hold a cell for the column in
non-decreasing order of the key (value, sequence number). -/
theorem sort_ascending_key {β : Type} [LinearOrder β] (dt : DataTypeTy) (v : ListItem → β)
    (hv : TieBrokenBy dt v) (c : Nat) (rows : List ListRow)
    (hcells : ∀ r ∈ rows, c < r.cells.length) :
    (stdSort (fun r1 r2 => r1.elemLess r2 c .SORT_ASCENDING dt) rows).Pairwise
      (fun a b => rowKey v c a ≤ rowKey v c b) := by
  apply stdSort_sorted_key
  apply List.pairwise_of_forall_mem_list
  intro a ha b hb
  exact elemLess_ascending_key dt v hv c b a (hcells b hb) (hcells a ha)

/-- The same, for rows with distinct sequence numbers: the order is strict. -/
theorem sort_ascending_key_lt {β : Type} [LinearOrder β] (dt : DataTypeTy) (v : ListItem → β)
    (hv : TieBrokenBy dt v) (c : Nat) (rows : List ListRow)
    (hcells : ∀ r ∈ rows, c < r.cells.length)
    (hseq : (rows.map (fun r => r.sequNr)).Nodup) :
    (stdSort (fun r1 r2 => r1.elemLess r2 c .SORT_ASCENDING dt) rows).Pairwise
      (fun a b => rowKey v c a < rowKey v c b) := by
  apply stdSort_sorted_key_lt
  · apply List.pairwise_of_forall_mem_list
    intro a ha b hb
    exact elemLess_ascending_key dt v hv c b a (hcells b hb) (hcells a ha)
  · exact rowKey_nodup v c rows hseq

/-- From the order of the keys to the order of the values. -/
theorem ascOrdered_of_key {β : Type} [LinearOrder β] (dt : DataTypeTy) (v : ListItem → β)
    (hlt : ∀ x y, valLt dt x y ↔ v x < v y) (heq : ∀ x y, valEq dt x y ↔ v x = v y)
    (c : Nat) (a b : ListRow) (ha : c < a.cells.length) (hb : c < b.cells.length)
    (h : rowKey v c a ≤ rowKey v c b) : ascOrdered dt c a b := by
  refine ⟨a.cellAt c, b.cellAt c, a.cells_getElem?_eq c ha, b.cells_getElem?_eq c hb, ?_⟩
  rw [hlt, heq]
  exact (rowKey_le_iff v c a b).mp h

theorem ascOrderedStrict_of_key {β : Type} [LinearOrder β] (dt : DataTypeTy) (v : ListItem → β)
    (hlt : ∀ x y, valLt dt x y ↔ v x < v y) (heq : ∀ x y, valEq dt x y ↔ v x = v y)
    (c : Nat) (a b : ListRow) (ha : c < a.cells.length) (hb : c < b.cells.length)
    (h : rowKey v c a < rowKey v c b) : ascOrderedStrict dt c a b := by
  refine ⟨a.cellAt c, b.cellAt c, a.cells_getElem?_eq c ha, b.cells_getElem?_eq c hb, ?_⟩
  rw [hlt, heq]
  exact (rowKey_lt_iff v c a b).mp h

/-- The ascending sort, in the words of the values, for one data type. -/
theorem sort_ascending_ordered {β : Type} [LinearOrder β] (dt : DataTypeTy) (v : ListItem → β)
    (hv : TieBrokenBy dt v)
    (hlt : ∀ x y, valLt dt x y ↔ v x < v y) (heq : ∀ x y, valEq dt x y ↔ v x = v y)
    (c : Nat) (rows : List ListRow) (hcells : ∀ r ∈ rows, c < r.cells.length) :
    (stdSort (fun r1 r2 => r1.elemLess r2 c .SORT_ASCENDING dt) rows).Pairwise (ascOrdered dt c) ∧
    ((rows.map (fun r => r.sequNr)).Nodup →
      (stdSort (fun r1 r2 => r1.elemLess r2 c .SORT_ASCENDING dt) rows).Pairwise
        (ascOrderedStrict dt c)) := by
  have hmem : ∀ r ∈ stdSort (fun r1 r2 => r1.elemLess r2 c .SORT_ASCENDING dt) rows,
      c < r.cells.length := fun r hr => hcells r ((mem_stdSort _ rows r).mp hr)
  constructor
  · refine (List.Pairwise.and_mem.mp (sort_ascending_key dt v hv c rows hcells)).imp ?_
    intro a b hab
    exact ascOrdered_of_key dt v hlt heq c a b (hmem a hab.1) (hmem b hab.2.1) hab.2.2
  · intro hseq
    refine (List.Pairwise.and_mem.mp (sort_ascending_key_lt dt v hv c rows hcells hseq)).imp ?_
    intro a b hab
    exact ascOrderedStrict_of_key dt v hlt heq c a b (hmem a hab.1) (hmem b hab.2.1) hab.2.2

/-- The ascending sort, in the words of the values, for the string, check
box and integer columns. -/
theorem sort_ascending_tieBroken (dt : DataTypeTy) (hdt : dt.isTieBroken)
    (c : Nat) (rows : List ListRow) (hcells : ∀ r ∈ rows, c < r.cells.length) :
    (stdSort (fun r1 r2 => r1.elemLess r2 c .SORT_ASCENDING dt) rows).Pairwise (ascOrdered dt c) ∧
    ((rows.map (fun r => r.sequNr)).Nodup →
      (stdSort (fun r1 r2 => r1.elemLess r2 c .SORT_ASCENDING dt) rows).Pairwise
        (ascOrderedStrict dt c)) := by
  rcases hdt with h | h | h <;> subst h
  · exact sort_ascending_ordered _ (fun it => it.sVal.sFull) tieBrokenBy_string
      (fun _ _ => Iff.rfl) (fun _ _ => Iff.rfl) c rows hcells
  · exact sort_ascending_ordered _ (fun it => it.iVal) tieBrokenBy_checkbox
      (fun _ _ => Iff.rfl) (fun _ _ => Iff.rfl) c rows hcells
  · exact sort_ascending_ordered _ (fun it => it.iVal) tieBrokenBy_int
      (fun _ _ => Iff.rfl) (fun _ _ => Iff.rfl) c rows hcells

/-- Claim C1. On a list box that is not sorted yet, `SetSorting (c, SORT_ASCENDING)`
for a string, check box or integer column `c` for which every row holds a cell
leaves the same rows (a permutation of the rows before), arranged in
non-decreasing order of the value in column `c`, rows of equal value in
ascending order of the sequence number (strictly ascending where the sequence
numbers are distinct). The rows A (Pax 2), B (Pax 186), C (Pax 70), inserted
in this order and sorted ascending by Pax, come out as A, C, B. -/
theorem C1_SetSorting_ascending (lb : ListBox) (c : Nat) (cd : ListColumnDef)
    (hcol : lb.cols[c]? = some cd) (hdt : cd.dataType.isTieBroken)
    (huns : lb.sorted = .SORT_UNSORTED)
    (hcells : ∀ r ∈ lb.rows, c < r.cells.length) :
    (lb.SetSorting c .SORT_ASCENDING).rows.Perm lb.rows ∧
    (lb.SetSorting c .SORT_ASCENDING).rows.Pairwise (ascOrdered cd.dataType c) ∧
    ((lb.rows.map (fun r => r.sequNr)).Nodup →
      (lb.SetSorting c .SORT_ASCENDING).rows.Pairwise (ascOrderedStrict cd.dataType c)) ∧
    (exABC.rows.map (fun r => r.refCon) = [1, 2, 3] ∧
      (exABC.SetSorting 1 .SORT_ASCENDING).rows.map (fun r => r.refCon) = [1, 3, 2]) := by
  have hnn : cd.dataType ≠ .DTY_NULL := by
    rcases hdt with h | h | h <;> rw [h] <;> decide
  have hrows := ListBox.SetSorting_rows lb c .SORT_ASCENDING cd hcol hnn (by decide)
    (by rw [huns]; intro h; exact absurd h.2 (by decide))
  refine ⟨ListBox.SetSorting_rows_perm lb c _, ?_, ?_, by decide, by decide⟩
  · rw [hrows]; exact (sort_ascending_tieBroken cd.dataType hdt c lb.rows hcells).1
  · rw [hrows]; exact (sort_ascending_tieBroken cd.dataType hdt c lb.rows hcells).2

/-- Claim C1 at the scenario list, sorted by the integer column Pax. -/
theorem C1_SetSorting_ascending_witness :
    (exABC.SetSorting 1 .SORT_ASCENDING).rows.Perm exABC.rows ∧
    (exABC.SetSorting 1 .SORT_ASCENDING).rows.Pairwise (ascOrdered .DTY_INT 1) :=
  have h := C1_SetSorting_ascending exABC 1 (exCol [80, 97, 120] 30 .DTY_INT) (by decide)
    (Or.inr (Or.inr rfl)) (by decide) (by decide)
  ⟨h.1, h.2.1⟩

/-! ## Value ties -/

/-- Claim C3, refuted as stated. T1 and T2 hold the same value 5 in the
sorted column and T1 has the smaller sequence number; after sorting
descending, T2 stands before T1. -/
theorem C3_descending_ties_counterexample :
    exTie.rows.map (fun r => (r.refCon, r.sequNr, (r.cellAt 1).iVal)) =
      [(1, 1, 5), (2, 2, 5)] ∧
    (exTie.SetSorting 1 .SORT_DESCENDING).rows.map
      (fun r => (r.refCon, r.sequNr, (r.cellAt 1).iVal)) = [(2, 2, 5), (1, 1, 5)] := by
  decide

/-! ## Equal values and the data types -/

/-- For the string, check box and integer columns, equal values are ordered
by the sequence number. -/
theorem elemLess_tie_ascending (dt : DataTypeTy) (hdt : dt.isTieBroken) (c : Nat)
    (a b : ListRow) (ha : c < a.cells.length) (hb : c < b.cells.length)
    (hval : valEq dt (a.cellAt c) (b.cellAt c)) (hab : a.sequNr < b.sequNr) :
    a.elemLess b c .SORT_ASCENDING dt = true ∧ b.elemLess a c .SORT_ASCENDING dt = false := by
  have hba : ¬ (b.sequNr < a.sequNr) := by omega
  rcases hdt with h | h | h <;> subst h
  · have hval2 : (a.cellAt c).sVal.sFull = (b.cellAt c).sVal.sFull := hval
    rw [elemLess_ascending_key _ _ tieBrokenBy_string c a b ha hb,
      elemLess_ascending_key _ _ tieBrokenBy_string c b a hb ha]
    simp [rowKey_lt_iff, hval2, hab, hba]
  · have hval2 : (a.cellAt c).iVal = (b.cellAt c).iVal := hval
    rw [elemLess_ascending_key _ _ tieBrokenBy_checkbox c a b ha hb,
      elemLess_ascending_key _ _ tieBrokenBy_checkbox c b a hb ha]
    simp [rowKey_lt_iff, hval2, hab, hba]
  · have hval2 : (a.cellAt c).iVal = (b.cellAt c).iVal := hval
    rw [elemLess_ascending_key _ _ tieBrokenBy_int c a b ha hb,
      elemLess_ascending_key _ _ tieBrokenBy_int c b a hb ha]
    simp [rowKey_lt_iff, hval2, hab, hba]

/-- Where both rows hold a cell for the column, the descending comparison is
the negation of the ascending one. -/
theorem elemLess_descending_not (dt : DataTypeTy) (c : Nat) (a b : ListRow)
    (ha : c < a.cells.length) (hb : c < b.cells.length) :
    a.elemLess b c .SORT_DESCENDING dt = !a.elemLess b c .SORT_ASCENDING dt := by
  have h1 : ¬ (c ≥ a.cells.length) := by omega
  have h2 : ¬ (c ≥ b.cells.length) := by omega
  simp only [ListRow.elemLess, h1, h2, ↓reduceDIte]

/-- Claim C3, amended. Two rows `a` and `b` hold the same value in a string,
check box or integer column `c`, `a` with the smaller sequence number. Under
the ascending comparison `a` is less than `b` and `b` is not less than `a`:
insertion sequence decides. Under the descending comparison it is the other
way round, `b` is less than `a` and `a` is not less than `b`: the direction
negates the whole comparison, the tie-break included, so the comparison by
which the list is sorted swaps value ties like every other pair of rows. -/
theorem C3_descending_comparison_inverts_ties (dt : DataTypeTy) (hdt : dt.isTieBroken) (c : Nat)
    (a b : ListRow) (ha : c < a.cells.length) (hb : c < b.cells.length)
    (hval : valEq dt (a.cellAt c) (b.cellAt c)) (hab : a.sequNr < b.sequNr) :
    (a.elemLess b c .SORT_ASCENDING dt = true ∧ b.elemLess a c .SORT_ASCENDING dt = false) ∧
    (b.elemLess a c .SORT_DESCENDING dt = true ∧ a.elemLess b c .SORT_DESCENDING dt = false) := by
  have h := elemLess_tie_ascending dt hdt c a b ha hb hval hab
  refine ⟨h, ?_, ?_⟩
  · rw [elemLess_descending_not dt c b a hb ha, h.2]; rfl
  · rw [elemLess_descending_not dt c a b ha hb, h.1]; rfl

/-- Claim C3, amended, at the rows T1 and T2, which both hold 5 passengers:
under the descending comparison T2 is less than T1, and T1 is not less than
T2. -/
theorem C3_descending_comparison_inverts_ties_witness :
    (exRowT2.SetSequNr 2).elemLess (exRowT1.SetSequNr 1) 1 .SORT_DESCENDING .DTY_INT = true ∧
    (exRowT1.SetSequNr 1).elemLess (exRowT2.SetSequNr 2) 1 .SORT_DESCENDING .DTY_INT = false :=
  (C3_descending_comparison_inverts_ties .DTY_INT (Or.inr (Or.inr rfl)) 1
    (exRowT1.SetSequNr 1) (exRowT2.SetSequNr 2) (by decide) (by decide) rfl (by decide)).2

/-- For a double column, equal values are not ordered at all: neither row is
less than the other, whatever the sequence numbers. -/
theorem elemLess_tie_double (c : Nat) (a b : ListRow)
    (ha : c < a.cells.length) (hb : c < b.cells.length)
    (hval : valEq .DTY_DOUBLE (a.cellAt c) (b.cellAt c)) :
    a.elemLess b c .SORT_ASCENDING .DTY_DOUBLE = false ∧
    b.elemLess a c .SORT_ASCENDING .DTY_DOUBLE = false := by
  have h1 : ¬ (c ≥ a.cells.length) := by omega
  have h2 : ¬ (c ≥ b.cells.length) := by omega
  have hval2 : (a.cellAt c).dVal = (b.cellAt c).dVal := hval
  simp only [ListRow.elemLess, h1, h2, ↓reduceDIte, ListItem.less,
    ListRow.cells_getElem_eq a c ha, ListRow.cells_getElem_eq b c hb, hval2]
  simp

/-- Claim C4, at the failing input. F1 and F2 hold the same double value
412.00 in column 1 and F1 has the smaller sequence number, yet the ascending
comparison does not put F1 before F2: `elemLess` is false in both directions.
The same two rows compared as integers (both hold the integer 0) are ordered
by the sequence number. -/
theorem C4_double_tie_not_broken :
    exFuel.rows = [exRowF1.SetSequNr 1, exRowF2.SetSequNr 2] ∧
    ((exRowF1.SetSequNr 1).cellAt 1).dVal = ((exRowF2.SetSequNr 2).cellAt 1).dVal ∧
    (exRowF1.SetSequNr 1).elemLess (exRowF2.SetSequNr 2) 1 .SORT_ASCENDING .DTY_DOUBLE = false ∧
    (exRowF2.SetSequNr 2).elemLess (exRowF1.SetSequNr 1) 1 .SORT_ASCENDING .DTY_DOUBLE = false ∧
    (exRowF1.SetSequNr 1).elemLess (exRowF2.SetSequNr 2) 1 .SORT_ASCENDING .DTY_INT = true := by
  decide

/-! ## Upsert -/

namespace ListBox

theorem FindRowIdx_lt_iff (lb : ListBox) (rc : Nat) :
    lb.FindRowIdx rc < lb.rows.length ↔ ∃ x ∈ lb.rows, x.refCon = rc := by
  simp [FindRowIdx, List.findIdx_lt_length]

theorem FindRowIdx_refCon (lb : ListBox) (rc : Nat) (h : lb.FindRowIdx rc < lb.rows.length) :
    (lb.rows[lb.FindRowIdx rc]).refCon = rc := by
  have := @List.findIdx_getElem ListRow (fun r : ListRow => decide (r.refCon = rc)) lb.rows h
  simpa using this

/-- Overwriting the row at a position is overwriting the row with that
identity token, where the tokens are distinct. -/
theorem set_eq_map_of_nodup (rows : List ListRow) (a : ListRow) (rc : Nat) :
    ∀ (i : Nat) (h : i < rows.length), (rows[i]).refCon = rc →
      (rows.map (fun r => r.refCon)).Nodup →
      rows.set i a = rows.map (fun y => if y.refCon = rc then a else y) := by
  induction rows with
  | nil => intro i h; simp at h
  | cons x xs ih =>
    intro i h hrc hnd
    rw [List.map_cons, List.nodup_cons] at hnd
    cases i with
    | zero =>
      have hx : x.refCon = rc := by simpa using hrc
      have hxs : xs.map (fun y => if y.refCon = rc then a else y) = xs := by
        conv_rhs => rw [← List.map_id xs]
        apply List.map_congr_left
        intro y hy
        have : y.refCon ≠ rc := by
          intro hyrc
          apply hnd.1
          rw [hx, ← hyrc]
          exact List.mem_map_of_mem (fun r => r.refCon) hy
        simp [this]
      simp [hx, hxs]
    | succ j =>
      have hj : j < xs.length := by simpa using h
      have hrc2 : (xs[j]).refCon = rc := by simpa using hrc
      have hx : x.refCon ≠ rc := by
        intro hxrc
        apply hnd.1
        rw [hxrc, ← hrc2]
        exact List.mem_map_of_mem (fun r => r.refCon) (List.getElem_mem hj)
      simp [hx, ih j hj hrc2 hnd.2]

/-- Method `AddRow` for a row whose identity token is stored already: the
stored row is overwritten, then the rows are sorted if a sort is active. -/
theorem AddRow_found (lb : ListBox) (row x0 : ListRow)
    (hnd : (lb.rows.map (fun r => r.refCon)).Nodup)
    (hx0 : x0 ∈ lb.rows) (hrc : x0.refCon = row.refCon) :
    (lb.AddRow row).lb =
      (if lb.sorted.toInt > SortingTy.SORT_UNSORTED.toInt then DoSort (lb.overwritten row x0)
        else lb.overwritten row x0) ∧
    (lb.AddRow row).iter = lb.FindRowIdx row.refCon ∧
    lb.FindRowIdx row.refCon < lb.rows.length := by
  have hlt : lb.FindRowIdx row.refCon < lb.rows.length :=
    (FindRowIdx_lt_iff lb row.refCon).mpr ⟨x0, hx0, hrc⟩
  have hrc2 := FindRowIdx_refCon lb row.refCon hlt
  have hx : lb.rows[lb.FindRowIdx row.refCon] = x0 :=
    List.inj_on_of_nodup_map hnd (List.getElem_mem hlt) hx0 (hrc2.trans hrc.symm)
  have hset := set_eq_map_of_nodup lb.rows (row.SetSequNr x0.sequNr) row.refCon
    (lb.FindRowIdx row.refCon) hlt hrc2 hnd
  simp only [AddRow, hlt, ↓reduceDIte, hx, hset, overwritten]
  refine ⟨?_, ?_, trivial⟩
  · split_ifs <;> rfl
  · split_ifs <;> rfl

/-- Method `AddRow` for a row whose identity token is new: the row is
appended with the next sequence number, then the rows are sorted if a sort is
active. -/
theorem AddRow_new (lb : ListBox) (row : ListRow)
    (hnew : ∀ y ∈ lb.rows, y.refCon ≠ row.refCon) :
    (lb.AddRow row).lb =
      (if lb.sorted.toInt > SortingTy.SORT_UNSORTED.toInt then DoSort (lb.appended row)
        else lb.appended row) ∧
    (lb.AddRow row).iter = lb.rows.length := by
  have hnlt : ¬ (lb.FindRowIdx row.refCon < lb.rows.length) := by
    rw [FindRowIdx_lt_iff]
    rintro ⟨x, hx, hxrc⟩
    exact hnew x hx hxrc
  simp only [AddRow, hnlt, ↓reduceDIte, appended]
  constructor
  · split_ifs <;> rfl
  · split_ifs <;> rfl

/-- The rows after `AddRow`, up to their order, for a stored identity token. -/
theorem AddRow_found_perm (lb : ListBox) (row x0 : ListRow)
    (hnd : (lb.rows.map (fun r => r.refCon)).Nodup)
    (hx0 : x0 ∈ lb.rows) (hrc : x0.refCon = row.refCon) :
    (lb.AddRow row).lb.rows.Perm
      (lb.rows.map (fun y => if y.refCon = row.refCon then row.SetSequNr x0.sequNr else y)) ∧
    (lb.AddRow row).lb.sequRow = lb.sequRow := by
  rw [(AddRow_found lb row x0 hnd hx0 hrc).1]
  split_ifs
  · exact ⟨DoSort_rows_perm _, DoSort_sequRow _⟩
  · exact ⟨List.Perm.refl _, rfl⟩

/-- The rows after `AddRow`, up to their order, for a new identity token. -/
theorem AddRow_new_perm (lb : ListBox) (row : ListRow)
    (hnew : ∀ y ∈ lb.rows, y.refCon ≠ row.refCon) :
    (lb.AddRow row).lb.rows.Perm
      (lb.rows ++ [row.SetSequNr ((lb.sequRow + 1) % UINT_MOD)]) ∧
    (lb.AddRow row).lb.sequRow = (lb.sequRow + 1) % UINT_MOD := by
  rw [(AddRow_new lb row hnew).1]
  split_ifs
  · exact ⟨DoSort_rows_perm _, DoSort_sequRow _⟩
  · exact ⟨List.Perm.refl _, rfl⟩

/-- Method `AddRow` keeps the identity tokens of the stored rows distinct. -/
theorem AddRow_nodup (lb : ListBox) (row : ListRow)
    (hnd : (lb.rows.map (fun r => r.refCon)).Nodup) :
    ((lb.AddRow row).lb.rows.map (fun r => r.refCon)).Nodup := by
  by_cases hex : ∃ x ∈ lb.rows, x.refCon = row.refCon
  · obtain ⟨x0, hx0, hrc⟩ := hex
    have hp := (AddRow_found_perm lb row x0 hnd hx0 hrc).1
    rw [(hp.map _).nodup_iff, List.map_map]
    have : ((fun r : ListRow => r.refCon) ∘
        fun y => if y.refCon = row.refCon then row.SetSequNr x0.sequNr else y) =
        fun r => r.refCon := by
      funext y
      by_cases hy : y.refCon = row.refCon <;> simp [hy, ListRow.SetSequNr]
    rw [this]; exact hnd
  · have hnew : ∀ y ∈ lb.rows, y.refCon ≠ row.refCon := fun y hy hyrc => hex ⟨y, hy, hyrc⟩
    have hp := (AddRow_new_perm lb row hnew).1
    rw [(hp.map _).nodup_iff, List.map_append, List.nodup_append]
    refine ⟨hnd, by simp, ?_⟩
    intro a ha hb
    simp only [List.map_cons, List.map_nil, List.mem_singleton, ListRow.SetSequNr] at hb
    obtain ⟨y, hy, hya⟩ := List.mem_map.mp ha
    exact hnew y hy (hya.trans hb)

theorem SetSorting_nodup (lb : ListBox) (c : Nat) (s : SortingTy)
    (hnd : (lb.rows.map (fun r => r.refCon)).Nodup) :
    ((lb.SetSorting c s).rows.map (fun r => r.refCon)).Nodup :=
  (((SetSorting_rows_perm lb c s).map _).nodup_iff).mpr hnd

end ListBox

/-- Method `AddRow` leaves the rows with another identity token as they are. -/
theorem ListBox.AddRow_mem_of_ne (lb : ListBox) (r : ListRow)
    (hnd : (lb.rows.map (fun x => x.refCon)).Nodup) (y : ListRow) (hy : y.refCon ≠ r.refCon) :
    y ∈ (lb.AddRow r).lb.rows ↔ y ∈ lb.rows := by
  by_cases hex : ∃ x ∈ lb.rows, x.refCon = r.refCon
  · obtain ⟨x0, hx0, hrc⟩ := hex
    obtain ⟨hp, _⟩ := ListBox.AddRow_found_perm lb r x0 hnd hx0 hrc
    rw [hp.mem_iff, List.mem_map]
    constructor
    · rintro ⟨z, hz, hzy⟩
      by_cases hzr : z.refCon = r.refCon
      · simp only [hzr, if_true] at hzy
        exact absurd (by rw [← hzy]; rfl) hy
      · simp only [hzr, if_false] at hzy
        rw [← hzy]; exact hz
    · intro hyl
      exact ⟨y, hyl, by simp [hy]⟩
  · have hnew : ∀ y ∈ lb.rows, y.refCon ≠ r.refCon := fun y hy hyrc => hex ⟨y, hy, hyrc⟩
    obtain ⟨hp, _⟩ := ListBox.AddRow_new_perm lb r hnew
    rw [hp.mem_iff, List.mem_append, List.mem_singleton]
    constructor
    · rintro (h | h)
      · exact h
      · exact absurd (by rw [h]; rfl) hy
    · exact Or.inl

/-- The rows after `AddRow (r)` in the embedding, in which the sort arranges
the rows anew and nothing else, for a list box whose stored rows have
distinct identity tokens; of the code this holds where `AddRow` does not sort
or hands `std::sort` a comparison that meets its requirement. If a stored row has the `refCon` of `r`: the number of rows
and the sequence counter are unchanged, a row with that `refCon` is stored,
and every stored row with that `refCon` holds exactly the cells of `r`. If no
stored row has the `refCon` of `r`: the number of rows grows by one and `r`
is stored with the next sequence number, the counter `sequRow` (the last
number assigned) plus one in `unsigned` arithmetic, which is `sequRow + 1`
as long as the counter does not wrap around. In both cases the rows with
another `refCon` are the same rows as before, cells and sequence numbers
included, and the identity tokens of the stored rows are distinct again. -/
theorem ListBox.AddRow_upsert_rows (lb : ListBox) (r : ListRow)
    (hnd : (lb.rows.map (fun x => x.refCon)).Nodup) :
    ((∃ x ∈ lb.rows, x.refCon = r.refCon) →
      (lb.AddRow r).lb.rows.length = lb.rows.length ∧
      (lb.AddRow r).lb.sequRow = lb.sequRow ∧
      (∃ y ∈ (lb.AddRow r).lb.rows, y.refCon = r.refCon) ∧
      (∀ y ∈ (lb.AddRow r).lb.rows, y.refCon = r.refCon → y.cells = r.cells)) ∧
    ((¬ ∃ x ∈ lb.rows, x.refCon = r.refCon) →
      (lb.AddRow r).lb.rows.length = lb.rows.length + 1 ∧
      (lb.AddRow r).lb.sequRow = (lb.sequRow + 1) % UINT_MOD ∧
      r.SetSequNr ((lb.sequRow + 1) % UINT_MOD) ∈ (lb.AddRow r).lb.rows ∧
      (lb.sequRow + 1 < UINT_MOD → r.SetSequNr (lb.sequRow + 1) ∈ (lb.AddRow r).lb.rows)) ∧
    (∀ y : ListRow, y.refCon ≠ r.refCon → (y ∈ (lb.AddRow r).lb.rows ↔ y ∈ lb.rows)) ∧
    ((lb.AddRow r).lb.rows.map (fun x => x.refCon)).Nodup := by
  refine ⟨?_, ?_, ?_, ListBox.AddRow_nodup lb r hnd⟩
  · rintro ⟨x0, hx0, hrc⟩
    obtain ⟨hp, hs⟩ := ListBox.AddRow_found_perm lb r x0 hnd hx0 hrc
    refine ⟨by rw [hp.length_eq, List.length_map], hs, ?_, ?_⟩
    · refine ⟨r.SetSequNr x0.sequNr, hp.mem_iff.mpr ?_, rfl⟩
      exact List.mem_map.mpr ⟨x0, hx0, by simp [hrc]⟩
    · intro y hy hyrc
      obtain ⟨z, _, hzy⟩ := List.mem_map.mp (hp.mem_iff.mp hy)
      by_cases hz : z.refCon = r.refCon
      · simp only [hz, if_true] at hzy
        rw [← hzy]; rfl
      · simp only [hz, if_false] at hzy
        rw [hzy] at hz; exact absurd hyrc hz
  · intro hex
    have hnew : ∀ y ∈ lb.rows, y.refCon ≠ r.refCon := fun y hy hyrc => hex ⟨y, hy, hyrc⟩
    obtain ⟨hp, hs⟩ := ListBox.AddRow_new_perm lb r hnew
    have hmem : r.SetSequNr ((lb.sequRow + 1) % UINT_MOD) ∈ (lb.AddRow r).lb.rows :=
      hp.mem_iff.mpr (by simp)
    refine ⟨by rw [hp.length_eq]; simp, hs, hmem, ?_⟩
    intro hlt
    rw [Nat.mod_eq_of_lt hlt] at hmem
    exact hmem
  · exact fun y hy => ListBox.AddRow_mem_of_ne lb r hnd y hy

/-! ## Repeated upserts -/

theorem ListBox.applyUpsert_nodup (lb : ListBox) (op : UpsertOp)
    (hnd : (lb.rows.map (fun r => r.refCon)).Nodup) :
    ((lb.applyUpsert op).rows.map (fun r => r.refCon)).Nodup := by
  cases op with
  | addRow row => exact ListBox.AddRow_nodup lb row hnd
  | setSorting c s => exact ListBox.SetSorting_nodup lb c s hnd

/-- One upsert or change of the sort setting keeps the sequence number
under which an identity token is stored. -/
theorem ListBox.applyUpsert_stored (lb : ListBox) (op : UpsertOp) (x s : Nat)
    (hnd : (lb.rows.map (fun r => r.refCon)).Nodup) (h : StoredWithSequNr lb x s) :
    StoredWithSequNr (lb.applyUpsert op) x s := by
  obtain ⟨⟨x0, hx0, hx0rc, hx0s⟩, hall⟩ := h
  cases op with
  | setSorting c d =>
    have hp := ListBox.SetSorting_rows_perm lb c d
    exact ⟨⟨x0, hp.mem_iff.mpr hx0, hx0rc, hx0s⟩, fun r hr => hall r (hp.mem_iff.mp hr)⟩
  | addRow row =>
    simp only [ListBox.applyUpsert]
    by_cases hrow : row.refCon = x
    · have hrc : x0.refCon = row.refCon := hx0rc.trans hrow.symm
      obtain ⟨hp, _⟩ := ListBox.AddRow_found_perm lb row x0 hnd hx0 hrc
      constructor
      · refine ⟨row.SetSequNr x0.sequNr, hp.mem_iff.mpr ?_, hrow, hx0s⟩
        exact List.mem_map.mpr ⟨x0, hx0, by simp [hrc]⟩
      · intro y hy hyx
        obtain ⟨z, _, hzy⟩ := List.mem_map.mp (hp.mem_iff.mp hy)
        by_cases hz : z.refCon = row.refCon
        · simp only [hz, if_true] at hzy
          rw [← hzy]; exact hx0s
        · simp only [hz, if_false] at hzy
          rw [hzy] at hz; exact absurd (hyx.trans hrow.symm) hz
    · have hne : ∀ y : ListRow, y.refCon = x → y.refCon ≠ row.refCon :=
        fun y hy hyr => hrow (hyr.symm.trans hy)
      constructor
      · exact ⟨x0, (ListBox.AddRow_mem_of_ne lb row hnd x0 (hne x0 hx0rc)).mpr hx0, hx0rc, hx0s⟩
      · intro y hy hyx
        exact hall y ((ListBox.AddRow_mem_of_ne lb row hnd y (hne y hyx)).mp hy) hyx

theorem ListBox.applyUpserts_stored (ops : List UpsertOp) :
    ∀ (lb : ListBox) (x s : Nat), (lb.rows.map (fun r => r.refCon)).Nodup →
      StoredWithSequNr lb x s →
      ((lb.applyUpserts ops).rows.map (fun r => r.refCon)).Nodup ∧
      StoredWithSequNr (lb.applyUpserts ops) x s := by
  induction ops with
  | nil => intro lb x s hnd h; exact ⟨hnd, h⟩
  | cons op rest ih =>
    intro lb x s hnd h
    exact ih (lb.applyUpsert op) x s (ListBox.applyUpsert_nodup lb op hnd)
      (ListBox.applyUpsert_stored lb op x s hnd h)

/-- Repeated upserts in the embedding, in which the sort arranges the rows
anew and nothing else; of the code this holds where every sort on the way is
handed a comparison that meets the requirement of `std::sort`. In a list box
whose stored rows have distinct identity tokens, let a row with `refCon` `x` be stored with the sequence number `s`. After any
sequence of `AddRow` calls, with `refCon` `x` any number of times and any cell
data, with any other upserts in between, and with any changes of the sort
setting in between, a row with `refCon` `x` is stored, and every stored row
with `refCon` `x` has the sequence number `s`. -/
theorem ListBox.applyUpserts_keeps_sequNr (lb : ListBox) (x s : Nat)
    (hnd : (lb.rows.map (fun r => r.refCon)).Nodup)
    (hx : ∃ r ∈ lb.rows, r.refCon = x ∧ r.sequNr = s) (ops : List UpsertOp) :
    (∃ r ∈ (lb.applyUpserts ops).rows, r.refCon = x ∧ r.sequNr = s) ∧
    (∀ r ∈ (lb.applyUpserts ops).rows, r.refCon = x → r.sequNr = s) := by
  obtain ⟨x0, hx0, hx0rc, hx0s⟩ := hx
  have h0 : StoredWithSequNr lb x s := by
    refine ⟨⟨x0, hx0, hx0rc, hx0s⟩, ?_⟩
    intro r hr hrx
    have : r = x0 := List.inj_on_of_nodup_map hnd hr hx0 (hrx.trans hx0rc.symm)
    rw [this]; exact hx0s
  exact (ListBox.applyUpserts_stored ops lb x s hnd h0).2

/-! ## The row that `AddRow` returns -/

/-- While no sort is active, the reference that `AddRow` returns refers to
the row stored for the row passed in: it has its `refCon` and its cells. -/
theorem ListBox.AddRow_ret_not_sorted (lb : ListBox) (r : ListRow)
    (hnd : (lb.rows.map (fun x => x.refCon)).Nodup)
    (hs : ¬ (lb.sorted.toInt > SortingTy.SORT_UNSORTED.toInt)) :
    ∃ y, (lb.AddRow r).ret = some y ∧ y.refCon = r.refCon ∧ y.cells = r.cells := by
  by_cases hex : ∃ x ∈ lb.rows, x.refCon = r.refCon
  · obtain ⟨x0, hx0, hrc⟩ := hex
    obtain ⟨hlb, hiter, hlt⟩ := ListBox.AddRow_found lb r x0 hnd hx0 hrc
    have hrc2 := ListBox.FindRowIdx_refCon lb r.refCon hlt
    refine ⟨r.SetSequNr x0.sequNr, ?_, rfl, rfl⟩
    simp only [ListBox.AddRowResult.ret, hlb, hiter, hs, if_false, ListBox.overwritten,
      List.getElem?_map, List.getElem?_eq_getElem hlt, Option.map_some', hrc2, if_true]
  · have hnew : ∀ y ∈ lb.rows, y.refCon ≠ r.refCon := fun y hy hyrc => hex ⟨y, hy, hyrc⟩
    obtain ⟨hlb, hiter⟩ := ListBox.AddRow_new lb r hnew
    refine ⟨r.SetSequNr ((lb.sequRow + 1) % UINT_MOD), ?_, rfl, rfl⟩
    simp only [ListBox.AddRowResult.ret, hlb, hiter, hs, if_false, ListBox.appended,
      List.getElem?_concat_length]

/-- Claim C7, at the failing input. The scenario list is sorted ascending by
Pax: A (2), C (70), B (186). `AddRow` of row E (identity token 5, Pax 1)
appends E at position 3 and sorts; the rows are then E, A, C, B, and the
reference returned, which still refers to position 3, is row B (identity
token 2, Pax 186), not the row stored for E. Likewise `AddRow` of row A with
200 passengers overwrites position 0 and sorts, and the reference returned
is row C (identity token 3). -/
theorem C7_AddRow_returns_other_row :
    (exABC.SetSorting 1 .SORT_ASCENDING).rows.map (fun r => r.refCon) = [1, 3, 2] ∧
    ((exABC.SetSorting 1 .SORT_ASCENDING).AddRow exRowE).lb.rows.map (fun r => r.refCon)
      = [5, 1, 3, 2] ∧
    ((exABC.SetSorting 1 .SORT_ASCENDING).AddRow exRowE).iter = 3 ∧
    ((exABC.SetSorting 1 .SORT_ASCENDING).AddRow exRowE).ret.map
      (fun r => (r.refCon, (r.cellAt 1).iVal)) = some (2, 186) ∧
    ((exABC.SetSorting 1 .SORT_ASCENDING).AddRow
        (ListRow.ctor 1 [exStr [67], exInt 200 [50, 48, 48]])).ret.map
      (fun r => (r.refCon, (r.cellAt 1).iVal)) = some (3, 70) := by
  decide

/-! ## The order of an unsorted list -/

/-- Method `SetSorting (c, SORT_UNSORTED)`, where it changes the setting and
every row holds a cell for the column `c`, arranges the rows in ascending
order of the sequence number. -/
theorem ListBox.SetSorting_unsorted_restores (lb : ListBox) (c : Nat) (cd : ListColumnDef)
    (hcol : lb.cols[c]? = some cd) (hnn : cd.dataType ≠ .DTY_NULL)
    (hchg : ¬ (lb.sortedBy = c ∧ lb.sorted = .SORT_UNSORTED))
    (hcells : ∀ r ∈ lb.rows, c < r.cells.length) :
    (lb.SetSorting c .SORT_UNSORTED).rows.Pairwise (fun a b => a.sequNr ≤ b.sequNr) ∧
    ((lb.rows.map (fun r => r.sequNr)).Nodup →
      (lb.SetSorting c .SORT_UNSORTED).rows.Pairwise (fun a b => a.sequNr < b.sequNr)) := by
  rw [ListBox.SetSorting_rows lb c _ cd hcol hnn (by decide) hchg]
  have hA : lb.rows.Pairwise (fun x y =>
      y.elemLess x c .SORT_UNSORTED cd.dataType = decide (y.sequNr < x.sequNr)) := by
    apply List.pairwise_of_forall_mem_list
    intro a ha b hb
    exact elemLess_unsorted cd.dataType c b a _ (Or.inl rfl) (hcells b hb) (hcells a ha)
  exact ⟨stdSort_sorted_key (fun r => r.sequNr) _ lb.rows hA,
    fun hseq => stdSort_sorted_key_lt (fun r => r.sequNr) _ lb.rows hA hseq⟩

/-- Claim C8, at the failing input. S1 (sequence number 1) holds cells for
the columns 0 and 1, S2 (sequence number 2) holds a cell for column 0 only.
The list is sorted ascending by column 0, then `SetSorting (1, SORT_UNSORTED)`
is called for the defined column 1. The sort direction is "unsorted"
afterwards, and the stored rows are S2, S1: their sequence numbers 2, 1 are
not in ascending order. -/
theorem C8_unsorted_not_in_sequence_order :
    exShort.rows.map (fun r => (r.refCon, r.sequNr, r.cells.length)) = [(1, 1, 2), (2, 2, 1)] ∧
    (exShort.SetSorting 0 .SORT_ASCENDING).sorted = .SORT_ASCENDING ∧
    (exShort.SetSorting 0 .SORT_ASCENDING).rows.map (fun r => r.sequNr) = [1, 2] ∧
    ((exShort.SetSorting 0 .SORT_ASCENDING).SetSorting 1 .SORT_UNSORTED).sorted
      = .SORT_UNSORTED ∧
    ((exShort.SetSorting 0 .SORT_ASCENDING).SetSorting 1 .SORT_UNSORTED).rows.map
      (fun r => r.sequNr) = [2, 1] := by
  decide

/-! ## Rectangles and computed edges -/

theorem Rect.Normalize_of_le (r : Rect) (hx : r.bl.x ≤ r.tr.x) (hy : r.bl.y ≤ r.tr.y) :
    r.Normalize = r := by
  have h1 : ¬ (r.bl.x > r.tr.x) := by omega
  have h2 : ¬ (r.bl.y > r.tr.y) := by omega
  simp [Rect.Normalize, h1, h2]

/-- Method `Rect::Normalize` yields a normalized rectangle. -/
theorem Rect.Normalize_isNormalized (r : Rect) : r.Normalize.isNormalized = true := by
  simp only [Rect.Normalize, Rect.isNormalized, Rect.Left, Rect.Right, Rect.Bottom, Rect.Top]
  by_cases h1 : r.bl.x > r.tr.x <;> by_cases h2 : r.bl.y > r.tr.y <;>
    simp [h1, h2] <;> omega

theorem Rect.SetGeometry_ctor_of_le (r0 : Rect) (l t r b : Int) (hx : l ≤ r) (hy : b ≤ t) :
    r0.SetGeometry (Rect.ctor l t r b) = { bl := { x := l, y := b }, tr := { x := r, y := t } } := by
  have h1 : Rect.ctor l t r b = { bl := { x := l, y := b }, tr := { x := r, y := t } } :=
    Rect.Normalize_of_le _ hx hy
  rw [h1]
  exact Rect.Normalize_of_le _ hx hy

theorem Rect.invalid_eq :
    Rect.invalid = { bl := { x := -1, y := -1 }, tr := { x := -1, y := -1 } } := by
  decide

theorem Rect.SetGeometry_invalid (r0 : Rect) :
    r0.SetGeometry (Rect.ctor (-1) (-1) (-1) (-1)) = Rect.invalid := by
  rw [Rect.SetGeometry_ctor_of_le r0 _ _ _ _ (le_refl _) (le_refl _), Rect.invalid_eq]

namespace MainWnd

/-- The computed edges of a widget with a fixed-length rule. -/
theorem layoutEdges_fixed (mw : MainWnd) (prevWa : Option WidgetAddTy) (wa : WidgetAddTy) :
    (wa.rR = .POS_FIXED_LEN → wa.lR ≠ .POS_FIXED_LEN →
      (mw.layoutEdges prevWa wa)._right = (mw.layoutEdges prevWa wa)._left + wa.rO) ∧
    (wa.bR = .POS_FIXED_LEN → wa.tR ≠ .POS_FIXED_LEN →
      (mw.layoutEdges prevWa wa)._bottom = (mw.layoutEdges prevWa wa)._top - wa.bO) ∧
    (wa.lR = .POS_FIXED_LEN →
      (mw.layoutEdges prevWa wa)._left = (mw.layoutEdges prevWa wa)._right - wa.lO) ∧
    (wa.tR = .POS_FIXED_LEN →
      (mw.layoutEdges prevWa wa)._top = (mw.layoutEdges prevWa wa)._bottom + wa.tO) := by
  refine ⟨?_, ?_, ?_, ?_⟩
  · intro hr hl
    simp only [layoutEdges, hr, hl, if_false]
    omega
  · intro hb ht
    simp only [layoutEdges, hb, ht, if_false]
  · intro hl
    simp only [layoutEdges, hl, if_true]
  · intro ht
    simp only [layoutEdges, ht, if_true]

end MainWnd

theorem Rect.invalid_isNormalized : Rect.invalid.isNormalized = true := by decide

/-! ## Identity tokens are distinct in every list box built through the interface -/

theorem ListBox.AddCol_rows (lb lb1 : ListBox) (colId : Nat) (d : ListColumnDef)
    (h : lb.AddCol colId d = some lb1) : lb1.rows = lb.rows := by
  simp only [ListBox.AddCol] at h
  split_ifs at h
  all_goals
    simp only [Option.some.injEq] at h
    rw [← h]

theorem ListBox.RemoveRow_rows_sublist (lb : ListBox) (rc : Nat) :
    (lb.RemoveRow rc).1.rows.Sublist lb.rows := by
  simp only [ListBox.RemoveRow]
  split_ifs
  · exact List.eraseIdx_sublist _ _
  · exact List.eraseIdx_sublist _ _
  · exact List.Sublist.refl _

theorem ListBox.SelectRow_rows (lb : ListBox) (rc : Nat) :
    (lb.SelectRow rc).1.rows = lb.rows := by
  simp only [ListBox.SelectRow]
  split_ifs <;> rfl

/-- The hypothesis of the statements on `AddRow`: in every list box built
through the interface, no two stored rows have the same identity token. -/
theorem ListBox.Built.nodup_refCon (lb : ListBox) (h : ListBox.Built lb) :
    (lb.rows.map (fun r => r.refCon)).Nodup := by
  induction h with
  | init => exact List.nodup_nil
  | addCol lb lb1 colId d _ hadd ih => rw [ListBox.AddCol_rows lb lb1 colId d hadd]; exact ih
  | addRow lb row _ ih => exact ListBox.AddRow_nodup lb row ih
  | removeRow lb rc _ ih =>
    exact List.Nodup.sublist ((ListBox.RemoveRow_rows_sublist lb rc).map _) ih
  | clear lb _ _ => exact List.nodup_nil
  | setSorting lb c s _ ih => exact ListBox.SetSorting_nodup lb c s ih
  | selectRow lb rc _ ih => rw [ListBox.SelectRow_rows]; exact ih

/-- The scenario of the overwrite: A, B and C are inserted, then `AddRow` is
called with the identity token of A and new data, the list not being sorted.
The row stored for A is still the first one. -/
theorem exABC_overwrite_keeps_position :
    (exABC.AddRow exRowA2).lb.rows.map (fun r => (r.refCon, r.sequNr, (r.cellAt 1).iVal)) =
      [(1, 1, 4), (2, 2, 186), (3, 3, 70)] := by
  decide

/-- While the list is not sorted and the sequence counter does not wrap
around, `AddRow` keeps the rows in strictly ascending order of the sequence
number, and the counter stays an upper bound of the sequence numbers. -/
theorem ListBox.AddRow_unsorted_keeps_order (lb : ListBox) (r : ListRow)
    (hnd : (lb.rows.map (fun x => x.refCon)).Nodup)
    (hs : lb.sorted = .SORT_UNSORTED)
    (hord : lb.rows.Pairwise (fun a b => a.sequNr < b.sequNr))
    (hle : ∀ x ∈ lb.rows, x.sequNr ≤ lb.sequRow)
    (hno : lb.sequRow + 1 < UINT_MOD) :
    (lb.AddRow r).lb.rows.Pairwise (fun a b => a.sequNr < b.sequNr) ∧
    (∀ x ∈ (lb.AddRow r).lb.rows, x.sequNr ≤ (lb.AddRow r).lb.sequRow) := by
  have hns : ¬ (lb.sorted.toInt > SortingTy.SORT_UNSORTED.toInt) := by rw [hs]; decide
  by_cases hex : ∃ x ∈ lb.rows, x.refCon = r.refCon
  · obtain ⟨x0, hx0, hrc⟩ := hex
    rw [(ListBox.AddRow_found lb r x0 hnd hx0 hrc).1, if_neg hns]
    have hseq : ∀ y ∈ lb.rows,
        (if y.refCon = r.refCon then r.SetSequNr x0.sequNr else y).sequNr = y.sequNr := by
      intro y hy
      by_cases hyr : y.refCon = r.refCon
      · have : y = x0 := List.inj_on_of_nodup_map hnd hy hx0 (hyr.trans hrc.symm)
        rw [if_pos hyr, this]; rfl
      · simp [hyr]
    constructor
    · simp only [ListBox.overwritten, List.pairwise_map]
      refine (List.Pairwise.and_mem.mp hord).imp ?_
      intro a b hab
      rw [hseq a hab.1, hseq b hab.2.1]
      exact hab.2.2
    · intro x hx
      simp only [ListBox.overwritten, List.mem_map] at hx
      obtain ⟨y, hy, hyx⟩ := hx
      rw [← hyx, hseq y hy]
      exact hle y hy
  · have hnew : ∀ y ∈ lb.rows, y.refCon ≠ r.refCon := fun y hy hyrc => hex ⟨y, hy, hyrc⟩
    rw [(ListBox.AddRow_new lb r hnew).1, if_neg hns]
    simp only [ListBox.appended, Nat.mod_eq_of_lt hno]
    constructor
    · rw [List.pairwise_append]
      refine ⟨hord, List.pairwise_singleton _ _, ?_⟩
      intro a ha b hb
      rw [List.mem_singleton] at hb
      rw [hb]
      have := hle a ha
      simp only [ListRow.SetSequNr]
      omega
    · intro x hx
      rcases List.mem_append.mp hx with h1 | h1
      · have := hle x h1; omega
      · rw [List.mem_singleton] at h1
        rw [h1]; simp [ListRow.SetSequNr]

/-- Method `RemoveRow` keeps the order of the rows that stay. -/
theorem ListBox.RemoveRow_keeps_order (lb : ListBox) (rc : Nat)
    (hord : lb.rows.Pairwise (fun a b => a.sequNr < b.sequNr)) :
    (lb.RemoveRow rc).1.rows.Pairwise (fun a b => a.sequNr < b.sequNr) :=
  hord.sublist (ListBox.RemoveRow_rows_sublist lb rc)


/-- The example list boxes are built through the interface: the columns by
two calls of `AddCol`, the rows by `AddRow`. -/
theorem exCols_built : ListBox.Built exCols :=
  ListBox.Built.addCol
    { ListBox.init with cols := [exCol [78, 97, 109, 101] 100 .DTY_STRING] } exCols 1
    (exCol [80, 97, 120] 30 .DTY_INT)
    (ListBox.Built.addCol ListBox.init _ 0 (exCol [78, 97, 109, 101] 100 .DTY_STRING)
      ListBox.Built.init (by decide))
    (by decide)

theorem exABC_built : ListBox.Built exABC :=
  ListBox.Built.addRow _ exRowC
    (ListBox.Built.addRow _ exRowB (ListBox.Built.addRow _ exRowA exCols_built))

theorem exTie_built : ListBox.Built exTie :=
  ListBox.Built.addRow _ exRowT2 (ListBox.Built.addRow _ exRowT1 exCols_built)

theorem exShort_built : ListBox.Built exShort :=
  ListBox.Built.addRow _ exRowS2 (ListBox.Built.addRow _ exRowS1 exCols_built)


theorem exFuel_built : ListBox.Built exFuel :=
  ListBox.Built.addRow _ exRowF2
    (ListBox.Built.addRow _ exRowF1
      (ListBox.Built.addCol
        { ListBox.init with cols := [exCol [78, 97, 109, 101] 100 .DTY_STRING] } exColsFuel 1
        (exCol [70, 117, 101, 108] 60 .DTY_DOUBLE)
        (ListBox.Built.addCol ListBox.init _ 0 (exCol [78, 97, 109, 101] 100 .DTY_STRING)
          ListBox.Built.init (by decide))
        (by decide)))


/-! ## The computed edges are a function of sizes and rules -/

namespace MainWnd

/-- The computed edges depend on the width and height of the window, the
frame thickness, the rules of the widget and the rectangle of the widget laid
out before it, and on nothing else. -/
theorem layoutEdges_congr (mw mw2 : MainWnd) (prev prev2 : Option WidgetAddTy)
    (wa wa2 : WidgetAddTy)
    (hW : mw.geo.Width = mw2.geo.Width) (hH : mw.geo.Height = mw2.geo.Height)
    (hft : mw.frameThick = mw2.frameThick) (hrules : wa.rules = wa2.rules)
    (hprev : prev.map (fun p => p.w) = prev2.map (fun p => p.w)) :
    mw.layoutEdges prev wa = mw2.layoutEdges prev2 wa2 := by
  simp only [WidgetAddTy.rules, Prod.mk.injEq] at hrules
  obtain ⟨⟨h1, h2⟩, ⟨h3, h4⟩, ⟨h5, h6⟩, h7, h8⟩ := hrules
  cases prev with
  | none =>
    cases prev2 with
    | none => simp only [layoutEdges, h1, h2, h3, h4, h5, h6, h7, h8, hW, hH, hft]
    | some q => simp at hprev
  | some p =>
    cases prev2 with
    | none => simp at hprev
    | some q =>
      have hpq : p.w = q.w := by simpa using hprev
      simp only [layoutEdges, h1, h2, h3, h4, h5, h6, h7, h8, hW, hH, hft, hpq]

end MainWnd


/-! ## Mouse clicks: capture and focus -/

namespace MainWnd

theorem setSt_pMouseFocusWidget (mw : MainWnd) (i : Nat) (st : WidgetSt) :
    (mw.setSt i st).pMouseFocusWidget = mw.pMouseFocusWidget := by
  simp only [setSt]; split <;> rfl

theorem setSt_pFocusWidget (mw : MainWnd) (i : Nat) (st : WidgetSt) :
    (mw.setSt i st).pFocusWidget = mw.pFocusWidget := by
  simp only [setSt]; split <;> rfl

theorem setSt_geo (mw : MainWnd) (i : Nat) (st : WidgetSt) :
    (mw.setSt i st).geo = mw.geo ∧ (mw.setSt i st).frameThick = mw.frameThick := by
  simp only [setSt]; split <;> exact ⟨rfl, rfl⟩

theorem setSt_length (mw : MainWnd) (i : Nat) (st : WidgetSt) :
    (mw.setSt i st).widgets.length = mw.widgets.length := by
  simp only [setSt]; split <;> simp

/-- Replacing the members of one widget leaves the rectangles as they are. -/
theorem setSt_w (mw : MainWnd) (i : Nat) (st : WidgetSt) (j : Nat) :
    (mw.setSt i st).widgets[j]?.map (fun wa => wa.w) = mw.widgets[j]?.map (fun wa => wa.w) := by
  simp only [setSt]
  split
  · rename_i wa hwa
    by_cases hij : i = j
    · subst hij
      have hlt : i < mw.widgets.length := (List.getElem?_eq_some_iff.mp hwa).1
      simp [List.getElem?_set_self hlt, hwa]
    · simp [List.getElem?_set_ne hij]
  · rfl

/-- Replacing the members of one widget leaves the other widgets as they are. -/
theorem setSt_getElem?_ne (mw : MainWnd) (i : Nat) (st : WidgetSt) (j : Nat) (hij : i ≠ j) :
    (mw.setSt i st).widgets[j]? = mw.widgets[j]? := by
  simp only [setSt]
  split
  · simp [List.getElem?_set_ne hij]
  · rfl

theorem askFocus_frame (mw : MainWnd) (i : Nat) (f : FocusChangeTy) :
    (mw.askFocus i f).2.1.pMouseFocusWidget = mw.pMouseFocusWidget ∧
    (mw.askFocus i f).2.1.pFocusWidget = mw.pFocusWidget ∧
    (mw.askFocus i f).2.1.geo = mw.geo ∧
    (mw.askFocus i f).2.1.frameThick = mw.frameThick ∧
    (mw.askFocus i f).2.1.widgets.length = mw.widgets.length ∧
    (∀ j : Nat, (mw.askFocus i f).2.1.widgets[j]?.map (fun wa : WidgetAddTy => wa.w) =
      mw.widgets[j]?.map (fun wa : WidgetAddTy => wa.w)) ∧
    (∀ j : Nat, i ≠ j → (mw.askFocus i f).2.1.widgets[j]? = mw.widgets[j]?) := by
  cases h : mw.widgets[i]? with
  | some wa =>
    simp only [askFocus, h]
    exact ⟨setSt_pMouseFocusWidget _ _ _, setSt_pFocusWidget _ _ _, (setSt_geo _ _ _).1,
      (setSt_geo _ _ _).2, setSt_length _ _ _, setSt_w _ _ _, setSt_getElem?_ne _ _ _⟩
  | none => simp [askFocus, h]

/-- A hit of `FindWidgetByPos` among the visible and enabled widgets: the
widget found is visible and enabled and contains the point, and the point
returned is relative to its top-left corner. -/
theorem FindWidgetByPos_found (mw : MainWnd) (p : Point) (fr : FindResult)
    (h : mw.FindWidgetByPos p true = fr) (hf : fr.found = true) :
    ∃ wa, mw.widgets[fr._iter]? = some wa ∧ wa.st.bVisible = true ∧ wa.st.bEnabled = true ∧
      wa.w.Contains (mw.toInner p) = true ∧ fr._p = mw.LocalizePoint p wa := by
  simp only [FindWidgetByPos] at h
  split at h
  · rename_i wa hwa
    have hlt := (List.getElem?_eq_some_iff.mp hwa).1
    have hp := @List.findIdx_getElem _ (fun wa : WidgetAddTy =>
      (!true || (wa.st.bVisible && wa.st.bEnabled)) && wa.w.Contains (mw.toInner p))
      mw.widgets hlt
    have hwa2 := (List.getElem?_eq_some_iff.mp hwa).2
    rw [hwa2] at hp
    simp only [Bool.not_true, Bool.false_or, Bool.and_eq_true] at hp
    rw [← h]
    exact ⟨wa, hwa, hp.1.1, hp.1.2, hp.2, rfl⟩
  · rw [← h] at hf; simp at hf

end MainWnd


namespace MainWnd

theorem askFocus_some (mw : MainWnd) (i : Nat) (f : FocusChangeTy) (wa : WidgetAddTy)
    (h : mw.widgets[i]? = some wa) :
    mw.askFocus i f =
      ((wa.st.DoFocusChange f).1, mw.setSt i (wa.st.DoFocusChange f).2,
        [.focusChange i f (wa.st.DoFocusChange f).1]) := by
  simp only [askFocus, h]

theorem askFocus_none (mw : MainWnd) (i : Nat) (f : FocusChangeTy)
    (h : mw.widgets[i]? = none) : mw.askFocus i f = (false, mw, []) := by
  simp only [askFocus, h]

/-- A pointer-down that hits the widget at position `W`, which does not have
the focus: the window afterwards and the calls made. -/
theorem DoMouseClick_down_hit (mw : MainWnd) (p : Point) (mouseBtn : MouseBtnTy)
    (fr : FindResult) (wa : WidgetAddTy)
    (hfind : mw.FindWidgetByPos p true = fr) (hfound : fr.found = true)
    (hW : mw.widgets[fr._iter]? = some wa)
    (hnofocus : mw.pFocusWidget ≠ some fr._iter) :
    ((wa.st.DoFocusChange .FCS_FIRST).1 = true →
      (mw.DoMouseClick p mouseBtn .xplm_MouseDown).1.pFocusWidget = some fr._iter ∧
      (mw.DoMouseClick p mouseBtn .xplm_MouseDown).2 =
        [.focusChange fr._iter .FCS_FIRST true] ++
        (match mw.pFocusWidget with
          | some f =>
            (match mw.widgets[f]? with
              | some wf => [.focusChange f .FCS_LOOSE (wf.st.DoFocusChange .FCS_LOOSE).1]
              | none => [])
          | none => []) ++
        [.mouseClick fr._iter fr._p mouseBtn .xplm_MouseDown]) ∧
    ((wa.st.DoFocusChange .FCS_FIRST).1 = false →
      (mw.DoMouseClick p mouseBtn .xplm_MouseDown).1.pFocusWidget = mw.pFocusWidget ∧
      (mw.DoMouseClick p mouseBtn .xplm_MouseDown).2 =
        [.focusChange fr._iter .FCS_FIRST false,
          .mouseClick fr._iter fr._p mouseBtn .xplm_MouseDown]) ∧
    (mw.DoMouseClick p mouseBtn .xplm_MouseDown).1.pMouseFocusWidget = some fr._iter := by
  have hHas : HasFocus { mw with pMouseFocusWidget := some fr._iter } fr._iter = false := by
    simp [HasFocus, hnofocus]
  have hask := askFocus_some { mw with pMouseFocusWidget := some fr._iter } fr._iter
    .FCS_FIRST wa hW
  by_cases hacc : (wa.st.DoFocusChange .FCS_FIRST).1 = true
  · -- the widget accepts the focus
    have hpf : (setSt { mw with pMouseFocusWidget := some fr._iter } fr._iter
        (wa.st.DoFocusChange .FCS_FIRST).2).pFocusWidget = mw.pFocusWidget :=
      setSt_pFocusWidget _ _ _
    cases hfoc : mw.pFocusWidget with
    | none =>
      replace hpf := hpf.trans hfoc
      simp only [DoMouseClick, true_or, if_true, hfind, hfound, hHas, Bool.not_false, hask, hacc,
        hpf, setSt_pMouseFocusWidget, if_false, reduceCtorEq]
      simp
    | some f =>
      replace hpf := hpf.trans hfoc
      have hne : f ≠ fr._iter := fun h => hnofocus (by rw [hfoc, h])
      have hwf : (setSt { mw with pMouseFocusWidget := some fr._iter } fr._iter
          (wa.st.DoFocusChange .FCS_FIRST).2).widgets[f]? = mw.widgets[f]? :=
        setSt_getElem?_ne _ _ _ _ (Ne.symm hne)
      cases hf : mw.widgets[f]? with
      | none =>
        have haskf := askFocus_none _ f .FCS_LOOSE (hwf.trans hf)
        simp only [DoMouseClick, true_or, if_true, hfind, hfound, hHas, Bool.not_false, hask,
          hacc, hpf, hne, ne_eq, not_false_eq_true, haskf, setSt_pMouseFocusWidget,
          if_false, reduceCtorEq]
        simp [hf]
      | some wf =>
        have haskf := askFocus_some _ f .FCS_LOOSE wf (hwf.trans hf)
        simp only [DoMouseClick, true_or, if_true, hfind, hfound, hHas, Bool.not_false, hask,
          hacc, hpf, hne, ne_eq, not_false_eq_true, haskf, setSt_pMouseFocusWidget,
          if_false, reduceCtorEq]
        simp [hf]
  · -- the widget refuses the focus
    have hacc2 : (wa.st.DoFocusChange .FCS_FIRST).1 = false := by simpa using hacc
    simp only [DoMouseClick, true_or, if_true, hfind, hfound, hHas, Bool.not_false, hask, hacc2,
      setSt_pMouseFocusWidget, setSt_pFocusWidget, if_false, reduceCtorEq]
    simp

end MainWnd


/-- Claim C17. A pointer-down whose hit-test selects the widget `W` at
position `fr._iter` (which is then visible and enabled) while `W` does not hold
the focus: `W` is asked `DoFocusChange (FCS_FIRST)` first. If it returns true,
`W` holds the focus afterwards and the calls are: the question to `W`, then
`DoFocusChange (FCS_LOOSE)` to the previous holder if there is one (it is
another widget), then the click to `W`. If it returns false, as it does for a
label and for a line, the focus holder is the one before and the calls are the
question to `W` and the click to `W` only. In both cases the click carries the
localized point and `W` is the captured widget. -/
theorem C17_pointer_down_focus_transfer (mw : MainWnd) (p : Point) (mouseBtn : MouseBtnTy)
    (fr : MainWnd.FindResult)
    (hfind : mw.FindWidgetByPos p true = fr) (hfound : fr.found = true)
    (hnofocus : mw.pFocusWidget ≠ some fr._iter) :
    ∃ wa, mw.widgets[fr._iter]? = some wa ∧ wa.st.bVisible = true ∧ wa.st.bEnabled = true ∧
      fr._p = mw.LocalizePoint p wa ∧
      ((wa.st.DoFocusChange .FCS_FIRST).1 = true →
        (mw.DoMouseClick p mouseBtn .xplm_MouseDown).1.pFocusWidget = some fr._iter ∧
        (mw.DoMouseClick p mouseBtn .xplm_MouseDown).2 =
          [.focusChange fr._iter .FCS_FIRST true] ++
          (match mw.pFocusWidget with
            | some f =>
              (match mw.widgets[f]? with
                | some wf => [.focusChange f .FCS_LOOSE (wf.st.DoFocusChange .FCS_LOOSE).1]
                | none => [])
            | none => []) ++
          [.mouseClick fr._iter fr._p mouseBtn .xplm_MouseDown]) ∧
      ((wa.st.DoFocusChange .FCS_FIRST).1 = false →
        (mw.DoMouseClick p mouseBtn .xplm_MouseDown).1.pFocusWidget = mw.pFocusWidget ∧
        (mw.DoMouseClick p mouseBtn .xplm_MouseDown).2 =
          [.focusChange fr._iter .FCS_FIRST false,
            .mouseClick fr._iter fr._p mouseBtn .xplm_MouseDown]) ∧
      ((wa.st.kind = .label ∨ wa.st.kind = .line) →
        (wa.st.DoFocusChange .FCS_FIRST).1 = false) ∧
      (mw.DoMouseClick p mouseBtn .xplm_MouseDown).1.pMouseFocusWidget = some fr._iter := by
  obtain ⟨wa, hW, hv, he, _, hp⟩ := MainWnd.FindWidgetByPos_found mw p fr hfind hfound
  have h := MainWnd.DoMouseClick_down_hit mw p mouseBtn fr wa hfind hfound hW hnofocus
  refine ⟨wa, hW, hv, he, hp, h.1, h.2.1, ?_, h.2.2⟩
  intro hk
  rcases hk with hk | hk <;> simp [WidgetSt.DoFocusChange, hk]

/-- In the example window, where button C (position 4) holds the focus, a
pointer-down at (50, 75) hits button A (position 1), which accepts the focus:
A is asked first, C is told to lose the focus, the click goes to A with the
point (45, -5); a pointer-down at (50, 90) hits the label (position 0), which
refuses: C keeps the focus and is not called. -/
theorem C17_pointer_down_focus_transfer_witness :
    ({ exFocusWnd with pFocusWidget := some 4 }.DoMouseClick ⟨50, 75⟩ .MOUSE_LEFT
        .xplm_MouseDown).2 =
      [.focusChange 1 .FCS_FIRST true, .focusChange 4 .FCS_LOOSE false,
        .mouseClick 1 ⟨45, -5⟩ .MOUSE_LEFT .xplm_MouseDown] ∧
    ({ exFocusWnd with pFocusWidget := some 4 }.DoMouseClick ⟨50, 90⟩ .MOUSE_LEFT
        .xplm_MouseDown).2 =
      [.focusChange 0 .FCS_FIRST false, .mouseClick 0 ⟨45, -5⟩ .MOUSE_LEFT .xplm_MouseDown] ∧
    (∃ wa, { exFocusWnd with pFocusWidget := some 4 }.widgets[1]? = some wa ∧
      wa.st.bVisible = true) :=
  ⟨by decide, by decide,
    (C17_pointer_down_focus_transfer { exFocusWnd with pFocusWidget := some 4 } ⟨50, 75⟩
      .MOUSE_LEFT ⟨⟨45, -5⟩, 1, true⟩ (by decide) rfl (by decide)).imp
      (fun _ h => ⟨h.1, h.2.1⟩)⟩


namespace MainWnd

theorem LocalizePoint_congr (mw mw2 : MainWnd) (q : Point) (wa wa2 : WidgetAddTy)
    (hg : mw.geo = mw2.geo) (hft : mw.frameThick = mw2.frameThick) (hw : wa.w = wa2.w) :
    mw.LocalizePoint q wa = mw2.LocalizePoint q wa2 := by
  simp only [LocalizePoint, toInner, hg, hft, hw]

/-- A pointer-down that hits a widget captures it; the window keeps its
geometry and the widgets keep their rectangles. -/
theorem DoMouseClick_down_found (mw : MainWnd) (p : Point) (mouseBtn : MouseBtnTy)
    (fr : FindResult) (hfind : mw.FindWidgetByPos p true = fr) (hfound : fr.found = true) :
    (mw.DoMouseClick p mouseBtn .xplm_MouseDown).1.pMouseFocusWidget = some fr._iter ∧
    (mw.DoMouseClick p mouseBtn .xplm_MouseDown).1.geo = mw.geo ∧
    (mw.DoMouseClick p mouseBtn .xplm_MouseDown).1.frameThick = mw.frameThick ∧
    (∀ j : Nat, (mw.DoMouseClick p mouseBtn .xplm_MouseDown).1.widgets[j]?.map
        (fun wa : WidgetAddTy => wa.w) = mw.widgets[j]?.map (fun wa : WidgetAddTy => wa.w)) := by
  have hA := askFocus_frame { mw with pMouseFocusWidget := some fr._iter } fr._iter .FCS_FIRST
  have hL := fun f : Nat => askFocus_frame
    ({ mw with pMouseFocusWidget := some fr._iter }.askFocus fr._iter .FCS_FIRST).2.1 f .FCS_LOOSE
  simp only [DoMouseClick, true_or, if_true, hfind, hfound, reduceCtorEq, if_false]
  by_cases h1 : HasFocus { mw with pMouseFocusWidget := some fr._iter } fr._iter = true
  · simp [h1]
  · have h1f : HasFocus { mw with pMouseFocusWidget := some fr._iter } fr._iter = false := by
      simpa using h1
    simp only [h1f, Bool.not_false, if_true]
    by_cases h2 : ({ mw with pMouseFocusWidget := some fr._iter }.askFocus fr._iter
        .FCS_FIRST).1 = true
    · simp only [h2, if_true]
      cases h3 : ({ mw with pMouseFocusWidget := some fr._iter }.askFocus fr._iter
          .FCS_FIRST).2.1.pFocusWidget with
      | none =>
        exact ⟨hA.1, hA.2.2.1, hA.2.2.2.1, hA.2.2.2.2.2.1⟩
      | some f =>
        by_cases h4 : f = fr._iter
        · simp only [h4, ne_eq, not_true_eq_false, if_false]
          exact ⟨hA.1, hA.2.2.1, hA.2.2.2.1, hA.2.2.2.2.2.1⟩
        · simp only [h4, ne_eq, not_false_eq_true, if_true]
          exact ⟨(hL f).1.trans hA.1, (hL f).2.2.1.trans hA.2.2.1,
            (hL f).2.2.2.1.trans hA.2.2.2.1,
            fun j => ((hL f).2.2.2.2.2.1 j).trans (hA.2.2.2.2.2.1 j)⟩
    · have h2f : ({ mw with pMouseFocusWidget := some fr._iter }.askFocus fr._iter
          .FCS_FIRST).1 = false := by simpa using h2
      simp only [h2f, Bool.false_eq_true, if_false]
      exact ⟨hA.1, hA.2.2.1, hA.2.2.2.1, hA.2.2.2.2.2.1⟩

/-- While a widget is captured, a drag event goes to it and leaves the window
as it is. -/
theorem DoMouseClick_drag_captured (mw : MainWnd) (q : Point) (mouseBtn : MouseBtnTy)
    (m : Nat) (wa : WidgetAddTy) (hm : mw.pMouseFocusWidget = some m)
    (hwa : mw.widgets[m]? = some wa) :
    mw.DoMouseClick q mouseBtn .xplm_MouseDrag =
      (mw, [.mouseClick m (mw.LocalizePoint q wa) mouseBtn .xplm_MouseDrag]) := by
  simp [DoMouseClick, hm, hwa]

/-- While a widget is captured, the pointer-up goes to it and ends the capture. -/
theorem DoMouseClick_up_captured (mw : MainWnd) (q : Point) (mouseBtn : MouseBtnTy)
    (m : Nat) (wa : WidgetAddTy) (hm : mw.pMouseFocusWidget = some m)
    (hwa : mw.widgets[m]? = some wa) :
    mw.DoMouseClick q mouseBtn .xplm_MouseUp =
      ({ mw with pMouseFocusWidget := none },
        [.mouseClick m (mw.LocalizePoint q wa) mouseBtn .xplm_MouseUp]) := by
  simp [DoMouseClick, hm, hwa]

theorem DoMouseDrags_captured (mw : MainWnd) (mouseBtn : MouseBtnTy)
    (m : Nat) (wa : WidgetAddTy) (hm : mw.pMouseFocusWidget = some m)
    (hwa : mw.widgets[m]? = some wa) (qs : List Point) :
    mw.DoMouseDrags mouseBtn qs =
      (mw, qs.map (fun q => .mouseClick m (mw.LocalizePoint q wa) mouseBtn .xplm_MouseDrag)) := by
  induction qs with
  | nil => rfl
  | cons q rest ih =>
    simp only [DoMouseDrags, DoMouseClick_drag_captured mw q mouseBtn m wa hm hwa, ih,
      List.map_cons, List.singleton_append]

end MainWnd


/-- Claim C15. A pointer-down whose hit-test selects the widget `B` at position
`fr._iter` captures `B`: every drag event `q` of the run `qs` that follows is
delivered to `B` and to no other widget, with the point made relative to the
top-left corner of `B`, wherever `q` lies; so is the pointer-up at `pu`, after
which no widget is captured. -/
theorem C15_gesture_goes_to_captured_widget (mw : MainWnd) (p0 : Point) (mouseBtn : MouseBtnTy)
    (fr : MainWnd.FindResult)
    (hfind : mw.FindWidgetByPos p0 true = fr) (hfound : fr.found = true)
    (qs : List Point) (pu : Point) :
    ∃ wb, mw.widgets[fr._iter]? = some wb ∧
      (mw.DoMouseClick p0 mouseBtn .xplm_MouseDown).1.pMouseFocusWidget = some fr._iter ∧
      ((mw.DoMouseClick p0 mouseBtn .xplm_MouseDown).1.DoMouseDrags mouseBtn qs).2 =
        qs.map (fun q => .mouseClick fr._iter ((mw.toInner q).sub wb.w.Tl) mouseBtn
          .xplm_MouseDrag) ∧
      ((((mw.DoMouseClick p0 mouseBtn .xplm_MouseDown).1.DoMouseDrags mouseBtn qs).1).DoMouseClick
          pu mouseBtn .xplm_MouseUp).2 =
        [.mouseClick fr._iter ((mw.toInner pu).sub wb.w.Tl) mouseBtn .xplm_MouseUp] ∧
      ((((mw.DoMouseClick p0 mouseBtn .xplm_MouseDown).1.DoMouseDrags mouseBtn qs).1).DoMouseClick
          pu mouseBtn .xplm_MouseUp).1.pMouseFocusWidget = none := by
  obtain ⟨wb, hW, _, _, _, _⟩ := MainWnd.FindWidgetByPos_found mw p0 fr hfind hfound
  obtain ⟨hm, hg, hft, hws⟩ := MainWnd.DoMouseClick_down_found mw p0 mouseBtn fr hfind hfound
  have hB := hws fr._iter
  rw [hW] at hB
  cases hwb : (mw.DoMouseClick p0 mouseBtn .xplm_MouseDown).1.widgets[fr._iter]? with
  | none => rw [hwb] at hB; simp at hB
  | some wb2 =>
    rw [hwb] at hB
    have hw : wb2.w = wb.w := by simpa using hB
    have hloc : ∀ q, (mw.DoMouseClick p0 mouseBtn .xplm_MouseDown).1.LocalizePoint q wb2 =
        (mw.toInner q).sub wb.w.Tl := fun q =>
      MainWnd.LocalizePoint_congr _ mw q wb2 wb hg hft hw
    refine ⟨wb, hW, hm, ?_, ?_, ?_⟩
    · rw [MainWnd.DoMouseDrags_captured _ mouseBtn fr._iter wb2 hm hwb qs]
      simp only [hloc]
    · rw [MainWnd.DoMouseDrags_captured _ mouseBtn fr._iter wb2 hm hwb qs]
      rw [MainWnd.DoMouseClick_up_captured _ pu mouseBtn fr._iter wb2 hm hwb]
      simp only [hloc]
    · rw [MainWnd.DoMouseDrags_captured _ mouseBtn fr._iter wb2 hm hwb qs]
      rw [MainWnd.DoMouseClick_up_captured _ pu mouseBtn fr._iter wb2 hm hwb]

/-- In the example window a pointer-down at (50, 75) hits button A (position
1); the drags to (50, 60), inside button B at position 2, and to (200, 50),
outside every widget, and the pointer-up at (50, 60) all go to position 1. -/
theorem C15_gesture_goes_to_captured_widget_witness :
    ((exFocusWnd.DoMouseClick ⟨50, 75⟩ .MOUSE_LEFT .xplm_MouseDown).1.DoMouseDrags .MOUSE_LEFT
        [⟨50, 60⟩, ⟨200, 50⟩]).2 =
      [.mouseClick 1 ⟨45, -20⟩ .MOUSE_LEFT .xplm_MouseDrag,
        .mouseClick 1 ⟨195, -30⟩ .MOUSE_LEFT .xplm_MouseDrag] ∧
    (exFocusWnd.FindWidgetByPos ⟨50, 60⟩ true)._iter = 2 ∧
    (∃ wb, exFocusWnd.widgets[1]? = some wb ∧
      ((((exFocusWnd.DoMouseClick ⟨50, 75⟩ .MOUSE_LEFT .xplm_MouseDown).1.DoMouseDrags .MOUSE_LEFT
          [⟨50, 60⟩, ⟨200, 50⟩]).1).DoMouseClick ⟨50, 60⟩ .MOUSE_LEFT
          .xplm_MouseUp).1.pMouseFocusWidget = none) :=
  ⟨by decide, by decide,
    (C15_gesture_goes_to_captured_widget exFocusWnd ⟨50, 75⟩ .MOUSE_LEFT ⟨⟨45, -5⟩, 1, true⟩
      (by decide) rfl [⟨50, 60⟩, ⟨200, 50⟩] ⟨50, 60⟩).imp
      (fun _ h => ⟨h.1, h.2.2.2.2⟩)⟩

/-- Claim C16. The code searches for the widget again at a drag or up event
when no widget is captured: in the example window a pointer-down at (200, 50)
hits no widget and calls none, and the drag to (50, 75) that follows is
delivered to button A (position 1), which is asked `DoFocusChange (FCS_FIRST)`,
gains the focus and becomes the captured widget. -/
theorem C16_drag_after_missed_down_hits_widget :
    (exFocusWnd.FindWidgetByPos ⟨200, 50⟩ true).found = false ∧
    exFocusWnd.DoMouseClick ⟨200, 50⟩ .MOUSE_LEFT .xplm_MouseDown = (exFocusWnd, []) ∧
    ((exFocusWnd.DoMouseClick ⟨200, 50⟩ .MOUSE_LEFT .xplm_MouseDown).1.DoMouseClick ⟨50, 75⟩
        .MOUSE_LEFT .xplm_MouseDrag).2 =
      [.focusChange 1 .FCS_FIRST true, .mouseClick 1 ⟨45, -5⟩ .MOUSE_LEFT .xplm_MouseDrag] ∧
    ((exFocusWnd.DoMouseClick ⟨200, 50⟩ .MOUSE_LEFT .xplm_MouseDown).1.DoMouseClick ⟨50, 75⟩
        .MOUSE_LEFT .xplm_MouseDrag).1.pFocusWidget = some 1 ∧
    ((exFocusWnd.DoMouseClick ⟨200, 50⟩ .MOUSE_LEFT .xplm_MouseDown).1.DoMouseClick ⟨50, 75⟩
        .MOUSE_LEFT .xplm_MouseDrag).1.pMouseFocusWidget = some 1 := by
  decide


/-! ## Drawing and hit-testing of a widget with the invalid rectangle -/

namespace MainWnd

theorem drawLoop_mem (mw : MainWnd) (Ofs : Point) (c : WidgetCall) :
    ∀ (ws : List WidgetAddTy) (idx : Nat), c ∈ mw.drawLoop Ofs idx ws ↔
      ∃ j wa, ws[j]? = some wa ∧ c = .draw (idx + j) (wa.w.addPt Ofs) ∧
        wa.st.bVisible = true ∧ mw.geo.ContainsRect (wa.w.addPt Ofs) = true := by
  intro ws
  induction ws with
  | nil => intro idx; simp [drawLoop]
  | cons w rest ih =>
    intro idx
    simp only [drawLoop, List.mem_append, ih]
    constructor
    · rintro (h | ⟨j, wa, hj, hc, hv, hcon⟩)
      · by_cases hv : w.st.bVisible = true
        · by_cases hcon : mw.geo.ContainsRect (w.w.addPt Ofs) = true
          · simp only [hv, hcon, if_true, List.mem_singleton] at h
            exact ⟨0, w, by simp, by simpa using h, hv, hcon⟩
          · simp [hv, hcon] at h
        · simp [hv] at h
      · exact ⟨j + 1, wa, by simpa using hj, by rw [hc]; congr 1; omega, hv, hcon⟩
    · rintro ⟨j, wa, hj, hc, hv, hcon⟩
      cases j with
      | zero =>
        simp only [List.getElem?_cons_zero, Option.some.injEq] at hj
        subst hj
        left
        simp [hv, hcon, hc]
      | succ k =>
        right
        exact ⟨k, wa, by simpa using hj, by rw [hc]; congr 1; omega, hv, hcon⟩

theorem invalid_addPt (Ofs : Point) :
    Rect.invalid.addPt Ofs =
      { bl := Ofs.add { x := -1, y := -1 }, tr := Ofs.add { x := -1, y := -1 } } := by
  simp [Rect.addPt, Rect.ctorPts, Rect.Normalize, Rect.invalid, Point.add, Rect.ctor,
    Rect.isNormalized, Rect.Left, Rect.Right, Rect.Top, Rect.Bottom, add_comm]

end MainWnd


namespace MainWnd

theorem invalid_Contains (q : Point) :
    Rect.invalid.Contains q = true ↔ q = { x := -1, y := -1 } := by
  cases q with
  | mk x y =>
    simp only [Rect.Contains, Rect.invalid, Rect.ctor, Rect.Normalize, Rect.Left, Rect.Right,
      Rect.Top, Rect.Bottom, gt_iff_lt, lt_self_iff_false, if_false, Bool.and_eq_true,
      decide_eq_true_eq, Point.mk.injEq]
    omega

/-- A widget that `FindWidgetByPos` returns contains the point made relative
to the inside of the frame. -/
theorem FindWidgetByPos_contains (mw : MainWnd) (p : Point) (b : Bool) (wa : WidgetAddTy)
    (hwa : mw.widgets[(mw.FindWidgetByPos p b)._iter]? = some wa) :
    wa.w.Contains (mw.toInner p) = true := by
  have hit : (mw.FindWidgetByPos p b)._iter = mw.widgets.findIdx (fun wa : WidgetAddTy =>
      (!b || (wa.st.bVisible && wa.st.bEnabled)) && wa.w.Contains (mw.toInner p)) := by
    simp only [FindWidgetByPos]
    split <;> rfl
  rw [hit] at hwa
  have hlt := (List.getElem?_eq_some_iff.mp hwa).1
  have hp := @List.findIdx_getElem _ (fun wa : WidgetAddTy =>
    (!b || (wa.st.bVisible && wa.st.bEnabled)) && wa.w.Contains (mw.toInner p))
    mw.widgets hlt
  rw [(List.getElem?_eq_some_iff.mp hwa).2] at hp
  simp only [Bool.and_eq_true] at hp
  exact hp.2

end MainWnd


/-! ## Focus traversal -/

/-- The first element of a list after `f` that meets `p`, starting again at
the front of the list: the next one in the list of the elements meeting `p`. -/
theorem find?_after_wrap (l : List Nat) (hl : l.Nodup) (p : Nat → Bool) (j : Nat)
    (hj : j < (l.filter p).length) :
    (l.drop (l.findIdx (fun i => decide (i = (l.filter p)[j])) + 1) ++ l).find? p =
      (l.filter p)[(j + 1) % (l.filter p).length]? := by
  have hmemF : (l.filter p)[j] ∈ l.filter p := List.getElem_mem hj
  have hpf : p (l.filter p)[j] = true := (List.mem_filter.mp hmemF).2
  obtain ⟨A, B, hAB⟩ := List.append_of_mem (List.mem_filter.mp hmemF).1
  generalize hfdef : (l.filter p)[j] = f at hAB hpf
  have hnd : (A ++ f :: B).Nodup := hAB ▸ hl
  have hfA : f ∉ A := by
    intro h
    have := (List.nodup_append.mp hnd).2.2
    exact this h (List.mem_cons_self f B)
  have hfind : l.findIdx (fun i => decide (i = f)) = A.length := by
    rw [hAB, List.findIdx_append]
    have h1 : ¬ List.findIdx (fun i => decide (i = f)) A < A.length := by
      intro h
      have := @List.findIdx_getElem _ (fun i => decide (i = f)) A h
      simp only [decide_eq_true_eq] at this
      exact hfA (this ▸ List.getElem_mem h)
    rw [if_neg h1]
    simp [List.findIdx_cons]
  have hdrop : l.drop (A.length + 1) = B := by
    rw [hAB]
    simp
  have hF : l.filter p = A.filter p ++ f :: B.filter p := by
    rw [hAB, List.filter_append, List.filter_cons, hpf]
    rfl
  have hFnd : (l.filter p).Nodup := hl.filter p
  have hjA : j = (A.filter p).length := by
    have hlt : (A.filter p).length < (l.filter p).length := by
      rw [hF]; simp
    have h2 : (l.filter p)[(A.filter p).length] = f := by
      have : (l.filter p)[(A.filter p).length]? = some f := by
        rw [hF, List.getElem?_append_right (le_refl _), Nat.sub_self]
        simp
      exact (List.getElem?_eq_some_iff.mp this).2
    exact (hFnd.getElem_inj_iff).mp (hfdef.trans h2.symm)
  rw [hfind, hdrop, List.find?_append]
  have hhead : ∀ m : List Nat, m.find? p = (m.filter p)[0]? := by
    intro m
    induction m with
    | nil => rfl
    | cons a t ih =>
      by_cases ha : p a = true
      · simp [List.find?_cons, List.filter_cons, ha]
      · simp only [Bool.not_eq_true] at ha
        simp [List.find?_cons, List.filter_cons, ha, ih]
  have hlen : (l.filter p).length = (A.filter p).length + 1 + (B.filter p).length := by
    rw [hF]; simp; omega
  cases hB : B.filter p with
  | nil =>
    have hk : (j + 1) % (l.filter p).length = 0 := by
      rw [hlen, hB, ← hjA]; simp
    rw [hk, hhead B, hB, hhead l]
    simp
  | cons b t =>
    have hk : (j + 1) % (l.filter p).length = j + 1 := by
      apply Nat.mod_eq_of_lt
      rw [hlen, hB, ← hjA]; simp
    have h1 : (A.filter p).length.succ - (A.filter p).length = 1 := by omega
    rw [hk, hhead B, hB, hF, hB, hjA, List.getElem?_append_right (Nat.le_succ _), h1]
    simp


namespace MainWnd

theorem setSt_self (mw : MainWnd) (i : Nat) (wa : WidgetAddTy) (h : mw.widgets[i]? = some wa) :
    mw.setSt i wa.st = mw := by
  have hset : mw.widgets.set i wa = mw.widgets := by
    apply List.ext_getElem?
    intro j
    by_cases hij : i = j
    · subst hij
      rw [List.getElem?_set_self (List.getElem?_eq_some_iff.mp h).1, h]
    · rw [List.getElem?_set_ne hij]
  simp only [setSt, h]
  exact congrArg (fun ws => { mw with widgets := ws }) hset

/-- A visible, enabled widget that is not a button array with buttons is
left as it is by `DoFocusChange`; it accepts `FCS_FIRST` exactly if it is a
push button, an edit field or a list box, and then refuses `FCS_NEXT`. -/
theorem DoFocusChange_single (st : WidgetSt) (hBA : st.kind = .buttonArray → st.nBtns = 0) :
    (∀ g, (st.DoFocusChange g).2 = st) ∧
    (st.DoFocusChange .FCS_FIRST).1 =
      (decide (st.kind = .buttonPush) || decide (st.kind = .editField) ||
        decide (st.kind = .listBox)) ∧
    (st.DoFocusChange .FCS_NEXT).1 = false := by
  cases hk : st.kind
  all_goals simp [WidgetSt.DoFocusChange, hk]
  simp [hBA hk]

theorem takesFocus_pFocusWidget (mw : MainWnd) (x : Option Nat) :
    takesFocus { mw with pFocusWidget := x } = takesFocus mw := rfl

/-- In a window without a visible, enabled button array that has buttons,
the scan gives the focus to the first position of `visit` that holds a
visible, enabled push button, edit field or list box, and changes nothing
else. -/
theorem focusScan_single (mw : MainWnd)
    (hBA : ∀ wa ∈ mw.widgets, wa.st.kind = .buttonArray →
      wa.st.bVisible = false ∨ wa.st.bEnabled = false ∨ wa.st.nBtns = 0)
    (visit : List Nat) :
    (focusScan .FCS_FIRST mw visit).1 =
      match visit.find? mw.takesFocus with
      | some i => { mw with pFocusWidget := some i }
      | none => mw := by
  induction visit with
  | nil => rfl
  | cons i rest ih =>
    cases h : mw.widgets[i]? with
    | none =>
      have ht : mw.takesFocus i = false := by simp [takesFocus, h]
      simp only [focusScan, h, List.find?_cons, ht]
      exact ih
    | some wa =>
      by_cases hv : (wa.st.bVisible && wa.st.bEnabled) = true
      · have hmem : wa ∈ mw.widgets := List.getElem?_mem h
        have hv2 := Bool.and_eq_true_iff.mp hv
        have hst := DoFocusChange_single wa.st (fun hk => by
          rcases hBA wa hmem hk with h1 | h1 | h1
          · rw [hv2.1] at h1; cases h1
          · rw [hv2.2] at h1; cases h1
          · exact h1)
        have hself : mw.setSt i (wa.st.DoFocusChange .FCS_FIRST).2 = mw := by
          rw [hst.1]; exact setSt_self mw i wa h
        have ht : mw.takesFocus i = (wa.st.DoFocusChange .FCS_FIRST).1 := by
          simp only [takesFocus, h, hv, Bool.true_and, hst.2.1]
        simp only [focusScan, h, hv, if_true, hself, List.find?_cons, ht]
        cases hacc : (wa.st.DoFocusChange .FCS_FIRST).1 with
        | true => simp
        | false => simpa using ih
      · have ht : mw.takesFocus i = false := by
          simp only [Bool.not_eq_true] at hv
          simp [takesFocus, h, hv]
        simp only [focusScan, h, hv, List.find?_cons, ht]
        exact ih

end MainWnd


theorem find?_eq_filter_first (p : Nat → Bool) (m : List Nat) :
    m.find? p = (m.filter p)[0]? := by
  induction m with
  | nil => rfl
  | cons a t ih =>
    by_cases ha : p a = true
    · simp [List.find?_cons, List.filter_cons, ha]
    · simp only [Bool.not_eq_true] at ha
      simp [List.find?_cons, List.filter_cons, ha, ih]

namespace MainWnd

/-- A request for the next widget while no widget has the focus. -/
theorem FocusNext_none (mw : MainWnd)
    (hBA : ∀ wa ∈ mw.widgets, wa.st.kind = .buttonArray →
      wa.st.bVisible = false ∨ wa.st.bEnabled = false ∨ wa.st.nBtns = 0)
    (hnone : mw.pFocusWidget = none) :
    mw.FocusNext.1 =
      match mw.focusOrder[0]? with
      | some i => { mw with pFocusWidget := some i }
      | none => mw := by
  simp only [FocusNext, DoFocusNextWidget, hnone, List.drop_length, List.nil_append, if_true]
  rw [focusScan_single mw hBA, find?_eq_filter_first]
  rfl

/-- A request for the next widget while a visible, enabled push button, edit
field or list box has the focus. -/
theorem FocusNext_holder (mw : MainWnd)
    (hBA : ∀ wa ∈ mw.widgets, wa.st.kind = .buttonArray →
      wa.st.bVisible = false ∨ wa.st.bEnabled = false ∨ wa.st.nBtns = 0)
    (j : Nat) (hj : j < mw.focusOrder.length)
    (hf : mw.pFocusWidget = some (mw.focusOrder.get ⟨j, hj⟩)) :
    mw.FocusNext.1 =
      { mw with pFocusWidget := mw.focusOrder[(j + 1) % mw.focusOrder.length]? } := by
  have hmem : mw.focusOrder.get ⟨j, hj⟩ ∈ mw.focusOrder := List.get_mem _ _ _
  generalize hfdef : mw.focusOrder.get ⟨j, hj⟩ = f at hf hmem
  have hmem2 := List.mem_filter.mp hmem
  have hlt : f < mw.widgets.length := List.mem_range.mp hmem2.1
  have htk : mw.takesFocus f = true := hmem2.2
  cases hwa : mw.widgets[f]? with
  | none => simp [takesFocus, hwa] at htk
  | some wa =>
    simp only [takesFocus, hwa, Bool.and_eq_true] at htk
    obtain ⟨⟨hv, he⟩, hkind⟩ := htk
    have hwmem : wa ∈ mw.widgets := List.getElem?_mem hwa
    have hst := DoFocusChange_single wa.st (fun hk => by
      rcases hBA wa hwmem hk with h1 | h1 | h1
      · rw [hv] at h1; cases h1
      · rw [he] at h1; cases h1
      · exact h1)
    have hself : mw.setSt f (wa.st.DoFocusChange .FCS_NEXT).2 = mw := by
      rw [hst.1]; exact setSt_self mw f wa hwa
    have hpos : List.findIdx (fun i => decide (i = f)) (List.range mw.widgets.length) ≠
        (List.range mw.widgets.length).length := by
      apply Nat.ne_of_lt
      apply List.findIdx_lt_length_of_exists
      exact ⟨f, List.mem_range.mpr hlt, by simp⟩
    have hwrap := find?_after_wrap (List.range mw.widgets.length) (List.nodup_range _)
      mw.takesFocus j hj
    have hfdef2 : (List.filter mw.takesFocus (List.range mw.widgets.length))[j] = f := hfdef
    rw [hfdef2] at hwrap
    simp only [FocusNext, DoFocusNextWidget, hf, hwa, hv, he, Bool.not_true, Bool.or_self,
      Bool.false_eq_true, if_false, hself, hst.2.2, if_true, hpos, ne_eq, not_false_eq_true]
    rw [focusScan_single { mw with pFocusWidget := none } hBA]
    simp only [takesFocus_pFocusWidget]
    rw [hwrap]
    have hk : (j + 1) % (List.filter mw.takesFocus (List.range mw.widgets.length)).length <
        (List.filter mw.takesFocus (List.range mw.widgets.length)).length :=
      Nat.mod_lt _ (Nat.lt_of_le_of_lt (Nat.zero_le j) hj)
    simp only [focusOrder, List.getElem?_eq_getElem hk]

end MainWnd


namespace MainWnd

theorem FocusNextTimes_succ (mw : MainWnd)
    (hBA : ∀ wa ∈ mw.widgets, wa.st.kind = .buttonArray →
      wa.st.bVisible = false ∨ wa.st.bEnabled = false ∨ wa.st.nBtns = 0)
    (hnone : mw.pFocusWidget = none) (hk : 1 ≤ mw.focusOrder.length) (n : Nat) :
    mw.FocusNextTimes (n + 1) =
      { mw with pFocusWidget := mw.focusOrder[n % mw.focusOrder.length]? } := by
  induction n with
  | zero =>
    have h0 : mw.focusOrder[0]? = some (mw.focusOrder.get ⟨0, hk⟩) :=
      List.getElem?_eq_getElem hk
    simp only [FocusNextTimes, FocusNext_none mw hBA hnone, Nat.zero_mod, h0]
  | succ m ih =>
    have hlt : m % mw.focusOrder.length < mw.focusOrder.length := Nat.mod_lt _ hk
    have hm : mw.focusOrder[m % mw.focusOrder.length]? =
        some (mw.focusOrder.get ⟨m % mw.focusOrder.length, hlt⟩) :=
      List.getElem?_eq_getElem hlt
    rw [hm] at ih
    have hstep := FocusNext_holder
      { mw with pFocusWidget := some (mw.focusOrder.get ⟨m % mw.focusOrder.length, hlt⟩) }
      hBA (m % mw.focusOrder.length) hlt rfl
    have hmod : (m % mw.focusOrder.length + 1) % mw.focusOrder.length =
        (m + 1) % mw.focusOrder.length := Nat.mod_add_mod _ _ _
    show (mw.FocusNextTimes (m + 1)).FocusNext.1 = _
    rw [ih, hstep]
    show { mw with pFocusWidget :=
      mw.focusOrder[(m % mw.focusOrder.length + 1) % mw.focusOrder.length]? } = _
    rw [hmod]

end MainWnd

/-- Claim C13. In a window in which no widget has the focus and no visible,
enabled button array has buttons, let the visible, enabled push buttons, edit
fields and list boxes be at the positions `focusOrder` in attachment order,
at least one. After `n ≥ 1` consecutive requests for the next widget the focus
is on the widget at `focusOrder[(n - 1) mod k]`, `k` being their number. -/
theorem C13_next_focus_round_robin (mw : MainWnd)
    (hBA : ∀ wa ∈ mw.widgets, wa.st.kind = .buttonArray →
      wa.st.bVisible = false ∨ wa.st.bEnabled = false ∨ wa.st.nBtns = 0)
    (hnone : mw.pFocusWidget = none) (hk : 1 ≤ mw.focusOrder.length)
    (n : Nat) (hn : 1 ≤ n) :
    ∃ f, mw.focusOrder[(n - 1) % mw.focusOrder.length]? = some f ∧
      (mw.FocusNextTimes n).pFocusWidget = some f ∧
      (mw.FocusNextTimes n).widgets = mw.widgets := by
  obtain ⟨m, rfl⟩ : ∃ m, n = m + 1 := ⟨n - 1, by omega⟩
  have hlt : m % mw.focusOrder.length < mw.focusOrder.length := Nat.mod_lt _ hk
  refine ⟨mw.focusOrder.get ⟨m % mw.focusOrder.length, hlt⟩, ?_, ?_, ?_⟩
  · simp only [Nat.add_sub_cancel]
    exact List.getElem?_eq_getElem hlt
  · rw [MainWnd.FocusNextTimes_succ mw hBA hnone hk m]
    exact List.getElem?_eq_getElem hlt
  · rw [MainWnd.FocusNextTimes_succ mw hBA hnone hk m]

/-- In the example window the push buttons A, B and C are at the positions
1, 2 and 4, with a label before them and a line between B and C: one request
gives the focus to A, three requests to C, four requests to A again. -/
theorem C13_next_focus_round_robin_witness :
    exFocusWnd.focusOrder = [1, 2, 4] ∧
    (exFocusWnd.FocusNextTimes 1).pFocusWidget = some 1 ∧
    (exFocusWnd.FocusNextTimes 3).pFocusWidget = some 4 ∧
    (exFocusWnd.FocusNextTimes 4).pFocusWidget = some 1 ∧
    (∃ f, exFocusWnd.focusOrder[(4 - 1) % exFocusWnd.focusOrder.length]? = some f ∧
      (exFocusWnd.FocusNextTimes 4).pFocusWidget = some f ∧
      (exFocusWnd.FocusNextTimes 4).widgets = exFocusWnd.widgets) :=
  ⟨by decide, by decide, by decide, by decide,
    C13_next_focus_round_robin exFocusWnd (by decide) rfl (by decide) 4 (by decide)⟩


namespace MainWnd

theorem DoFocusChange_flags (st : WidgetSt) (g : FocusChangeTy) :
    (st.DoFocusChange g).2.bVisible = st.bVisible ∧
    (st.DoFocusChange g).2.bEnabled = st.bEnabled := by
  cases hk : st.kind <;> cases g <;> simp only [WidgetSt.DoFocusChange, hk] <;>
    (try split_ifs) <;> simp

/-- Replacing the members of a widget by ones with the same `bVisible` and
`bEnabled` leaves these two members of every widget as they are. -/
theorem setSt_flagsAt (mw : MainWnd) (i : Nat) (wa : WidgetAddTy) (st : WidgetSt)
    (h : mw.widgets[i]? = some wa) (hv : st.bVisible = wa.st.bVisible)
    (he : st.bEnabled = wa.st.bEnabled) (j : Nat) :
    (mw.setSt i st).flagsAt j = mw.flagsAt j := by
  by_cases hij : i = j
  · subst hij
    have hlt : i < mw.widgets.length := (List.getElem?_eq_some_iff.mp h).1
    simp [flagsAt, setSt, h, List.getElem?_set_self hlt, hv, he]
  · simp only [flagsAt, setSt_getElem?_ne mw i st j hij]

theorem flagsAt_of_getElem? (mw : MainWnd) (i : Nat) (wa : WidgetAddTy)
    (h : mw.widgets[i]? = some wa) :
    mw.flagsAt i = some (wa.st.bVisible, wa.st.bEnabled) := by
  simp [flagsAt, h]

end MainWnd


namespace MainWnd

/-- What the scan over `visit` does, whatever the widgets are: it keeps
`bVisible` and `bEnabled` of every widget; it asks `gain` of visible, enabled
widgets of `visit` only; either every answer is false and the focus holder
stays, or the last answer is true and the widget that gave it holds the focus;
and a widget is asked at most as often as its position stands in `visit`. -/
theorem focusScan_spec (gain : FocusChangeTy) (visit : List Nat) :
    ∀ mw : MainWnd,
      (∀ j, (focusScan gain mw visit).1.flagsAt j = mw.flagsAt j) ∧
      (∀ c ∈ (focusScan gain mw visit).2, ∃ i r, c = .focusChange i gain r ∧ i ∈ visit ∧
        mw.flagsAt i = some (true, true)) ∧
      (((focusScan gain mw visit).1.pFocusWidget = mw.pFocusWidget ∧
          ∀ c ∈ (focusScan gain mw visit).2, ∀ i g, c ≠ .focusChange i g true) ∨
        (∃ i, (focusScan gain mw visit).1.pFocusWidget = some i ∧
          (focusScan gain mw visit).2.getLast? = some (.focusChange i gain true) ∧
          mw.flagsAt i = some (true, true))) ∧
      (∀ i, (focusScan gain mw visit).2.countP (fun c => decide (c.idx = i)) ≤
        visit.count i) := by
  induction visit with
  | nil =>
    intro mw
    refine ⟨fun _ => rfl, ?_, Or.inl ⟨rfl, ?_⟩, ?_⟩ <;> simp [focusScan]
  | cons a rest ih =>
    intro mw
    have hskip : focusScan gain mw (a :: rest) = focusScan gain mw rest →
        (∀ j, (focusScan gain mw (a :: rest)).1.flagsAt j = mw.flagsAt j) ∧
        (∀ c ∈ (focusScan gain mw (a :: rest)).2, ∃ i r, c = .focusChange i gain r ∧
          i ∈ a :: rest ∧ mw.flagsAt i = some (true, true)) ∧
        (((focusScan gain mw (a :: rest)).1.pFocusWidget = mw.pFocusWidget ∧
            ∀ c ∈ (focusScan gain mw (a :: rest)).2, ∀ i g, c ≠ .focusChange i g true) ∨
          (∃ i, (focusScan gain mw (a :: rest)).1.pFocusWidget = some i ∧
            (focusScan gain mw (a :: rest)).2.getLast? = some (.focusChange i gain true) ∧
            mw.flagsAt i = some (true, true))) ∧
        (∀ i, (focusScan gain mw (a :: rest)).2.countP (fun c => decide (c.idx = i)) ≤
          (a :: rest).count i) := by
      intro heq
      rw [heq]
      obtain ⟨h1, h2, h3, h4⟩ := ih mw
      refine ⟨h1, ?_, h3, ?_⟩
      · intro c hc
        obtain ⟨i, r, hci, hi, hfl⟩ := h2 c hc
        exact ⟨i, r, hci, List.mem_cons_of_mem _ hi, hfl⟩
      · intro i
        exact le_trans (h4 i) (by rw [List.count_cons]; omega)
    cases h : mw.widgets[a]? with
    | none => exact hskip (by simp only [focusScan, h])
    | some wa =>
      by_cases hv : (wa.st.bVisible && wa.st.bEnabled) = true
      · have hv2 := Bool.and_eq_true_iff.mp hv
        have hfa : mw.flagsAt a = some (true, true) := by
          rw [flagsAt_of_getElem? mw a wa h, hv2.1, hv2.2]
        have hfl := DoFocusChange_flags wa.st gain
        have hset : ∀ j, (mw.setSt a (wa.st.DoFocusChange gain).2).flagsAt j = mw.flagsAt j :=
          setSt_flagsAt mw a wa _ h hfl.1 hfl.2
        cases hacc : (wa.st.DoFocusChange gain).1 with
        | true =>
          have heq : focusScan gain mw (a :: rest) =
              ({ mw.setSt a (wa.st.DoFocusChange gain).2 with pFocusWidget := some a },
                [.focusChange a gain true]) := by
            simp only [focusScan, h, hv, if_true, hacc]
          rw [heq]
          refine ⟨hset, ?_, Or.inr ⟨a, rfl, rfl, hfa⟩, ?_⟩
          · intro c hc
            exact ⟨a, true, List.mem_singleton.mp hc, List.mem_cons_self _ _, hfa⟩
          · intro i
            by_cases hai : a = i
            · subst hai; simp [List.countP_cons, WidgetCall.idx]
            · simp [List.countP_cons, WidgetCall.idx, hai]
        | false =>
          have heq : focusScan gain mw (a :: rest) =
              ((focusScan gain (mw.setSt a (wa.st.DoFocusChange gain).2) rest).1,
                .focusChange a gain false ::
                  (focusScan gain (mw.setSt a (wa.st.DoFocusChange gain).2) rest).2) := by
            simp only [focusScan, h, hv, if_true, hacc, Bool.false_eq_true, if_false]
          rw [heq]
          obtain ⟨h1, h2, h3, h4⟩ := ih (mw.setSt a (wa.st.DoFocusChange gain).2)
          refine ⟨fun j => (h1 j).trans (hset j), ?_, ?_, ?_⟩
          · intro c hc
            rcases List.mem_cons.mp hc with hc | hc
            · exact ⟨a, false, hc, List.mem_cons_self _ _, hfa⟩
            · obtain ⟨i, r, hci, hi, hfi⟩ := h2 c hc
              exact ⟨i, r, hci, List.mem_cons_of_mem _ hi, (hset i).symm.trans hfi⟩
          · rcases h3 with ⟨hp, hall⟩ | ⟨i, hp, hlast, hfi⟩
            · left
              refine ⟨hp.trans (setSt_pFocusWidget _ _ _), ?_⟩
              intro c hc
              rcases List.mem_cons.mp hc with hc | hc
              · intro i g hcg
                rw [hc] at hcg
                simp at hcg
              · exact hall c hc
            · right
              refine ⟨i, hp, ?_, (hset i).symm.trans hfi⟩
              cases hl : (focusScan gain (mw.setSt a (wa.st.DoFocusChange gain).2) rest).2 with
              | nil => rw [hl] at hlast; simp at hlast
              | cons b t =>
                rw [hl] at hlast
                rw [List.getLast?_cons_cons]
                exact hlast
          · intro i
            have := h4 i
            have hidx : (WidgetCall.focusChange a gain false).idx = a := rfl
            by_cases hai : a = i
            · subst hai
              simp only [List.countP_cons, hidx, decide_True, if_true, List.count_cons,
                beq_self_eq_true]
              omega
            · simp only [List.countP_cons, hidx, hai, decide_False,
                Bool.false_eq_true, if_false, List.count_cons, beq_iff_eq]
              omega
      · exact hskip (by simp only [focusScan, h, hv, Bool.false_eq_true, if_false])

end MainWnd


namespace MainWnd

theorem flagsAt_true (mw : MainWnd) (i : Nat) (h : mw.flagsAt i = some (true, true)) :
    ∃ wa, mw.widgets[i]? = some wa ∧ wa.st.bVisible = true ∧ wa.st.bEnabled = true := by
  cases hw : mw.widgets[i]? with
  | none => simp [flagsAt, hw] at h
  | some wa =>
    simp only [flagsAt, hw, Option.map_some', Option.some.injEq, Prod.mk.injEq] at h
    exact ⟨wa, rfl, h.1, h.2⟩

/-- The scan started while no widget holds the focus, after the calls `pre`. -/
theorem focusScan_from_none (gain : FocusChangeTy) (visit : List Nat) (mw : MainWnd)
    (hp : mw.pFocusWidget = none) (pre : List WidgetCall) :
    (∀ i, (focusScan gain mw visit).1.pFocusWidget = some i →
      (focusScan gain mw visit).1.flagsAt i = some (true, true) ∧
      (pre ++ (focusScan gain mw visit).2).getLast? = some (.focusChange i gain true)) ∧
    ((∀ c ∈ pre ++ (focusScan gain mw visit).2, ∀ i g, c ≠ .focusChange i g true) →
      (focusScan gain mw visit).1.pFocusWidget = none) := by
  obtain ⟨h1, _, h3, _⟩ := focusScan_spec gain visit mw
  rcases h3 with ⟨hsame, _⟩ | ⟨i0, hp0, hlast, hfl⟩
  · refine ⟨?_, fun _ => hsame.trans hp⟩
    intro i hi
    rw [hsame, hp] at hi
    cases hi
  · constructor
    · intro i hi
      rw [hp0] at hi
      have hii : i0 = i := Option.some.inj hi
      subst hii
      refine ⟨(h1 i0).trans hfl, ?_⟩
      rw [List.getLast?_append, hlast]
      rfl
    · intro hall
      exfalso
      have hmem : WidgetCall.focusChange i0 gain true ∈ (focusScan gain mw visit).2 :=
        List.mem_of_mem_getLast? hlast
      exact hall _ (List.mem_append_right _ hmem) i0 gain rfl

/-- The positions that the scan visits after the focus holder `f` has
returned the focus: `f` once at most, every other position twice at most. -/
theorem count_visit (order : List Nat) (hnd : order.Nodup) (f : Nat) (iter : Nat)
    (hiter : iter = if order.findIdx (fun i => decide (i = f)) ≠ order.length
      then order.findIdx (fun i => decide (i = f)) + 1
      else order.findIdx (fun i => decide (i = f))) :
    (order.drop iter ++ order).count f ≤ 1 ∧
    ∀ i, (order.drop iter ++ order).count i ≤ 2 := by
  have hone : ∀ i, order.count i ≤ 1 := fun i => List.nodup_iff_count_le_one.mp hnd i
  have hsub : ∀ i, (order.drop iter).count i ≤ order.count i := fun i =>
    (List.drop_sublist iter order).count_le i
  refine ⟨?_, fun i => by rw [List.count_append]; have := hone i; have := hsub i; omega⟩
  rw [List.count_append]
  have hzero : (order.drop iter).count f = 0 := by
    rw [List.count_eq_zero]
    intro hmem
    have hmemo : f ∈ order := List.mem_of_mem_drop hmem
    obtain ⟨A, B, hAB⟩ := List.append_of_mem hmemo
    have hnd2 : (A ++ f :: B).Nodup := hAB ▸ hnd
    have hfA : f ∉ A := fun h =>
      (List.nodup_append.mp hnd2).2.2 h (List.mem_cons_self f B)
    have hfB : f ∉ B := (List.nodup_cons.mp (List.nodup_append.mp hnd2).2.1).1
    have hfind : order.findIdx (fun i => decide (i = f)) = A.length := by
      rw [hAB, List.findIdx_append]
      have h1 : ¬ List.findIdx (fun i => decide (i = f)) A < A.length := by
        intro h
        have := @List.findIdx_getElem _ (fun i => decide (i = f)) A h
        simp only [decide_eq_true_eq] at this
        exact hfA (this ▸ List.getElem_mem h)
      rw [if_neg h1]
      simp [List.findIdx_cons]
    have hne : A.length ≠ order.length := by
      rw [hAB]; simp
    rw [hfind, if_pos hne] at hiter
    have hdrop : order.drop iter = B := by
      rw [hiter, hAB]; simp
    rw [hdrop] at hmem
    exact hfB hmem
  have := hone f
  omega

end MainWnd


/-- Claim C14. A traversal request `DoFocusNextWidget` with `FCS_NEXT` or
`FCS_PREV` over the positions `order` (each once), in a window whose focus
holder, if any, is one of its widgets. (1) The widget that holds the focus
afterwards, if any, is visible and enabled, and the last call made is its
`DoFocusChange` with a transition other than `FCS_LOOSE`, which returned true.
(2) A focus holder that is invisible or disabled gets `DoFocusChange
(FCS_LOOSE)` as the first call and no other call. (3) If no call returned
true, no widget holds the focus afterwards. (4) No widget is called more than
twice. -/
theorem C14_traversal_focus_holder (mw : MainWnd) (order : List Nat) (_fcs : FocusChangeTy)
    (hfcs : _fcs = .FCS_NEXT ∨ _fcs = .FCS_PREV) (hnd : order.Nodup)
    (hvalid : ∀ f, mw.pFocusWidget = some f → f < mw.widgets.length) :
    (∀ i, (mw.DoFocusNextWidget order _fcs).1.pFocusWidget = some i →
      (∃ wa, (mw.DoFocusNextWidget order _fcs).1.widgets[i]? = some wa ∧
        wa.st.bVisible = true ∧ wa.st.bEnabled = true) ∧
      ∃ g, g ≠ FocusChangeTy.FCS_LOOSE ∧
        (mw.DoFocusNextWidget order _fcs).2.getLast? = some (.focusChange i g true)) ∧
    (∀ f wa, mw.pFocusWidget = some f → mw.widgets[f]? = some wa →
      (wa.st.bVisible = false ∨ wa.st.bEnabled = false) →
      (mw.DoFocusNextWidget order _fcs).2.head? =
        some (.focusChange f .FCS_LOOSE (wa.st.DoFocusChange .FCS_LOOSE).1) ∧
      ∀ c ∈ (mw.DoFocusNextWidget order _fcs).2.tail, c.idx ≠ f) ∧
    ((∀ c ∈ (mw.DoFocusNextWidget order _fcs).2, ∀ i g, c ≠ .focusChange i g true) →
      (mw.DoFocusNextWidget order _fcs).1.pFocusWidget = none) ∧
    (∀ i, (mw.DoFocusNextWidget order _fcs).2.countP (fun c => decide (c.idx = i)) ≤ 2) := by
  have hgain : (if _fcs = .FCS_NEXT then FocusChangeTy.FCS_FIRST else FocusChangeTy.FCS_LAST) ≠
      FocusChangeTy.FCS_LOOSE := by
    split_ifs <;> simp
  have hfl : _fcs ≠ FocusChangeTy.FCS_LOOSE := by
    rcases hfcs with h | h <;> rw [h] <;> simp
  generalize hg : (if _fcs = .FCS_NEXT then FocusChangeTy.FCS_FIRST
    else FocusChangeTy.FCS_LAST) = gain at hgain
  cases hpf : mw.pFocusWidget with
  | none =>
    have heq : mw.DoFocusNextWidget order _fcs =
        MainWnd.focusScan gain mw (order.drop order.length ++ order) := by
      simp only [MainWnd.DoFocusNextWidget, hpf, hg]
    rw [heq]
    obtain ⟨hA, hC⟩ := MainWnd.focusScan_from_none gain (order.drop order.length ++ order)
      mw hpf []
    obtain ⟨_, _, _, h4⟩ := MainWnd.focusScan_spec gain (order.drop order.length ++ order) mw
    refine ⟨?_, ?_, ?_, ?_⟩
    · intro i hi
      exact ⟨MainWnd.flagsAt_true _ i (hA i hi).1, gain, hgain, (hA i hi).2⟩
    · intro f wa hf
      cases hf
    · exact hC
    · intro i
      refine le_trans (h4 i) ?_
      rw [List.drop_length, List.nil_append]
      exact le_trans (List.nodup_iff_count_le_one.mp hnd i) (by omega)
  | some f =>
    have hlt := hvalid f hpf
    have hwa : mw.widgets[f]? = some mw.widgets[f] := List.getElem?_eq_getElem hlt
    generalize mw.widgets[f] = wa at hwa
    obtain ⟨hcf, hci⟩ := MainWnd.count_visit order hnd f
      (if order.findIdx (fun i => decide (i = f)) ≠ order.length
        then order.findIdx (fun i => decide (i = f)) + 1
        else order.findIdx (fun i => decide (i = f))) rfl
    generalize hvis : (order.drop (if order.findIdx (fun i => decide (i = f)) ≠ order.length
        then order.findIdx (fun i => decide (i = f)) + 1
        else order.findIdx (fun i => decide (i = f))) ++ order) = visit at hcf hci
    by_cases hv : (!wa.st.bVisible || !wa.st.bEnabled) = true
    · -- the holder is invisible or disabled
      have hflags := MainWnd.DoFocusChange_flags wa.st .FCS_LOOSE
      obtain ⟨mw1, hmw1, hp1, hset⟩ : ∃ mw1 : MainWnd,
          mw1 = { mw.setSt f (wa.st.DoFocusChange .FCS_LOOSE).2 with pFocusWidget := none } ∧
          mw1.pFocusWidget = none ∧ ∀ j, mw1.flagsAt j = mw.flagsAt j :=
        ⟨_, rfl, rfl, MainWnd.setSt_flagsAt mw f wa _ hwa hflags.1 hflags.2⟩
      have heq : mw.DoFocusNextWidget order _fcs =
          ((MainWnd.focusScan gain mw1 visit).1,
            .focusChange f .FCS_LOOSE (wa.st.DoFocusChange .FCS_LOOSE).1 ::
              (MainWnd.focusScan gain mw1 visit).2) := by
        rw [hmw1]
        simp only [MainWnd.DoFocusNextWidget, hpf, hwa, hv, if_true, hg, hvis]
      rw [heq]
      obtain ⟨hA, hC⟩ := MainWnd.focusScan_from_none gain visit mw1 hp1
        [.focusChange f .FCS_LOOSE (wa.st.DoFocusChange .FCS_LOOSE).1]
      obtain ⟨_, h2, _, h4⟩ := MainWnd.focusScan_spec gain visit mw1
      have hnotf : ∀ c ∈ (MainWnd.focusScan gain mw1 visit).2, c.idx ≠ f := by
        intro c hc hidx
        obtain ⟨i, r, hci2, _, hfi⟩ := h2 c hc
        rw [hci2] at hidx
        have hif : i = f := hidx
        rw [hif, hset f, MainWnd.flagsAt_of_getElem? mw f wa hwa] at hfi
        simp only [Option.some.injEq, Prod.mk.injEq] at hfi
        rw [hfi.1, hfi.2] at hv
        simp at hv
      refine ⟨?_, ?_, hC, ?_⟩
      · intro i hi
        exact ⟨MainWnd.flagsAt_true _ i (hA i hi).1, gain, hgain, (hA i hi).2⟩
      · intro f2 wa2 hf2 hwa2 _
        have hff : f = f2 := Option.some.inj hf2
        subst hff
        rw [hwa] at hwa2
        have hww : wa = wa2 := Option.some.inj hwa2
        subst hww
        exact ⟨rfl, hnotf⟩
      · intro i
        rw [List.countP_cons]
        have h5 := h4 i
        have h6 := hci i
        have hidx : (WidgetCall.focusChange f .FCS_LOOSE
            (wa.st.DoFocusChange .FCS_LOOSE).1).idx = f := rfl
        by_cases hif : f = i
        · subst hif
          simp only [hidx, decide_True, if_true]
          omega
        · simp only [hidx, hif, decide_False, Bool.false_eq_true, if_false]
          omega
    · -- the holder is visible and enabled
      have hv1 : wa.st.bVisible = true ∧ wa.st.bEnabled = true := by
        simp only [Bool.or_eq_true, Bool.not_eq_true', not_or, Bool.not_eq_false] at hv
        exact hv
      have hflags := MainWnd.DoFocusChange_flags wa.st _fcs
      have hset0 : ∀ j, (mw.setSt f (wa.st.DoFocusChange _fcs).2).flagsAt j = mw.flagsAt j :=
        MainWnd.setSt_flagsAt mw f wa _ hwa hflags.1 hflags.2
      have hfa : mw.flagsAt f = some (true, true) := by
        rw [MainWnd.flagsAt_of_getElem? mw f wa hwa, hv1.1, hv1.2]
      have hvis2 : ∀ wa2, mw.widgets[f]? = some wa2 →
          ¬ (wa2.st.bVisible = false ∨ wa2.st.bEnabled = false) := by
        intro wa2 hwa2
        rw [hwa] at hwa2
        have hww : wa = wa2 := Option.some.inj hwa2
        subst hww
        rw [hv1.1, hv1.2]
        simp
      cases hacc : (wa.st.DoFocusChange _fcs).1 with
      | true =>
        have heq : mw.DoFocusNextWidget order _fcs =
            (mw.setSt f (wa.st.DoFocusChange _fcs).2, [.focusChange f _fcs true]) := by
          simp only [MainWnd.DoFocusNextWidget, hpf, hwa, hv, Bool.false_eq_true, if_false,
            hacc, if_true]
        rw [heq]
        refine ⟨?_, ?_, ?_, ?_⟩
        · intro i hi
          rw [MainWnd.setSt_pFocusWidget, hpf] at hi
          have hfi : f = i := Option.some.inj hi
          subst hfi
          exact ⟨MainWnd.flagsAt_true _ f ((hset0 f).trans hfa), _fcs, hfl, rfl⟩
        · intro f2 wa2 hf2 hwa2 hinv
          have hff : f = f2 := Option.some.inj hf2
          subst hff
          exact absurd hinv (hvis2 wa2 hwa2)
        · intro hall
          exact absurd rfl (hall _ (List.mem_singleton.mpr rfl) f _fcs)
        · intro i
          show List.countP _ [WidgetCall.focusChange f _fcs true] ≤ 2
          exact le_trans (List.countP_le_length _) (by simp)
      | false =>
        obtain ⟨mw1, hmw1, hp1⟩ : ∃ mw1 : MainWnd,
            mw1 = { mw.setSt f (wa.st.DoFocusChange _fcs).2 with pFocusWidget := none } ∧
            mw1.pFocusWidget = none := ⟨_, rfl, rfl⟩
        have heq : mw.DoFocusNextWidget order _fcs =
            ((MainWnd.focusScan gain mw1 visit).1,
              .focusChange f _fcs false :: (MainWnd.focusScan gain mw1 visit).2) := by
          rw [hmw1]
          simp only [MainWnd.DoFocusNextWidget, hpf, hwa, hv, if_false, hacc, Bool.false_eq_true,
            hg, hvis]
        rw [heq]
        obtain ⟨hA, hC⟩ := MainWnd.focusScan_from_none gain visit mw1 hp1
          [.focusChange f _fcs false]
        obtain ⟨_, _, _, h4⟩ := MainWnd.focusScan_spec gain visit mw1
        refine ⟨?_, ?_, hC, ?_⟩
        · intro i hi
          exact ⟨MainWnd.flagsAt_true _ i (hA i hi).1, gain, hgain, (hA i hi).2⟩
        · intro f2 wa2 hf2 hwa2 hinv
          have hff : f = f2 := Option.some.inj hf2
          subst hff
          exact absurd hinv (hvis2 wa2 hwa2)
        · intro i
          rw [List.countP_cons]
          have h5 := h4 i
          have h6 := hci i
          have hidx : (WidgetCall.focusChange f _fcs false).idx = f := rfl
          by_cases hif : f = i
          · subst hif
            simp only [hidx, decide_True, if_true]
            omega
          · simp only [hidx, hif, decide_False, Bool.false_eq_true, if_false]
            omega


/-- In the example window with the hidden button B holding the focus, a
request for the next widget tells B to lose the focus, asks the line, which
refuses, and then button C (position 4), which accepts and holds the focus
afterwards. -/
theorem C14_traversal_focus_holder_witness :
    exFocusWndHidden.FocusNext.2 =
      [.focusChange 2 .FCS_LOOSE false, .focusChange 3 .FCS_FIRST false,
        .focusChange 4 .FCS_FIRST true] ∧
    exFocusWndHidden.FocusNext.1.pFocusWidget = some 4 ∧
    ((∃ wa, (exFocusWndHidden.DoFocusNextWidget (List.range 5) .FCS_NEXT).1.widgets[4]? =
        some wa ∧ wa.st.bVisible = true ∧ wa.st.bEnabled = true) ∧
      ∃ g, g ≠ FocusChangeTy.FCS_LOOSE ∧
        (exFocusWndHidden.DoFocusNextWidget (List.range 5) .FCS_NEXT).2.getLast? =
          some (.focusChange 4 g true)) :=
  ⟨by decide, by decide,
    (C14_traversal_focus_holder exFocusWndHidden (List.range 5) .FCS_NEXT (Or.inl rfl)
      (by decide)
      (fun f h => by
        have h2 : 2 = f := Option.some.inj h
        rw [← h2]
        decide)).1 4 (by decide)⟩


/-! ## Scroll position of the list box -/

namespace ListBox

/-- Removing a row leaves the scroll position, the number of rows that fit
and the lowest scroll position as they are. -/
theorem RemoveRow_rowFirst (lb : ListBox) (_refCon : Nat) :
    (lb.RemoveRow _refCon).1.rowFirst = lb.rowFirst ∧
    (lb.RemoveRow _refCon).1.rowMax = lb.rowMax ∧
    (lb.RemoveRow _refCon).1.rowFirstMaxDown = lb.rowFirstMaxDown := by
  simp only [RemoveRow]
  split
  · split <;> exact ⟨rfl, rfl, rfl⟩
  · exact ⟨rfl, rfl, rfl⟩

/-- Selecting a row by its identity token leaves the scroll position, the
rows and the number of rows that fit as they are. -/
theorem SelectRow_rowFirst (lb : ListBox) (_refCon : Nat) :
    (lb.SelectRow _refCon).1.rowFirst = lb.rowFirst ∧
    (lb.SelectRow _refCon).1.rows = lb.rows ∧
    (lb.SelectRow _refCon).1.rowMax = lb.rowMax := by
  simp only [SelectRow]
  split <;> exact ⟨rfl, rfl, rfl⟩

/-- The mouse wheel keeps the scroll position at or above the lowest one
that `SetGeometry` has computed. -/
theorem DoMouseWheel_le_down (lb : ListBox) (clicks : Int)
    (hf : lb.rowFirst < 2147483648) (hd : lb.rowFirstMaxDown < 2147483648)
    (hin : lb.rowFirst ≤ lb.rowFirstMaxDown) :
    (lb.DoMouseWheel 0 clicks).rowFirst ≤ lb.rowFirstMaxDown := by
  have h1 : toInt32 lb.rowFirst = lb.rowFirst := by
    simp only [toInt32, UINT_MOD]
    have : lb.rowFirst % 4294967296 = lb.rowFirst := Nat.mod_eq_of_lt (by omega)
    rw [this, if_pos hf]
  have h2 : toInt32 lb.rowFirstMaxDown = lb.rowFirstMaxDown := by
    simp only [toInt32, UINT_MOD]
    have : lb.rowFirstMaxDown % 4294967296 = lb.rowFirstMaxDown := Nat.mod_eq_of_lt (by omega)
    rw [this, if_pos hd]
  simp only [DoMouseWheel, ne_eq, not_true_eq_false, if_false, h1, h2]
  split_ifs with ha hb
  · exact Nat.zero_le _
  · exact le_refl _
  · show toUnsigned (lb.rowFirst + clicks) ≤ lb.rowFirstMaxDown
    simp only [toUnsigned, UINT_MOD]
    omega

/-- What `MakeSelVisible` achieves where a row fits: the selected row lies
in the window of the rows shown. -/
theorem MakeSelVisible_in_window (lb : ListBox) (hsel : lb.selRefCon ≠ 0)
    (hfound : lb.FindRowIdx lb.selRefCon < lb.rows.length)
    (hmax : 1 ≤ lb.rowMax) (hrows : lb.rows.length < UINT_MOD)
    (hsum : lb.rowFirst + lb.rowMax < UINT_MOD) :
    lb.MakeSelVisible.rowFirst ≤ lb.FindRowIdx lb.selRefCon ∧
    lb.FindRowIdx lb.selRefCon < lb.MakeSelVisible.rowFirst + lb.MakeSelVisible.rowMax := by
  have hne : lb.FindRowIdx lb.selRefCon ≠ lb.rows.length := Nat.ne_of_lt hfound
  simp only [UINT_MOD] at hrows hsum
  simp only [MakeSelVisible, hsel, ne_eq, not_false_eq_true, if_true, hne, UINT_MOD]
  split_ifs with h1 h2
  · simp only
    omega
  · simp only
    omega
  · omega

end ListBox

/-- Claim C18. The scenario list in a rectangle in which the header and one
row fit: three rows, `rowMax` 1, `rowFirst` 0 and the lowest scroll position
2. The mouse wheel scrolls down by two rows to `rowFirst` 2. `RemoveRow` of
row C then leaves two rows with `rowFirst` still 2, above
max (0, 2 - 1) = 1; `Clear` leaves no rows with `rowFirst` still 2. -/
theorem C18_RemoveRow_keeps_scroll_position :
    exABCGeo.map (fun lb => (lb.rows.length, lb.rowMax, lb.rowFirst, lb.rowFirstMaxDown)) =
      some (3, 1, 0, 2) ∧
    exABCGeo.map (fun lb => (lb.DoMouseWheel 0 2).rowFirst) = some 2 ∧
    exABCGeo.map (fun lb =>
        (((lb.DoMouseWheel 0 2).RemoveRow 3).2,
          ((lb.DoMouseWheel 0 2).RemoveRow 3).1.rows.length,
          ((lb.DoMouseWheel 0 2).RemoveRow 3).1.rowMax,
          ((lb.DoMouseWheel 0 2).RemoveRow 3).1.rowFirst)) = some (true, 2, 1, 2) ∧
    exABCGeo.map (fun lb =>
        decide ((((lb.DoMouseWheel 0 2).RemoveRow 3).1.rowFirst : Int) ≤
          max 0 ((((lb.DoMouseWheel 0 2).RemoveRow 3).1.rows.length : Int) -
            ((lb.DoMouseWheel 0 2).RemoveRow 3).1.rowMax))) = some false ∧
    exABCGeo.map (fun lb =>
        ((lb.DoMouseWheel 0 2).Clear.rows.length, (lb.DoMouseWheel 0 2).Clear.rowFirst)) =
      some (0, 2) := by
  decide

/-- Claim C19. The scenario list in a rectangle in which the header and one
row fit (`rowMax` 1, `rowFirst` 0): `SelectRow` with the identity token of
row C, stored at position 2, returns true and selects the row, and `rowFirst`
is still 0, so that position 2 is outside the rows shown, 0 ≤ i < 0 + 1.
`MakeSelVisible`, which `SelectRow` does not call, would set `rowFirst` to 2. -/
theorem C19_SelectRow_keeps_scroll_position :
    exABCGeo.map (fun lb => (lb.rows.map (fun r => r.refCon), lb.rowMax, lb.rowFirst)) =
      some ([1, 2, 3], 1, 0) ∧
    exABCGeo.map (fun lb =>
        ((lb.SelectRow 3).2, (lb.SelectRow 3).1.selRefCon, (lb.SelectRow 3).1.FindRowIdx 3,
          (lb.SelectRow 3).1.rowFirst, (lb.SelectRow 3).1.rowMax)) =
      some (true, 3, 2, 0, 1) ∧
    exABCGeo.map (fun lb =>
        decide ((lb.SelectRow 3).1.rowFirst ≤ (lb.SelectRow 3).1.FindRowIdx 3 ∧
          (lb.SelectRow 3).1.FindRowIdx 3 <
            (lb.SelectRow 3).1.rowFirst + (lb.SelectRow 3).1.rowMax)) = some false ∧
    exABCGeo.map (fun lb => (lb.SelectRow 3).1.MakeSelVisible.rowFirst) = some 2 := by
  decide


/-! ## Two fixed-length rules on one axis -/

namespace MainWnd

/-- The edges that the loop body of `Layout` computes where both rules of an
axis are fixed-length. -/
theorem layoutEdges_both_fixed (mw : MainWnd) (prevWa : Option WidgetAddTy) (wa : WidgetAddTy) :
    (wa.lR = .POS_FIXED_LEN → wa.rR = .POS_FIXED_LEN →
      (mw.layoutEdges prevWa wa)._left = wa.rO ∧
      (mw.layoutEdges prevWa wa)._right = wa.rO + wa.lO) ∧
    (wa.tR = .POS_FIXED_LEN → wa.bR = .POS_FIXED_LEN →
      (mw.layoutEdges prevWa wa)._bottom = wa.tO - wa.bO ∧
      (mw.layoutEdges prevWa wa)._top = wa.tO - wa.bO + wa.tO) := by
  constructor
  · intro hl hr
    simp only [layoutEdges, hl, hr, if_true]
    exact ⟨by omega, trivial⟩
  · intro ht hb
    simp only [layoutEdges, ht, hb, if_true]
    exact ⟨trivial, trivial⟩

end MainWnd


/-! ## Looking up a column -/

namespace ListBox

theorem GetCol_eq (lb : ListBox) (colId : Nat) : lb.GetCol colId = lb.cols[colId]? := by
  simp only [GetCol]
  split_ifs with h
  · rfl
  · exact (List.getElem?_eq_none (Nat.le_of_not_lt h)).symm

/-- The columns after `AddCol`, where it does not throw: the columns before,
filled up with null columns to `colId`, with `d` at `colId`. -/
theorem AddCol_cols (lb lb1 : ListBox) (colId : Nat) (d : ListColumnDef)
    (h : lb.AddCol colId d = some lb1) :
    lb1.cols = (lb.cols ++ List.replicate (colId + 1 - lb.cols.length) nullCol).set colId d := by
  simp only [AddCol] at h
  by_cases hge : colId ≥ lb.cols.length
  · rw [if_pos hge] at h
    have hM : (colId + 1) % UINT_MOD ≤ colId + 1 := Nat.mod_le _ _
    generalize (colId + 1) % UINT_MOD = k at h hM
    by_cases hn : k ≤ lb.cols.length
    · have hlen : (resizeCols lb.cols k).length ≤ colId := by
        simp only [resizeCols, if_pos hn, List.length_take]
        omega
      rw [if_neg (by omega)] at h
      cases h
    · have hres : resizeCols lb.cols k =
          lb.cols ++ List.replicate (k - lb.cols.length) nullCol := by
        simp only [resizeCols, if_neg hn]
      have hlen : (resizeCols lb.cols k).length = k := by
        rw [hres, List.length_append, List.length_replicate]
        omega
      by_cases hlt : colId < (resizeCols lb.cols k).length
      · rw [if_pos hlt] at h
        have hk : k = colId + 1 := by omega
        have h3 := Option.some.inj h
        rw [← h3, hres, hk]
      · rw [if_neg hlt] at h
        cases h
  · have hlt : colId < lb.cols.length := Nat.lt_of_not_ge hge
    rw [if_neg hge, if_pos hlt] at h
    have h3 := Option.some.inj h
    have h0 : colId + 1 - lb.cols.length = 0 := by omega
    rw [← h3, h0]
    simp

end ListBox

/-- Claim C23 does not hold as stated. `GetCol` is `cols.at (colId)`, which
throws for an id at or beyond the size of the vector of columns: in the list
box with the columns 0 and 1, `GetCol (2)` throws; in a newly constructed
list box `GetCol (0)` throws; in the list box in which only column 2 has been
defined, `GetCol (0)` and `GetCol (1)` return the null column and `GetCol (3)`
throws. -/
theorem C23_GetCol_beyond_size_throws :
    exCols.cols.length = 2 ∧ exCols.GetCol 2 = none ∧
    ListBox.init.GetCol 0 = none ∧
    exSparseCols.map (fun lb => (lb.GetCol 0, lb.GetCol 1, lb.GetCol 3)) =
      some (some ListBox.nullCol, some ListBox.nullCol, none) := by
  decide

/-- Claim C23, as the code has it. After `AddCol (colId, d)`, where it does
not throw: `GetCol (colId)` returns `d`; for every other id below the size of
the vector before, `GetCol` returns what it returned before; for an id from
the size before up to `colId`, never defined, it returns the null column
(data type null, not visible, width 0); and `GetCol (j)` throws exactly for
the ids `j` at or beyond the size of the vector, which is the larger of the
size before and `colId + 1`. -/
theorem C23_GetCol_defined_below_size (lb lb1 : ListBox) (colId : Nat) (d : ListColumnDef)
    (h : lb.AddCol colId d = some lb1) :
    lb1.GetCol colId = some d ∧
    (∀ j, j < lb.cols.length → j ≠ colId → lb1.GetCol j = lb.GetCol j) ∧
    (∀ j, lb.cols.length ≤ j → j < colId → lb1.GetCol j = some ListBox.nullCol) ∧
    (∀ j, lb1.GetCol j = none ↔ lb1.cols.length ≤ j) ∧
    lb1.cols.length = max lb.cols.length (colId + 1) ∧
    ListBox.nullCol.dataType = .DTY_NULL ∧ ListBox.nullCol.bVisible = false ∧
    ListBox.nullCol.width = 0 := by
  have hc := ListBox.AddCol_cols lb lb1 colId d h
  have hlen : lb1.cols.length = max lb.cols.length (colId + 1) := by
    rw [hc]
    simp only [List.length_set, List.length_append, List.length_replicate]
    omega
  refine ⟨?_, ?_, ?_, ?_, hlen, rfl, rfl, rfl⟩
  · rw [ListBox.GetCol_eq, hc, List.getElem?_set_self]
    simp only [List.length_append, List.length_replicate]
    omega
  · intro j hj hne
    rw [ListBox.GetCol_eq, ListBox.GetCol_eq, hc, List.getElem?_set_ne (Ne.symm hne),
      List.getElem?_append_left hj]
  · intro j hj hlt
    rw [ListBox.GetCol_eq, hc, List.getElem?_set_ne (by omega),
      List.getElem?_append_right hj, List.getElem?_replicate]
    rw [if_pos (by omega)]
  · intro j
    rw [ListBox.GetCol_eq, List.getElem?_eq_none_iff]

/-- In a newly constructed list box `AddCol (2, d)` defines column 2 only:
`GetCol (2)` returns `d`, and the columns 0 and 1 are null columns. -/
theorem C23_GetCol_defined_below_size_witness :
    (∃ lb1, ListBox.init.AddCol 2 (exCol [80, 97, 120] 30 .DTY_INT) = some lb1 ∧
      lb1.GetCol 2 = some (exCol [80, 97, 120] 30 .DTY_INT) ∧ lb1.cols.length = 3) :=
  ⟨{ ListBox.init with
      cols := [ListBox.nullCol, ListBox.nullCol, exCol [80, 97, 120] 30 .DTY_INT] },
   by decide,
   (C23_GetCol_defined_below_size ListBox.init _ 2 (exCol [80, 97, 120] 30 .DTY_INT)
      (by decide)).1,
   by decide⟩


/-! ## Adding buttons to a button array -/

namespace ButtonArray

theorem FindElem_refCon_of_mem (ba : ButtonArray) (r : Nat)
    (h : r ∈ ba.aBtns.map (fun be => be.refCon)) : (ba.FindElem r).refCon = r := by
  simp only [FindElem]
  cases hf : ba.aBtns.find? (fun be => decide (be.refCon = r)) with
  | none =>
    obtain ⟨be, hbe, hr⟩ := List.mem_map.mp h
    have := List.find?_eq_none.mp hf be hbe
    simp [hr] at this
  | some be =>
    have := List.find?_some hf
    simpa using this

theorem FindElem_of_not_mem (ba : ButtonArray) (r : Nat)
    (h : r ∉ ba.aBtns.map (fun be => be.refCon)) : ba.FindElem r = BUTTON_ELEM_NULL := by
  simp only [FindElem]
  cases hf : ba.aBtns.find? (fun be => decide (be.refCon = r)) with
  | none => rfl
  | some be =>
    exfalso
    apply h
    have h1 := List.find?_some hf
    have h2 := List.mem_of_find?_eq_some hf
    exact List.mem_map.mpr ⟨be, h2, by simpa using h1⟩

/-- What `AddButton` does: nothing for the null identity token and for an
identity token that the array holds, an append otherwise. -/
theorem AddButton_spec (ba : ButtonArray) (e : ButtonElem) :
    ((e.refCon = 0 ∨ e.refCon ∈ ba.aBtns.map (fun be => be.refCon)) →
      ba.AddButton e = (ba, false)) ∧
    (¬ (e.refCon = 0 ∨ e.refCon ∈ ba.aBtns.map (fun be => be.refCon)) →
      ba.AddButton e = ({ ba with aBtns := ba.aBtns ++ [e] }, true)) := by
  have hnull : BUTTON_ELEM_NULL.refCon = 0 := rfl
  constructor
  · intro h
    by_cases h0 : e.refCon = 0
    · simp [AddButton, ButtonElem.eq, hnull, h0]
    · rcases h with h | h
      · exact absurd h h0
      · simp [AddButton, ButtonElem.eq, hnull, h0, FindElem_refCon_of_mem ba e.refCon h]
  · intro h
    simp only [not_or] at h
    simp [AddButton, ButtonElem.eq, hnull, h.1, FindElem_of_not_mem ba e.refCon h.2]

/-- The identity tokens stay non-null and pairwise distinct under
`AddButton`. -/
theorem AddButton_inv (ba : ButtonArray) (e : ButtonElem)
    (hnd : (ba.aBtns.map (fun be => be.refCon)).Nodup)
    (hnn : ∀ r ∈ ba.aBtns.map (fun be => be.refCon), r ≠ 0) :
    ((ba.AddButton e).1.aBtns.map (fun be => be.refCon)).Nodup ∧
    ∀ r ∈ (ba.AddButton e).1.aBtns.map (fun be => be.refCon), r ≠ 0 := by
  by_cases h : e.refCon = 0 ∨ e.refCon ∈ ba.aBtns.map (fun be => be.refCon)
  · rw [(AddButton_spec ba e).1 h]
    exact ⟨hnd, hnn⟩
  · rw [(AddButton_spec ba e).2 h]
    simp only [not_or] at h
    constructor
    · simp only [List.map_append, List.map_cons, List.map_nil]
      rw [List.nodup_append]
      refine ⟨hnd, List.nodup_singleton _, ?_⟩
      intro r hr hr2
      rw [List.mem_singleton] at hr2
      exact h.2 (hr2 ▸ hr)
    · intro r hr
      simp only [List.map_append, List.map_cons, List.map_nil, List.mem_append,
        List.mem_singleton] at hr
      rcases hr with hr | hr
      · exact hnn r hr
      · rw [hr]; exact h.1

theorem AddButtons_inv (es : List ButtonElem) :
    ∀ ba : ButtonArray, (ba.aBtns.map (fun be => be.refCon)).Nodup →
      (∀ r ∈ ba.aBtns.map (fun be => be.refCon), r ≠ 0) →
      ((ba.AddButtons es).aBtns.map (fun be => be.refCon)).Nodup ∧
      ∀ r ∈ (ba.AddButtons es).aBtns.map (fun be => be.refCon), r ≠ 0 := by
  induction es with
  | nil => intro ba hnd hnn; exact ⟨hnd, hnn⟩
  | cons e rest ih =>
    intro ba hnd hnn
    obtain ⟨h1, h2⟩ := AddButton_inv ba e hnd hnn
    exact ih _ h1 h2

end ButtonArray

/-- Claim C24. For every button array and every element `e`: `AddButton (e)`
returns false and leaves the array as it is if the identity token of `e` is
null or is the identity token of an element of the array; otherwise it
appends `e` as the last element and returns true. Hence in every array built
from an empty one by calls of `AddButton`, whatever they return, the identity
tokens are non-null and pairwise distinct. In the example the check boxes 1,
2 and 3 are all added, and a further element with the identity token 2, or
with a null one, is refused. -/
theorem C24_AddButton_refuses_null_and_duplicates :
    (∀ (ba : ButtonArray) (e : ButtonElem),
      ((e.refCon = 0 ∨ e.refCon ∈ ba.aBtns.map (fun be => be.refCon)) →
        ba.AddButton e = (ba, false)) ∧
      (¬ (e.refCon = 0 ∨ e.refCon ∈ ba.aBtns.map (fun be => be.refCon)) →
        ba.AddButton e = ({ ba with aBtns := ba.aBtns ++ [e] }, true))) ∧
    (∀ es : List ButtonElem,
      ((ButtonArray.AddButtons { aBtns := [] } es).aBtns.map (fun be => be.refCon)).Nodup ∧
      ∀ r ∈ (ButtonArray.AddButtons { aBtns := [] } es).aBtns.map (fun be => be.refCon),
        r ≠ 0) ∧
    (ButtonArray.AddButtons { aBtns := [] } exCheckElems).aBtns = exCheckElems ∧
    (ButtonArray.AddButton { aBtns := exCheckElems }
      (ButtonElem.ctor 2 [84, 119, 111] .BTN_NORMAL)) = ({ aBtns := exCheckElems }, false) ∧
    (ButtonArray.AddButton { aBtns := exCheckElems }
      (ButtonElem.ctor 0 [78] .BTN_NORMAL)) = ({ aBtns := exCheckElems }, false) := by
  refine ⟨ButtonArray.AddButton_spec, ?_, by decide, by decide, by decide⟩
  intro es
  exact ButtonArray.AddButtons_inv es { aBtns := [] } List.nodup_nil (by simp)


/-! ## The mutating operations of `Rect` -/

/-- The operations of `Rect` that end with `Normalize` yield a normalized
rectangle, whatever the rectangle and the arguments are. -/
theorem Rect.normalizing_ops_isNormalized (r : Rect) (p : Point) (v : Int) (o : Rect)
    (l t rr b : Int) (p2 : Point) :
    (Rect.ctor l t rr b).isNormalized = true ∧ (Rect.ctorPts p p2).isNormalized = true ∧
    (r.SetBl p).isNormalized = true ∧ (r.SetTr p).isNormalized = true ∧
    (r.SetTop v).isNormalized = true ∧ (r.SetBottom v).isNormalized = true ∧
    (r.SetLeft v).isNormalized = true ∧ (r.SetRight v).isNormalized = true ∧
    (r.SetWidth v).isNormalized = true ∧ (r.SetHeight v).isNormalized = true ∧
    (r.SetGeometry o).isNormalized = true ∧ (r.assign o).isNormalized = true :=
  ⟨Rect.Normalize_isNormalized _, Rect.Normalize_isNormalized _, Rect.Normalize_isNormalized _,
    Rect.Normalize_isNormalized _, Rect.Normalize_isNormalized _, Rect.Normalize_isNormalized _,
    Rect.Normalize_isNormalized _, Rect.Normalize_isNormalized _, Rect.Normalize_isNormalized _,
    Rect.Normalize_isNormalized _, Rect.Normalize_isNormalized _, Rect.Normalize_isNormalized _⟩

/-- Moving a normalized rectangle by a point leaves it normalized. -/
theorem Rect.move_isNormalized (r : Rect) (ofs : Point) (h : r.isNormalized = true) :
    (r.addAssign ofs).isNormalized = true ∧ (r.subAssign ofs).isNormalized = true := by
  simp only [Rect.isNormalized, Rect.Left, Rect.Right, Rect.Bottom, Rect.Top, Bool.and_eq_true,
    decide_eq_true_eq, Rect.addAssign, Rect.subAssign, Point.add, Point.sub] at h ⊢
  omega

/-- Method `Rect::Expand` leaves a normalized rectangle normalized exactly if
twice the amount is not below minus the width and not below minus the
height. -/
theorem Rect.Expand_isNormalized_iff (r : Rect) (_by : Int) :
    (r.Expand _by).isNormalized = true ↔ -r.Width ≤ 2 * _by ∧ -r.Height ≤ 2 * _by := by
  simp only [Rect.isNormalized, Rect.Left, Rect.Right, Rect.Bottom, Rect.Top, Bool.and_eq_true,
    decide_eq_true_eq, Rect.Expand, Point.add, Point.sub, Rect.Width, Rect.Height]
  omega

/-- Claim C26. The rectangle with left 0, top 10, right 10 and bottom 0 is
normalized; `Expand (-6)` turns it into the rectangle with the bottom-left
corner (6, 6) and the top-right corner (4, 4), which is not normalized:
left 6 is beyond right 4 and bottom 6 is above top 4. `Expand (-3)`, as the
list box calls it for a check box, does the same to a rectangle 4 wide. -/
theorem C26_Expand_breaks_normalization :
    (Rect.ctor 0 10 10 0).isNormalized = true ∧
    (Rect.ctor 0 10 10 0).Expand (-6) = { bl := ⟨6, 6⟩, tr := ⟨4, 4⟩ } ∧
    ((Rect.ctor 0 10 10 0).Expand (-6)).isNormalized = false ∧
    ((Rect.ctor 0 4 4 0).Expand (-3)).isNormalized = false := by
  decide


/-! ## The key [Esc] -/

namespace MainWnd

/-- What `DoHandleKey` does for the key [Esc]: afterwards no widget holds the
focus, whatever the flags are; the widget that held it gets `DoFocusChange
(FCS_LOOSE)` if the flags are `xplm_DownFlag` alone, and no widget is called
for other flags. -/
theorem DoHandleKey_escape (mw : MainWnd) (inKey : Int) (inFlags : Nat) :
    (mw.DoHandleKey inKey inFlags XPLM_VK_ESCAPE).1.pFocusWidget = none ∧
    (inFlags ≠ xplm_DownFlag →
      mw.DoHandleKey inKey inFlags XPLM_VK_ESCAPE = ({ mw with pFocusWidget := none }, [])) ∧
    (∀ f wa, inFlags = xplm_DownFlag → mw.pFocusWidget = some f → mw.widgets[f]? = some wa →
      (mw.DoHandleKey inKey inFlags XPLM_VK_ESCAPE).2 =
        [.focusChange f .FCS_LOOSE (wa.st.DoFocusChange .FCS_LOOSE).1]) := by
  have hne : XPLM_VK_ESCAPE ≠ XPLM_VK_TAB := by decide
  refine ⟨?_, ?_, ?_⟩
  · simp only [DoHandleKey, hne, if_false, if_true]
  · intro hfl
    simp only [DoHandleKey, hne, if_false, if_true, hfl]
    cases mw.pFocusWidget <;> rfl
  · intro f wa hfl hf hwa
    simp only [DoHandleKey, hne, if_false, if_true, hfl, hf, askFocus_some mw f .FCS_LOOSE wa hwa]

end MainWnd

/-- Claim C22. In the example window with button A (position 1) holding the
focus, the key [Esc] going down with the shift key (flags `xplm_DownFlag |
xplm_ShiftFlag`), and the key [Esc] going up (flags `xplm_UpFlag`), take the
focus away without a call of any widget: button A does not get
`DoFocusChange (FCS_LOOSE)`. With the flags `xplm_DownFlag` alone it does. -/
theorem C22_escape_without_lose :
    ({ exFocusWnd with pFocusWidget := some 1 }.DoHandleKey 27
        (xplm_DownFlag ||| xplm_ShiftFlag) XPLM_VK_ESCAPE) =
      ({ exFocusWnd with pFocusWidget := none }, []) ∧
    ({ exFocusWnd with pFocusWidget := some 1 }.DoHandleKey 27 xplm_UpFlag XPLM_VK_ESCAPE) =
      ({ exFocusWnd with pFocusWidget := none }, []) ∧
    ({ exFocusWnd with pFocusWidget := some 1 }.DoHandleKey 27 xplm_DownFlag XPLM_VK_ESCAPE) =
      ({ exFocusWnd with pFocusWidget := none }, [.focusChange 1 .FCS_LOOSE false]) := by
  decide


/-! ## Sequence numbers are never used twice -/

namespace ListBox

theorem SetSorting_sequRow (lb : ListBox) (c : Nat) (s : SortingTy) :
    (lb.SetSorting c s).sequRow = lb.sequRow := by
  simp only [SetSorting]
  split_ifs
  all_goals first
    | rfl
    | exact DoSort_sequRow _
    | (rename_i h3
       by_cases h4 : (lb.cols.get ⟨_, Nat.lt_of_not_le h3⟩).dataType = DataTypeTy.DTY_NULL
       · simp only [List.get_eq_getElem] at h4
         rw [if_pos h4]
       · simp only [List.get_eq_getElem] at h4
         rw [if_neg h4]; exact DoSort_sequRow _)

/-- The sequence numbers of the rows after `AddRow`, up to their order, and
the counter: unchanged for a stored identity token; one more sequence number,
the counter plus one, for a new identity token. -/
theorem AddRow_sequNrs (lb : ListBox) (row : ListRow) :
    (lb.FindRowIdx row.refCon < lb.rows.length →
      ((lb.AddRow row).lb.rows.map (fun r => r.sequNr)).Perm (lb.rows.map (fun r => r.sequNr)) ∧
      (lb.AddRow row).lb.sequRow = lb.sequRow) ∧
    (¬ lb.FindRowIdx row.refCon < lb.rows.length →
      (lb.AddRow row).lb.rows.Perm (lb.rows ++ [row.SetSequNr ((lb.sequRow + 1) % UINT_MOD)]) ∧
      (lb.AddRow row).lb.sequRow = (lb.sequRow + 1) % UINT_MOD) := by
  constructor
  · intro hlt
    have hset : (lb.rows.set (lb.FindRowIdx row.refCon)
        (row.SetSequNr (lb.rows[lb.FindRowIdx row.refCon]).sequNr)).map (fun r => r.sequNr) =
        lb.rows.map (fun r => r.sequNr) := by
      apply List.ext_getElem?
      intro j
      simp only [List.getElem?_map]
      by_cases hj : lb.FindRowIdx row.refCon = j
      · subst hj
        rw [List.getElem?_set_self hlt, List.getElem?_eq_getElem hlt]
        rfl
      · rw [List.getElem?_set_ne hj]
    simp only [AddRow, hlt, ↓reduceDIte]
    split_ifs
    · exact ⟨((DoSort_rows_perm _).map _).trans (by rw [hset]), DoSort_sequRow _⟩
    · exact ⟨by rw [hset], rfl⟩
  · intro hnlt
    simp only [AddRow, hnlt, ↓reduceDIte]
    split_ifs
    · exact ⟨DoSort_rows_perm _, DoSort_sequRow _⟩
    · exact ⟨List.Perm.refl _, rfl⟩

/-- The invariant of the sequence numbers: no stored row has a sequence
number above the counter, and no two stored rows have the same one. -/
theorem applyRowOp_inv (lb : ListBox) (op : RowOp)
    (hle : ∀ r ∈ lb.rows, r.sequNr ≤ lb.sequRow)
    (hnd : (lb.rows.map (fun r => r.sequNr)).Nodup)
    (hno : lb.sequRow + 1 < UINT_MOD) :
    (∀ r ∈ (lb.applyRowOp op).rows, r.sequNr ≤ (lb.applyRowOp op).sequRow) ∧
    ((lb.applyRowOp op).rows.map (fun r => r.sequNr)).Nodup ∧
    lb.sequRow ≤ (lb.applyRowOp op).sequRow ∧ (lb.applyRowOp op).sequRow ≤ lb.sequRow + 1 ∧
    (∀ a ∈ lb.assignedBy op, a = lb.sequRow + 1 ∧ (lb.applyRowOp op).sequRow = lb.sequRow + 1) := by
  have hmod : (lb.sequRow + 1) % UINT_MOD = lb.sequRow + 1 := Nat.mod_eq_of_lt hno
  cases op with
  | addRow row =>
    obtain ⟨hf, hn⟩ := AddRow_sequNrs lb row
    by_cases hlt : lb.FindRowIdx row.refCon < lb.rows.length
    · obtain ⟨hp, hs⟩ := hf hlt
      have hne : lb.FindRowIdx row.refCon ≠ lb.rows.length := Nat.ne_of_lt hlt
      refine ⟨?_, hp.nodup_iff.mpr hnd, ?_, ?_, ?_⟩
      · intro r hr
        have hm : r.sequNr ∈ (lb.AddRow row).lb.rows.map (fun r => r.sequNr) :=
          List.mem_map_of_mem _ hr
        obtain ⟨r0, hr0, he⟩ := List.mem_map.mp (hp.mem_iff.mp hm)
        show r.sequNr ≤ (lb.AddRow row).lb.sequRow
        rw [hs, ← he]
        exact hle r0 hr0
      · show lb.sequRow ≤ (lb.AddRow row).lb.sequRow
        rw [hs]
      · show (lb.AddRow row).lb.sequRow ≤ lb.sequRow + 1
        rw [hs]; omega
      · intro a ha
        simp only [assignedBy, hne, if_false, List.not_mem_nil] at ha
    · obtain ⟨hp, hs⟩ := hn hlt
      rw [hmod] at hp hs
      have heq : lb.FindRowIdx row.refCon = lb.rows.length := by
        have := @List.findIdx_le_length _ (fun r : ListRow => decide (r.refCon = row.refCon))
          lb.rows
        simp only [FindRowIdx] at hlt ⊢
        omega
      have hnew : ∀ y ∈ lb.rows, y.refCon ≠ row.refCon := by
        intro y hy hyr
        exact hlt ((FindRowIdx_lt_iff lb row.refCon).mpr ⟨y, hy, hyr⟩)
      refine ⟨?_, ?_, ?_, ?_, ?_⟩
      · intro r hr
        show r.sequNr ≤ (lb.AddRow row).lb.sequRow
        rw [hs]
        rcases List.mem_append.mp (hp.mem_iff.mp hr) with h1 | h1
        · exact Nat.le_succ_of_le (hle r h1)
        · rw [List.mem_singleton.mp h1]
          exact le_refl _
      · show ((lb.AddRow row).lb.rows.map (fun r => r.sequNr)).Nodup
        rw [(hp.map _).nodup_iff, List.map_append, List.nodup_append]
        refine ⟨hnd, List.nodup_singleton _, ?_⟩
        intro a ha ha2
        simp only [List.map_cons, List.map_nil, List.mem_singleton, ListRow.SetSequNr] at ha2
        obtain ⟨r0, hr0, he⟩ := List.mem_map.mp ha
        have := hle r0 hr0
        omega
      · show lb.sequRow ≤ (lb.AddRow row).lb.sequRow
        rw [hs]; omega
      · show (lb.AddRow row).lb.sequRow ≤ lb.sequRow + 1
        rw [hs]
      · intro a ha
        refine ⟨?_, hs⟩
        simp only [assignedBy, heq, if_true] at ha
        cases hfind : (lb.AddRow row).lb.rows.find? (fun r => decide (r.refCon = row.refCon)) with
        | none => rw [hfind] at ha; simp at ha
        | some r =>
          rw [hfind] at ha
          simp only [List.mem_singleton] at ha
          have hrc : r.refCon = row.refCon := by simpa using List.find?_some hfind
          have hmem := hp.mem_iff.mp (List.mem_of_find?_eq_some hfind)
          rcases List.mem_append.mp hmem with h1 | h1
          · exact absurd hrc (hnew r h1)
          · rw [ha, List.mem_singleton.mp h1]
            rfl
  | removeRow rc =>
    have hsub := ListBox.RemoveRow_rows_sublist lb rc
    have hs : (lb.RemoveRow rc).1.sequRow = lb.sequRow := by
      simp only [RemoveRow]
      split
      · split <;> rfl
      · rfl
    refine ⟨?_, (hsub.map _).nodup hnd, ?_, ?_, ?_⟩
    · intro r hr
      show r.sequNr ≤ (lb.RemoveRow rc).1.sequRow
      rw [hs]
      exact hle r (hsub.subset hr)
    · show lb.sequRow ≤ (lb.RemoveRow rc).1.sequRow
      rw [hs]
    · show (lb.RemoveRow rc).1.sequRow ≤ lb.sequRow + 1
      rw [hs]; omega
    · intro a ha
      simp [assignedBy] at ha
  | clear =>
    refine ⟨?_, ?_, ?_, ?_, ?_⟩
    · intro r hr
      simp [applyRowOp, Clear] at hr
    · simp [applyRowOp, Clear]
    · exact le_refl _
    · show lb.sequRow ≤ lb.sequRow + 1
      omega
    · intro a ha
      simp [assignedBy] at ha
  | setSorting c s =>
    have hp := SetSorting_rows_perm lb c s
    have hs := SetSorting_sequRow lb c s
    refine ⟨?_, ((hp.map _).nodup_iff).mpr hnd, ?_, ?_, ?_⟩
    · intro r hr
      show r.sequNr ≤ (lb.SetSorting c s).sequRow
      rw [hs]
      exact hle r (hp.mem_iff.mp hr)
    · show lb.sequRow ≤ (lb.SetSorting c s).sequRow
      rw [hs]
    · show (lb.SetSorting c s).sequRow ≤ lb.sequRow + 1
      rw [hs]; omega
    · intro a ha
      simp [assignedBy] at ha

end ListBox


namespace ListBox

theorem assignedBy_length (lb : ListBox) (op : RowOp) : (lb.assignedBy op).length ≤ 1 := by
  cases op with
  | addRow row =>
    simp only [assignedBy]
    split_ifs
    · split <;> simp
    · simp
  | removeRow rc => simp [assignedBy]
  | clear => simp [assignedBy]
  | setSorting c s => simp [assignedBy]

theorem applyRowOps_inv (ops : List RowOp) :
    ∀ lb : ListBox, (∀ r ∈ lb.rows, r.sequNr ≤ lb.sequRow) →
      (lb.rows.map (fun r => r.sequNr)).Nodup →
      lb.sequRow + ops.length < UINT_MOD →
      (∀ r ∈ (lb.applyRowOps ops).rows, r.sequNr ≤ (lb.applyRowOps ops).sequRow) ∧
      ((lb.applyRowOps ops).rows.map (fun r => r.sequNr)).Nodup ∧
      lb.sequRow ≤ (lb.applyRowOps ops).sequRow ∧
      (lb.applyRowOps ops).sequRow ≤ lb.sequRow + ops.length ∧
      (lb.assigned ops).Pairwise (fun a b => a < b) ∧
      (∀ a ∈ lb.assigned ops, lb.sequRow < a ∧ a ≤ (lb.applyRowOps ops).sequRow) := by
  induction ops with
  | nil =>
    intro lb hle hnd _
    exact ⟨hle, hnd, le_refl _, le_refl _, List.Pairwise.nil, by simp [assigned]⟩
  | cons op rest ih =>
    intro lb hle hnd hno
    simp only [List.length_cons] at hno
    obtain ⟨h1, h2, h3, h4, h5⟩ := applyRowOp_inv lb op hle hnd (by omega)
    obtain ⟨i1, i2, i3, i4, i5, i6⟩ := ih (lb.applyRowOp op) h1 h2 (by omega)
    refine ⟨i1, i2, le_trans h3 i3, ?_, ?_, ?_⟩
    · simp only [List.length_cons]
      show (applyRowOps (lb.applyRowOp op) rest).sequRow ≤ _
      omega
    · show (lb.assignedBy op ++ assigned (lb.applyRowOp op) rest).Pairwise (fun a b => a < b)
      rw [List.pairwise_append]
      refine ⟨?_, i5, ?_⟩
      · have hlen := assignedBy_length lb op
        generalize lb.assignedBy op = l at hlen
        cases l with
        | nil => exact List.Pairwise.nil
        | cons x t =>
          cases t with
          | nil => exact List.pairwise_singleton _ _
          | cons y t2 => simp at hlen
      · intro a ha b hb
        obtain ⟨ha1, ha2⟩ := h5 a ha
        have := (i6 b hb).1
        omega
    · intro a ha
      show lb.sequRow < a ∧ a ≤ (applyRowOps (lb.applyRowOp op) rest).sequRow
      rcases List.mem_append.mp ha with ha | ha
      · obtain ⟨ha1, ha2⟩ := h5 a ha
        omega
      · have := i6 a ha
        omega

end ListBox


/-- Sequence numbers in the embedding, in which the sort arranges the rows
anew and nothing else; of the code this holds where every sort on the way is
handed a comparison that meets the requirement of `std::sort`. A list box in
which no stored row has a sequence number above
the counter `sequRow` and no two stored rows have the same one (as in a newly
constructed list box, which holds no rows), and a sequence of calls of
`AddRow`, `RemoveRow`, `Clear` and `SetSorting` during which the counter does
not reach 2^32. The sequence numbers given to the rows inserted for the first
time are strictly increasing in the order of the calls, rows inserted again
after `RemoveRow` or `Clear` included, and all of them are above the counter
and so above every sequence number the list box held before; none is above
the counter afterwards. The rows stored afterwards have pairwise distinct
sequence numbers, none above the counter. -/
theorem ListBox.applyRowOps_sequNrs (lb : ListBox) (ops : List RowOp)
    (hle : ∀ r ∈ lb.rows, r.sequNr ≤ lb.sequRow)
    (hnd : (lb.rows.map (fun r => r.sequNr)).Nodup)
    (hno : lb.sequRow + ops.length < UINT_MOD) :
    (lb.assigned ops).Pairwise (fun a b => a < b) ∧
    (∀ a ∈ lb.assigned ops, lb.sequRow < a ∧ a ≤ (lb.applyRowOps ops).sequRow ∧
      ∀ r ∈ lb.rows, r.sequNr < a) ∧
    ((lb.applyRowOps ops).rows.map (fun r => r.sequNr)).Nodup ∧
    (∀ r ∈ (lb.applyRowOps ops).rows, r.sequNr ≤ (lb.applyRowOps ops).sequRow) := by
  obtain ⟨h1, h2, _, _, h5, h6⟩ := ListBox.applyRowOps_inv ops lb hle hnd hno
  refine ⟨h5, ?_, h2, h1⟩
  intro a ha
  refine ⟨(h6 a ha).1, (h6 a ha).2, ?_⟩
  intro r hr
  exact Nat.lt_of_le_of_lt (hle r hr) (h6 a ha).1


/-! ## Clicks into the header of the list box -/

namespace ListBox

/-- The setting after `SetSorting`, on a column that exists and has a data
type, to a direction other than "unsupported". -/
theorem SetSorting_state (lb : ListBox) (c : Nat) (s : SortingTy) (cd : ListColumnDef)
    (hcd : lb.cols[c]? = some cd) (hdt : cd.dataType ≠ .DTY_NULL)
    (hs : s ≠ .SORT_UNSUPPORTED) :
    (lb.SetSorting c s).sortedBy = c ∧ (lb.SetSorting c s).sorted = s := by
  have hlt : c < lb.cols.length := (List.getElem?_eq_some_iff.mp hcd).1
  have hcd2 : lb.cols[c] = cd := (List.getElem?_eq_some_iff.mp hcd).2
  have hge : ¬ (c ≥ lb.cols.length) := by omega
  by_cases hchg : lb.sortedBy = c ∧ lb.sorted = s
  · simp only [SetSorting, hs, if_false, hchg, and_self, if_true]
  · simp only [SetSorting, hs, if_false, hchg, hge, ↓reduceDIte, hcd2, hdt]
    exact ⟨DoSort_sortedBy _, DoSort_sorted _⟩

/-- What a click into the header does. Where sorting is not supported,
nothing. Otherwise, for a click on the column `c` that exists and has a data
type: if the list is sorted by `c`, the direction goes from unsorted to
ascending, from ascending to descending and from descending to unsorted; if
the list is sorted by another column, the list is sorted by `c`, ascending.
In both cases the rows are sorted with the new setting at once. -/
theorem headerClick_spec (lb : ListBox) (p : Point) (cd : ListColumnDef)
    (hcd : lb.cols[lb.FindColIdx p.x]? = some cd) (hdt : cd.dataType ≠ .DTY_NULL) :
    (lb.sorted = .SORT_UNSUPPORTED → lb.headerClick p = lb) ∧
    (lb.sorted ≠ .SORT_UNSUPPORTED → lb.sortedBy = lb.FindColIdx p.x →
      (lb.headerClick p).sortedBy = lb.sortedBy ∧
      (lb.headerClick p).sorted = cycleDirection lb.sorted ∧
      (lb.headerClick p).rows =
        stdSort (fun r1 r2 => r1.elemLess r2 lb.sortedBy (cycleDirection lb.sorted) cd.dataType)
          lb.rows) ∧
    (lb.sorted ≠ .SORT_UNSUPPORTED → lb.sortedBy ≠ lb.FindColIdx p.x →
      (lb.headerClick p).sortedBy = lb.FindColIdx p.x ∧
      (lb.headerClick p).sorted = .SORT_ASCENDING ∧
      (lb.headerClick p).rows =
        stdSort (fun r1 r2 => r1.elemLess r2 (lb.FindColIdx p.x) .SORT_ASCENDING cd.dataType)
          lb.rows) := by
  refine ⟨?_, ?_, ?_⟩
  · intro hs
    simp only [headerClick, hs, ne_eq, not_true_eq_false, if_false]
  · intro hs hc
    have hcyc : cycleDirection lb.sorted ≠ .SORT_UNSUPPORTED := by
      cases h : lb.sorted <;> simp_all [cycleDirection]
    have hne : cycleDirection lb.sorted ≠ lb.sorted := by
      cases h : lb.sorted <;> simp_all [cycleDirection]
    have hclick : lb.headerClick p = lb.SetSorting lb.sortedBy (cycleDirection lb.sorted) := by
      simp only [headerClick, hs, ne_eq, not_false_eq_true, if_true, ← hc]
    rw [hc] at hclick
    rw [hclick]
    obtain ⟨h1, h2⟩ := SetSorting_state lb _ _ cd hcd hdt hcyc
    refine ⟨h1.trans hc.symm, h2, ?_⟩
    rw [SetSorting_rows lb _ _ cd hcd hdt hcyc (fun h => hne h.2.symm), hc]
  · intro hs hc
    have hclick : lb.headerClick p = lb.SetSorting (lb.FindColIdx p.x) .SORT_ASCENDING := by
      simp only [headerClick, hs, ne_eq, not_false_eq_true, if_true, Ne.symm hc, if_false]
    rw [hclick]
    obtain ⟨h1, h2⟩ := SetSorting_state lb _ .SORT_ASCENDING cd hcd hdt (by decide)
    refine ⟨h1, h2, ?_⟩
    rw [SetSorting_rows lb _ _ cd hcd hdt (by decide) (fun h => hc h.1)]

end ListBox

/-- Claim C30. The list box with the columns Name (0) and Pax (1), set to
sort by column 1 and unsorted, holds S1 and the short row S2, inserted in
this order. Three clicks into the header of column 1 take the direction to
ascending, to descending and back to unsorted, and the rows are S2, S1
afterwards, not S1, S2 as they were inserted. For the scenario list, whose
rows all hold a cell for column 1, the three clicks give A, C, B, then B, C, A,
then A, B, C as inserted, and a click on column 0 after the second one sorts
by column 0, ascending. -/
theorem C30_three_header_clicks_short_row :
    (exShortByPax.sortedBy, exShortByPax.sorted,
      exShortByPax.rows.map (fun r => (r.refCon, r.sequNr))) =
      (1, .SORT_UNSORTED, [(1, 1), (2, 2)]) ∧
    exShortByPax.FindColIdx 110 = 1 ∧
    ((exShortByPax.headerClick ⟨110, -5⟩).sorted,
      ((exShortByPax.headerClick ⟨110, -5⟩).headerClick ⟨110, -5⟩).sorted) =
      (.SORT_ASCENDING, .SORT_DESCENDING) ∧
    ((((exShortByPax.headerClick ⟨110, -5⟩).headerClick ⟨110, -5⟩).headerClick
        ⟨110, -5⟩).sortedBy,
      (((exShortByPax.headerClick ⟨110, -5⟩).headerClick ⟨110, -5⟩).headerClick
        ⟨110, -5⟩).sorted,
      (((exShortByPax.headerClick ⟨110, -5⟩).headerClick ⟨110, -5⟩).headerClick
        ⟨110, -5⟩).rows.map (fun r => (r.refCon, r.sequNr))) =
      (1, .SORT_UNSORTED, [(2, 2), (1, 1)]) ∧
    (exABC.headerClick ⟨110, -5⟩).rows.map (fun r => r.refCon) = [1, 3, 2] ∧
    ((exABC.headerClick ⟨110, -5⟩).headerClick ⟨110, -5⟩).rows.map (fun r => r.refCon) =
      [2, 3, 1] ∧
    (((exABC.headerClick ⟨110, -5⟩).headerClick ⟨110, -5⟩).headerClick ⟨110, -5⟩).rows.map
      (fun r => r.refCon) = [1, 2, 3] ∧
    ((((exABC.headerClick ⟨110, -5⟩).headerClick ⟨110, -5⟩).headerClick ⟨50, -5⟩).sortedBy,
      (((exABC.headerClick ⟨110, -5⟩).headerClick ⟨110, -5⟩).headerClick ⟨50, -5⟩).sorted) =
      (0, .SORT_ASCENDING) := by
  decide


/-! ## Cropping a text to a width -/

theorem toInt32_of_lt (n : Nat) (h : n < 2147483648) : toInt32 n = (n : Int) := by
  have h1 : n % UINT_MOD = n := Nat.mod_eq_of_lt (by unfold UINT_MOD; omega)
  unfold toInt32
  rw [h1, if_pos h]

/-- The downward loop ends below its first value, on 0 or on a count that
fits, and every count it passed does not fit. -/
theorem cropDown_spec (M : Int → ℚ) (w : ℚ) (g : Nat) :
    cropDown M w g ≤ g - 1 ∧
    (cropDown M w g = 0 ∨ M (toInt32 (cropDown M w g)) ≤ w) ∧
    ∀ j, cropDown M w g < j → j < g → w < M (toInt32 j) := by
  induction g with
  | zero => simp [cropDown]
  | succ n ih =>
    unfold cropDown
    by_cases hc : M (toInt32 n) > w
    · rw [if_pos hc]
      obtain ⟨h1, h2, h3⟩ := ih
      refine ⟨by omega, h2, ?_⟩
      intro j hj hjn
      by_cases hjn2 : j < n
      · exact h3 j hj hjn2
      · have : j = n := by omega
        subst this
        exact hc
    · rw [if_neg hc]
      refine ⟨by omega, Or.inr (not_lt.mp hc), ?_⟩
      intro j hj hjn
      omega

/-- The upward loop ends at or above its first value, every count it passed
fits and is within `maxChars`, and with enough fuel it ends on `maxChars` or
before a count that does not fit. -/
theorem cropUp_spec (M : Int → ℚ) (w : ℚ) (L : Nat) (f n : Nat) :
    n ≤ cropUp M w L f n ∧
    (∀ j, n < j → j ≤ cropUp M w L f n → j ≤ L ∧ M (toInt32 j) ≤ w) ∧
    (L ≤ f + n → cropUp M w L f n < L → w < M (toInt32 (cropUp M w L f n + 1))) := by
  induction f generalizing n with
  | zero =>
    unfold cropUp
    refine ⟨le_refl _, ?_, ?_⟩
    · intro j h1 h2
      omega
    · intro h1 h2
      omega
  | succ f ih =>
    unfold cropUp
    by_cases hc : n < L ∧ M (toInt32 (n + 1)) ≤ w
    · rw [if_pos hc]
      obtain ⟨h1, h2, h3⟩ := ih (n + 1)
      refine ⟨by omega, ?_, ?_⟩
      · intro j hj hjk
        by_cases hj2 : n + 1 < j
        · exact h2 j hj2 hjk
        · have : j = n + 1 := by omega
          subst this
          exact ⟨by omega, hc.2⟩
      · intro hL hk
        exact h3 (by omega) hk
    · rw [if_neg hc]
      refine ⟨le_refl _, ?_, ?_⟩
      · intro j h1 h2
        omega
      · intro hL hk
        by_contra hcon
        exact hc ⟨hk, not_lt.mp hcon⟩

/-- A text that fits as a whole is counted as a whole, whatever the first
value of `numChars`. -/
theorem MeasureEnv.cropCount_ge_of_fits (env : MeasureEnv) (t : StdString) (w : ℚ) (L g : Nat)
    (hmono : ∀ i j : Int, 0 ≤ i → i ≤ j → j ≤ L → env.measure t i ≤ env.measure t j)
    (hfit : env.measure t L ≤ w) (hL : L < 2147483648) :
    L ≤ env.cropCount t w L g := by
  unfold MeasureEnv.cropCount
  by_cases hc : env.measure t (toInt32 g) > w
  · rw [if_pos hc]
    obtain ⟨h1, h2, h3⟩ := cropDown_spec (env.measure t) w g
    by_contra hk
    have hk : cropDown (env.measure t) w g < L := by omega
    by_cases hgL : g ≤ L
    · have hg : toInt32 g = (g : Int) := toInt32_of_lt g (by omega)
      rw [hg] at hc
      have := hmono g L (by omega) (by omega) (le_refl _)
      exact absurd (lt_of_lt_of_le hc (le_trans this hfit)) (lt_irrefl _)
    · have := h3 L hk (by omega)
      rw [toInt32_of_lt L hL] at this
      exact absurd (lt_of_lt_of_le this hfit) (lt_irrefl _)
  · rw [if_neg hc]
    obtain ⟨h1, h2, h3⟩ := cropUp_spec (env.measure t) w L (L - g) g
    by_contra hk
    have hk : cropUp (env.measure t) w L (L - g) g < L := by omega
    have h4 := h3 (by omega) hk
    rw [toInt32_of_lt _ (by omega)] at h4
    have := hmono ((cropUp (env.measure t) w L (L - g) g + 1 : Nat) : Int) L (by omega)
      (by omega) (le_refl _)
    exact absurd (lt_of_lt_of_le h4 (le_trans this hfit)) (lt_irrefl _)

/-- With a first value of `numChars` and a text length in the range of `int`,
the count of `CropTextToWidth`, cut at the text length, fits the width, and
one character more does not. -/
theorem MeasureEnv.cropCount_spec (env : MeasureEnv) (t : StdString) (w : ℚ) (L g : Nat)
    (hzero : env.measure t 0 = 0)
    (hmono : ∀ i j : Int, 0 ≤ i → i ≤ j → env.measure t i ≤ env.measure t j)
    (hw : 0 ≤ w) (hg : g < 2147483648) (hL : L < 2147483648) :
    env.measure t ((min (env.cropCount t w L g) L : Nat) : Int) ≤ w ∧
    (min (env.cropCount t w L g) L < L →
      w < env.measure t ((min (env.cropCount t w L g) L + 1 : Nat) : Int)) := by
  unfold MeasureEnv.cropCount
  by_cases hc : env.measure t (toInt32 g) > w
  · rw [if_pos hc]
    obtain ⟨h1, h2, h3⟩ := cropDown_spec (env.measure t) w g
    obtain ⟨k, hk⟩ : ∃ k, k = cropDown (env.measure t) w g := ⟨_, rfl⟩
    rw [← hk] at h1 h2 h3 ⊢
    rw [toInt32_of_lt g hg] at hc
    have hg0 : g ≠ 0 := by
      intro h0
      subst h0
      rw [show ((0 : Nat) : Int) = 0 from rfl, hzero] at hc
      exact absurd (lt_of_lt_of_le hc hw) (lt_irrefl _)
    have hkw : env.measure t (k : Int) ≤ w := by
      rcases h2 with h2 | h2
      · rw [h2, show ((0 : Nat) : Int) = 0 from rfl, hzero]
        exact hw
      · rwa [toInt32_of_lt k (by omega)] at h2
    have hk1 : w < env.measure t ((k + 1 : Nat) : Int) := by
      by_cases hkg : k + 1 < g
      · have := h3 (k + 1) (by omega) hkg
        rwa [toInt32_of_lt _ (by omega)] at this
      · have : k + 1 = g := by omega
        rw [this]
        exact hc
    constructor
    · exact le_trans (hmono _ _ (by omega) (by omega)) hkw
    · intro hlt
      have : min k L = k := by omega
      rw [this]
      exact hk1
  · rw [if_neg hc]
    obtain ⟨h1, h2, h3⟩ := cropUp_spec (env.measure t) w L (L - g) g
    obtain ⟨k, hk⟩ : ∃ k, k = cropUp (env.measure t) w L (L - g) g := ⟨_, rfl⟩
    rw [← hk] at h1 h2 h3 ⊢
    rw [toInt32_of_lt g hg] at hc
    have hkw : env.measure t (k : Int) ≤ w := by
      by_cases hkg : g < k
      · have := (h2 k hkg (le_refl _)).2
        rwa [toInt32_of_lt k (by have := (h2 k hkg (le_refl _)).1; omega)] at this
      · have : k = g := by omega
        rw [this]
        exact not_lt.mp hc
    constructor
    · exact le_trans (hmono _ _ (by omega) (by omega)) hkw
    · intro hlt
      have hkL : k < L := by omega
      have := h3 (by omega) hkL
      rw [toInt32_of_lt _ (by omega)] at this
      have hmin : min k L = k := by omega
      rw [hmin]
      exact this


theorem MeasureEnv.avgWidth_pos (env : MeasureEnv) : 0 < env.avgWidth := by
  unfold MeasureEnv.avgWidth
  split_ifs with h
  · decide
  · omega

/-- A width below 2147483648 average character widths gives a first value of
`numChars` in the range of `int`. -/
theorem MeasureEnv.cropEstimate_lt (env : MeasureEnv) (w : ℚ)
    (h : w < 2147483648 * (env.avgWidth : ℚ)) : env.cropEstimate w < 2147483648 := by
  have ha : (0 : ℚ) < (env.avgWidth : ℚ) := by exact_mod_cast env.avgWidth_pos
  have h1 : w / (env.avgWidth : ℚ) < ((2147483648 : Int) : ℚ) := by
    rw [div_lt_iff₀ ha]
    push_cast
    exact h
  have h2 : Int.floor (w / (env.avgWidth : ℚ)) < 2147483648 := Int.floor_lt.mpr h1
  unfold MeasureEnv.cropEstimate
  have h3 : (Int.floor (w / (env.avgWidth : ℚ))).toNat < 2147483648 := by omega
  exact lt_of_le_of_lt (Nat.mod_le _ _) h3

theorem maxChars_of_le (n start : Nat) (hstart : start ≤ n) (hlen : n < SIZE_MOD) :
    (n + SIZE_MOD - start % SIZE_MOD) % SIZE_MOD = n - start := by
  have h1 : start % SIZE_MOD = start := Nat.mod_eq_of_lt (by omega)
  rw [h1]
  have h2 : n + SIZE_MOD - start = (n - start) + SIZE_MOD := by omega
  rw [h2, Nat.add_mod_right]
  exact Nat.mod_eq_of_lt (by omega)

/-- From a start within a text of a length in the range of `int`, and for a
width of 1 at least, `CropTextToWidth` returns the counted characters. -/
theorem MeasureEnv.CropTextToWidth_of_le (env : MeasureEnv) (s : StdString) (w : ℚ) (start : Nat)
    (hstart : start ≤ s.length) (hlen : s.length < 2147483648) (hw : 1 ≤ w) :
    env.CropTextToWidth s w start =
      some ((s.drop start).take
        (env.cropCount (s.drop start) w (s.length - start) (env.cropEstimate w))) := by
  unfold MeasureEnv.CropTextToWidth
  have hmax := maxChars_of_le s.length start hstart (by unfold SIZE_MOD; omega)
  simp only [hmax]
  by_cases h0 : s.length - start = 0
  · rw [if_pos (Or.inl h0)]
    have : s.drop start = [] := List.drop_eq_nil_iff.mpr (by omega)
    rw [this]
    simp
  · rw [if_neg (by
      intro h
      rcases h with h | h
      · exact h0 h
      · exact absurd (lt_of_lt_of_le h hw) (lt_irrefl _))]
    rw [if_neg (by omega)]

/-- A start beyond the end of the text makes `CropTextToWidth` throw, for
every width of 1 at least. -/
theorem MeasureEnv.CropTextToWidth_beyond (env : MeasureEnv) (s : StdString) (w : ℚ) (start : Nat)
    (hstart : s.length < start) (hs : start < SIZE_MOD) (hw : 1 ≤ w) :
    env.CropTextToWidth s w start = none := by
  unfold MeasureEnv.CropTextToWidth
  have h1 : start % SIZE_MOD = start := Nat.mod_eq_of_lt hs
  have hmax : (s.length + SIZE_MOD - start % SIZE_MOD) % SIZE_MOD ≠ 0 := by
    rw [h1]
    have : s.length + SIZE_MOD - start < SIZE_MOD := by omega
    rw [Nat.mod_eq_of_lt this]
    omega
  simp only
  rw [if_neg (by
    intro h
    rcases h with h | h
    · exact hmax h
    · exact absurd (lt_of_lt_of_le h hw) (lt_irrefl _))]
  rw [if_pos hstart]

/-- What `CropTextToWidth` returns is a run of characters of the text from
the start on. -/
theorem MeasureEnv.CropTextToWidth_is_run (env : MeasureEnv) (s : StdString) (w : ℚ) (start : Nat)
    (t : StdString) (h : env.CropTextToWidth s w start = some t) :
    ∃ n, t = (s.drop start).take n := by
  unfold MeasureEnv.CropTextToWidth at h
  simp only at h
  split_ifs at h with h1 h2
  · exact ⟨0, by simpa using (Option.some.inj h).symm⟩
  · exact ⟨_, (Option.some.inj h).symm⟩

theorem exMeasureEnv_mono (t : StdString) (i j : Int) (hij : i ≤ j) :
    exMeasureEnv.measure t i ≤ exMeasureEnv.measure t j := by
  unfold exMeasureEnv
  simp only
  split_ifs with h1 h2 h2
  · exact le_refl _
  · have : (0 : Int) ≤ 8 * j := by omega
    exact_mod_cast this
  · omega
  · have : 8 * i ≤ 8 * j := by omega
    exact_mod_cast this

/-- C27: when measuring never decreases with more characters of the text, a
text `s` whose whole measured width is at most the width is returned whole by
`CropTextToWidth` from start 0 for every width of 1 at least (the length of
`s` being in the range of `int`, the type of the count that is measured). -/
theorem C27_fitting_text_is_kept (env : MeasureEnv) (s : StdString) (w : ℚ)
    (hmono : ∀ i j : Int, 0 ≤ i → i ≤ j → j ≤ s.length →
      env.measure s i ≤ env.measure s j)
    (hw : 1 ≤ w) (hfit : env.measure s s.length ≤ w) (hlen : s.length < 2147483648) :
    env.CropTextToWidth s w 0 = some s := by
  rw [env.CropTextToWidth_of_le s w 0 (Nat.zero_le _) hlen hw]
  simp only [List.drop_zero, Nat.sub_zero]
  rw [List.take_of_length_le (env.cropCount_ge_of_fits s w s.length _ hmono hfit hlen)]

theorem C27_fitting_text_is_kept_witness :
    exMeasureEnv.CropTextToWidth exAbcdef 100 0 = some exAbcdef :=
  C27_fitting_text_is_kept exMeasureEnv exAbcdef 100
    (fun i j _ hij _ => exMeasureEnv_mono exAbcdef i j hij)
    (by norm_num) (by decide) (by decide)


/-- Two texts that are each the longest fitting run for their width: the one
for the smaller width is not longer. -/
theorem MeasureEnv.IsLongestFit_mono (env : MeasureEnv) (s : StdString) (start : Nat)
    (w1 w2 : ℚ) (t1 t2 : StdString) (h12 : w1 ≤ w2)
    (h1 : env.IsLongestFit s start w1 t1) (h2 : env.IsLongestFit s start w2 t2) :
    t1.length ≤ t2.length := by
  have hl : t1.length ≤ s.length - start := by
    have := congrArg List.length h1.1
    rw [List.length_take, List.length_drop] at this
    omega
  exact h2.2.2 t1.length hl (le_trans h1.2.1 h12)

/-- For a width of 1 at least, a first estimate and a text length in the
range of `int`, and a start within the text, `CropTextToWidth` returns the
longest run from the start on that fits the width. -/
theorem MeasureEnv.CropTextToWidth_longest (env : MeasureEnv) (s : StdString) (start : Nat)
    (w : ℚ)
    (hzero : env.measure (s.drop start) 0 = 0)
    (hmono : ∀ i j : Int, 0 ≤ i → i ≤ j →
      env.measure (s.drop start) i ≤ env.measure (s.drop start) j)
    (hstart : start ≤ s.length) (hlen : s.length < 2147483648)
    (hw : 1 ≤ w) (hest : env.cropEstimate w < 2147483648) :
    ∃ t, env.CropTextToWidth s w start = some t ∧ env.IsLongestFit s start w t := by
  obtain ⟨k, hk⟩ : ∃ k, k = env.cropCount (s.drop start) w (s.length - start)
    (env.cropEstimate w) := ⟨_, rfl⟩
  have hspec := env.cropCount_spec (s.drop start) w (s.length - start) (env.cropEstimate w)
    hzero hmono (le_trans zero_le_one hw) hest (by omega)
  rw [← hk] at hspec
  refine ⟨(s.drop start).take k, ?_, ?_⟩
  · rw [env.CropTextToWidth_of_le s w start hstart hlen hw, ← hk]
  · have hl : ((s.drop start).take k).length = min k (s.length - start) := by
      rw [List.length_take, List.length_drop]
    refine ⟨?_, ?_, ?_⟩
    · rw [hl]
      apply List.ext_getElem?
      intro i
      rw [List.getElem?_take, List.getElem?_take]
      by_cases hi : i < k
      · rw [if_pos hi]
        by_cases hi2 : i < s.length - start
        · rw [if_pos (by omega)]
        · rw [if_neg (by omega)]
          exact List.getElem?_eq_none (by rw [List.length_drop]; omega)
      · rw [if_neg hi, if_neg (by omega)]
    · rw [hl]
      exact hspec.1
    · intro m hm hfit
      rw [hl]
      by_contra hcon
      have hlt : min k (s.length - start) < s.length - start := by omega
      have h1 := hspec.2 hlt
      have h2 := hmono ((min k (s.length - start) + 1 : Nat) : Int) (m : Int)
        (by omega) (by omega)
      exact absurd (lt_of_lt_of_le h1 (le_trans h2 hfit)) (lt_irrefl _)

/-- C28, counterexample: a host that measures every text as 0 wide gives 0
for no characters and never decreases, and the one character of the text `a`
fits the width 0; `CropTextToWidth` returns the empty text for the width 0,
which is not the longest run that fits. -/
theorem C28_width_below_one_gives_empty :
    (exZeroMeasureEnv.measure [97] 0 = 0 ∧
      ∀ i j : Int, i ≤ j → exZeroMeasureEnv.measure [97] i ≤ exZeroMeasureEnv.measure [97] j) ∧
    exZeroMeasureEnv.measure [97] 1 ≤ 0 ∧
    exZeroMeasureEnv.CropTextToWidth [97] 0 0 = some [] ∧
    ¬ exZeroMeasureEnv.IsLongestFit [97] 0 0 [] := by
  refine ⟨⟨rfl, fun _ _ _ => le_refl _⟩, le_refl _, by decide, ?_⟩
  intro h
  have := h.2.2 1 (by decide) (le_refl _)
  simp at this

/-- The first estimate of the count is converted to `int` before it is
measured: with characters 68719476736 wide and the width 34359738368 the
estimate 4294967296 is measured as no characters, and the text `ab` is
returned whole though its first character alone exceeds the width. -/
theorem CropTextToWidth_estimate_truncated :
    exWideMeasureEnv.cropEstimate 34359738368 = 4294967296 ∧
    toInt32 4294967296 = 0 ∧
    exWideMeasureEnv.measure [97, 98] 1 > 34359738368 ∧
    exWideMeasureEnv.CropTextToWidth [97, 98] 34359738368 0 = some [97, 98] := by
  decide!

/-- C28, amended: when the measure of the text from the start on is 0 for no
characters and never decreases with more characters, then for a start within
the text (of a length in the range of `int`) and widths `1 ≤ w1 ≤ w2` below
2147483648 average character widths, `CropTextToWidth` returns for each width
the longest run of characters from the start on whose measured width is at
most that width, and the text for `w1` has at most as many characters as the
text for `w2`. -/
theorem C28_crop_longest_run_monotone (env : MeasureEnv) (s : StdString) (start : Nat)
    (w1 w2 : ℚ)
    (hzero : env.measure (s.drop start) 0 = 0)
    (hmono : ∀ i j : Int, 0 ≤ i → i ≤ j →
      env.measure (s.drop start) i ≤ env.measure (s.drop start) j)
    (hstart : start ≤ s.length) (hlen : s.length < 2147483648)
    (h1 : 1 ≤ w1) (h12 : w1 ≤ w2) (h2 : w2 < 2147483648 * (env.avgWidth : ℚ)) :
    ∃ t1 t2, env.CropTextToWidth s w1 start = some t1 ∧
      env.CropTextToWidth s w2 start = some t2 ∧
      t1.length ≤ t2.length ∧
      env.IsLongestFit s start w1 t1 ∧ env.IsLongestFit s start w2 t2 := by
  obtain ⟨t1, ht1, hl1⟩ := env.CropTextToWidth_longest s start w1 hzero hmono hstart hlen h1
    (env.cropEstimate_lt w1 (lt_of_le_of_lt h12 h2))
  obtain ⟨t2, ht2, hl2⟩ := env.CropTextToWidth_longest s start w2 hzero hmono hstart hlen
    (le_trans h1 h12) (env.cropEstimate_lt w2 h2)
  exact ⟨t1, t2, ht1, ht2, env.IsLongestFit_mono s start w1 w2 t1 t2 h12 hl1 hl2, hl1, hl2⟩

theorem C28_crop_longest_run_monotone_witness :
    ∃ t1 t2, exMeasureEnv.CropTextToWidth exAbcdef 20 3 = some t1 ∧
      exMeasureEnv.CropTextToWidth exAbcdef 30 3 = some t2 ∧
      t1.length ≤ t2.length ∧
      exMeasureEnv.IsLongestFit exAbcdef 3 20 t1 ∧ exMeasureEnv.IsLongestFit exAbcdef 3 30 t2 :=
  C28_crop_longest_run_monotone exMeasureEnv exAbcdef 3 20 30 rfl
    (fun i j _ hij => exMeasureEnv_mono _ i j hij)
    (by decide) (by decide) (by norm_num) (by norm_num)
    (by norm_num [MeasureEnv.avgWidth, exMeasureEnv])


/-! ## The cached cropped string -/

/-- When `UpdateCroppedString` returns, the cached string is the result of
cropping, and the other members are unchanged. -/
theorem MeasureEnv.UpdateCroppedString_consistent (env : MeasureEnv) (cs cs1 : CroppedString)
    (h : env.UpdateCroppedString cs = some cs1) :
    env.Consistent cs1 ∧ cs1.sFull = cs.sFull ∧ cs1.width = cs.width ∧
    cs1.startPos = cs.startPos := by
  unfold MeasureEnv.UpdateCroppedString at h
  cases hc : env.CropTextToWidth cs.sFull (cs.width : ℚ) cs.startPos with
  | none =>
    rw [hc] at h
    exact absurd h (by simp)
  | some c =>
    rw [hc] at h
    have h1 : cs1 = { cs with sCropped := c } := (Option.some.inj h).symm
    subst h1
    exact ⟨hc, rfl, rfl, rfl⟩

/-- `UpdateCroppedString` returns for a start within the full string, of a
length in the range of `int`, and a width of 1 at least; it throws for a start
beyond the end. -/
theorem MeasureEnv.UpdateCroppedString_returns (env : MeasureEnv) (cs : CroppedString)
    (hw : 1 ≤ cs.width) :
    (cs.startPos ≤ cs.sFull.length → cs.sFull.length < 2147483648 →
      ∃ cs1, env.UpdateCroppedString cs = some cs1) ∧
    (cs.sFull.length < cs.startPos → cs.startPos < SIZE_MOD →
      env.UpdateCroppedString cs = none) := by
  have hwq : (1 : ℚ) ≤ (cs.width : ℚ) := by exact_mod_cast hw
  constructor
  · intro hs hl
    unfold MeasureEnv.UpdateCroppedString
    rw [env.CropTextToWidth_of_le cs.sFull _ cs.startPos hs hl hwq]
    exact ⟨_, rfl⟩
  · intro hs hl
    unfold MeasureEnv.UpdateCroppedString
    rw [env.CropTextToWidth_beyond cs.sFull _ cs.startPos hs hl hwq]
    rfl

/-- Every mutating operation that ends with `UpdateCroppedString` leaves,
when it returns, a cached string that is the result of cropping and a run of
characters of the full string from the start position on. -/
theorem MeasureEnv.updating_operations_consistent (env : MeasureEnv) (cs cs1 : CroppedString)
    (h : (∃ s w st, env.ctor s w st = some cs1) ∨ (∃ o, env.assign cs o = some cs1) ∨
      (∃ i str, env.insert cs i str = some cs1) ∨
      (∃ i str j n, env.insertSub cs i str j n = some cs1) ∨
      (∃ str, env.append cs str = some cs1) ∨ (∃ ch, env.appendChar cs ch = some cs1) ∨
      (∃ i n, env.erase cs i n = some cs1) ∨ (∃ w, env.SetWidth cs w = some cs1) ∨
      (∃ sp, env.SetStartPos cs sp = some cs1)) :
    env.Consistent cs1 ∧ ∃ n, cs1.sCropped = (cs1.sFull.drop cs1.startPos).take n := by
  have key : ∀ c, env.UpdateCroppedString c = some cs1 → env.Consistent cs1 :=
    fun c hc => (env.UpdateCroppedString_consistent c cs1 hc).1
  have hcons : env.Consistent cs1 := by
    rcases h with ⟨s, w, st, h⟩ | ⟨o, h⟩ | ⟨i, str, h⟩ | ⟨i, str, j, n, h⟩ | ⟨str, h⟩ |
      ⟨ch, h⟩ | ⟨i, n, h⟩ | ⟨w, h⟩ | ⟨sp, h⟩
    · exact key _ h
    · exact key _ h
    · unfold MeasureEnv.insert at h
      split_ifs at h
      exact key _ h
    · unfold MeasureEnv.insertSub at h
      split_ifs at h
      exact key _ h
    · exact key _ h
    · exact key _ h
    · unfold MeasureEnv.erase at h
      split_ifs at h
      exact key _ h
    · exact key _ h
    · exact key _ h
  exact ⟨hcons, env.CropTextToWidth_is_run _ _ _ _ hcons⟩

/-- The default constructor leaves a consistent cached string, and `clear`
does so when the start position is 0. -/
theorem MeasureEnv.clear_consistent_of_start_zero (env : MeasureEnv) (cs : CroppedString)
    (h : cs.startPos = 0) :
    env.Consistent CroppedString.ctorDefault ∧ env.Consistent cs.clear := by
  constructor
  · unfold MeasureEnv.Consistent MeasureEnv.CropTextToWidth CroppedString.ctorDefault
    simp [SIZE_MOD]
  · unfold MeasureEnv.Consistent MeasureEnv.CropTextToWidth CroppedString.clear
    simp [SIZE_MOD, h]

/-- After `clear` with a start position other than 0 (and a width of 1 at
least) cropping the members throws: the cached empty string is not its
result. -/
theorem MeasureEnv.clear_not_consistent (env : MeasureEnv) (cs : CroppedString)
    (h0 : 0 < cs.startPos) (hs : cs.startPos < SIZE_MOD) (hw : 1 ≤ cs.width) :
    ¬ env.Consistent cs.clear := by
  have hwq : (1 : ℚ) ≤ (cs.width : ℚ) := by exact_mod_cast hw
  unfold MeasureEnv.Consistent
  have : env.CropTextToWidth cs.clear.sFull (cs.clear.width : ℚ) cs.clear.startPos = none :=
    env.CropTextToWidth_beyond [] _ cs.startPos h0 hs hwq
  rw [this]
  simp

/-- C29, failing input: the cropped string `abcdef` of width 100 is scrolled
to start position 3 and then cleared. `clear` empties both strings and keeps
the start position 3; cropping the empty full string to the width 100 from
position 3 throws, so the cached string is not the result of cropping, and
the next operation that recomputes it (`+=` of a character) throws. -/
theorem C29_clear_keeps_start_position :
    (exMeasureEnv.ctor exAbcdef 100 0).bind (fun c => exMeasureEnv.SetStartPos c 3)
      = some exScrolled ∧
    exMeasureEnv.Consistent exScrolled ∧
    exScrolled.clear = { sFull := [], sCropped := [], width := 100, startPos := 3 } ∧
    exMeasureEnv.CropTextToWidth exScrolled.clear.sFull (exScrolled.clear.width : ℚ)
      exScrolled.clear.startPos = none ∧
    ¬ exMeasureEnv.Consistent exScrolled.clear ∧
    exMeasureEnv.appendChar exScrolled.clear 120 = none := by
  decide!


/-! ## The comparison of the sort as a relation -/

/-- In every mode a row without a cell for the column is less than itself,
and two such rows are each less than the other. -/
theorem elemLess_short (dt : DataTypeTy) (c : Nat) (s : SortingTy) (a b : ListRow)
    (ha : a.cells.length ≤ c) : a.elemLess b c s dt = true := by
  simp only [ListRow.elemLess, ge_iff_le, ha, ↓reduceDIte]

/-- Under the descending comparison every row that holds a cell for the column
is less than itself, for each data type but `DTY_NULL`. -/
theorem elemLess_descending_self (dt : DataTypeTy) (c : Nat) (a : ListRow)
    (hdt : dt ≠ .DTY_NULL) (ha : c < a.cells.length) :
    a.elemLess a c .SORT_DESCENDING dt = true := by
  have h1 : ¬ (c ≥ a.cells.length) := by omega
  simp only [ListRow.elemLess, h1, ↓reduceDIte]
  cases dt <;> simp [ListItem.less] at hdt ⊢

/-- Claim C39, at failing inputs. The scenario list sorted descending by the
number of passengers (integer column 1): each of the rows B, C, A is less
than itself under the comparison of `DoSort`. The list with the short row S2,
sorted ascending by column 1: S2 is less than itself. The list with the two
short rows S2 and S3, in each of the modes unsorted, ascending and descending:
each row is less than itself, and S2 and S3 are each less than the other. The
list of the rows F1 and F2 with equal double values, sorted descending: F1
and F2 are each less than the other. -/
theorem C39_comparison_not_strict :
    (exABC.SetSorting 1 .SORT_DESCENDING).sortCompTable =
      [[some true, some true, some true], [some false, some true, some true],
        [some false, some false, some true]] ∧
    (exShort.SetSorting 1 .SORT_ASCENDING).rows.map (fun r => r.refCon) = [2, 1] ∧
    (exShort.SetSorting 1 .SORT_ASCENDING).sortCompTable =
      [[some true, some true], [some false, some false]] ∧
    (exShort2.SetSorting 1 .SORT_UNSORTED).sortCompTable =
      [[some true, some true], [some true, some true]] ∧
    (exShort2.SetSorting 1 .SORT_ASCENDING).sortCompTable =
      [[some true, some true], [some true, some true]] ∧
    (exShort2.SetSorting 1 .SORT_DESCENDING).sortCompTable =
      [[some true, some true], [some true, some true]] ∧
    (exFuel.SetSorting 1 .SORT_DESCENDING).sortCompTable =
      [[some true, some true], [some true, some true]] := by
  decide


/-! ## Overlap of rectangles -/

/-- `Overlap` gives the same for both orders of the two rectangles. -/
theorem Rect.Overlap_symm (a b : Rect) : a.Overlap b = b.Overlap a := by
  unfold Rect.Overlap
  cases a.Contains b.bl <;> cases a.Contains b.tr <;> cases b.Contains a.bl <;>
    cases b.Contains a.tr <;> rfl

/-- A normalized rectangle contains its two corners. -/
theorem Rect.Contains_corners (r : Rect) (hr : r.isNormalized = true) :
    r.Contains r.bl = true ∧ r.Contains r.tr = true := by
  simp only [Rect.isNormalized, Rect.Left, Rect.Right, Rect.Bottom, Rect.Top,
    Bool.and_eq_true, decide_eq_true_eq] at hr
  simp only [Rect.Contains, Rect.Left, Rect.Right, Rect.Bottom, Rect.Top,
    Bool.and_eq_true, decide_eq_true_eq]
  omega

/-- Where `Overlap` is true for two normalized rectangles, some point lies in
both. -/
theorem Rect.Overlap_sound (a b : Rect) (ha : a.isNormalized = true)
    (hb : b.isNormalized = true) (h : a.Overlap b = true) :
    ∃ p : Point, a.Contains p = true ∧ b.Contains p = true := by
  unfold Rect.Overlap at h
  simp only [Bool.or_eq_true] at h
  rcases h with ((h | h) | h) | h
  · exact ⟨b.bl, h, (b.Contains_corners hb).1⟩
  · exact ⟨b.tr, h, (b.Contains_corners hb).2⟩
  · exact ⟨a.bl, (a.Contains_corners ha).1, h⟩
  · exact ⟨a.tr, (a.Contains_corners ha).2, h⟩

/-- Two rectangles have a point in common exactly when their extents meet on
both axes. -/
theorem Rect.common_point_iff (a b : Rect) :
    (∃ p : Point, a.Contains p = true ∧ b.Contains p = true) ↔
      (a.Left ≤ a.Right ∧ b.Left ≤ b.Right ∧ a.Left ≤ b.Right ∧ b.Left ≤ a.Right) ∧
      (a.Bottom ≤ a.Top ∧ b.Bottom ≤ b.Top ∧ a.Bottom ≤ b.Top ∧ b.Bottom ≤ a.Top) := by
  simp only [Rect.Contains, Bool.and_eq_true, decide_eq_true_eq]
  constructor
  · rintro ⟨p, h1, h2⟩
    omega
  · rintro ⟨h1, h2⟩
    refine ⟨⟨max a.Left b.Left, max a.Bottom b.Bottom⟩, ?_, ?_⟩
    · simp only [le_max_iff, max_le_iff]
      omega
    · simp only [le_max_iff, max_le_iff]
      omega

/-- Claim C34, at failing inputs. The flat rectangle (left 0, top 6, right 10,
bottom 4) and the upright one (left 4, top 10, right 6, bottom 0) are
normalized and both contain the point (5, 5), but no corner `bl` or `tr` of
one lies in the other: `Overlap` is false. The square (left 0, top 10, right
10, bottom 0) and the square moved right and down by 5 both contain the point
(7, 3), and only the corners top-left and bottom-right, which `Overlap` does
not look at, lie in the other one: `Overlap` is false. -/
theorem C34_Overlap_misses_crossing :
    exFlat.isNormalized = true ∧ exUpright.isNormalized = true ∧
    exFlat.Contains ⟨5, 5⟩ = true ∧ exUpright.Contains ⟨5, 5⟩ = true ∧
    exFlat.Overlap exUpright = false ∧ exUpright.Overlap exFlat = false ∧
    exSquare.isNormalized = true ∧ exSquareMoved.isNormalized = true ∧
    exSquare.Contains ⟨7, 3⟩ = true ∧ exSquareMoved.Contains ⟨7, 3⟩ = true ∧
    exSquare.Overlap exSquareMoved = false ∧ exSquareMoved.Overlap exSquare = false := by
  decide


/-! ## Cropping the texts of a list box with short rows -/

/-- The statement `row[colId].SetWidth (w)` succeeds on rows that all hold a
cell `colId`, and leaves the number of cells of each row as it is. -/
theorem cropRows_some (env : FontEnv) (colId w : Nat) (rows : List ListRow)
    (h : ∀ r ∈ rows, colId < r.cells.length) :
    ∃ rows1, cropRows env colId w rows = some rows1 ∧
      rows1.map (fun r => r.cells.length) = rows.map (fun r => r.cells.length) := by
  induction rows with
  | nil => exact ⟨[], rfl, rfl⟩
  | cons row rest ih =>
    obtain ⟨rest1, h1, h2⟩ := ih (fun r hr => h r (List.mem_cons_of_mem _ hr))
    have hrow : colId < row.cells.length := h row (List.mem_cons_self _ _)
    have hget : row.cells[colId]? = some row.cells[colId] := List.getElem?_eq_getElem hrow
    refine ⟨{ row with cells := row.cells.set colId (row.cells[colId].SetWidth env w) } :: rest1,
      by simp only [cropRows, hget, h1], ?_⟩
    simp only [List.map_cons, List.length_set, h2]

/-- The statement `row[colId].SetWidth (w)` indexes beyond the cells of a row
that holds no cell `colId`. -/
theorem cropRows_none (env : FontEnv) (colId w : Nat) (rows : List ListRow)
    (h : ∃ r ∈ rows, r.cells.length ≤ colId) : cropRows env colId w rows = none := by
  induction rows with
  | nil =>
    obtain ⟨r, hr, _⟩ := h
    exact absurd hr (List.not_mem_nil _)
  | cons row rest ih =>
    by_cases hrow : row.cells.length ≤ colId
    · have hget : row.cells[colId]? = none := List.getElem?_eq_none hrow
      simp only [cropRows, hget]
    · have hget : row.cells[colId]? = some row.cells[colId] :=
        List.getElem?_eq_getElem (by omega)
      obtain ⟨r, hr, hlen⟩ := h
      have hr2 : r ∈ rest := by
        rcases List.mem_cons.mp hr with h1 | h1
        · subst h1
          exact absurd hlen hrow
        · exact h1
      simp only [cropRows, hget, ih ⟨r, hr2, hlen⟩]

namespace ListBox

/-- The loop of `DoCropTexts` from column `colId` on, all rows holding the
cells before `colId`: it succeeds exactly when every row holds a cell for
every column. -/
theorem cropLoop_isSome_iff (env : FontEnv) (width : Int) (n : Nat) :
    ∀ (colId x : Nat) (lb : ListBox), colId + n = lb.cols.length →
      (∀ r ∈ lb.rows, colId ≤ r.cells.length) →
      ((cropLoop env width n colId x lb).isSome = true ↔
        ∀ r ∈ lb.rows, lb.cols.length ≤ r.cells.length) := by
  induction n with
  | zero =>
    intro colId x lb hn hall
    simp only [cropLoop, Option.isSome_some, true_iff]
    intro r hr
    have := hall r hr
    omega
  | succ n ih =>
    intro colId x lb hn hall
    have hcol : colId < lb.cols.length := by omega
    have hget : lb.cols[colId]? = some lb.cols[colId] := List.getElem?_eq_getElem hcol
    simp only [cropLoop, hget]
    by_cases hshort : ∃ r ∈ lb.rows, r.cells.length ≤ colId
    · rw [cropRows_none env colId _ lb.rows hshort]
      simp only [Option.isSome_none, Bool.false_eq_true, false_iff]
      intro hcon
      obtain ⟨r, hr, hlen⟩ := hshort
      have := hcon r hr
      omega
    · have hall2 : ∀ r ∈ lb.rows, colId < r.cells.length := by
        intro r hr
        by_contra hcon
        exact hshort ⟨r, hr, by omega⟩
      obtain ⟨rows1, h1, h2⟩ := cropRows_some env colId
        (if (!lb.cols[colId].bVisible) = true then 0
          else if toInt32 x ≥ width then 0
          else min ((toSizeT width + SIZE_MOD - x % SIZE_MOD) % SIZE_MOD)
            (toSizeT lb.cols[colId].width)) lb.rows hall2
      simp only [h1]
      have hlens : ∀ k : Nat, (∀ r ∈ rows1, k ≤ r.cells.length) ↔
          (∀ r ∈ lb.rows, k ≤ r.cells.length) := by
        intro k
        have e1 : (∀ r ∈ rows1, k ≤ r.cells.length) ↔
            ∀ m ∈ rows1.map (fun r => r.cells.length), k ≤ m := by
          simp only [List.mem_map, forall_exists_index, and_imp, forall_apply_eq_imp_iff₂]
        have e2 : (∀ r ∈ lb.rows, k ≤ r.cells.length) ↔
            ∀ m ∈ lb.rows.map (fun r => r.cells.length), k ≤ m := by
          simp only [List.mem_map, forall_exists_index, and_imp, forall_apply_eq_imp_iff₂]
        rw [e1, e2, h2]
      rw [ih (colId + 1) _ _ (by simp only [List.length_set]; omega)
        ((hlens (colId + 1)).mpr (fun r hr => hall2 r hr))]
      simp only [List.length_set]
      exact hlens lb.cols.length

/-- `DoCropTexts` stays within the cells of the rows exactly when every row
holds a cell for every column slot. -/
theorem DoCropTexts_isSome_iff (env : FontEnv) (lb : ListBox) :
    (lb.DoCropTexts env).isSome = true ↔ ∀ r ∈ lb.rows, lb.cols.length ≤ r.cells.length := by
  unfold DoCropTexts
  exact cropLoop_isSome_iff env _ lb.cols.length 0 0 lb (by omega) (fun _ _ => Nat.zero_le _)

end ListBox

/-- Claim C40, at the failing input. The list box with the columns Name (0)
and Pax (1) holds S1 with two cells and S2 with the one cell for column 0. In
`DoCropTexts` the loop over the columns reaches column 1 and the statement
`row[colId].SetWidth (w)` indexes cell 1 of S2, beyond its last cell; so does
`SetGeometry`, which calls `DoCropTexts`. For the scenario list, whose rows
hold a cell for every column, both stay within the cells. -/
theorem C40_DoCropTexts_indexes_beyond_short_row :
    exShort.cols.length = 2 ∧ exShort.rows.map (fun r => r.cells.length) = [2, 1] ∧
    cropRows exFontEnv 1 30 exShort.rows = none ∧
    exShort.DoCropTexts exFontEnv = none ∧
    exShort.SetGeometry exFontEnv (Rect.ctor 0 0 200 (-50)) = none ∧
    (exABC.DoCropTexts exFontEnv).isSome = true ∧
    (exABC.SetGeometry exFontEnv (Rect.ctor 0 0 200 (-50))).isSome = true := by
  decide


/-! ## The start position of a cropped string -/

/-- `SetStartPos (p)` on a full string that is not empty stores
`min (p, length - 1)`, where it returns. -/
theorem MeasureEnv.SetStartPos_startPos (env : MeasureEnv) (cs cs1 : CroppedString) (p : Nat)
    (hne : cs.sFull ≠ []) (hlen : cs.sFull.length < SIZE_MOD)
    (h : env.SetStartPos cs p = some cs1) :
    cs1.startPos = min p (cs.sFull.length - 1) ∧ cs1.sFull = cs.sFull := by
  unfold MeasureEnv.SetStartPos at h
  obtain ⟨_, h2, _, h4⟩ := env.UpdateCroppedString_consistent _ cs1 h
  have hpos : 0 < cs.sFull.length := List.length_pos.mpr hne
  have hmod : (cs.sFull.length + SIZE_MOD - 1) % SIZE_MOD = cs.sFull.length - 1 := by
    have e : cs.sFull.length + SIZE_MOD - 1 = (cs.sFull.length - 1) + SIZE_MOD := by omega
    rw [e, Nat.add_mod_right]
    exact Nat.mod_eq_of_lt (by omega)
  rw [h4, h2]
  exact ⟨by simp only [hmod], rfl⟩

/-- `SetStartPos (p)` on an empty full string stores `p` itself (below 2^64),
where it returns. -/
theorem MeasureEnv.SetStartPos_empty (env : MeasureEnv) (cs cs1 : CroppedString) (p : Nat)
    (he : cs.sFull = []) (hp : p < SIZE_MOD)
    (h : env.SetStartPos cs p = some cs1) : cs1.startPos = p := by
  unfold MeasureEnv.SetStartPos at h
  obtain ⟨_, _, _, h4⟩ := env.UpdateCroppedString_consistent _ cs1 h
  rw [h4]
  simp only [he, List.length_nil, Nat.zero_add]
  have : (SIZE_MOD - 1) % SIZE_MOD = SIZE_MOD - 1 := Nat.mod_eq_of_lt (by unfold SIZE_MOD; omega)
  rw [this]
  omega

/-- Claim C35, at failing inputs. The cropped string `abcdef` scrolled to
start position 3 is cleared: the full string is empty and the start position
is still 3. On an empty cropped string of width 0, `SetStartPos (5)` stores 5:
the minimum is taken with `size () - 1`, which is 2^64 - 1 for the empty
string. On the string `abcdef` of width 0, scrolled to start position 3, the
assignment of the text `a` and `erase ()` leave the start position 3, beyond
the last character. With the width 100 the same assignment and `erase ()`
store the new full string and then throw in `CropTextToWidth`. -/
theorem C35_start_position_beyond_text :
    (exScrolled.sFull, exScrolled.startPos) = (exAbcdef, 3) ∧
    (exScrolled.clear.sFull, exScrolled.clear.startPos) = ([], 3) ∧
    ((exMeasureEnv.ctor [] 0 0).bind (fun c => exMeasureEnv.SetStartPos c 5)).map
      (fun c => (c.sFull, c.startPos)) = some ([], 5) ∧
    exScrolledNarrow.map (fun c => (c.sFull, c.startPos)) = some (exAbcdef, 3) ∧
    (exScrolledNarrow.bind (fun c => exMeasureEnv.assign c [97])).map
      (fun c => (c.sFull, c.startPos)) = some ([97], 3) ∧
    (exScrolledNarrow.bind (fun c => exMeasureEnv.erase c 0 npos)).map
      (fun c => (c.sFull, c.startPos)) = some ([], 3) ∧
    exMeasureEnv.assign exScrolled [97] = none ∧
    exMeasureEnv.erase exScrolled 0 npos = none := by
  decide


/-! ## Focus requests to a button array -/

namespace WidgetSt

theorem focusRequests_append (st : WidgetSt) (l1 l2 : List FocusChangeTy) :
    st.focusRequests (l1 ++ l2) =
      ((st.focusRequests l1).1 ++ ((st.focusRequests l1).2.focusRequests l2).1,
        ((st.focusRequests l1).2.focusRequests l2).2) := by
  induction l1 generalizing st with
  | nil => rfl
  | cons f rest ih =>
    simp only [List.cons_append, focusRequests, List.append_eq, ih]

/-- One call of `DoFocusChange` on a button array that is not empty. -/
theorem DoFocusChange_array (st : WidgetSt) (hk : st.kind = .buttonArray) (hn : st.nBtns ≠ 0) :
    st.DoFocusChange .FCS_FIRST = (true, { st with iterFocus := 0 }) ∧
    st.DoFocusChange .FCS_LAST = (true, { st with iterFocus := st.nBtns - 1 }) ∧
    st.DoFocusChange .FCS_LOOSE = (false, { st with iterFocus := st.nBtns }) ∧
    (st.iterFocus ≠ st.nBtns → st.DoFocusChange .FCS_NEXT =
      (decide (st.iterFocus + 1 ≠ st.nBtns), { st with iterFocus := st.iterFocus + 1 })) ∧
    (st.iterFocus ≠ 0 → st.DoFocusChange .FCS_PREV =
      (true, { st with iterFocus := st.iterFocus - 1 })) ∧
    (st.iterFocus = 0 → st.DoFocusChange .FCS_PREV =
      (false, { st with iterFocus := st.nBtns })) := by
  have h0 : (0 : Nat) ≠ st.nBtns := fun h => hn h.symm
  refine ⟨?_, ?_, ?_, ?_, ?_, ?_⟩
  · simp only [DoFocusChange, hk, hn, if_false, h0, ne_eq, not_false_eq_true, decide_True]
  · simp only [DoFocusChange, hk, hn, if_false, ne_eq, not_false_eq_true, if_true]
  · simp only [DoFocusChange, hk, hn, if_false]
  · intro hi
    simp only [DoFocusChange, hk, hn, if_false, hi, ne_eq, not_false_eq_true, if_true]
  · intro hi
    simp only [DoFocusChange, hk, hn, if_false, hi, ne_eq, not_false_eq_true, if_true]
  · intro hi
    simp only [DoFocusChange, hk, hn, if_false, hi, ne_eq, not_true_eq_false]

/-- From element `i` on, `k` requests "next" that stay within the array each
keep the focus and move it on by one element. -/
theorem focusRequests_next (k : Nat) : ∀ (st : WidgetSt), st.kind = .buttonArray →
    st.iterFocus + k < st.nBtns →
    st.focusRequests (List.replicate k .FCS_NEXT) =
      (List.replicate k true, { st with iterFocus := st.iterFocus + k }) := by
  induction k with
  | zero =>
    intro st _ _
    rfl
  | succ k ih =>
    intro st hk hlt
    have hn : st.nBtns ≠ 0 := by omega
    have hstep := (DoFocusChange_array st hk hn).2.2.2.1 (by omega)
    have hd : decide (st.iterFocus + 1 ≠ st.nBtns) = true := decide_eq_true (by omega)
    rw [hd] at hstep
    simp only [List.replicate_succ, focusRequests, hstep]
    rw [ih { st with iterFocus := st.iterFocus + 1 } hk (by show st.iterFocus + 1 + k < st.nBtns; omega)]
    simp only [Nat.add_assoc, Nat.add_comm 1 k]

/-- From element `i` on, `k ≤ i` requests "previous" each keep the focus and
move it back by one element. -/
theorem focusRequests_prev (k : Nat) : ∀ (st : WidgetSt), st.kind = .buttonArray →
    st.nBtns ≠ 0 → k ≤ st.iterFocus →
    st.focusRequests (List.replicate k .FCS_PREV) =
      (List.replicate k true, { st with iterFocus := st.iterFocus - k }) := by
  induction k with
  | zero =>
    intro st _ _ _
    rfl
  | succ k ih =>
    intro st hk hn hle
    have hstep := (DoFocusChange_array st hk hn).2.2.2.2.1 (by omega)
    simp only [List.replicate_succ, focusRequests, hstep]
    rw [ih { st with iterFocus := st.iterFocus - 1 } hk hn (by show k ≤ st.iterFocus - 1; omega)]
    simp only [Nat.sub_sub, Nat.add_comm 1 k]

end WidgetSt

/-- The walk of the focus through a button array with `n ≥ 1` elements
(`nBtns`; `iterFocus = n` stands for `aBtns.end ()`, no element with the
focus): "first" and `k < n` requests "next" lead to element `k`, "last" and
`k < n` requests "previous" to element `n - 1 - k`, every request returning
true; one more request returns false and leaves no element with the focus. -/
theorem WidgetSt.array_focus_walk (st : WidgetSt) (hk : st.kind = .buttonArray)
    (hn : 1 ≤ st.nBtns) :
    (∀ k, k < st.nBtns →
      st.focusRequests (.FCS_FIRST :: List.replicate k .FCS_NEXT) =
        (List.replicate (k + 1) true, { st with iterFocus := k })) ∧
    st.focusRequests (.FCS_FIRST :: List.replicate st.nBtns .FCS_NEXT) =
      (List.replicate st.nBtns true ++ [false], { st with iterFocus := st.nBtns }) ∧
    (∀ k, k < st.nBtns →
      st.focusRequests (.FCS_LAST :: List.replicate k .FCS_PREV) =
        (List.replicate (k + 1) true, { st with iterFocus := st.nBtns - 1 - k })) ∧
    st.focusRequests (.FCS_LAST :: List.replicate st.nBtns .FCS_PREV) =
      (List.replicate st.nBtns true ++ [false], { st with iterFocus := st.nBtns }) := by
  have hn0 : st.nBtns ≠ 0 := by omega
  obtain ⟨hfirst, hlast, _, _, _, _⟩ := WidgetSt.DoFocusChange_array st hk hn0
  have hnext : ∀ k, k < st.nBtns →
      st.focusRequests (.FCS_FIRST :: List.replicate k .FCS_NEXT) =
        (List.replicate (k + 1) true, { st with iterFocus := k }) := by
    intro k hlt
    simp only [WidgetSt.focusRequests, hfirst]
    rw [WidgetSt.focusRequests_next k { st with iterFocus := 0 } hk
      (by show 0 + k < st.nBtns; omega)]
    simp only [Nat.zero_add, List.replicate_succ]
  have hprev : ∀ k, k < st.nBtns →
      st.focusRequests (.FCS_LAST :: List.replicate k .FCS_PREV) =
        (List.replicate (k + 1) true, { st with iterFocus := st.nBtns - 1 - k }) := by
    intro k hlt
    simp only [WidgetSt.focusRequests, hlast]
    rw [WidgetSt.focusRequests_prev k { st with iterFocus := st.nBtns - 1 } hk hn0
      (by show k ≤ st.nBtns - 1; omega)]
    simp only [List.replicate_succ]
  have hsplit : ∀ f g : FocusChangeTy, f :: List.replicate st.nBtns g =
      (f :: List.replicate (st.nBtns - 1) g) ++ [g] := by
    intro f g
    have : st.nBtns = (st.nBtns - 1) + 1 := by omega
    conv_lhs => rw [this, List.replicate_succ']
    rfl
  have hrep : List.replicate (st.nBtns - 1 + 1) true = List.replicate st.nBtns true := by
    rw [Nat.sub_add_cancel hn]
  have hstepN : WidgetSt.DoFocusChange { st with iterFocus := st.nBtns - 1 } .FCS_NEXT =
      (false, { st with iterFocus := st.nBtns }) := by
    have h := (WidgetSt.DoFocusChange_array { st with iterFocus := st.nBtns - 1 } hk
      hn0).2.2.2.1 (by show st.nBtns - 1 ≠ st.nBtns; omega)
    dsimp only at h
    rw [h, Nat.sub_add_cancel hn]
    simp
  have hstepP : WidgetSt.DoFocusChange { st with iterFocus := st.nBtns - 1 - (st.nBtns - 1) }
      .FCS_PREV = (false, { st with iterFocus := st.nBtns }) :=
    (WidgetSt.DoFocusChange_array { st with iterFocus := st.nBtns - 1 - (st.nBtns - 1) }
      hk hn0).2.2.2.2.2 (by show st.nBtns - 1 - (st.nBtns - 1) = 0; omega)
  refine ⟨hnext, ?_, hprev, ?_⟩
  · rw [hsplit, WidgetSt.focusRequests_append, hnext (st.nBtns - 1) (by omega)]
    dsimp only
    simp only [WidgetSt.focusRequests, hstepN, hrep]
  · rw [hsplit, WidgetSt.focusRequests_append, hprev (st.nBtns - 1) (by omega)]
    dsimp only
    simp only [WidgetSt.focusRequests, hstepP, hrep]

/-- Claim C36. A button array with `n` elements (`nBtns`; `iterFocus = n`
stands for `aBtns.end ()`, no element with the focus). For `n ≥ 1`: a request
"first" followed by `k < n` requests "next": every request returns true and
element `k` has the focus afterwards; with `n` requests "next" after "first"
the last one returns false and no element has the focus. A request "last"
followed by `k < n` requests "previous": every request returns true and
element `n - 1 - k` has the focus; with `n` requests "previous" the last one,
made on element 0, returns false and no element has the focus. For `n = 0`
every request returns false and changes nothing. -/
theorem C36_array_focus_walk (st : WidgetSt) (hk : st.kind = .buttonArray) :
    (1 ≤ st.nBtns →
      (∀ k, k < st.nBtns →
        st.focusRequests (.FCS_FIRST :: List.replicate k .FCS_NEXT) =
          (List.replicate (k + 1) true, { st with iterFocus := k })) ∧
      st.focusRequests (.FCS_FIRST :: List.replicate st.nBtns .FCS_NEXT) =
        (List.replicate st.nBtns true ++ [false], { st with iterFocus := st.nBtns }) ∧
      (∀ k, k < st.nBtns →
        st.focusRequests (.FCS_LAST :: List.replicate k .FCS_PREV) =
          (List.replicate (k + 1) true, { st with iterFocus := st.nBtns - 1 - k })) ∧
      st.focusRequests (.FCS_LAST :: List.replicate st.nBtns .FCS_PREV) =
        (List.replicate st.nBtns true ++ [false], { st with iterFocus := st.nBtns })) ∧
    (st.nBtns = 0 → ∀ f, st.DoFocusChange f = (false, st)) := by
  refine ⟨WidgetSt.array_focus_walk st hk, ?_⟩
  intro h0 f
  simp only [WidgetSt.DoFocusChange, hk, h0, if_true]

/-- A button array of three elements: "first" and two requests "next" lead to
element 2, the third "next" gives the focus up; "last" and two requests
"previous" lead to element 0, the third "previous" gives the focus up. An
array without elements refuses "first". -/
theorem C36_array_focus_walk_witness :
    exArray3.focusRequests [.FCS_FIRST, .FCS_NEXT, .FCS_NEXT] =
      ([true, true, true], { exArray3 with iterFocus := 2 }) ∧
    exArray3.focusRequests [.FCS_FIRST, .FCS_NEXT, .FCS_NEXT, .FCS_NEXT] =
      ([true, true, true, false], { exArray3 with iterFocus := 3 }) ∧
    exArray3.focusRequests [.FCS_LAST, .FCS_PREV, .FCS_PREV] =
      ([true, true, true], { exArray3 with iterFocus := 0 }) ∧
    exArray3.focusRequests [.FCS_LAST, .FCS_PREV, .FCS_PREV, .FCS_PREV] =
      ([true, true, true, false], { exArray3 with iterFocus := 3 }) ∧
    exArray0.DoFocusChange .FCS_FIRST = (false, exArray0) :=
  ⟨((C36_array_focus_walk exArray3 rfl).1 (by decide)).1 2 (by decide),
    ((C36_array_focus_walk exArray3 rfl).1 (by decide)).2.1,
    ((C36_array_focus_walk exArray3 rfl).1 (by decide)).2.2.1 2 (by decide),
    ((C36_array_focus_walk exArray3 rfl).1 (by decide)).2.2.2,
    (C36_array_focus_walk exArray0 rfl).2 rfl .FCS_FIRST⟩


/-! ## Cursor keys in a list box -/

namespace ListBox

theorem FindRowIdx_le (lb : ListBox) (rc : Nat) : lb.FindRowIdx rc ≤ lb.rows.length := by
  unfold FindRowIdx
  exact List.findIdx_le_length _

/-- With distinct identity tokens, the row at a position is the row found for
its identity token. -/
theorem FindRowIdx_getElem (lb : ListBox) (i : Nat) (h : i < lb.rows.length)
    (hnd : (lb.rows.map (fun r => r.refCon)).Nodup) :
    lb.FindRowIdx (lb.rows[i]).refCon = i := by
  have hlt : lb.FindRowIdx (lb.rows[i]).refCon < lb.rows.length :=
    (FindRowIdx_lt_iff lb _).mpr ⟨lb.rows[i], List.getElem_mem h, rfl⟩
  have hrc := FindRowIdx_refCon lb _ hlt
  have h1 : lb.FindRowIdx (lb.rows[i]).refCon < (lb.rows.map (fun r => r.refCon)).length := by
    rw [List.length_map]
    exact hlt
  have h2 : i < (lb.rows.map (fun r => r.refCon)).length := by
    rw [List.length_map]
    exact h
  have heq : (lb.rows.map (fun r => r.refCon))[lb.FindRowIdx (lb.rows[i]).refCon] =
      (lb.rows.map (fun r => r.refCon))[i] := by
    rw [List.getElem_map, List.getElem_map]
    exact hrc
  exact (List.Nodup.getElem_inj_iff hnd).mp heq

theorem MakeSelVisible_rowMax (lb : ListBox) : lb.MakeSelVisible.rowMax = lb.rowMax := by
  simp only [MakeSelVisible]; split_ifs <;> rfl

/-- `MakeSelVisible` leaves the scroll position where the selected row is in
the window of the rows shown. -/
theorem MakeSelVisible_of_in_window (lb : ListBox)
    (h1 : lb.rowFirst ≤ lb.FindRowIdx lb.selRefCon)
    (h2 : lb.FindRowIdx lb.selRefCon < lb.rowFirst + lb.rowMax)
    (hsum : lb.rowFirst + lb.rowMax < UINT_MOD) :
    lb.MakeSelVisible.rowFirst = lb.rowFirst := by
  have hm1 : lb.FindRowIdx lb.selRefCon % UINT_MOD = lb.FindRowIdx lb.selRefCon :=
    Nat.mod_eq_of_lt (by omega)
  have hm2 : (lb.rowFirst + lb.rowMax) % UINT_MOD = lb.rowFirst + lb.rowMax :=
    Nat.mod_eq_of_lt hsum
  simp only [MakeSelVisible, hm1, hm2]
  split_ifs <;> first | rfl | (simp only; omega)

/-- What `DoHandleKey` does when the key leads to the row at position `t`:
that row is selected and scrolled into the window of the rows shown. -/
theorem DoHandleKey_select (lb : ListBox) (inFlags inVirtualKey t : Nat)
    (ht : t < lb.rows.length) (hiter : lb.keyIter inFlags inVirtualKey = t)
    (hmax : 1 ≤ lb.rowMax) (hnd : (lb.rows.map (fun r => r.refCon)).Nodup)
    (hnn : ∀ r ∈ lb.rows, r.refCon ≠ 0) (hlen : lb.rows.length < UINT_MOD)
    (hsum : lb.rowFirst + lb.rowMax < UINT_MOD) :
    (lb.DoHandleKey inFlags inVirtualKey).selIdx = some t ∧
    (lb.DoHandleKey inFlags inVirtualKey).rows = lb.rows ∧
    (lb.DoHandleKey inFlags inVirtualKey).rowMax = lb.rowMax ∧
    (lb.DoHandleKey inFlags inVirtualKey).rowFirst ≤ t ∧
    t < (lb.DoHandleKey inFlags inVirtualKey).rowFirst +
      (lb.DoHandleKey inFlags inVirtualKey).rowMax ∧
    (lb.rowFirst ≤ t → t < lb.rowFirst + lb.rowMax →
      (lb.DoHandleKey inFlags inVirtualKey).rowFirst = lb.rowFirst) := by
  have hne : ¬ (lb.rows.length = 0) := by omega
  have hget : lb.rows[t]? = some lb.rows[t] := List.getElem?_eq_getElem ht
  obtain ⟨lb1, hlb1⟩ : ∃ lb1 : ListBox, lb1 = { lb with selRefCon := (lb.rows[t]).refCon } :=
    ⟨_, rfl⟩
  have hres : lb.DoHandleKey inFlags inVirtualKey = lb1.MakeSelVisible := by
    simp only [DoHandleKey, hne, if_false, hiter, hget, DoSelectRow, hlb1]
  have hrows1 : lb1.rows = lb.rows := by rw [hlb1]
  have hsel1 : lb1.selRefCon = (lb.rows[t]).refCon := by rw [hlb1]
  have hfirst1 : lb1.rowFirst = lb.rowFirst := by rw [hlb1]
  have hmax1 : lb1.rowMax = lb.rowMax := by rw [hlb1]
  have hsel0 : lb1.selRefCon ≠ 0 := by
    rw [hsel1]
    exact hnn _ (List.getElem_mem ht)
  have hfind : lb1.FindRowIdx lb1.selRefCon = t := by
    have : lb1.FindRowIdx lb1.selRefCon = lb.FindRowIdx (lb.rows[t]).refCon := by
      rw [hsel1]
      simp only [FindRowIdx, hrows1]
    rw [this]
    exact FindRowIdx_getElem lb t ht hnd
  have hwin := MakeSelVisible_in_window lb1 hsel0 (by rw [hfind, hrows1]; exact ht)
    (by rw [hmax1]; exact hmax) (by rw [hrows1]; exact hlen)
    (by rw [hfirst1, hmax1]; exact hsum)
  rw [hfind] at hwin
  rw [hres]
  refine ⟨?_, ?_, ?_, hwin.1, hwin.2, ?_⟩
  · have hfind2 : lb1.MakeSelVisible.FindRowIdx lb1.MakeSelVisible.selRefCon = t := by
      rw [MakeSelVisible_selRefCon]
      simp only [FindRowIdx, MakeSelVisible_rows]
      exact hfind
    simp only [selIdx, hfind2, MakeSelVisible_rows, hrows1, ht, and_true]
    rw [MakeSelVisible_selRefCon, if_pos hsel0]
  · rw [MakeSelVisible_rows, hrows1]
  · rw [MakeSelVisible_rowMax, hmax1]
  · intro h1 h2
    rw [MakeSelVisible_of_in_window lb1 (by rw [hfind, hfirst1]; exact h1)
      (by rw [hfind, hfirst1, hmax1]; exact h2) (by rw [hfirst1, hmax1]; exact hsum), hfirst1]

/-- The iterator of `DoHandleKey` for a key Down going down is the row to
select on the key Down, and likewise for the key Up. -/
theorem keyIter_targets (lb : ListBox) (hrows : lb.rows ≠ []) :
    lb.keyIter xplm_DownFlag XPLM_VK_DOWN = lb.downTarget ∧
    lb.keyIter xplm_DownFlag XPLM_VK_UP = lb.upTarget ∧
    lb.downTarget < lb.rows.length ∧ lb.upTarget < lb.rows.length := by
  have hpos : 0 < lb.rows.length := List.length_pos.mpr hrows
  have hle := FindRowIdx_le lb lb.selRefCon
  have hud : ¬ (XPLM_VK_UP = XPLM_VK_DOWN) := by decide
  by_cases hfound : lb.selRefCon ≠ 0 ∧ lb.FindRowIdx lb.selRefCon < lb.rows.length
  · have hsI : lb.selIdx = some (lb.FindRowIdx lb.selRefCon) := by
      unfold selIdx
      rw [if_pos hfound]
    have hiter : (if lb.selRefCon ≠ 0 then lb.FindRowIdx lb.selRefCon else lb.rows.length) =
        lb.FindRowIdx lb.selRefCon := if_pos hfound.1
    have hne : lb.FindRowIdx lb.selRefCon ≠ lb.rows.length := by omega
    unfold keyIter downTarget upTarget
    rw [hsI]
    simp only [hiter, hud, false_and, if_false, true_and, and_self, if_true, hne]
    refine ⟨?_, ?_, ?_, ?_⟩
    · split_ifs <;> omega
    · split_ifs <;> omega
    · split_ifs <;> omega
    · omega
  · have hsI : lb.selIdx = none := by
      unfold selIdx
      rw [if_neg hfound]
    have hiter : (if lb.selRefCon ≠ 0 then lb.FindRowIdx lb.selRefCon else lb.rows.length) =
        lb.rows.length := by
      by_cases hsel : lb.selRefCon ≠ 0
      · rw [if_pos hsel]
        have : ¬ (lb.FindRowIdx lb.selRefCon < lb.rows.length) := fun h => hfound ⟨hsel, h⟩
        omega
      · rw [if_neg hsel]
    unfold keyIter downTarget upTarget
    rw [hsI]
    simp only [hiter, hud, false_and, if_false, true_and, and_self, if_true]
    exact hpos

end ListBox

/-- Claim C37, amended by the condition that no row has the null pointer as
its identity token. A list box with at least one row and `rowMax ≥ 1`, the
rows with distinct identity tokens, none of them null (a null `selRefCon`
stands for no selection), and the number of rows and `rowFirst + rowMax`
within the range of `unsigned`. A key Down going down selects the first row if none is
selected, otherwise the row after the selected one, or leaves the last row
selected; a key Up going down selects the first row if none is selected,
otherwise the row before the selected one, or leaves the first row selected.
The rows and `rowMax` are unchanged, the index `t` of the row selected
afterwards satisfies `rowFirst ≤ t < rowFirst + rowMax`, and `rowFirst` is
unchanged if `t` was in that window before. -/
theorem C37_cursor_keys_select_and_scroll (lb : ListBox) (hrows : lb.rows ≠ [])
    (hmax : 1 ≤ lb.rowMax) (hnd : (lb.rows.map (fun r => r.refCon)).Nodup)
    (hnn : ∀ r ∈ lb.rows, r.refCon ≠ 0) (hlen : lb.rows.length < UINT_MOD)
    (hsum : lb.rowFirst + lb.rowMax < UINT_MOD) :
    ((lb.DoHandleKey xplm_DownFlag XPLM_VK_DOWN).selIdx = some lb.downTarget ∧
      (lb.DoHandleKey xplm_DownFlag XPLM_VK_DOWN).rows = lb.rows ∧
      (lb.DoHandleKey xplm_DownFlag XPLM_VK_DOWN).rowMax = lb.rowMax ∧
      (lb.DoHandleKey xplm_DownFlag XPLM_VK_DOWN).rowFirst ≤ lb.downTarget ∧
      lb.downTarget < (lb.DoHandleKey xplm_DownFlag XPLM_VK_DOWN).rowFirst +
        (lb.DoHandleKey xplm_DownFlag XPLM_VK_DOWN).rowMax ∧
      (lb.rowFirst ≤ lb.downTarget → lb.downTarget < lb.rowFirst + lb.rowMax →
        (lb.DoHandleKey xplm_DownFlag XPLM_VK_DOWN).rowFirst = lb.rowFirst)) ∧
    ((lb.DoHandleKey xplm_DownFlag XPLM_VK_UP).selIdx = some lb.upTarget ∧
      (lb.DoHandleKey xplm_DownFlag XPLM_VK_UP).rows = lb.rows ∧
      (lb.DoHandleKey xplm_DownFlag XPLM_VK_UP).rowMax = lb.rowMax ∧
      (lb.DoHandleKey xplm_DownFlag XPLM_VK_UP).rowFirst ≤ lb.upTarget ∧
      lb.upTarget < (lb.DoHandleKey xplm_DownFlag XPLM_VK_UP).rowFirst +
        (lb.DoHandleKey xplm_DownFlag XPLM_VK_UP).rowMax ∧
      (lb.rowFirst ≤ lb.upTarget → lb.upTarget < lb.rowFirst + lb.rowMax →
        (lb.DoHandleKey xplm_DownFlag XPLM_VK_UP).rowFirst = lb.rowFirst)) := by
  obtain ⟨hd, hu, hdl, hul⟩ := ListBox.keyIter_targets lb hrows
  exact ⟨ListBox.DoHandleKey_select lb _ _ _ hdl hd hmax hnd hnn hlen hsum,
    ListBox.DoHandleKey_select lb _ _ _ hul hu hmax hnd hnn hlen hsum⟩

/-- The scenario list with one row shown and none selected: the key Down
selects row 0; a second key Down selects row 1 and scrolls it into the
window. -/
theorem C37_cursor_keys_select_and_scroll_witness :
    (exABCShown.rows.length, exABCShown.rowMax, exABCShown.rowFirst, exABCShown.selIdx) =
      (3, 1, 0, none) ∧
    (exABCShown.DoHandleKey xplm_DownFlag XPLM_VK_DOWN).selIdx = some exABCShown.downTarget ∧
    exABCShown.downTarget = 0 ∧
    ((exABCShown.DoHandleKey xplm_DownFlag XPLM_VK_DOWN).DoHandleKey xplm_DownFlag
      XPLM_VK_DOWN).selIdx = some 1 ∧
    ((exABCShown.DoHandleKey xplm_DownFlag XPLM_VK_DOWN).DoHandleKey xplm_DownFlag
      XPLM_VK_DOWN).rowFirst = 1 :=
  ⟨by decide,
    (C37_cursor_keys_select_and_scroll exABCShown (by decide) (by decide) (by decide)
      (by decide) (by decide) (by decide)).1.1,
    by decide, by decide, by decide⟩

/-- Claim C37 does not hold as stated. The list holds the rows N and B, N
with the null pointer as identity token, and shows one row; no row is
selected. The key Down takes the iterator to the first row and stores its
identity token, the null pointer, in `selRefCon`, which stands for no
selection: no row is selected afterwards, and a second key Down starts at the
first row again and does not reach row B. The key Up does the same. -/
theorem C37_null_token_row_not_selected :
    exNullFirst.rows.map (fun r => r.refCon) = [0, 2] ∧
    (exNullFirst.rowMax, exNullFirst.rowFirst, exNullFirst.selRefCon, exNullFirst.selIdx) =
      (1, 0, 0, none) ∧
    exNullFirst.keyIter xplm_DownFlag XPLM_VK_DOWN = 0 ∧
    (exNullFirst.DoHandleKey xplm_DownFlag XPLM_VK_DOWN).selRefCon = 0 ∧
    (exNullFirst.DoHandleKey xplm_DownFlag XPLM_VK_DOWN).selIdx = none ∧
    ((exNullFirst.DoHandleKey xplm_DownFlag XPLM_VK_DOWN).DoHandleKey xplm_DownFlag
      XPLM_VK_DOWN).selIdx = none ∧
    (exNullFirst.DoHandleKey xplm_DownFlag XPLM_VK_UP).selIdx = none := by
  decide


/-! ## Clicks on the elements of a button array -/

namespace ButtonElem

/-- `SetSelected` sets the selection and leaves everything else, the
pushed-down state included. -/
theorem SetSelected_spec (be : ButtonElem) (b : Bool) :
    (be.SetSelected b).IsSelected = b ∧ (be.SetSelected b).IsDown = be.IsDown ∧
    (be.SetSelected b).refCon = be.refCon ∧ (be.SetSelected b).geo = be.geo ∧
    (be.SetSelected b).Caption = be.Caption := by
  obtain ⟨geo, refCon, Caption, btnState⟩ := be
  cases btnState <;> cases b <;> exact ⟨rfl, rfl, rfl, rfl, rfl⟩

/-- `SetDown` sets the pushed-down state and leaves everything else, the
selection included. -/
theorem SetDown_spec (be : ButtonElem) (b : Bool) :
    (be.SetDown b).IsDown = b ∧ (be.SetDown b).IsSelected = be.IsSelected ∧
    (be.SetDown b).refCon = be.refCon ∧ (be.SetDown b).geo = be.geo ∧
    (be.SetDown b).Caption = be.Caption := by
  obtain ⟨geo, refCon, Caption, btnState⟩ := be
  cases btnState <;> cases b <;> exact ⟨rfl, rfl, rfl, rfl, rfl⟩

end ButtonElem

namespace ButtonArray

/-- In a radio-button array with distinct identity tokens, `ButtonClicked` for
the element at position `i` leaves that element selected and no other, and
changes nothing else: not the pushed-down states, the identity tokens, the
rectangles or the texts. -/
theorem ButtonClicked_radio (ba : ButtonArray) (htype : ba.type = .BTN_RADIO_BUTTONS)
    (hnd : (ba.aBtns.map (fun be => be.refCon)).Nodup) (i : Nat) (hi : i < ba.aBtns.length) :
    (ba.ButtonClicked i).aBtns.map (fun be => be.IsSelected) =
      (List.range ba.aBtns.length).map (fun j => decide (j = i)) ∧
    (ba.ButtonClicked i).aBtns.map (fun be => (be.IsDown, be.refCon, be.geo, be.Caption)) =
      ba.aBtns.map (fun be => (be.IsDown, be.refCon, be.geo, be.Caption)) ∧
    (ba.ButtonClicked i).type = ba.type ∧ (ba.ButtonClicked i).iterFocus = ba.iterFocus := by
  have hget : ba.aBtns[i]? = some ba.aBtns[i] := List.getElem?_eq_getElem hi
  have hres : ba.ButtonClicked i =
      { ba with aBtns := ba.aBtns.map (fun be => be.SetSelected (be.eq ba.aBtns[i])) } := by
    simp only [ButtonClicked, hget, htype]
  rw [hres]
  refine ⟨?_, ?_, rfl, rfl⟩
  · simp only [List.map_map]
    apply List.ext_getElem
    · simp only [List.length_map, List.length_range]
    · intro n h1 h2
      have hn : n < ba.aBtns.length := by simpa using h1
      simp only [List.getElem_map, List.getElem_range, Function.comp_apply]
      rw [(ButtonElem.SetSelected_spec _ _).1]
      have h3 : n < (ba.aBtns.map (fun be => be.refCon)).length := by
        rw [List.length_map]; exact hn
      have h4 : i < (ba.aBtns.map (fun be => be.refCon)).length := by
        rw [List.length_map]; exact hi
      have hinj := @List.Nodup.getElem_inj_iff _ _ hnd n h3 i h4
      simp only [List.getElem_map] at hinj
      simp only [ButtonElem.eq]
      exact decide_eq_decide.mpr hinj
  · simp only [List.map_map]
    apply List.map_congr_left
    intro be _
    obtain ⟨_, h2, h3, h4, h5⟩ := ButtonElem.SetSelected_spec be (be.eq ba.aBtns[i])
    simp only [Function.comp_apply, h2, h3, h4, h5]

/-- `SetSelected` with the identity token of the element at position `i` is
`ButtonClicked` for that element, the tokens being distinct and not null;
with a token that no element has it changes nothing. -/
theorem SetSelected_of_array (ba : ButtonArray)
    (hnd : (ba.aBtns.map (fun be => be.refCon)).Nodup)
    (hnn : ∀ be ∈ ba.aBtns, be.refCon ≠ 0) :
    (∀ (i : Nat) (hi : i < ba.aBtns.length),
      ba.SetSelected (ba.aBtns[i]).refCon = ba.ButtonClicked i) ∧
    (∀ rc, rc ∉ ba.aBtns.map (fun be => be.refCon) → ba.SetSelected rc = ba) := by
  constructor
  · intro i hi
    have hmem : (ba.aBtns[i]).refCon ∈ ba.aBtns.map (fun be => be.refCon) :=
      List.mem_map.mpr ⟨ba.aBtns[i], List.getElem_mem hi, rfl⟩
    have hfind := FindElem_refCon_of_mem ba _ hmem
    have hne : (ba.FindElem (ba.aBtns[i]).refCon).eq BUTTON_ELEM_NULL = false := by
      simp only [ButtonElem.eq, hfind, decide_eq_false_iff_not]
      exact hnn _ (List.getElem_mem hi)
    have hidx : ba.aBtns.findIdx (fun be => decide (be.refCon = (ba.aBtns[i]).refCon)) = i := by
      have hlt : ba.aBtns.findIdx (fun be => decide (be.refCon = (ba.aBtns[i]).refCon)) <
          ba.aBtns.length :=
        List.findIdx_lt_length_of_exists ⟨ba.aBtns[i], List.getElem_mem hi, by simp⟩
      have hrc := @List.findIdx_getElem _
        (fun be : ButtonElem => decide (be.refCon = (ba.aBtns[i]).refCon)) ba.aBtns hlt
      simp only [decide_eq_true_eq] at hrc
      have h3 : ba.aBtns.findIdx (fun be => decide (be.refCon = (ba.aBtns[i]).refCon)) <
          (ba.aBtns.map (fun be => be.refCon)).length := by
        rw [List.length_map]; exact hlt
      have h4 : i < (ba.aBtns.map (fun be => be.refCon)).length := by
        rw [List.length_map]; exact hi
      have hinj := @List.Nodup.getElem_inj_iff _ _ hnd _ h3 i h4
      simp only [List.getElem_map] at hinj
      exact hinj.mp hrc
    simp only [SetSelected, hne, Bool.false_eq_true, if_false, hidx]
  · intro rc hrc
    have hfind := FindElem_of_not_mem ba rc hrc
    simp only [SetSelected, hfind, ButtonElem.eq, decide_True, if_true]

end ButtonArray


namespace ButtonElem

theorem SetDown_SetDown (be : ButtonElem) (a b : Bool) :
    (be.SetDown a).SetDown b = be.SetDown b := by
  obtain ⟨geo, refCon, Caption, btnState⟩ := be
  cases btnState <;> cases a <;> cases b <;> rfl

end ButtonElem

theorem map_set_of_eq {α β : Type} (f : α → β) (l : List α) (i : Nat) (a : α)
    (hi : i < l.length) (h : f a = f l[i]) : (l.set i a).map f = l.map f := by
  apply List.ext_getElem
  · simp only [List.length_map, List.length_set]
  · intro n h1 h2
    simp only [List.getElem_map, List.getElem_set]
    split_ifs with hin
    · subst hin
      exact h
    · rfl

namespace ButtonArray

/-- Pushing the element at position `i` down or letting it go changes the
pushed-down state of that element and nothing else. -/
theorem set_SetDown (ba : ButtonArray) (i : Nat) (hi : i < ba.aBtns.length) (b : Bool) :
    (ba.aBtns.set i ((ba.aBtns[i]).SetDown b)).map (fun be => be.refCon) =
      ba.aBtns.map (fun be => be.refCon) ∧
    (ba.aBtns.set i ((ba.aBtns[i]).SetDown b)).map (fun be => (be.refCon, be.geo, be.Caption)) =
      ba.aBtns.map (fun be => (be.refCon, be.geo, be.Caption)) ∧
    (ba.aBtns.set i ((ba.aBtns[i]).SetDown b)).map (fun be => be.IsDown) =
      (ba.aBtns.map (fun be => be.IsDown)).set i b := by
  obtain ⟨h1, _, h3, h4, h5⟩ := ButtonElem.SetDown_spec (ba.aBtns[i]) b
  refine ⟨map_set_of_eq _ _ _ _ hi h3, map_set_of_eq _ _ _ _ hi (by rw [h3, h4, h5]), ?_⟩
  rw [List.map_set, h1]

/-- In a radio-button array with distinct identity tokens: after the element
at position `i` has been let go and `ButtonClicked` has been called for it,
that element is selected and no other, it is not pushed down, and nothing
else has changed. -/
theorem release_and_click (ba : ButtonArray) (htype : ba.type = .BTN_RADIO_BUTTONS)
    (hnd : (ba.aBtns.map (fun be => be.refCon)).Nodup) (i : Nat) (hi : i < ba.aBtns.length) :
    (ButtonClicked { ba with aBtns := ba.aBtns.set i ((ba.aBtns[i]).SetDown false) } i).selection
      = onlySelected ba.aBtns.length i ∧
    (ButtonClicked { ba with aBtns := ba.aBtns.set i ((ba.aBtns[i]).SetDown false) } i).downs
      = ba.downs.set i false ∧
    (ButtonClicked { ba with aBtns := ba.aBtns.set i ((ba.aBtns[i]).SetDown false) }
      i).fixedParts = ba.fixedParts := by
  obtain ⟨s1, s2, s3⟩ := set_SetDown ba i hi false
  obtain ⟨ba1, hba1⟩ : ∃ ba1 : ButtonArray,
      ba1 = { ba with aBtns := ba.aBtns.set i ((ba.aBtns[i]).SetDown false) } := ⟨_, rfl⟩
  rw [← hba1]
  have hl : ba1.aBtns.length = ba.aBtns.length := by rw [hba1]; simp only [List.length_set]
  have ht1 : ba1.type = .BTN_RADIO_BUTTONS := by rw [hba1]; exact htype
  have hnd1 : (ba1.aBtns.map (fun be => be.refCon)).Nodup := by
    rw [hba1]
    simp only [s1]
    exact hnd
  obtain ⟨c1, c2, _, _⟩ := ButtonClicked_radio ba1 ht1 hnd1 i (by omega)
  refine ⟨?_, ?_, ?_⟩
  · simp only [selection, onlySelected, c1, hl]
  · have := congrArg (List.map (fun x : Bool × Nat × Rect × CroppedString => x.1)) c2
    simp only [List.map_map] at this
    simp only [downs]
    have e1 : ∀ l : List ButtonElem, List.map ((fun x : Bool × Nat × Rect × CroppedString => x.1) ∘
        fun be => (be.IsDown, be.refCon, be.geo, be.Caption)) l =
        List.map (fun be => be.IsDown) l := fun l => rfl
    rw [e1, e1] at this
    rw [this, hba1]
    exact s3
  · have := congrArg (List.map (fun x : Bool × Nat × Rect × CroppedString => x.2)) c2
    simp only [List.map_map] at this
    simp only [fixedParts]
    have e1 : ∀ l : List ButtonElem, List.map ((fun x : Bool × Nat × Rect × CroppedString => x.2) ∘
        fun be => (be.IsDown, be.refCon, be.geo, be.Caption)) l =
        List.map (fun be => (be.refCon, be.geo, be.Caption)) l := fun l => rfl
    rw [e1, e1] at this
    rw [this, hba1]
    exact s2

/-- The key Space going up on the focused element of a radio-button array. -/
theorem DoHandleKeySpace_up (ba : ButtonArray) (i : Nat) (hi : i < ba.aBtns.length)
    (hf : ba.iterFocus = some i) :
    ba.DoHandleKeySpace xplm_UpFlag =
      ButtonClicked { ba with aBtns := ba.aBtns.set i ((ba.aBtns[i]).SetDown false) } i := by
  have hget : ba.aBtns[i]? = some ba.aBtns[i] := List.getElem?_eq_getElem hi
  have hud : ¬ (xplm_UpFlag = xplm_DownFlag) := by decide
  simp only [DoHandleKeySpace, hf, hget, hud, if_false, if_true]

/-- A press of the left mouse button at a point whose first element is the one
at position `i`, followed by the release at a point in that element. -/
theorem DoMouseClick_click (ba : ButtonArray) (pm : Option Nat) (p p2 : Point) (i : Nat)
    (hi : i < ba.aBtns.length) (hp : ba.FindButtonByPos p = i)
    (hp2 : (ba.aBtns[i]).geo.Contains p2 = true) :
    ((ba.DoMouseClick pm p .MOUSE_LEFT .xplm_MouseDown).1.DoMouseClick
        (ba.DoMouseClick pm p .MOUSE_LEFT .xplm_MouseDown).2 p2 .MOUSE_LEFT .xplm_MouseUp) =
      (ButtonClicked { ba with aBtns := ba.aBtns.set i ((ba.aBtns[i]).SetDown false),
                               iterFocus := some i } i, some i) := by
  have hget : ba.aBtns[i]? = some ba.aBtns[i] := List.getElem?_eq_getElem hi
  have hne : ba.FindButtonByPos p ≠ ba.aBtns.length := by omega
  have hdown : ba.DoMouseClick pm p .MOUSE_LEFT .xplm_MouseDown =
      ({ ba with aBtns := ba.aBtns.set i ((ba.aBtns[i]).SetDown true), iterFocus := some i },
        some i) := by
    have hd : decide (¬ i = ba.aBtns.length) = true := decide_eq_true (by omega)
    simp only [DoMouseClick, ne_eq, not_true_eq_false, if_false, decide_True, Bool.true_and,
      hp, hd, if_true, hget]
  rw [hdown]
  have hget2 : (ba.aBtns.set i ((ba.aBtns[i]).SetDown true))[i]? =
      some ((ba.aBtns[i]).SetDown true) := by
    rw [List.getElem?_set_self hi]
  have hgeo : ((ba.aBtns[i]).SetDown true).geo = (ba.aBtns[i]).geo :=
    (ButtonElem.SetDown_spec _ _).2.2.2.1
  have hnd : ¬ (XPLMMouseStatus.xplm_MouseUp = XPLMMouseStatus.xplm_MouseDown) := by decide
  simp only [DoMouseClick, ne_eq, not_true_eq_false, if_false, hnd, decide_False,
    Bool.false_and, Bool.false_eq_true, hget2, hgeo, hp2, if_true, List.set_set,
    ButtonElem.SetDown_SetDown]

end ButtonArray

/-- Claim C33. A radio-button array whose elements have distinct identity
tokens, none of them null (as every array built by `AddButton` has them), and
the element `e` at position `i`. After `SetSelected` with the identity token
of `e`, after the key Space going up with `e` focused, and after a press of
the left mouse button on `e` followed by the release inside `e`, the element
`e` is selected and no other element is. The identity tokens, rectangles and
texts are unchanged; `SetSelected` leaves the pushed-down state of every
element as it is, and key and mouse leave the pushed-down states of the other
elements and let `e` go. `SetSelected` with an identity token that no element
has changes nothing. -/
theorem C33_radio_click_selects_only_clicked (ba : ButtonArray)
    (htype : ba.type = .BTN_RADIO_BUTTONS)
    (hnd : (ba.aBtns.map (fun be => be.refCon)).Nodup)
    (hnn : ∀ be ∈ ba.aBtns, be.refCon ≠ 0) (i : Nat) (hi : i < ba.aBtns.length) :
    ((ba.SetSelected (ba.aBtns[i]).refCon).selection = ButtonArray.onlySelected ba.aBtns.length i ∧
      (ba.SetSelected (ba.aBtns[i]).refCon).downs = ba.downs ∧
      (ba.SetSelected (ba.aBtns[i]).refCon).fixedParts = ba.fixedParts) ∧
    (ba.iterFocus = some i →
      (ba.DoHandleKeySpace xplm_UpFlag).selection = ButtonArray.onlySelected ba.aBtns.length i ∧
      (ba.DoHandleKeySpace xplm_UpFlag).downs = ba.downs.set i false ∧
      (ba.DoHandleKeySpace xplm_UpFlag).fixedParts = ba.fixedParts) ∧
    (∀ (pm : Option Nat) (p p2 : Point), ba.FindButtonByPos p = i →
      (ba.aBtns[i]).geo.Contains p2 = true →
      ((ba.DoMouseClick pm p .MOUSE_LEFT .xplm_MouseDown).1.DoMouseClick
        (ba.DoMouseClick pm p .MOUSE_LEFT .xplm_MouseDown).2 p2 .MOUSE_LEFT
        .xplm_MouseUp).1.selection = ButtonArray.onlySelected ba.aBtns.length i ∧
      ((ba.DoMouseClick pm p .MOUSE_LEFT .xplm_MouseDown).1.DoMouseClick
        (ba.DoMouseClick pm p .MOUSE_LEFT .xplm_MouseDown).2 p2 .MOUSE_LEFT
        .xplm_MouseUp).1.downs = ba.downs.set i false ∧
      ((ba.DoMouseClick pm p .MOUSE_LEFT .xplm_MouseDown).1.DoMouseClick
        (ba.DoMouseClick pm p .MOUSE_LEFT .xplm_MouseDown).2 p2 .MOUSE_LEFT
        .xplm_MouseUp).1.fixedParts = ba.fixedParts) ∧
    (∀ rc, rc ∉ ba.aBtns.map (fun be => be.refCon) → ba.SetSelected rc = ba) := by
  obtain ⟨hset, hnot⟩ := ButtonArray.SetSelected_of_array ba hnd hnn
  refine ⟨?_, ?_, ?_, hnot⟩
  · rw [hset i hi]
    obtain ⟨c1, c2, _, _⟩ := ButtonArray.ButtonClicked_radio ba htype hnd i hi
    refine ⟨c1, ?_, ?_⟩
    · have := congrArg (List.map (fun x : Bool × Nat × Rect × CroppedString => x.1)) c2
      simpa only [List.map_map] using this
    · have := congrArg (List.map (fun x : Bool × Nat × Rect × CroppedString => x.2)) c2
      simpa only [List.map_map] using this
  · intro hf
    rw [ButtonArray.DoHandleKeySpace_up ba i hi hf]
    exact ButtonArray.release_and_click ba htype hnd i hi
  · intro pm p p2 hp hp2
    rw [ButtonArray.DoMouseClick_click ba pm p p2 i hi hp hp2]
    exact ButtonArray.release_and_click { ba with iterFocus := some i } htype hnd i hi

/-- The radio buttons of the example window with the identity tokens 1, 2 and
3: `SetSelected (3)` leaves exactly the third element selected. -/
theorem C33_radio_click_selects_only_clicked_witness :
    (exRadio.SetSelected 3).selection = [false, false, true] ∧
    (exRadio.SetSelected 3).downs = exRadio.downs ∧
    (exRadio.SetSelected 3).fixedParts = exRadio.fixedParts :=
  (C33_radio_click_selects_only_clicked exRadio rfl (by decide) (by decide) 2
    (by decide)).1


/-! ## Edit field -/

namespace MeasureEnv

theorem assign_sFull (env : MeasureEnv) (cs cs1 : CroppedString) (o : StdString)
    (h : env.assign cs o = some cs1) : cs1.sFull = o :=
  (env.UpdateCroppedString_consistent _ cs1 h).2.1

theorem erase_sFull (env : MeasureEnv) (cs cs1 : CroppedString) (i n : Nat)
    (h : env.erase cs i n = some cs1) :
    cs1.sFull = cs.sFull.take i ++ cs.sFull.drop (i + n) ∧ i ≤ cs.sFull.length := by
  unfold MeasureEnv.erase at h
  split_ifs at h with hi
  exact ⟨(env.UpdateCroppedString_consistent _ cs1 h).2.1, by omega⟩

theorem insert_sFull (env : MeasureEnv) (cs cs1 : CroppedString) (i : Nat) (str : StdString)
    (h : env.insert cs i str = some cs1) :
    cs1.sFull = cs.sFull.take i ++ str ++ cs.sFull.drop i ∧ i ≤ cs.sFull.length := by
  unfold MeasureEnv.insert at h
  split_ifs at h with hi
  exact ⟨(env.UpdateCroppedString_consistent _ cs1 h).2.1, by omega⟩

theorem insertSub_sFull (env : MeasureEnv) (cs cs1 : CroppedString) (i : Nat) (str : StdString)
    (j n : Nat) (h : env.insertSub cs i str j n = some cs1) :
    cs1.sFull = cs.sFull.take i ++ (str.drop j).take n ++ cs.sFull.drop i ∧
    i ≤ cs.sFull.length := by
  unfold MeasureEnv.insertSub at h
  split_ifs at h with hi
  exact ⟨(env.UpdateCroppedString_consistent _ cs1 h).2.1, by omega⟩

end MeasureEnv

namespace EditField

/-- `ClipPaste` keeps the caret within the caption, where it returns. -/
theorem ClipPaste_caret (env : MeasureEnv) (ef ef1 : EditField) (clip : Option StdString)
    (h : ef.ClipPaste env clip = some ef1)
    (hinv : ef.caretPos ≤ ef.caption.sFull.length) :
    ef1.caretPos ≤ ef1.caption.sFull.length := by
  unfold ClipPaste at h
  cases clip with
  | none =>
    simp only [Option.some.injEq] at h
    rw [← h]
    exact hinv
  | some s =>
    simp only at h
    split_ifs at h with hc hgt
    · omega
    · obtain ⟨c, hc1, hc2⟩ := Option.map_eq_some'.mp h
      obtain ⟨hs, _⟩ := env.insertSub_sFull _ _ _ _ _ _ hc1
      rw [← hc2]
      simp only [hs, List.length_append, List.length_take, List.length_drop, Nat.sub_zero]
      have hm := Nat.mod_le (ef.caretPos +
        min ((ef.maxLen + SIZE_MOD - ef.caption.sFull.length % SIZE_MOD) % SIZE_MOD) s.length)
        SIZE_MOD
      omega
    · simp only [Option.some.injEq] at h
      rw [← h]
      exact hinv

/-- `ClipCut` sets the caret to 0. -/
theorem ClipCut_caret (ef : EditField) : ef.ClipCut.caretPos ≤ ef.ClipCut.caption.sFull.length :=
  Nat.zero_le _

/-- The keys that erase and that move the caret keep the caret within the
caption, where they return. -/
theorem editKeys_caret (env : MeasureEnv) (ef ef1 : EditField) (inFlags inVirtualKey : Nat)
    (h : ef.editKeys env inFlags inVirtualKey = some (some ef1))
    (hinv : ef.caretPos ≤ ef.caption.sFull.length) :
    ef1.caretPos ≤ ef1.caption.sFull.length := by
  unfold editKeys at h
  split_ifs at h with h0 h1 h1b h2 h2b h4 h5 h5b h6 h6b h7 h8
  · obtain ⟨c, hc1, hc2⟩ := Option.map_eq_some'.mp (Option.some.inj h)
    obtain ⟨hs, _⟩ := env.erase_sFull _ _ _ _ hc1
    rw [← hc2]
    simp only [hs, List.length_append, List.length_take, List.length_drop]
    omega
  · rw [← Option.some.inj (Option.some.inj h)]
    exact hinv
  · obtain ⟨c, hc1, hc2⟩ := Option.map_eq_some'.mp (Option.some.inj h)
    obtain ⟨hs, _⟩ := env.erase_sFull _ _ _ _ hc1
    rw [← hc2]
    simp only [hs, List.length_append, List.length_take, List.length_drop]
    omega
  · rw [← Option.some.inj (Option.some.inj h)]
    exact hinv
  · rw [← Option.some.inj (Option.some.inj h)]
    exact Nat.zero_le _
  · rw [← Option.some.inj (Option.some.inj h)]
    show ef.caretPos - 1 ≤ ef.caption.sFull.length
    omega
  · rw [← Option.some.inj (Option.some.inj h)]
    exact hinv
  · rw [← Option.some.inj (Option.some.inj h)]
    show ef.caretPos + 1 ≤ ef.caption.sFull.length
    omega
  · rw [← Option.some.inj (Option.some.inj h)]
    exact hinv
  · rw [← Option.some.inj (Option.some.inj h)]
    exact Nat.zero_le _
  · rw [← Option.some.inj (Option.some.inj h)]

/-- The copy and paste keys keep the caret within the caption, where they
return. -/
theorem clipKeys_caret (env : MeasureEnv) (ef ef1 : EditField) (clip : Option StdString)
    (inFlags inVirtualKey : Nat)
    (h : ef.clipKeys env clip inFlags inVirtualKey = some (some ef1))
    (hinv : ef.caretPos ≤ ef.caption.sFull.length) :
    ef1.caretPos ≤ ef1.caption.sFull.length := by
  unfold clipKeys at h
  split_ifs at h
  · rw [← Option.some.inj (Option.some.inj h)]
    exact hinv
  · rw [← Option.some.inj (Option.some.inj h)]
    exact Nat.zero_le _
  · exact ClipPaste_caret env ef ef1 clip (Option.some.inj h) hinv
  · exact ClipPaste_caret env ef ef1 clip (Option.some.inj h) hinv

/-- The insertion of a typed character keeps the caret within the caption,
where it returns, whatever the caret was. -/
theorem charKey_caret (env : MeasureEnv) (ef ef1 : EditField) (inKey : Int) (inFlags : Nat)
    (h : ef.charKey env inKey inFlags = some ef1)
    (hinv : ef.caretPos ≤ ef.caption.sFull.length) :
    ef1.caretPos ≤ ef1.caption.sFull.length := by
  unfold charKey at h
  split_ifs at h with hc hgt
  · omega
  · obtain ⟨c, hc1, hc2⟩ := Option.map_eq_some'.mp h
    obtain ⟨hs, _⟩ := env.insert_sFull _ _ _ _ hc1
    rw [← hc2]
    simp only [hs, List.length_append, List.length_take, List.length_drop, List.length_singleton]
    omega
  · rw [← Option.some.inj h]
    exact hinv

/-- A key event keeps the caret within the caption, where it returns. -/
theorem DoHandleKey_caret (env : MeasureEnv) (ef ef1 : EditField) (clip : Option StdString)
    (inKey : Int) (inFlags inVirtualKey : Nat)
    (h : ef.DoHandleKey env clip inKey inFlags inVirtualKey = some ef1)
    (hinv : ef.caretPos ≤ ef.caption.sFull.length) :
    ef1.caretPos ≤ ef1.caption.sFull.length := by
  unfold DoHandleKey at h
  cases h1 : ef.editKeys env inFlags inVirtualKey with
  | some r =>
    rw [h1] at h
    simp only at h
    rw [h] at h1
    exact editKeys_caret env ef ef1 _ _ h1 hinv
  | none =>
    rw [h1] at h
    simp only at h
    cases h2 : ef.clipKeys env clip inFlags inVirtualKey with
    | some r =>
      rw [h2] at h
      simp only at h
      rw [h] at h2
      exact clipKeys_caret env ef ef1 clip _ _ h2 hinv
    | none =>
      rw [h2] at h
      exact charKey_caret env ef ef1 inKey inFlags h hinv

end EditField


theorem clickPos_le (M : Int → ℚ) (x : Int) (len : Nat) (fuel : Nat) :
    ∀ pos, pos ≤ len + 1 → clickPos M x len fuel pos ≤ len + 1 := by
  induction fuel with
  | zero =>
    intro pos h
    exact h
  | succ f ih =>
    intro pos h
    unfold clickPos
    split_ifs with h1 h2
    · exact h
    · exact ih (pos + 1) (by omega)
    · exact h

namespace EditField

/-- A mouse click keeps the caret within the caption, the cropped text being
within the caption from the start position on. -/
theorem DoMouseClick_caret (env : MeasureEnv) (ef : EditField) (p : Point)
    (mouseBtn : MouseBtnTy) (inMouse : XPLMMouseStatus)
    (hcrop : ef.caption.startPos + ef.caption.sCropped.length ≤ ef.caption.sFull.length)
    (hinv : ef.caretPos ≤ ef.caption.sFull.length) :
    (ef.DoMouseClick env p mouseBtn inMouse).caretPos ≤
      (ef.DoMouseClick env p mouseBtn inMouse).caption.sFull.length := by
  unfold DoMouseClick
  split_ifs with h
  · exact hinv
  · have hlen : ef.GetDrawString.length = ef.caption.sCropped.length := by
      unfold GetDrawString
      split_ifs
      · exact List.length_replicate _ _
      · rfl
    have hpos := clickPos_le (env.measure ef.GetDrawString) p.x ef.GetDrawString.length
      (ef.GetDrawString.length + 1) 0 (Nat.zero_le _)
    have hm := Nat.mod_le (ef.caption.startPos +
      (if clickPos (env.measure ef.GetDrawString) p.x ef.GetDrawString.length
          (ef.GetDrawString.length + 1) 0 > 0
        then clickPos (env.measure ef.GetDrawString) p.x ef.GetDrawString.length
          (ef.GetDrawString.length + 1) 0 - 1 else 0)) SIZE_MOD
    show (ef.caption.startPos + _) % SIZE_MOD ≤ ef.caption.sFull.length
    split_ifs at hm ⊢ <;> omega

/-- In a field constructed with the maximum length 0 no typed character is
inserted. -/
theorem charKey_maxLen_zero (env : MeasureEnv) (ef : EditField) (inKey : Int) (inFlags : Nat)
    (h : ef.maxLen = 0) : ef.charKey env inKey inFlags = some ef := by
  unfold charKey
  rw [if_neg]
  rw [h]
  intro hc
  exact absurd hc.2.2.2 (Nat.not_lt_zero _)

/-- A printable, allowed character going down is inserted at the caret while
the caption is shorter than `maxLen`, where `insert` returns. -/
theorem charKey_inserts (env : MeasureEnv) (ef ef1 : EditField) (inKey : Int) (inFlags : Nat)
    (hup : inFlags &&& xplm_UpFlag = 0) (hkey : inKey ≥ 32)
    (hall : ef.allowedChars = [] ∨ charCode inKey ∈ ef.allowedChars)
    (hlen : ef.caption.sFull.length < ef.maxLen)
    (hinv : ef.caretPos ≤ ef.caption.sFull.length)
    (h : ef.charKey env inKey inFlags = some ef1) :
    ef1.caption.sFull =
      ef.caption.sFull.take ef.caretPos ++ [charCode inKey] ++ ef.caption.sFull.drop ef.caretPos ∧
    ef1.caretPos = ef.caretPos + 1 := by
  unfold charKey at h
  rw [if_pos ⟨hup, hkey, hall, hlen⟩, if_neg (by omega)] at h
  obtain ⟨c, hc1, hc2⟩ := Option.map_eq_some'.mp h
  obtain ⟨hs, _⟩ := env.insert_sFull _ _ _ _ hc1
  rw [← hc2]
  exact ⟨hs, rfl⟩

/-- With no text in the clipboard, a key event leaves a caption of allowed
characters in a field whose caption held allowed characters only. -/
theorem DoHandleKey_allowed (env : MeasureEnv) (ef ef1 : EditField) (inKey : Int)
    (inFlags inVirtualKey : Nat) (hne : ef.allowedChars ≠ [])
    (hall : ∀ c ∈ ef.caption.sFull, c ∈ ef.allowedChars)
    (h : ef.DoHandleKey env none inKey inFlags inVirtualKey = some ef1) :
    ef1.allowedChars = ef.allowedChars ∧ ∀ c ∈ ef1.caption.sFull, c ∈ ef.allowedChars := by
  have herase : ∀ (i n : Nat) (c : CroppedString), env.erase ef.caption i n = some c →
      ∀ x ∈ c.sFull, x ∈ ef.allowedChars := by
    intro i n c hc x hx
    rw [(env.erase_sFull _ _ _ _ hc).1] at hx
    rcases List.mem_append.mp hx with hx | hx
    · exact hall x (List.mem_of_mem_take hx)
    · exact hall x (List.mem_of_mem_drop hx)
  have hnil : ∀ x ∈ ef.caption.clear.sFull, x ∈ ef.allowedChars := by
    intro x hx
    exact absurd hx (List.not_mem_nil _)
  unfold DoHandleKey at h
  cases h1 : ef.editKeys env inFlags inVirtualKey with
  | some r =>
    rw [h1] at h
    simp only at h
    rw [h] at h1
    unfold editKeys at h1
    split_ifs at h1
    · obtain ⟨c, hc1, hc2⟩ := Option.map_eq_some'.mp (Option.some.inj h1)
      rw [← hc2]
      exact ⟨rfl, herase _ _ c hc1⟩
    · rw [← Option.some.inj (Option.some.inj h1)]
      exact ⟨rfl, hall⟩
    · obtain ⟨c, hc1, hc2⟩ := Option.map_eq_some'.mp (Option.some.inj h1)
      rw [← hc2]
      exact ⟨rfl, herase _ _ c hc1⟩
    · rw [← Option.some.inj (Option.some.inj h1)]
      exact ⟨rfl, hall⟩
    · rw [← Option.some.inj (Option.some.inj h1)]
      exact ⟨rfl, hnil⟩
    · rw [← Option.some.inj (Option.some.inj h1)]
      exact ⟨rfl, hall⟩
    · rw [← Option.some.inj (Option.some.inj h1)]
      exact ⟨rfl, hall⟩
    · rw [← Option.some.inj (Option.some.inj h1)]
      exact ⟨rfl, hall⟩
    · rw [← Option.some.inj (Option.some.inj h1)]
      exact ⟨rfl, hall⟩
    · rw [← Option.some.inj (Option.some.inj h1)]
      exact ⟨rfl, hall⟩
    · rw [← Option.some.inj (Option.some.inj h1)]
      exact ⟨rfl, hall⟩
  | none =>
    rw [h1] at h
    simp only at h
    cases h2 : ef.clipKeys env none inFlags inVirtualKey with
    | some r =>
      rw [h2] at h
      simp only at h
      rw [h] at h2
      have hpaste : ef.ClipPaste env none = some ef := rfl
      unfold clipKeys at h2
      rw [hpaste] at h2
      split_ifs at h2
      · rw [← Option.some.inj (Option.some.inj h2)]
        exact ⟨rfl, hall⟩
      · rw [← Option.some.inj (Option.some.inj h2)]
        exact ⟨rfl, hnil⟩
      · rw [← Option.some.inj (Option.some.inj h2)]
        exact ⟨rfl, hall⟩
      · rw [← Option.some.inj (Option.some.inj h2)]
        exact ⟨rfl, hall⟩
    | none =>
      rw [h2] at h
      simp only at h
      have hins : ∀ (i : Nat) (c : CroppedString),
          env.insert ef.caption i [charCode inKey] = some c →
          (ef.allowedChars = [] ∨ charCode inKey ∈ ef.allowedChars) →
          ∀ x ∈ c.sFull, x ∈ ef.allowedChars := by
        intro i c hc1 hk x hx
        rw [(env.insert_sFull _ _ _ _ hc1).1] at hx
        rcases List.mem_append.mp hx with hx | hx
        · rcases List.mem_append.mp hx with hx | hx
          · exact hall x (List.mem_of_mem_take hx)
          · rw [List.mem_singleton.mp hx]
            rcases hk with he | hm
            · exact absurd he hne
            · exact hm
        · exact hall x (List.mem_of_mem_drop hx)
      unfold charKey at h
      split_ifs at h with hc
      · obtain ⟨c, hc1, hc2⟩ := Option.map_eq_some'.mp h
        rw [← hc2]
        exact ⟨rfl, hins _ c hc1 hc.2.2.1⟩
      · obtain ⟨c, hc1, hc2⟩ := Option.map_eq_some'.mp h
        rw [← hc2]
        exact ⟨rfl, hins _ c hc1 hc.2.2.1⟩
      · rw [← Option.some.inj h]
        exact ⟨rfl, hall⟩

end EditField

/-- Claim C31, at the failing input. An edit field constructed with the
maximum length 0 and an empty caption, any character allowed: the member
`maxLen` is 0, and the key `a` going down leaves the caption empty, because
`caption.size () < maxLen` is false. The same with the caption `hello`. In a
field constructed with the maximum length 80 the same key inserts `a`. -/
theorem C31_maxLen_zero_takes_no_character :
    exFieldUnlimited.map (fun ef => (ef.maxLen, ef.view)) = some (0, [], 0) ∧
    (exFieldUnlimited.bind
      (fun ef => ef.DoHandleKey exMeasureEnv none 97 xplm_DownFlag XPLM_VK_A)).map
      EditField.view = some ([], 0) ∧
    (exFieldUnlimitedHello.bind
      (fun ef => ef.DoHandleKey exMeasureEnv none 97 xplm_DownFlag XPLM_VK_A)).map
      EditField.view = some (exHello, 5) ∧
    ((EditField.ctor exMeasureEnv [] [] 80).bind
      (fun ef => ef.DoHandleKey exMeasureEnv none 97 xplm_DownFlag XPLM_VK_A)).map
      EditField.view = some ([97], 1) := by
  decide!

/-- Claim C32, at the failing input. An edit field for digits with the caption
`12`, while the clipboard holds the text `ab`: the keys Ctrl+V and
Shift+Insert and the method `ClipPaste` each leave the caption `12ab`, whose
characters `a` and `b` are not allowed. The typed key `a` is refused. -/
theorem C32_paste_inserts_any_character :
    exFieldDigits.map (fun ef => (ef.allowedChars, ef.view)) = some (CHR_NUM, [49, 50], 2) ∧
    (exFieldDigits.bind (fun ef => ef.DoHandleKey exMeasureEnv (some [97, 98]) 118
      (xplm_DownFlag ||| xplm_ControlFlag) XPLM_VK_V)).map EditField.view =
      some ([49, 50, 97, 98], 4) ∧
    (exFieldDigits.bind (fun ef => ef.DoHandleKey exMeasureEnv (some [97, 98]) 0
      (xplm_DownFlag ||| xplm_ShiftFlag) XPLM_VK_INSERT)).map EditField.view =
      some ([49, 50, 97, 98], 4) ∧
    (exFieldDigits.bind (fun ef => ef.ClipPaste exMeasureEnv (some [97, 98]))).map
      EditField.view = some ([49, 50, 97, 98], 4) ∧
    decide (97 ∈ CHR_NUM) = false ∧
    (exFieldDigits.bind (fun ef => ef.DoHandleKey exMeasureEnv (some [97, 98]) 97
      xplm_DownFlag XPLM_VK_A)).map EditField.view = some ([49, 50], 2) := by
  decide!

/-- Claim C38, at the failing input. The edit field constructed with the
caption `hello` has the caret at 5. `SetCaption` with the text `hi` leaves the
caret at 5, beyond the length 2 of the caption, and the key Backspace going
down then calls `caption.erase (4, 1)`, which throws. `Clear ()` leaves the
caret at 5 with an empty caption, and Backspace throws likewise. -/
theorem C38_SetCaption_keeps_caret :
    (EditField.ctor exMeasureEnv exHello [] 80).map EditField.view = some (exHello, 5) ∧
    exFieldHi.map EditField.view = some ([104, 105], 5) ∧
    exFieldHi.bind (fun ef => ef.DoHandleKey exMeasureEnv none 8 xplm_DownFlag XPLM_VK_BACK) =
      none ∧
    exFieldCleared.map EditField.view = some ([], 5) ∧
    exFieldCleared.bind
      (fun ef => ef.DoHandleKey exMeasureEnv none 8 xplm_DownFlag XPLM_VK_BACK) = none := by
  decide!


/-! ## Sorts outside the contract of `std::sort` -/

/-- Claim C5, at the defect. While a descending sort is active on a column
that exists and has a data type, `AddRow` of a row that holds a cell for the
column overwrites the stored row with its identity token, or appends the row
where the token is new, and hands the rows to `std::sort`; in the list
handed over the row is stored, and under the comparison it is less than
itself. `std::sort` requires a comparison under which no element is less
than itself. -/
theorem C5_AddRow_descending_sort_outside_contract (lb : ListBox) (row : ListRow)
    (cd : ListColumnDef)
    (hs : lb.sorted = .SORT_DESCENDING) (hcol : lb.cols[lb.sortedBy]? = some cd)
    (hdt : cd.dataType ≠ .DTY_NULL) (hcell : lb.sortedBy < row.cells.length)
    (hnd : (lb.rows.map (fun r => r.refCon)).Nodup) :
    (∀ x0 ∈ lb.rows, x0.refCon = row.refCon →
      (lb.AddRow row).lb = ListBox.DoSort (lb.overwritten row x0) ∧
      row.SetSequNr x0.sequNr ∈ (lb.overwritten row x0).rows ∧
      (lb.overwritten row x0).sortComp (row.SetSequNr x0.sequNr) (row.SetSequNr x0.sequNr) =
        some true) ∧
    ((∀ y ∈ lb.rows, y.refCon ≠ row.refCon) →
      (lb.AddRow row).lb = ListBox.DoSort (lb.appended row) ∧
      row.SetSequNr ((lb.sequRow + 1) % UINT_MOD) ∈ (lb.appended row).rows ∧
      (lb.appended row).sortComp (row.SetSequNr ((lb.sequRow + 1) % UINT_MOD))
        (row.SetSequNr ((lb.sequRow + 1) % UINT_MOD)) = some true) := by
  have hs2 : lb.sorted.toInt > SortingTy.SORT_UNSORTED.toInt := by rw [hs]; decide
  constructor
  · intro x0 hx0 hrc
    refine ⟨?_, ?_, ?_⟩
    · rw [(ListBox.AddRow_found lb row x0 hnd hx0 hrc).1, if_pos hs2]
    · simp only [ListBox.overwritten]
      exact List.mem_map.mpr ⟨x0, hx0, by simp [hrc]⟩
    · have hc : (lb.overwritten row x0).cols[(lb.overwritten row x0).sortedBy]? = some cd := hcol
      have hso : (lb.overwritten row x0).sorted = .SORT_DESCENDING := hs
      simp only [ListBox.sortComp, hc, Option.map_some', hso]
      exact congrArg some
        (elemLess_descending_self cd.dataType _ (row.SetSequNr x0.sequNr) hdt hcell)
  · intro hnew
    refine ⟨?_, ?_, ?_⟩
    · rw [(ListBox.AddRow_new lb row hnew).1, if_pos hs2]
    · simp [ListBox.appended]
    · have hc : (lb.appended row).cols[(lb.appended row).sortedBy]? = some cd := hcol
      have hso : (lb.appended row).sorted = .SORT_DESCENDING := hs
      simp only [ListBox.sortComp, hc, Option.map_some', hso]
      exact congrArg some
        (elemLess_descending_self cd.dataType _
          (row.SetSequNr ((lb.sequRow + 1) % UINT_MOD)) hdt hcell)

/-- Claim C5 at the scenario list sorted descending by the number of
passengers; the example program likewise sorts its list of three rows
descending by column 1 before it adds a fourth row. `AddRow` of row D appends
it with the sequence number 4 and sorts; D is less than itself. -/
theorem C5_AddRow_descending_sort_outside_contract_witness :
    (exABC.SetSorting 1 .SORT_DESCENDING).sorted = .SORT_DESCENDING ∧
    ((exABC.SetSorting 1 .SORT_DESCENDING).AddRow exRowD).lb =
      ListBox.DoSort ((exABC.SetSorting 1 .SORT_DESCENDING).appended exRowD) ∧
    exRowD.SetSequNr 4 ∈ ((exABC.SetSorting 1 .SORT_DESCENDING).appended exRowD).rows ∧
    ((exABC.SetSorting 1 .SORT_DESCENDING).appended exRowD).sortComp
      (exRowD.SetSequNr 4) (exRowD.SetSequNr 4) = some true :=
  have h := (C5_AddRow_descending_sort_outside_contract (exABC.SetSorting 1 .SORT_DESCENDING)
    exRowD (exCol [80, 97, 120] 30 .DTY_INT) (by decide) (by decide) (by decide) (by decide)
    (by decide)).2 (by decide)
  ⟨by decide, h.1, h.2.1, h.2.2⟩

/-- Claim C6, at the defect. While a sort is active on a column that exists,
`AddRow` with an identity token that is stored, for a row without a cell for
that column, overwrites the stored row, keeping its sequence number, and
hands the rows to `std::sort`; in the list handed over the row is stored,
and under the comparison it is less than itself and less than every other
row. `std::sort` requires a comparison under which no element is less than
itself. -/
theorem C6_upsert_short_row_sort_outside_contract (lb : ListBox) (row x0 : ListRow)
    (cd : ListColumnDef)
    (hs : lb.sorted.toInt > SortingTy.SORT_UNSORTED.toInt)
    (hcol : lb.cols[lb.sortedBy]? = some cd) (hshort : row.cells.length ≤ lb.sortedBy)
    (hnd : (lb.rows.map (fun r => r.refCon)).Nodup)
    (hx0 : x0 ∈ lb.rows) (hrc : x0.refCon = row.refCon) :
    (lb.AddRow row).lb = ListBox.DoSort (lb.overwritten row x0) ∧
    row.SetSequNr x0.sequNr ∈ (lb.overwritten row x0).rows ∧
    (∀ o : ListRow,
      (lb.overwritten row x0).sortComp (row.SetSequNr x0.sequNr) o = some true) := by
  refine ⟨?_, ?_, ?_⟩
  · rw [(ListBox.AddRow_found lb row x0 hnd hx0 hrc).1, if_pos hs]
  · simp only [ListBox.overwritten]
    exact List.mem_map.mpr ⟨x0, hx0, by simp [hrc]⟩
  · intro o
    have hc : (lb.overwritten row x0).cols[(lb.overwritten row x0).sortedBy]? = some cd := hcol
    simp only [ListBox.sortComp, hc, Option.map_some']
    exact congrArg some (elemLess_short cd.dataType _ _ (row.SetSequNr x0.sequNr) o hshort)

/-- Claim C6 at the scenario list sorted ascending by the number of
passengers: `AddRow` of the row with a name only and the identity token 1
overwrites row A, keeping the sequence number 1, and sorts; the row is less
than itself. -/
theorem C6_upsert_short_row_sort_outside_contract_witness :
    (exABC.SetSorting 1 .SORT_ASCENDING).rows.map (fun r => r.refCon) = [1, 3, 2] ∧
    ((exABC.SetSorting 1 .SORT_ASCENDING).AddRow exRowA3).lb =
      ListBox.DoSort ((exABC.SetSorting 1 .SORT_ASCENDING).overwritten exRowA3
        (exRowA.SetSequNr 1)) ∧
    ((exABC.SetSorting 1 .SORT_ASCENDING).overwritten exRowA3 (exRowA.SetSequNr 1)).sortComp
      (exRowA3.SetSequNr 1) (exRowA3.SetSequNr 1) = some true :=
  have h := C6_upsert_short_row_sort_outside_contract (exABC.SetSorting 1 .SORT_ASCENDING)
    exRowA3 (exRowA.SetSequNr 1) (exCol [80, 97, 120] 30 .DTY_INT) (by decide) (by decide)
    (by decide) (by decide) (by decide) (by decide)
  ⟨by decide, h.1, h.2.2 (exRowA3.SetSequNr 1)⟩

/-- Claim C25, at the failing input. Seventeen rows that hold a name only are
inserted into the list box with the columns Name and Pax, which is not sorted:
no call sorts, and the rows get the sequence numbers 1 to 17. The call
`SetSorting (1, SORT_ASCENDING)` then hands the seventeen rows to `std::sort`
with the comparison of the list box set to column 1 and ascending, under
which every row is less than every row, itself included. -/
theorem C25_sort_compares_every_pair_true :
    exShort17.sorted = .SORT_UNSORTED ∧
    exShort17.rows.map (fun r => (r.refCon, r.sequNr, r.cells.length)) =
      (List.range 17).map (fun k => (k + 1, k + 1, 1)) ∧
    exShort17.SetSorting 1 .SORT_ASCENDING =
      ListBox.DoSort { exShort17 with sortedBy := 1, sorted := .SORT_ASCENDING } ∧
    (exShort17.rows.all (fun r1 => exShort17.rows.all (fun r2 =>
      ListBox.sortComp { exShort17 with sortedBy := 1, sorted := .SORT_ASCENDING } r1 r2 ==
        some true))) = true := by
  decide!


/-! ## Layout: what a widget holds after its `SetGeometry` -/

/-- Where the `SetGeometry` of a widget returns, the widget holds the
rectangle handed over, normalized, and its rules, its class and its flags are
as before. -/
theorem WidgetAddTy.SetGeometry_some (env : MeasureEnv) (fenv : FontEnv) (wa wa1 : WidgetAddTy)
    (_r : Rect) (h : wa.SetGeometry env fenv _r = some wa1) :
    wa1.w = Rect.SetGeometry wa.w _r ∧ wa1.rules = wa.rules ∧ wa1.st.kind = wa.st.kind ∧
    wa1.st.bVisible = wa.st.bVisible ∧ wa1.st.bEnabled = wa.st.bEnabled := by
  unfold WidgetAddTy.SetGeometry at h
  split at h
  · simp only [Option.map_eq_some'] at h
    obtain ⟨ba, _, rfl⟩ := h
    exact ⟨rfl, rfl, rfl, rfl, rfl⟩
  · split at h
    · cases h
    · simp only [Option.map_eq_some'] at h
      obtain ⟨lb, _, rfl⟩ := h
      exact ⟨rfl, rfl, rfl, rfl, rfl⟩
  · simp only [Option.map_eq_some'] at h
    obtain ⟨c, _, rfl⟩ := h
    exact ⟨rfl, rfl, rfl, rfl, rfl⟩

namespace MainWnd

/-- The rectangle that `Rect::SetGeometry` stores in the loop body. -/
theorem SetGeometry_layout_rect (r0 : Rect) (e : LayoutEdges) :
    (if e.degenerate then Rect.SetGeometry r0 (Rect.ctor (-1) (-1) (-1) (-1))
      else Rect.SetGeometry r0 (Rect.ctor e._left e._top e._right e._bottom)) = e.rect := by
  by_cases hd : e.degenerate = true
  · simp only [hd, if_true, LayoutEdges.rect, Rect.SetGeometry_invalid]
  · simp only [hd, if_false, LayoutEdges.rect]
    simp only [LayoutEdges.degenerate, Bool.or_eq_true, decide_eq_true_eq, not_or, not_lt] at hd
    exact Rect.SetGeometry_ctor_of_le r0 _ _ _ _ hd.1 hd.2

/-- Where the loop body returns for a widget, the widget holds the invalid
rectangle for degenerate edges and the rectangle with the computed edges
otherwise; its rules, its class and its flags are as before. -/
theorem layoutWidget_some (env : MeasureEnv) (fenv : FontEnv) (mw : MainWnd)
    (prevWa : Option WidgetAddTy) (wa wa1 : WidgetAddTy)
    (h : mw.layoutWidget env fenv prevWa wa = some wa1) :
    wa1.w = (mw.layoutEdges prevWa wa).rect ∧ wa1.rules = wa.rules ∧
    wa1.st.kind = wa.st.kind ∧ wa1.st.bVisible = wa.st.bVisible ∧
    wa1.st.bEnabled = wa.st.bEnabled := by
  unfold layoutWidget at h
  rw [← SetGeometry_layout_rect wa.w (mw.layoutEdges prevWa wa)]
  by_cases hd : (mw.layoutEdges prevWa wa).degenerate = true
  · simp only [hd, if_true] at h ⊢
    exact WidgetAddTy.SetGeometry_some env fenv wa wa1 _ h
  · simp only [hd, if_false] at h ⊢
    exact WidgetAddTy.SetGeometry_some env fenv wa wa1 _ h

/-- Where the loop returns, it has visited the widgets in their order: the
result at position `i` is what the loop body returns for the widget at
position `i` after the result at position `i - 1`. -/
theorem layoutLoop_some (env : MeasureEnv) (fenv : FontEnv) (mw : MainWnd)
    (ws : List WidgetAddTy) :
    ∀ (prev0 : Option WidgetAddTy) (res : List WidgetAddTy),
      mw.layoutLoop env fenv prev0 ws = some res →
      res.length = ws.length ∧
      ∀ (i : Nat) (wa : WidgetAddTy), ws[i]? = some wa →
        ∃ wa1, res[i]? = some wa1 ∧
          mw.layoutWidget env fenv (prevOf prev0 res i) wa = some wa1 := by
  induction ws with
  | nil =>
    intro prev0 res h
    simp only [layoutLoop, Option.some.injEq] at h
    subst h
    exact ⟨rfl, fun i wa hi => by simp at hi⟩
  | cons w rest ih =>
    intro prev0 res h
    simp only [layoutLoop] at h
    cases hw : mw.layoutWidget env fenv prev0 w with
    | none => rw [hw] at h; cases h
    | some w1 =>
      rw [hw] at h
      simp only [Option.map_eq_some'] at h
      obtain ⟨rest1, hrest, rfl⟩ := h
      obtain ⟨hlen, hall⟩ := ih (some w1) rest1 hrest
      refine ⟨by simp [hlen], ?_⟩
      intro i wa hi
      cases i with
      | zero =>
        simp only [List.getElem?_cons_zero, Option.some.injEq] at hi
        subst hi
        exact ⟨w1, by simp, hw⟩
      | succ j =>
        simp only [List.getElem?_cons_succ] at hi
        obtain ⟨wa1, h1, h2⟩ := hall j wa hi
        refine ⟨wa1, by simpa using h1, ?_⟩
        cases j with
        | zero => simpa [prevOf] using h2
        | succ k => simpa [prevOf] using h2

/-- What `Layout` leaves behind where it returns. -/
theorem Layout_some (env : MeasureEnv) (fenv : FontEnv) (mw mw1 : MainWnd)
    (h : mw.Layout env fenv = some mw1) :
    mw.layoutLoop env fenv none mw.widgets = some mw1.widgets ∧
    mw1.geo = mw.geo ∧ mw1.frameThick = mw.frameThick ∧ mw1.bLayoutDirty = false ∧
    mw1.widgets.length = mw.widgets.length := by
  unfold Layout at h
  simp only [Option.map_eq_some'] at h
  obtain ⟨ws, hws, rfl⟩ := h
  exact ⟨hws, rfl, rfl, rfl, (layoutLoop_some env fenv mw mw.widgets none ws hws).1⟩

/-- Every widget after a `Layout` that returns is what the loop body returns
for the widget before at the same position. -/
theorem Layout_getElem? (env : MeasureEnv) (fenv : FontEnv) (mw mw1 : MainWnd)
    (h : mw.Layout env fenv = some mw1) (i : Nat) :
    (∀ wa, mw.widgets[i]? = some wa →
      ∃ wa1, mw1.widgets[i]? = some wa1 ∧
        mw.layoutWidget env fenv (prevOf none mw1.widgets i) wa = some wa1) ∧
    (∀ wa1, mw1.widgets[i]? = some wa1 →
      ∃ wa, mw.widgets[i]? = some wa ∧
        mw.layoutWidget env fenv (prevOf none mw1.widgets i) wa = some wa1) := by
  obtain ⟨hloop, _, _, _, hlen⟩ := Layout_some env fenv mw mw1 h
  obtain ⟨_, hall⟩ := layoutLoop_some env fenv mw mw.widgets none mw1.widgets hloop
  refine ⟨hall i, ?_⟩
  intro wa1 h1
  have hi : i < mw.widgets.length := by
    rw [← hlen]; exact (List.getElem?_eq_some_iff.mp h1).1
  obtain ⟨wa2, h2, h3⟩ := hall i mw.widgets[i] (List.getElem?_eq_getElem hi)
  rw [h1] at h2
  cases h2
  exact ⟨mw.widgets[i], List.getElem?_eq_getElem hi, h3⟩

/-- The loop returns where the `SetGeometry` of every widget returns for
every rectangle. -/
theorem layoutLoop_isSome (env : MeasureEnv) (fenv : FontEnv) (mw : MainWnd)
    (ws : List WidgetAddTy)
    (hret : ∀ wa ∈ ws, ∀ r : Rect, (wa.SetGeometry env fenv r).isSome = true) :
    ∀ prev0 : Option WidgetAddTy, (mw.layoutLoop env fenv prev0 ws).isSome = true := by
  induction ws with
  | nil => intro prev0; rfl
  | cons w rest ih =>
    intro prev0
    have hw : (mw.layoutWidget env fenv prev0 w).isSome = true := by
      unfold layoutWidget
      by_cases hd : (mw.layoutEdges prev0 w).degenerate = true
      · simp only [hd, if_true]; exact hret w (List.mem_cons_self _ _) _
      · simp only [hd, if_false]; exact hret w (List.mem_cons_self _ _) _
    obtain ⟨w1, hw1⟩ := Option.isSome_iff_exists.mp hw
    have hr := ih (fun wa hwa r => hret wa (List.mem_cons_of_mem _ hwa) r) (some w1)
    obtain ⟨rest1, hrest1⟩ := Option.isSome_iff_exists.mp hr
    simp only [layoutLoop, hw1, hrest1, Option.map_some', Option.isSome_some]

/-- `Layout` returns where the `SetGeometry` of every widget returns for
every rectangle. -/
theorem Layout_isSome (env : MeasureEnv) (fenv : FontEnv) (mw : MainWnd)
    (hret : ∀ wa ∈ mw.widgets, ∀ r : Rect, (wa.SetGeometry env fenv r).isSome = true) :
    (mw.Layout env fenv).isSome = true := by
  have h := layoutLoop_isSome env fenv mw mw.widgets hret none
  obtain ⟨ws, hws⟩ := Option.isSome_iff_exists.mp h
  simp only [Layout, hws, Option.map_some', Option.isSome_some]

end MainWnd

/-- Cropping returns for a start position within the text. -/
theorem MeasureEnv.CropTextToWidth_isSome (env : MeasureEnv) (s : StdString) (w : ℚ) (start : Nat)
    (h : start ≤ s.length) : (env.CropTextToWidth s w start).isSome = true := by
  unfold MeasureEnv.CropTextToWidth
  have h2 : ¬ (start > s.length) := by omega
  simp only [h2, if_false]
  split_ifs <;> rfl

/-- The `SetGeometry` of a label, a line, a push button or an edit field
returns, for every rectangle, where the start position of its text is within
the text. -/
theorem WidgetAddTy.SetGeometry_isSome (env : MeasureEnv) (fenv : FontEnv) (wa : WidgetAddTy)
    (hk : wa.st.kind ≠ .buttonArray ∧ wa.st.kind ≠ .listBox)
    (hc : wa.st.caption.startPos ≤ wa.st.caption.sFull.length) (r : Rect) :
    (wa.SetGeometry env fenv r).isSome = true := by
  have hs : (env.SetWidth wa.st.caption (toSizeT r.Width)).isSome = true := by
    simp only [MeasureEnv.SetWidth, MeasureEnv.UpdateCroppedString, Option.isSome_map']
    exact MeasureEnv.CropTextToWidth_isSome env _ _ _ hc
  obtain ⟨c, hc2⟩ := Option.isSome_iff_exists.mp hs
  unfold WidgetAddTy.SetGeometry
  split
  · rename_i hkind; exact absurd hkind hk.1
  · rename_i hkind; exact absurd hkind hk.2
  · simp only [hc2, Option.map_some', Option.isSome_some]

/-! ## The layout pass where it returns -/

namespace MainWnd

/-- After a `Layout` that returns, every widget has its rules and holds the
invalid rectangle, where the edges computed from its rules have left > right
or bottom > top, and the rectangle with the computed edges otherwise; the
rectangle is normalized. -/
theorem Layout_rect_invalid_or_computed (env : MeasureEnv) (fenv : FontEnv) (mw mw1 : MainWnd)
    (hL : mw.Layout env fenv = some mw1) (i : Nat) (wa : WidgetAddTy)
    (h : mw.widgets[i]? = some wa) :
    mw1.widgets.length = mw.widgets.length ∧
    ∃ wa1 e, mw1.widgets[i]? = some wa1 ∧ wa1.rules = wa.rules ∧
      e = mw.layoutEdges (prevOf none mw1.widgets i) wa ∧
      ((e._left > e._right ∨ e._bottom > e._top) →
        wa1.w = Rect.invalid ∧ wa1.w.edges = (-1, -1, -1, -1)) ∧
      (¬ (e._left > e._right ∨ e._bottom > e._top) →
        wa1.w = { bl := { x := e._left, y := e._bottom }, tr := { x := e._right, y := e._top } } ∧
        wa1.w.edges = (e._left, e._top, e._right, e._bottom)) ∧
      wa1.w.Left ≤ wa1.w.Right ∧ wa1.w.Bottom ≤ wa1.w.Top ∧ wa1.w.isNormalized = true := by
  refine ⟨(Layout_some env fenv mw mw1 hL).2.2.2.2, ?_⟩
  obtain ⟨wa1, h1, hlw⟩ := (Layout_getElem? env fenv mw mw1 hL i).1 wa h
  obtain ⟨hw, hrules, _⟩ := layoutWidget_some env fenv mw _ wa wa1 hlw
  refine ⟨wa1, _, h1, hrules, rfl, ?_, ?_, ?_⟩
  · intro hdeg
    have hd : (mw.layoutEdges (prevOf none mw1.widgets i) wa).degenerate = true := by
      simpa [LayoutEdges.degenerate] using hdeg
    rw [hw, LayoutEdges.rect, if_pos hd]
    exact ⟨rfl, by decide⟩
  · intro hdeg
    have hd : ¬ (mw.layoutEdges (prevOf none mw1.widgets i) wa).degenerate = true := by
      intro hd
      apply hdeg
      simpa [LayoutEdges.degenerate] using hd
    rw [hw, LayoutEdges.rect, if_neg hd]
    exact ⟨rfl, rfl⟩
  · have hn : wa1.w.isNormalized = true := by
      rw [hw, LayoutEdges.rect]
      split_ifs with hd
      · exact Rect.invalid_isNormalized
      · simp only [LayoutEdges.degenerate, Bool.or_eq_true, decide_eq_true_eq, not_or,
          not_lt] at hd
        simp only [Rect.isNormalized, Rect.Left, Rect.Right, Rect.Bottom, Rect.Top,
          Bool.and_eq_true, decide_eq_true_eq]
        exact hd
    have hn2 := hn
    simp only [Rect.isNormalized, Bool.and_eq_true, decide_eq_true_eq] at hn2
    exact ⟨hn2.1, hn2.2, hn⟩

theorem layoutLoop_cons (env : MeasureEnv) (fenv : FontEnv) (mw : MainWnd)
    (prev0 : Option WidgetAddTy) (wa : WidgetAddTy) (rest : List WidgetAddTy) :
    mw.layoutLoop env fenv prev0 (wa :: rest) =
      (mw.layoutWidget env fenv prev0 wa).bind (fun wa1 =>
        (mw.layoutLoop env fenv (some wa1) rest).map (fun rest1 => wa1 :: rest1)) := by
  simp only [layoutLoop]
  cases mw.layoutWidget env fenv prev0 wa <;> rfl

/-- The loop over the widgets followed by one more widget is the loop over
the widgets, followed by the loop body for the further widget after the last
of them: it returns where both return, with the results for the widgets
followed by the result for the further widget. -/
theorem layoutLoop_append (env : MeasureEnv) (fenv : FontEnv) (mw : MainWnd)
    (ws : List WidgetAddTy) (w : WidgetAddTy) :
    ∀ prev0 : Option WidgetAddTy,
      mw.layoutLoop env fenv prev0 (ws ++ [w]) =
        (mw.layoutLoop env fenv prev0 ws).bind (fun res =>
          (mw.layoutWidget env fenv (res.getLast?.or prev0) w).map (fun w1 => res ++ [w1])) := by
  induction ws with
  | nil =>
    intro prev0
    simp only [List.nil_append, layoutLoop, Option.some_bind, List.getLast?_nil, Option.none_or]
    cases mw.layoutWidget env fenv prev0 w <;> rfl
  | cons x xs ih =>
    intro prev0
    have hlast : ∀ (a : WidgetAddTy) (l : List WidgetAddTy),
        (a :: l).getLast?.or prev0 = l.getLast?.or (some a) := by
      intro a l
      cases l with
      | nil => rfl
      | cons y ys =>
        rw [List.getLast?_cons_cons]
        cases hys : (y :: ys).getLast? with
        | none => simp at hys
        | some z => rfl
    rw [List.cons_append, layoutLoop_cons, layoutLoop_cons]
    cases hx : mw.layoutWidget env fenv prev0 x with
    | none => rfl
    | some x1 =>
      simp only [Option.some_bind]
      rw [ih (some x1)]
      cases hxs : mw.layoutLoop env fenv (some x1) xs with
      | none => rfl
      | some res =>
        simp only [Option.some_bind, Option.map_some', hlast]
        cases mw.layoutWidget env fenv (res.getLast?.or (some x1)) w <;> rfl

/-- The loop body reads the rectangle and the frame thickness of the window
only. -/
theorem layoutWidget_of_geo (env : MeasureEnv) (fenv : FontEnv) (mw mw2 : MainWnd)
    (hg : mw.geo = mw2.geo) (hft : mw.frameThick = mw2.frameThick)
    (prev0 : Option WidgetAddTy) (wa : WidgetAddTy) :
    mw.layoutWidget env fenv prev0 wa = mw2.layoutWidget env fenv prev0 wa := by
  simp only [layoutWidget, layoutEdges, hg, hft]

theorem layoutLoop_of_geo (env : MeasureEnv) (fenv : FontEnv) (mw mw2 : MainWnd)
    (hg : mw.geo = mw2.geo) (hft : mw.frameThick = mw2.frameThick) (ws : List WidgetAddTy) :
    ∀ prev0 : Option WidgetAddTy,
      mw.layoutLoop env fenv prev0 ws = mw2.layoutLoop env fenv prev0 ws := by
  induction ws with
  | nil => intro prev0; rfl
  | cons x xs ih =>
    intro prev0
    simp only [layoutLoop, layoutWidget_of_geo env fenv mw mw2 hg hft prev0 x, ih]

/-- `Layout` is a single pass over the widgets in the order in which they
were added: `Layout` of a window with a further widget `w` added is `Layout`
of the window, followed by the loop body for `w` after the last of the
widgets. Where both return, the widgets of the window have the rectangles
that they have without `w`. -/
theorem Layout_Add (env : MeasureEnv) (fenv : FontEnv) (mw : MainWnd) (w : WidgetAddTy) :
    (mw.Add w).Layout env fenv =
      (mw.Layout env fenv).bind (fun mw1 =>
        (mw.layoutWidget env fenv mw1.widgets.getLast? w).map
          (fun w1 => { mw1 with widgets := mw1.widgets ++ [w1] })) := by
  have h := layoutLoop_append env fenv mw mw.widgets w none
  simp only [Option.or_none] at h
  have hg := layoutLoop_of_geo env fenv (mw.Add w) mw rfl rfl (mw.widgets ++ [w]) none
  simp only [Layout, Add]
  simp only [Add] at hg
  rw [hg, h]
  cases mw.layoutLoop env fenv none mw.widgets with
  | none => rfl
  | some res =>
    simp only [Option.some_bind, Option.map_some']
    cases mw.layoutWidget env fenv res.getLast? w <;> rfl

/-- Where the loop body returns, the rectangle of the widget depends on the
width and height of the window, the frame thickness, the rules of the widget
and the rectangle of the widget before it, and on nothing else. -/
theorem layoutWidget_w_congr (env env2 : MeasureEnv) (fenv fenv2 : FontEnv) (mw mw2 : MainWnd)
    (prev prev2 : Option WidgetAddTy) (wa wa2 wa1 wa3 : WidgetAddTy)
    (hW : mw.geo.Width = mw2.geo.Width) (hH : mw.geo.Height = mw2.geo.Height)
    (hft : mw.frameThick = mw2.frameThick) (hrules : wa.rules = wa2.rules)
    (hprev : prev.map (fun p => p.w) = prev2.map (fun p => p.w))
    (h1 : mw.layoutWidget env fenv prev wa = some wa1)
    (h2 : mw2.layoutWidget env2 fenv2 prev2 wa2 = some wa3) : wa1.w = wa3.w := by
  rw [(layoutWidget_some env fenv mw prev wa wa1 h1).1,
    (layoutWidget_some env2 fenv2 mw2 prev2 wa2 wa3 h2).1,
    layoutEdges_congr mw mw2 prev prev2 wa wa2 hW hH hft hrules hprev]

/-- Where the loops return, the rectangles depend on the sizes, the frame
thickness, the rules and the rectangle of the start value only. -/
theorem layoutLoop_w_congr (env env2 : MeasureEnv) (fenv fenv2 : FontEnv) (mw mw2 : MainWnd)
    (hW : mw.geo.Width = mw2.geo.Width) (hH : mw.geo.Height = mw2.geo.Height)
    (hft : mw.frameThick = mw2.frameThick) (ws : List WidgetAddTy) :
    ∀ (ws2 : List WidgetAddTy) (prev prev2 : Option WidgetAddTy) (res res2 : List WidgetAddTy),
      ws.map (fun wa => wa.rules) = ws2.map (fun wa => wa.rules) →
      prev.map (fun p => p.w) = prev2.map (fun p => p.w) →
      mw.layoutLoop env fenv prev ws = some res →
      mw2.layoutLoop env2 fenv2 prev2 ws2 = some res2 →
      res.map (fun wa => wa.w) = res2.map (fun wa => wa.w) := by
  induction ws with
  | nil =>
    intro ws2 prev prev2 res res2 hr _ h1 h2
    cases ws2 with
    | nil =>
      simp only [layoutLoop, Option.some.injEq] at h1 h2
      rw [← h1, ← h2]
    | cons y ys => simp at hr
  | cons x xs ih =>
    intro ws2 prev prev2 res res2 hr hp h1 h2
    cases ws2 with
    | nil => simp at hr
    | cons y ys =>
      simp only [List.map_cons, List.cons.injEq] at hr
      simp only [layoutLoop] at h1 h2
      cases hx : mw.layoutWidget env fenv prev x with
      | none => rw [hx] at h1; cases h1
      | some x1 =>
        cases hy : mw2.layoutWidget env2 fenv2 prev2 y with
        | none => rw [hy] at h2; cases h2
        | some y1 =>
          rw [hx] at h1; rw [hy] at h2
          simp only [Option.map_eq_some'] at h1 h2
          obtain ⟨r1, hr1, rfl⟩ := h1
          obtain ⟨r2, hr2, rfl⟩ := h2
          have hw := layoutWidget_w_congr env env2 fenv fenv2 mw mw2 prev prev2 x y x1 y1
            hW hH hft hr.1 hp hx hy
          simp only [List.map_cons, List.cons.injEq]
          exact ⟨hw, ih ys (some x1) (some y1) r1 r2 hr.2 (by simp [hw]) hr1 hr2⟩

/-- Where the loop returns, the widgets have their rules. -/
theorem layoutLoop_rules (env : MeasureEnv) (fenv : FontEnv) (mw : MainWnd)
    (ws : List WidgetAddTy) :
    ∀ (prev0 : Option WidgetAddTy) (res : List WidgetAddTy),
      mw.layoutLoop env fenv prev0 ws = some res →
      res.map (fun wa => wa.rules) = ws.map (fun wa => wa.rules) := by
  induction ws with
  | nil =>
    intro prev0 res h
    simp only [layoutLoop, Option.some.injEq] at h
    rw [← h]
  | cons x xs ih =>
    intro prev0 res h
    simp only [layoutLoop] at h
    cases hx : mw.layoutWidget env fenv prev0 x with
    | none => rw [hx] at h; cases h
    | some x1 =>
      rw [hx] at h
      simp only [Option.map_eq_some'] at h
      obtain ⟨r1, hr1, rfl⟩ := h
      simp only [List.map_cons, ih (some x1) r1 hr1,
        (layoutWidget_some env fenv mw prev0 x x1 hx).2.1]

/-- Where `Layout` returns, the rectangles are a function of the width and
height of the window, the frame thickness and the list of rules in its
order: two windows of the same width, height and frame thickness whose
widgets have the same rules get the same rectangles, whatever rectangles the
widgets held before and wherever the windows are; and a second `Layout` that
returns gives the rectangles of the first. -/
theorem Layout_rects_congr (env env2 : MeasureEnv) (fenv fenv2 : FontEnv)
    (mw mw2 mw1 mw3 : MainWnd)
    (hW : mw.geo.Width = mw2.geo.Width) (hH : mw.geo.Height = mw2.geo.Height)
    (hft : mw.frameThick = mw2.frameThick)
    (hrules : mw.widgets.map (fun wa => wa.rules) = mw2.widgets.map (fun wa => wa.rules))
    (h1 : mw.Layout env fenv = some mw1) (h2 : mw2.Layout env2 fenv2 = some mw3) :
    mw1.widgets.map (fun wa => wa.w) = mw3.widgets.map (fun wa => wa.w) ∧
    (∀ mw4, mw1.Layout env fenv = some mw4 →
      mw4.widgets.map (fun wa => wa.w) = mw1.widgets.map (fun wa => wa.w)) := by
  obtain ⟨hl1, hg1, hf1, _, _⟩ := Layout_some env fenv mw mw1 h1
  obtain ⟨hl2, _, _, _, _⟩ := Layout_some env2 fenv2 mw2 mw3 h2
  refine ⟨layoutLoop_w_congr env env2 fenv fenv2 mw mw2 hW hH hft _ _ none none _ _ hrules rfl
    hl1 hl2, ?_⟩
  intro mw4 h4
  obtain ⟨hl4, _, _, _, _⟩ := Layout_some env fenv mw1 mw4 h4
  exact layoutLoop_w_congr env env fenv fenv mw1 mw (by rw [hg1]) (by rw [hg1]) hf1 _ _ none none
    _ _ (layoutLoop_rules env fenv mw mw.widgets none mw1.widgets hl1) rfl hl4 hl1

end MainWnd

/-! ## Fixed-length edges -/

/-- The rectangle with the computed edges of a widget has its fixed-length
edges relative to the opposite edge. -/
theorem MainWnd.layoutWidget_fixedLenPlaced (env : MeasureEnv) (fenv : FontEnv) (mw : MainWnd)
    (prevWa : Option WidgetAddTy) (wa wa1 : WidgetAddTy)
    (h : mw.layoutWidget env fenv prevWa wa = some wa1) (hvalid : wa1.w ≠ Rect.invalid) :
    wa1.rules = wa.rules ∧ wa1.fixedLenPlaced := by
  obtain ⟨hw, hrules, _, _, _⟩ := MainWnd.layoutWidget_some env fenv mw prevWa wa wa1 h
  have hnd : ¬ (mw.layoutEdges prevWa wa).degenerate = true := by
    intro hd
    apply hvalid
    rw [hw, LayoutEdges.rect, if_pos hd]
  rw [LayoutEdges.rect, if_neg hnd] at hw
  obtain ⟨e1, e2, e3, e4⟩ := MainWnd.layoutEdges_fixed mw prevWa wa
  have hr := hrules
  simp only [WidgetAddTy.rules, Prod.mk.injEq] at hr
  obtain ⟨⟨h1, h2⟩, ⟨h3, h4⟩, ⟨h5, h6⟩, h7, h8⟩ := hr
  refine ⟨hrules, ?_, ?_, ?_, ?_⟩
  · intro hR hL
    rw [h5] at hR; rw [h1] at hL
    simp only [hw, Rect.Right, Rect.Left, h6]
    exact e1 hR hL
  · intro hB hT
    rw [h7] at hB; rw [h3] at hT
    simp only [hw, Rect.Bottom, Rect.Top, h8]
    exact e2 hB hT
  · intro hL _
    rw [h1] at hL
    simp only [hw, Rect.Right, Rect.Left, h2]
    exact e3 hL
  · intro hT _
    rw [h3] at hT
    simp only [hw, Rect.Bottom, Rect.Top, h4]
    exact e4 hT

/-- Claim C9. After a `Layout` that returns, every widget that does not hold
the invalid rectangle has the rules it had before and has its fixed-length
edges placed relative to its own opposite edge: with a fixed-length right
rule (offset `rO`) and another left rule, right is left + `rO`; with a
fixed-length bottom rule (offset `bO`) and another top rule, bottom is top -
`bO`; with a fixed-length left rule (offset `lO`) and another right rule,
left is right - `lO`; with a fixed-length top rule (offset `tO`) and another
bottom rule, top is bottom + `tO`. The same holds of every widget for which
the loop body of `Layout` returns, in every window and after every widget
before it, whether or not the pass gets to its end. A first widget with the
rules (absolute 0, after-previous 0, fixed-length 100, fixed-length 15) gets
left 0, top 0, right 100, bottom -15 in every window. -/
theorem C9_fixed_length_edges (env : MeasureEnv) (fenv : FontEnv) (mw mw1 : MainWnd)
    (hL : mw.Layout env fenv = some mw1) (i : Nat) (wa1 : WidgetAddTy)
    (h : mw1.widgets[i]? = some wa1) (hvalid : wa1.w ≠ Rect.invalid) :
    (∃ wa, mw.widgets[i]? = some wa ∧ wa1.rules = wa.rules) ∧
    (wa1.rR = .POS_FIXED_LEN → wa1.lR ≠ .POS_FIXED_LEN → wa1.w.Right = wa1.w.Left + wa1.rO) ∧
    (wa1.bR = .POS_FIXED_LEN → wa1.tR ≠ .POS_FIXED_LEN → wa1.w.Bottom = wa1.w.Top - wa1.bO) ∧
    (wa1.lR = .POS_FIXED_LEN → wa1.rR ≠ .POS_FIXED_LEN → wa1.w.Left = wa1.w.Right - wa1.lO) ∧
    (wa1.tR = .POS_FIXED_LEN → wa1.bR ≠ .POS_FIXED_LEN → wa1.w.Top = wa1.w.Bottom + wa1.tO) ∧
    (∀ (mw0 : MainWnd) (prevWa : Option WidgetAddTy) (wa wa2 : WidgetAddTy),
      mw0.layoutWidget env fenv prevWa wa = some wa2 → wa2.w ≠ Rect.invalid →
      wa2.rules = wa.rules ∧ wa2.fixedLenPlaced) ∧
    (∀ (mw0 : MainWnd) (wa wa2 : WidgetAddTy),
      wa.rules = (exLabel wa.w).rules → mw0.layoutWidget env fenv none wa = some wa2 →
      wa2.w.edges = (0, 0, 100, -15)) := by
  obtain ⟨wa, hwa, hlw⟩ := (MainWnd.Layout_getElem? env fenv mw mw1 hL i).2 wa1 h
  obtain ⟨hrules, p1, p2, p3, p4⟩ :=
    MainWnd.layoutWidget_fixedLenPlaced env fenv mw _ wa wa1 hlw hvalid
  refine ⟨⟨wa, hwa, hrules⟩, p1, p2, p3, p4, ?_, ?_⟩
  · intro mw0 prevWa wa wa2 h2 hv2
    exact MainWnd.layoutWidget_fixedLenPlaced env fenv mw0 prevWa wa wa2 h2 hv2
  · intro mw0 wa wa2 hr h2
    obtain ⟨hw, _⟩ := MainWnd.layoutWidget_some env fenv mw0 none wa wa2 h2
    have he : mw0.layoutEdges none wa =
        { _left := 0, _top := 0, _right := 100, _bottom := -15 } := by
      simp only [WidgetAddTy.rules, exLabel, Prod.mk.injEq] at hr
      obtain ⟨⟨h1, h2⟩, ⟨h3, h4⟩, ⟨h5, h6⟩, h7, h8⟩ := hr
      simp only [MainWnd.layoutEdges, h1, h2, h3, h4, h5, h6, h7, h8]
      decide
    rw [hw, he]
    decide

/-- Claim C9 at the example window: `Layout` returns, and the first label,
which has a fixed-length right rule with offset 100, has left 0 and right
100; its empty text has been cropped to the width 100. -/
theorem C9_fixed_length_edges_witness :
    (exWnd.Layout exMeasureEnv exFontEnv).map MainWnd.rects =
      some [(0, 0, 100, -15), (0, -15, 100, -30), (0, -30, 100, -45), (120, 0, 432, -200)] ∧
    (exWnd.Layout exMeasureEnv exFontEnv).map (fun mw1 => mw1.widgets[0]?) =
      some (some { exLabel { bl := ⟨0, -15⟩, tr := ⟨100, 0⟩ } with
        st := { caption := { sFull := [], sCropped := [], width := 100, startPos := 0 } } }) ∧
    (exLabel { bl := ⟨0, -15⟩, tr := ⟨100, 0⟩ }).w.Right =
      (exLabel { bl := ⟨0, -15⟩, tr := ⟨100, 0⟩ }).w.Left + 100 :=
  ⟨by decide, by decide,
   (C9_fixed_length_edges exMeasureEnv exFontEnv exWnd
      ((exWnd.Layout exMeasureEnv exFontEnv).getD exWnd) (by decide) 0
      { exLabel { bl := ⟨0, -15⟩, tr := ⟨100, 0⟩ } with
        st := { caption := { sFull := [], sCropped := [], width := 100, startPos := 0 } } }
      (by decide) (by decide)).2.1 rfl (by decide)⟩

/-! ## A `SetGeometry` that does not return ends the layout pass -/

/-- Claim C10, at two failing inputs. The window has been made wider and
`Layout` is due. First input: the list box of the window holds the list with
the short row S2, which has one cell for two columns. For the list box the
pass computes the edges left 0, top 0, right 540, bottom -200; its
`SetGeometry` crops the cells column by column and indexes the short row
beyond its cells. Second input: the text `abcdef` of the edit field was
cropped to the width 40 and scrolled to the start position 3, and has then
been emptied by `clear ()`, which leaves the start position. For the edit
field the pass computes the edges left 0, top 0, right 40, bottom -15; its
`SetGeometry` calls `caption.SetWidth (40)`, which crops the empty text from
the start position 3 and throws. In both cases `Layout` does not return: the
wide label after the widget is not laid out and keeps the rectangle with
right 390 of the narrower window, which is neither the invalid rectangle nor
the rectangle with right 540 that the pass computes for it, as it does where
the list box holds the scenario list and where the text of the edit field
has not been emptied. -/
theorem C10_layout_ends_at_failing_widget :
    (exShort.rows.map (fun r => r.cells.length) = [2, 1] ∧ exShort.cols.length = 2 ∧
      (exListWnd exShort).layoutEdges none (exWideList exShort) =
        { _left := 0, _top := 0, _right := 540, _bottom := -200 } ∧
      exShort.SetGeometry exFontEnv (Rect.ctor 0 0 540 (-200)) = none ∧
      (exWideList exShort).SetGeometry exMeasureEnv exFontEnv (Rect.ctor 0 0 540 (-200)) = none ∧
      (exListWnd exShort).Layout exMeasureEnv exFontEnv = none ∧
      (exListWnd exShort).rects = [(0, 0, 390, -200), (0, -200, 390, -215)] ∧
      ((exListWnd exABC).Layout exMeasureEnv exFontEnv).map MainWnd.rects =
        some [(0, 0, 540, -200), (0, -200, 540, -215)]) ∧
    ((exMeasureEnv.ctor exAbcdef 40 0).map
        (fun c => (c.sCropped, c.sFull.length - c.startPos - c.sCropped.length)) =
        some ([97, 98, 99, 100, 101], 1) ∧
      (exMeasureEnv.ctor exAbcdef 40 0).bind
          (fun c => (exMeasureEnv.SetStartPos c 3).map CroppedString.clear) =
        some exStaleField.st.caption ∧
      exStaleField.st.caption = { sFull := [], sCropped := [], width := 40, startPos := 3 } ∧
      exStaleWnd.layoutEdges none exStaleField =
        { _left := 0, _top := 0, _right := 40, _bottom := -15 } ∧
      exMeasureEnv.SetWidth exStaleField.st.caption 40 = none ∧
      exStaleField.SetGeometry exMeasureEnv exFontEnv (Rect.ctor 0 0 40 (-15)) = none ∧
      exStaleWnd.Layout exMeasureEnv exFontEnv = none ∧
      exStaleWnd.rects = [(0, 0, 40, -15), (0, -15, 390, -30)] ∧
      (exScrolledWnd.Layout exMeasureEnv exFontEnv).map MainWnd.rects =
        some [(0, 0, 40, -15), (0, -15, 540, -30)]) := by
  decide!

/-- Claim C11, at a failing input. `Layout` of the example window returns
and gives the three labels and the list box their rectangles. With the edit
field whose text has been emptied after scrolling added as a further widget,
`Layout` does not return, as the `SetGeometry` of the edit field throws; with
a list box that holds a row of fewer cells than columns added as a further
widget, `Layout` does not return either, as the `SetGeometry` of that list
box, called with the invalid rectangle for the computed left 452 beyond the
computed right 432, indexes the row beyond its cells. With a push button
added, `Layout`
returns, the five widgets have their rectangles and the first four are those
of the example window alone. -/
theorem C11_further_widget_ends_pass :
    (exWnd.Layout exMeasureEnv exFontEnv).map MainWnd.rects =
      some [(0, 0, 100, -15), (0, -15, 100, -30), (0, -30, 100, -45), (120, 0, 432, -200)] ∧
    (exWnd.Add exStaleField).Layout exMeasureEnv exFontEnv = none ∧
    (exWnd.Add exShortListWidget).Layout exMeasureEnv exFontEnv = none ∧
    exWnd.layoutEdges ((exWnd.Layout exMeasureEnv exFontEnv).bind
        (fun mw1 => mw1.widgets.getLast?)) exShortListWidget =
      { _left := 452, _top := 0, _right := 432, _bottom := -200 } ∧
    exShortListWidget.st.list.rows.map (fun r => r.cells.length) = [2, 1] ∧
    exShortListWidget.st.list.cols.length = 2 ∧
    exShortListWidget.SetGeometry exMeasureEnv exFontEnv (Rect.ctor (-1) (-1) (-1) (-1)) = none ∧
    ((exWnd.Add exButton).Layout exMeasureEnv exFontEnv).map MainWnd.rects =
      some [(0, 0, 100, -15), (0, -15, 100, -30), (0, -30, 100, -45), (120, 0, 432, -200),
        (440, -275, 540, -290)] := by
  decide!

/-- Claim C12, at a failing input. Two windows of the same size and frame
thickness whose widgets have the same rules in the same order and hold the
same rectangles: the example window, whose list box holds the scenario list,
and the window whose list box holds the list with the short row S2. `Layout`
of the first returns and gives the widgets their rectangles; `Layout` of the
second does not return, as the `SetGeometry` of its list box indexes the
short row beyond its cells. -/
theorem C12_equal_rules_other_outcome :
    exWnd.geo = exWndShort.geo ∧ exWnd.frameThick = exWndShort.frameThick ∧
    exWnd.widgets.map (fun wa => wa.rules) = exWndShort.widgets.map (fun wa => wa.rules) ∧
    exWnd.rects = exWndShort.rects ∧
    (exWnd.Layout exMeasureEnv exFontEnv).map MainWnd.rects =
      some [(0, 0, 100, -15), (0, -15, 100, -30), (0, -30, 100, -45), (120, 0, 432, -200)] ∧
    exShortListWidget.SetGeometry exMeasureEnv exFontEnv (Rect.ctor 120 0 432 (-200)) = none ∧
    exWndShort.Layout exMeasureEnv exFontEnv = none := by
  decide!

/-! ## A widget with the invalid rectangle is found and drawn -/

/-- Claim C20, as the code has it. The invalid rectangle is the one-point
rectangle at (-1, -1) inside the frame, and neither `FindWidgetByPos` nor the
loop of `DoDraw` treats it in a special way. For a widget at position `i`
holding the invalid rectangle: `FindWidgetByPos` returns it for no point other
than the point one left of and one below the top-left corner inside the frame;
and a `DoDraw` that returns calls its draw handler exactly if the widget is
visible and the window contains that point, and then with the one-point
rectangle there. `DoDraw` returns where no layout is due: the window has been
laid out and the host reports the rectangle that the window has. -/
theorem C20_invalid_rect_is_one_point (env : MeasureEnv) (fenv : FontEnv) (mw : MainWnd)
    (i : Nat) (wa : WidgetAddTy) (h : mw.widgets[i]? = some wa) (hinv : wa.w = Rect.invalid) :
    (∀ (p : Point) (b : Bool), (mw.FindWidgetByPos p b).found = true →
      (mw.FindWidgetByPos p b)._iter = i →
      p = { x := mw.geo.Left + mw.frameThick - 1, y := mw.geo.Top - mw.frameThick - 1 }) ∧
    (∀ (hostGeo : Rect) (res : MainWnd × List WidgetCall) (wa1 : WidgetAddTy),
      mw.DoDraw env fenv hostGeo = some res →
      res.1.widgets[i]? = some wa1 → wa1.w = Rect.invalid →
      ∀ r : Rect, WidgetCall.draw i r ∈ res.2 ↔
        (wa1.st.bVisible = true ∧
          res.1.geo.Contains
            { x := res.1.geo.Left + res.1.frameThick - 1,
              y := res.1.geo.Top - res.1.frameThick - 1 } = true ∧
          r = { bl := { x := res.1.geo.Left + res.1.frameThick - 1,
                        y := res.1.geo.Top - res.1.frameThick - 1 },
                tr := { x := res.1.geo.Left + res.1.frameThick - 1,
                        y := res.1.geo.Top - res.1.frameThick - 1 } })) ∧
    (mw.bLayoutDirty = false →
      mw.DoDraw env fenv mw.geo =
        some (mw, mw.drawLoop (mw.geo.Tl.add { x := mw.frameThick, y := -mw.frameThick }) 0
          mw.widgets)) := by
  refine ⟨?_, ?_, ?_⟩
  · intro p b _ hi
    rw [← hi] at h
    have hc := MainWnd.FindWidgetByPos_contains mw p b wa h
    rw [hinv, MainWnd.invalid_Contains] at hc
    cases p with
    | mk x y =>
      simp only [MainWnd.toInner, Point.sub, Rect.Tl, Point.mk.injEq] at hc
      simp only [Point.mk.injEq]
      omega
  · intro hostGeo res wa1 hres h1 hinv1 r
    have h2 : res.2 = res.1.drawLoop
        (res.1.geo.Tl.add { x := res.1.frameThick, y := -res.1.frameThick }) 0 res.1.widgets := by
      simp only [MainWnd.DoDraw, Option.map_eq_some'] at hres
      obtain ⟨mw3, _, rfl⟩ := hres
      rfl
    have hpt : (res.1.geo.Tl.add { x := res.1.frameThick, y := -res.1.frameThick }).add
        { x := -1, y := -1 } =
        { x := res.1.geo.Left + res.1.frameThick - 1,
          y := res.1.geo.Top - res.1.frameThick - 1 } := by
      simp only [Point.add, Rect.Tl, Point.mk.injEq]
      constructor <;> omega
    rw [h2, MainWnd.drawLoop_mem]
    constructor
    · rintro ⟨j, wa2, hj, hc, hv, hcon⟩
      simp only [WidgetCall.draw.injEq, zero_add] at hc
      obtain ⟨hij, hr⟩ := hc
      subst hij
      rw [h1] at hj
      have hw : wa2 = wa1 := (Option.some.inj hj).symm
      subst hw
      rw [hinv1, MainWnd.invalid_addPt, hpt] at hr hcon
      refine ⟨hv, ?_, hr⟩
      simp only [Rect.ContainsRect, Bool.and_self] at hcon
      exact hcon
    · rintro ⟨hv, hcon, hr⟩
      refine ⟨i, wa1, h1, ?_, hv, ?_⟩
      · rw [hinv1, MainWnd.invalid_addPt, hpt, hr, zero_add]
      · rw [hinv1, MainWnd.invalid_addPt, hpt]
        simp only [Rect.ContainsRect, Bool.and_self]
        exact hcon
  · intro hd
    cases mw with
    | mk geo ft ws dirty pf pm pd =>
      simp only at hd
      subst hd
      simp [MainWnd.DoDraw]

/-- A window of height 20 (left 0, top 20, right 550, bottom 0) with the
widgets of the example window as `Layout` leaves them: the list box (position
3) holds the invalid rectangle. The point (4, 14) is the only one for which
it can be found. -/
theorem C20_invalid_rect_is_one_point_witness :
    ((MainWnd.Layout exMeasureEnv exFontEnv { exWnd with geo := Rect.ctor 0 20 550 0 }).getD
      exWnd).rects[3]? = some (-1, -1, -1, -1) ∧
    (((MainWnd.Layout exMeasureEnv exFontEnv { exWnd with geo := Rect.ctor 0 20 550 0 }).getD
      exWnd).FindWidgetByPos ⟨4, 14⟩ true)._iter = 3 ∧
    ((⟨4, 14⟩ : Point) =
      { x := ((MainWnd.Layout exMeasureEnv exFontEnv
            { exWnd with geo := Rect.ctor 0 20 550 0 }).getD exWnd).geo.Left +
          ((MainWnd.Layout exMeasureEnv exFontEnv
            { exWnd with geo := Rect.ctor 0 20 550 0 }).getD exWnd).frameThick - 1,
        y := ((MainWnd.Layout exMeasureEnv exFontEnv
            { exWnd with geo := Rect.ctor 0 20 550 0 }).getD exWnd).geo.Top -
          ((MainWnd.Layout exMeasureEnv exFontEnv
            { exWnd with geo := Rect.ctor 0 20 550 0 }).getD exWnd).frameThick - 1 }) :=
  ⟨by decide, by decide,
    (C20_invalid_rect_is_one_point exMeasureEnv exFontEnv
      ((MainWnd.Layout exMeasureEnv exFontEnv { exWnd with geo := Rect.ctor 0 20 550 0 }).getD
        exWnd) 3
      (((MainWnd.Layout exMeasureEnv exFontEnv { exWnd with geo := Rect.ctor 0 20 550 0 }).getD
        exWnd).widgets[3]?.getD exButton)
      (by decide) (by decide)).1 ⟨4, 14⟩ true (by decide) (by decide)⟩

/-- Claim C20 does not hold as stated. In the example window of height 20
`Layout` returns and gives the list box (position 3) the invalid rectangle;
the list box is visible and enabled. `FindWidgetByPos` returns it for the
point (4, 14), and `DoDraw`, which lays the window out, returns and calls the
draw handler of the list box with the one-point rectangle at (4, 14). -/
theorem C20_invalid_rect_found_and_drawn :
    (MainWnd.Layout exMeasureEnv exFontEnv { exWnd with geo := Rect.ctor 0 20 550 0 }).map
      (fun mw1 => (mw1.widgets.map (fun wa => wa.w))[3]?) = some (some Rect.invalid) ∧
    (MainWnd.Layout exMeasureEnv exFontEnv { exWnd with geo := Rect.ctor 0 20 550 0 }).map
      (fun mw1 => mw1.FindWidgetByPos ⟨4, 14⟩ true) =
      some { _p := ⟨0, 0⟩, _iter := 3, found := true } ∧
    (MainWnd.DoDraw exMeasureEnv exFontEnv { exWnd with geo := Rect.ctor 0 20 550 0 }
      (Rect.ctor 0 20 550 0)).map
      (fun res => decide (WidgetCall.draw 3 { bl := ⟨4, 14⟩, tr := ⟨4, 14⟩ } ∈ res.2)) =
      some true := by
  decide

/-! ## Two fixed-length rules on one axis: what `Layout` computes -/

/-- What the loop body makes of a widget with two fixed-length rules on one
axis, where it returns. -/
theorem MainWnd.layoutWidget_both_fixed (env : MeasureEnv) (fenv : FontEnv) (mw : MainWnd)
    (prevWa : Option WidgetAddTy) (wa wa1 : WidgetAddTy)
    (h : mw.layoutWidget env fenv prevWa wa = some wa1) :
    (mw.layoutEdges prevWa wa).bothFixedResolved wa wa1 := by
  obtain ⟨hw, _⟩ := MainWnd.layoutWidget_some env fenv mw prevWa wa wa1 h
  obtain ⟨hH, hV⟩ := MainWnd.layoutEdges_both_fixed mw prevWa wa
  constructor
  · intro hl hr
    obtain ⟨h1, h2⟩ := hH hl hr
    refine ⟨h1, h2, ?_, ?_⟩
    · intro hneg
      have hd : (mw.layoutEdges prevWa wa).degenerate = true := by
        simp only [LayoutEdges.degenerate, Bool.or_eq_true, decide_eq_true_eq]
        rcases hneg with hneg | hneg
        · left; rw [h1, h2]; omega
        · right; exact hneg
      rw [hw, LayoutEdges.rect, if_pos hd]
    · intro hpos hbt
      have hd : ¬ (mw.layoutEdges prevWa wa).degenerate = true := by
        simp only [LayoutEdges.degenerate, Bool.or_eq_true, decide_eq_true_eq, not_or, not_lt]
        refine ⟨?_, hbt⟩
        rw [h1, h2]
        omega
      rw [hw, LayoutEdges.rect, if_neg hd, h1, h2]
  · intro ht hb
    obtain ⟨h1, h2⟩ := hV ht hb
    refine ⟨h1, h2, ?_, ?_⟩
    · intro hneg
      have hd : (mw.layoutEdges prevWa wa).degenerate = true := by
        simp only [LayoutEdges.degenerate, Bool.or_eq_true, decide_eq_true_eq]
        rcases hneg with hneg | hneg
        · right; rw [h1, h2]; omega
        · left; exact hneg
      rw [hw, LayoutEdges.rect, if_pos hd]
    · intro hpos hlr
      have hd : ¬ (mw.layoutEdges prevWa wa).degenerate = true := by
        simp only [LayoutEdges.degenerate, Bool.or_eq_true, decide_eq_true_eq, not_or, not_lt]
        refine ⟨hlr, ?_⟩
        rw [h1, h2]
        omega
      rw [hw, LayoutEdges.rect, if_neg hd, h1, h2]

/-- Claim C21 does not hold as stated. In the example window extended by a
widget whose left and right rules are both fixed-length (offsets 100 and 50),
`Layout` returns and gives that widget the rectangle left 50, top 0, right
150, bottom -15, not the invalid rectangle; a widget whose top and bottom
rules are both fixed-length (offsets 20 and 5) gets left 0, top 35, right
100, bottom 15. -/
theorem C21_both_fixed_gets_rectangle :
    exBothFixedH.lR = .POS_FIXED_LEN ∧ exBothFixedH.rR = .POS_FIXED_LEN ∧
    ((exWnd.Add exBothFixedH).Layout exMeasureEnv exFontEnv).map (fun mw1 => mw1.rects[4]?) =
      some (some (50, 0, 150, -15)) ∧
    exBothFixedV.tR = .POS_FIXED_LEN ∧ exBothFixedV.bR = .POS_FIXED_LEN ∧
    ((exWnd.Add exBothFixedV).Layout exMeasureEnv exFontEnv).map (fun mw1 => mw1.rects[4]?) =
      some (some (0, 35, 100, 15)) := by
  decide

/-- Claim C21, as the code has it. `Layout` has no check for two fixed-length
rules on one axis. After a `Layout` that returns, a widget whose left and
right rules are both fixed-length has the computed edges left = `rO` and
right = `rO + lO`, whatever the window and the widget before: it holds the
invalid rectangle if `lO < 0` or its computed bottom is above its computed
top, and the rectangle with left `rO` and right `rO + lO` otherwise. A widget
whose top and bottom rules are both fixed-length has the computed edges
bottom = `tO - bO` and top = `tO - bO + tO`: it holds the invalid rectangle
if `tO < 0` or its computed left is beyond its computed right, and the
rectangle with that bottom and top otherwise. The same holds of every widget
for which the loop body of `Layout` returns, whether or not the pass gets to
its end. -/
theorem C21_both_fixed_resolved (env : MeasureEnv) (fenv : FontEnv) (mw mw1 : MainWnd)
    (hL : mw.Layout env fenv = some mw1) (i : Nat) (wa : WidgetAddTy)
    (h : mw.widgets[i]? = some wa) :
    (∃ wa1 e, mw1.widgets[i]? = some wa1 ∧
      e = mw.layoutEdges (MainWnd.prevOf none mw1.widgets i) wa ∧
      (wa.lR = .POS_FIXED_LEN → wa.rR = .POS_FIXED_LEN →
        e._left = wa.rO ∧ e._right = wa.rO + wa.lO ∧
        (wa.lO < 0 ∨ e._bottom > e._top → wa1.w = Rect.invalid) ∧
        (0 ≤ wa.lO → e._bottom ≤ e._top →
          wa1.w = { bl := { x := wa.rO, y := e._bottom },
                    tr := { x := wa.rO + wa.lO, y := e._top } })) ∧
      (wa.tR = .POS_FIXED_LEN → wa.bR = .POS_FIXED_LEN →
        e._bottom = wa.tO - wa.bO ∧ e._top = wa.tO - wa.bO + wa.tO ∧
        (wa.tO < 0 ∨ e._left > e._right → wa1.w = Rect.invalid) ∧
        (0 ≤ wa.tO → e._left ≤ e._right →
          wa1.w = { bl := { x := e._left, y := wa.tO - wa.bO },
                    tr := { x := e._right, y := wa.tO - wa.bO + wa.tO } }))) ∧
    (∀ (mw0 : MainWnd) (prevWa : Option WidgetAddTy) (wa0 wa2 : WidgetAddTy),
      mw0.layoutWidget env fenv prevWa wa0 = some wa2 →
      (mw0.layoutEdges prevWa wa0).bothFixedResolved wa0 wa2) := by
  obtain ⟨wa1, h1, hlw⟩ := (MainWnd.Layout_getElem? env fenv mw mw1 hL i).1 wa h
  refine ⟨⟨wa1, _, h1, rfl, ?_⟩, ?_⟩
  · exact MainWnd.layoutWidget_both_fixed env fenv mw _ wa wa1 hlw
  · intro mw0 prevWa wa0 wa2 h2
    exact MainWnd.layoutWidget_both_fixed env fenv mw0 prevWa wa0 wa2 h2

/-- The widget with both horizontal rules fixed-length (offsets 100 and 50)
as the only widget of the example window: `Layout` returns, the computed
edges are left 50 and right 150, and with the computed bottom -15 below the
computed top 0 the widget holds the rectangle with these edges. -/
theorem C21_both_fixed_resolved_witness :
    (MainWnd.Layout exMeasureEnv exFontEnv { exWnd with widgets := [exBothFixedH] }).map
      MainWnd.rects = some [(50, 0, 150, -15)] ∧
    ∃ wa1 e,
      ((MainWnd.Layout exMeasureEnv exFontEnv { exWnd with widgets := [exBothFixedH] }).getD
        exWnd).widgets[0]? = some wa1 ∧
      e = MainWnd.layoutEdges { exWnd with widgets := [exBothFixedH] }
        (MainWnd.prevOf none
          ((MainWnd.Layout exMeasureEnv exFontEnv { exWnd with widgets := [exBothFixedH] }).getD
            exWnd).widgets 0) exBothFixedH ∧
      e._left = 50 ∧ e._right = 150 :=
  ⟨by decide,
    (C21_both_fixed_resolved exMeasureEnv exFontEnv { exWnd with widgets := [exBothFixedH] }
      ((MainWnd.Layout exMeasureEnv exFontEnv { exWnd with widgets := [exBothFixedH] }).getD exWnd)
      (by decide) 0 exBothFixedH rfl).1.imp
      (fun _ h => h.imp (fun _ h2 => ⟨h2.1, h2.2.1, (h2.2.2.1 rfl rfl).1, (h2.2.2.1 rfl rfl).2.1⟩))⟩

end TFW
